import Mathlib

/-!
# Rate limiter strategies: a shallow embedding

The four admission strategies of the `ratelimiter` package (token bucket, fixed
window, sliding window, nested window) are embedded as pure functions on explicit
state records.  Every operation that reads the clock in the source
(`time.Now()`) receives the reading as an argument `now`.

Modelling conventions:

* `int`, `int64` and `time.Duration` values are mathematical integers (`Int`);
  timestamps are integers counting nanoseconds (`UnixNano()` for the atomic
  strategies, the instant of a `time.Time` for the sliding window).  The definitions
  named after the functions of the source add and subtract without wrap-around: they
  describe the executions in which no 64-bit addition overflows.
* The fixed and the nested window add the caller's `n` to their counters, so a single
  call can make an addition overflow.  `FixedWindow.AllowN64`,
  `NestedWindow.updateWindows64`, `NestedWindow.AllowN64` and the two `WaitN64` repeat
  the source with every `int64` addition and subtraction reduced modulo `2 ^ 64`;
  `fixedWindow_AllowN64_eq` and `nestedWindow_AllowN64_eq` show that they are the
  definitions over unbounded integers while no result leaves the range of `int64`.
* The calls are executed one after another (sequential execution): an atomic
  load/add/store is a plain read or write of the field.
* The `float64` arithmetic of the token bucket is embedded value by value: a finite
  `float64` is the rational number it denotes, every operation rounds its exact result
  to the nearest `float64` (ties to even, 53 significant binary digits), and the
  conversion `int64(_)` truncates toward zero, a value outside the range of `int64`
  converting to the smallest `int64`.  The exponent range is not bounded: no value
  computed here from 64-bit integers overflows or is subnormal.
-/

namespace Ratelimiter

/-! ## Configuration and metrics snapshot -/

/-- Configuration record `Config` of `options.go`. -/
structure Config where
  Rate : Int
  Burst : Int
  Capacity : Int
  Window : Int
  InnerWindow : Int
  Algorithm : String
  MetricsEnabled : Bool
  deriving Repr, DecidableEq

/-- Snapshot record `Metrics` of `metrics.go`. -/
structure Metrics where
  TotalRequests : Int
  AllowedRequests : Int
  DeniedRequests : Int
  CurrentRate : Int
  LastResetTime : Int
  TotalWaitTime : Int
  MaxWaitTime : Int
  WindowDuration : Int
  InnerRate : Int
  InnerWindow : Int
  deriving Repr, DecidableEq

/-- Number of nanoseconds in `time.Second`. -/
def Second : Int := 1000000000

/-! ## Token bucket (`token_bucket.go`) -/

/-- State record `TokenBucket`; `rate` and `capacity` hold the integer values that the
source stores as `float64`. -/
structure TokenBucket where
  rate : Int
  capacity : Int
  tokens : Int
  lastRefillTime : Int
  refillInterval : Int
  allowedCount : Int
  deniedCount : Int
  deriving Repr, DecidableEq

/-- Constructor `NewTokenBucket`, executed when the clock reads `now`.  The refill
interval `time.Duration(float64(time.Second) / float64(config.Rate))` is the integer
quotient of `10 ^ 9` by the rate (`refillInterval_float64`). -/
def NewTokenBucket (config : Config) (now : Int) : TokenBucket :=
  let refillInterval := if config.Rate > 0 then Int.tdiv Second config.Rate else Second
  { rate := config.Rate
    capacity := config.Capacity
    tokens := config.Capacity
    lastRefillTime := now
    refillInterval := refillInterval
    allowedCount := 0
    deniedCount := 0 }

/-! ### The `float64` operations the token bucket uses -/

/-- Number of binary digits of `n`; `fuel` bounds the recursion and is given as `n`. -/
def bitLen : Nat → Nat → Nat
  | 0, _ => 0
  | fuel + 1, n => if n = 0 then 0 else bitLen fuel (n / 2) + 1

/-- For a positive rational `x`, the exponent `e` with `2 ^ e ≤ x < 2 ^ (e + 1)`: the
difference `l` of the digit counts of numerator and denominator has
`2 ^ (l - 1) < x < 2 ^ (l + 1)`. -/
def binade (x : ℚ) : Int :=
  let l : Int := (bitLen x.num.natAbs x.num.natAbs : Int) - (bitLen x.den x.den : Int)
  if (2 : ℚ) ^ l ≤ x then l else l - 1

/-- The integer nearest to `q`, the even one of the two when `q` is halfway. -/
def roundHalfEven (q : ℚ) : Int :=
  let f := ⌊q⌋
  if q - f < 1 / 2 then f
  else if 1 / 2 < q - f then f + 1
  else if f % 2 = 0 then f else f + 1

/-- Rounding of a positive rational `x` to 53 significant binary digits: with `e` the
exponent of `x`, the multiple of `2 ^ (e - 52)` nearest to `x`, the one with the even
multiplier when `x` is halfway between two. -/
def round64Pos (x : ℚ) : ℚ :=
  (roundHalfEven (x / (2 : ℚ) ^ (binade x - 52)) : ℚ) * (2 : ℚ) ^ (binade x - 52)

/-- The `float64` nearest to the rational `x` (round to nearest, ties to even): the
result of a `float64` operation whose exact result is `x`. -/
def round64 (x : ℚ) : ℚ :=
  if x < 0 then -round64Pos (-x) else if x = 0 then 0 else round64Pos x

/-- The conversion `float64(n)` of an integer. -/
def float64 (n : Int) : ℚ := round64 n

/-- The conversion `int64(x)` of a `float64`: truncation toward zero.  The language
leaves the conversion of a value outside the range of `int64` to the implementation;
such a value converts to the smallest `int64`, as on amd64. -/
def truncInt64 (x : ℚ) : Int :=
  let t : Int := if 0 ≤ x then ⌊x⌋ else -⌊-x⌋
  if -9223372036854775808 ≤ t ∧ t ≤ 9223372036854775807 then t else -9223372036854775808

/-- Method `time.Duration.Seconds` of the standard library:
`float64(d / Second) + float64(d % Second) / 1e9`, with the truncating integer division
and remainder of Go. -/
def Seconds (d : Int) : ℚ :=
  let sec := Int.tdiv d Second
  let nsec := Int.tmod d Second
  round64 (float64 sec + round64 (float64 nsec / 1000000000))

/-- The amount `int64(tb.rate * elapsed.Seconds())` computed by `refill`, where
`elapsed` is a number of nanoseconds and `rate` the integer that `tb.rate` holds as a
`float64`. -/
def tokensToAdd (rate elapsed : Int) : Int :=
  truncInt64 (round64 (float64 rate * Seconds elapsed))

/-- Method `TokenBucket.refill`. -/
def TokenBucket.refill (tb : TokenBucket) (now : Int) : TokenBucket :=
  let last := tb.lastRefillTime
  let elapsed := now - last
  let toAdd := tokensToAdd tb.rate elapsed
  if toAdd > 0 then
    let newTokens := tb.tokens + toAdd
    let tb1 := { tb with tokens := newTokens }
    let tb2 := if newTokens > tb.capacity then { tb1 with tokens := tb.capacity } else tb1
    { tb2 with lastRefillTime := now }
  else tb

/-- Method `TokenBucket.AllowN`, executed when the clock reads `now`: the new state
and the returned boolean. -/
def TokenBucket.AllowN (tb : TokenBucket) (now : Int) (n : Int) : TokenBucket × Bool :=
  let tb1 := tb.refill now
  let available := tb1.tokens
  if available ≥ n then
    let tb2 := { tb1 with tokens := tb1.tokens - n }
    if tb2.tokens ≥ 0 then
      ({ tb2 with allowedCount := tb2.allowedCount + 1 }, true)
    else
      ({ tb2 with deniedCount := tb2.deniedCount + 1 }, false)
  else
    ({ tb1 with deniedCount := tb1.deniedCount + 1 }, false)

/-- Method `TokenBucket.Allow`. -/
def TokenBucket.Allow (tb : TokenBucket) (now : Int) : TokenBucket × Bool :=
  tb.AllowN now 1

/-- Method `TokenBucket.Reset`, executed when the clock reads `now`. -/
def TokenBucket.Reset (tb : TokenBucket) (now : Int) : TokenBucket :=
  { tb with tokens := tb.capacity, lastRefillTime := now, allowedCount := 0, deniedCount := 0 }

/-- Method `TokenBucket.GetMetrics`. -/
def TokenBucket.GetMetrics (tb : TokenBucket) : Metrics :=
  { TotalRequests := tb.allowedCount + tb.deniedCount
    AllowedRequests := tb.allowedCount
    DeniedRequests := tb.deniedCount
    CurrentRate := tb.rate
    LastResetTime := tb.lastRefillTime
    TotalWaitTime := 0
    MaxWaitTime := 0
    WindowDuration := tb.refillInterval
    InnerRate := 0
    InnerWindow := 0 }

/-! ## Fixed window (`fixed_window.go`) -/

/-- State record `FixedWindow`. -/
structure FixedWindow where
  rate : Int
  window : Int
  count : Int
  windowStart : Int
  allowedCount : Int
  deniedCount : Int
  deriving Repr, DecidableEq

/-- Constructor `NewFixedWindow`, executed when the clock reads `now`. -/
def NewFixedWindow (config : Config) (now : Int) : FixedWindow :=
  { rate := config.Rate
    window := config.Window
    count := 0
    windowStart := now
    allowedCount := 0
    deniedCount := 0 }

/-- Method `FixedWindow.AllowN`, executed when the clock reads `now`. -/
def FixedWindow.AllowN (fw : FixedWindow) (now : Int) (n : Int) : FixedWindow × Bool :=
  let windowStart := fw.windowStart
  let fw1 := if now - windowStart ≥ fw.window then
      { fw with count := 0, windowStart := now }
    else fw
  let count := fw1.count + n
  let fw2 := { fw1 with count := count }
  if count ≤ fw2.rate then
    ({ fw2 with allowedCount := fw2.allowedCount + 1 }, true)
  else
    let fw3 := { fw2 with deniedCount := fw2.deniedCount + 1 }
    ({ fw3 with count := fw3.count - n }, false)

/-- Method `FixedWindow.Allow`. -/
def FixedWindow.Allow (fw : FixedWindow) (now : Int) : FixedWindow × Bool :=
  fw.AllowN now 1

/-- Method `FixedWindow.Reset`, executed when the clock reads `now`. -/
def FixedWindow.Reset (fw : FixedWindow) (now : Int) : FixedWindow :=
  { fw with count := 0, windowStart := now, allowedCount := 0, deniedCount := 0 }

/-- Method `FixedWindow.GetMetrics`. -/
def FixedWindow.GetMetrics (fw : FixedWindow) : Metrics :=
  { TotalRequests := fw.allowedCount + fw.deniedCount
    AllowedRequests := fw.allowedCount
    DeniedRequests := fw.deniedCount
    CurrentRate := fw.rate
    LastResetTime := fw.windowStart
    TotalWaitTime := 0
    MaxWaitTime := 0
    WindowDuration := fw.window
    InnerRate := 0
    InnerWindow := 0 }

/-! ## Sliding window (`sliding_window.go`) -/

/-- State record `SlidingWindow`; `requests` is the log of admission instants, oldest
first (the mutex is not part of the sequential state). -/
structure SlidingWindow where
  rate : Int
  window : Int
  requests : List Int
  deriving Repr, DecidableEq

/-- Constructor `NewSlidingWindow`; `make([]time.Time, 0, config.Rate)` panics on a
negative capacity, which is the result `none`. -/
def NewSlidingWindow (config : Config) : Option SlidingWindow :=
  if config.Rate < 0 then none
  else some { rate := config.Rate, window := config.Window, requests := [] }

/-- The index `i` at which the scan loop of `clearExpired` stops: the number of
leading entries that are `Before(cutoff)`. -/
def expiredCount (cutoff : Int) : List Int → Nat
  | [] => 0
  | x :: xs => if x < cutoff then expiredCount cutoff xs + 1 else 0

/-- Method `SlidingWindow.clearExpired`. -/
def SlidingWindow.clearExpired (sw : SlidingWindow) (now : Int) : SlidingWindow :=
  let cutoff := now + (-sw.window)
  let i := expiredCount cutoff sw.requests
  if i > 0 then { sw with requests := sw.requests.drop i } else sw

/-- Method `SlidingWindow.Allow`, executed when the clock reads `now`. -/
def SlidingWindow.Allow (sw : SlidingWindow) (now : Int) : SlidingWindow × Bool :=
  let sw1 := sw.clearExpired now
  if (sw1.requests.length : Int) < sw1.rate then
    ({ sw1 with requests := sw1.requests ++ [now] }, true)
  else (sw1, false)

/-- Method `SlidingWindow.AllowN`, executed when the clock reads `now`; the loop
`for i := 0; i < n; i++` appends `now` once per iteration. -/
def SlidingWindow.AllowN (sw : SlidingWindow) (now : Int) (n : Int) : SlidingWindow × Bool :=
  let sw1 := sw.clearExpired now
  if (sw1.requests.length : Int) + n ≤ sw1.rate then
    ({ sw1 with requests := sw1.requests ++ List.replicate n.toNat now }, true)
  else (sw1, false)

/-- Method `SlidingWindow.Reset`. -/
def SlidingWindow.Reset (sw : SlidingWindow) : SlidingWindow :=
  { sw with requests := [] }

/-- Method `SlidingWindow.GetMetrics`, executed when the clock reads `now`; it trims
the log, so it returns the new state with the snapshot. -/
def SlidingWindow.GetMetrics (sw : SlidingWindow) (now : Int) : SlidingWindow × Metrics :=
  let sw1 := sw.clearExpired now
  (sw1,
   { TotalRequests := sw1.requests.length
     AllowedRequests := sw1.requests.length
     DeniedRequests := 0
     CurrentRate := sw1.rate
     LastResetTime := 0
     TotalWaitTime := 0
     MaxWaitTime := 0
     WindowDuration := sw1.window
     InnerRate := 0
     InnerWindow := 0 })

/-! ## Nested window (`nested_window.go`) -/

/-- State record `NestedWindow` (the mutex is not part of the sequential state). -/
structure NestedWindow where
  outerRate : Int
  innerRate : Int
  outerWindow : Int
  innerWindow : Int
  outerCount : Int
  innerCount : Int
  outerWindowStart : Int
  innerWindowStart : Int
  totalRequests : Int
  allowedCount : Int
  deniedCount : Int
  deriving Repr, DecidableEq

/-- Constructor `NewNestedWindow`, executed when the clock reads `now`; the division
of a `time.Duration` by 10 truncates toward zero. -/
def NewNestedWindow (config : Config) (now : Int) : NestedWindow :=
  { outerRate := config.Rate
    innerRate := config.Burst
    outerWindow := config.Window
    innerWindow := Int.tdiv config.Window 10
    outerCount := 0
    innerCount := 0
    outerWindowStart := now
    innerWindowStart := now
    totalRequests := 0
    allowedCount := 0
    deniedCount := 0 }

/-- Method `NestedWindow.updateWindows`. -/
def NestedWindow.updateWindows (nw : NestedWindow) (now : Int) : NestedWindow :=
  let nw1 := if now - nw.outerWindowStart ≥ nw.outerWindow then
      { nw with outerCount := 0, outerWindowStart := now }
    else nw
  if now - nw1.innerWindowStart ≥ nw1.innerWindow then
    { nw1 with innerCount := 0, innerWindowStart := now }
  else nw1

/-- Method `NestedWindow.AllowN`, executed when the clock reads `now`. -/
def NestedWindow.AllowN (nw : NestedWindow) (now : Int) (n : Int) : NestedWindow × Bool :=
  let nw1 := { nw with totalRequests := nw.totalRequests + 1 }
  let nw2 := nw1.updateWindows now
  if nw2.outerCount + n > nw2.outerRate ∨ nw2.innerCount + n > nw2.innerRate then
    ({ nw2 with deniedCount := nw2.deniedCount + 1 }, false)
  else
    let nw3 := { nw2 with outerCount := nw2.outerCount + n }
    let nw4 := { nw3 with innerCount := nw3.innerCount + n }
    ({ nw4 with allowedCount := nw4.allowedCount + 1 }, true)

/-- Method `NestedWindow.Allow`. -/
def NestedWindow.Allow (nw : NestedWindow) (now : Int) : NestedWindow × Bool :=
  nw.AllowN now 1

/-- Method `NestedWindow.Reset`, executed when the clock reads `now`. -/
def NestedWindow.Reset (nw : NestedWindow) (now : Int) : NestedWindow :=
  { nw with outerCount := 0, innerCount := 0, outerWindowStart := now,
            innerWindowStart := now, totalRequests := 0, allowedCount := 0,
            deniedCount := 0 }

/-- Method `NestedWindow.GetMetrics`. -/
def NestedWindow.GetMetrics (nw : NestedWindow) : Metrics :=
  { TotalRequests := nw.totalRequests
    AllowedRequests := nw.allowedCount
    DeniedRequests := nw.deniedCount
    CurrentRate := nw.outerRate
    LastResetTime := nw.outerWindowStart
    TotalWaitTime := 0
    MaxWaitTime := 0
    WindowDuration := nw.outerWindow
    InnerRate := nw.innerRate
    InnerWindow := nw.innerWindow }

/-! ## Sequences of calls -/

/-- Executes one call per clock reading of `ts`, in order, threading the state;
returns the final state and the boolean returned by each call. -/
def runCalls {σ : Type} (step : σ → Int → σ × Bool) : σ → List Int → σ × List Bool
  | s, [] => (s, [])
  | s, t :: ts =>
    let r := step s t
    let rest := runCalls step r.1 ts
    (rest.1, r.2 :: rest.2)

/-- The clock readings of the calls that returned `true`. -/
def admittedTimes : List Int → List Bool → List Int
  | t :: ts, b :: bs => if b then t :: admittedTimes ts bs else admittedTimes ts bs
  | _, _ => []

/-- Number of entries of `H` (instants of admitted units) inside the closed time
interval `[a, b]`. -/
def unitsIn (a b : Int) (H : List Int) : Nat :=
  H.countP (fun t => decide (a ≤ t ∧ t ≤ b))

/-- A call made on a sliding window: `Allow()` or `AllowN(n)` with `n ≥ 0`. -/
inductive SWCall where
  | allow
  | allowN (n : Nat)
  deriving Repr, DecidableEq

/-- Executes one call on a sliding window when the clock reads `now`. -/
def SlidingWindow.call (sw : SlidingWindow) (now : Int) : SWCall → SlidingWindow × Bool
  | SWCall.allow => sw.Allow now
  | SWCall.allowN n => sw.AllowN now n

/-- Number of units a call asks for: 1 for `Allow()`, `n` for `AllowN(n)`. -/
def SWCall.units : SWCall → Nat
  | SWCall.allow => 1
  | SWCall.allowN n => n

/-- Executes the calls in order, each with its clock reading, and returns the final
state together with the instants of all admitted units: a call that returned true at
`now` contributes `now` once per unit it asked for. -/
def SlidingWindow.runLog : SlidingWindow → List (Int × SWCall) → SlidingWindow × List Int
  | sw, [] => (sw, [])
  | sw, (now, c) :: rest =>
    let r := sw.call now c
    let out := SlidingWindow.runLog r.1 rest
    (out.1, (if r.2 = true then List.replicate c.units now else []) ++ out.2)

/-! ## Blocking calls (`Wait`, `WaitN`)

A blocking call alternates admission attempts with a `select` on the retry timer and
on `ctx.Done()`.  The environment of the call is the list of its attempts: the clock
reading of the attempt and, for the `select` that follows a denied attempt, whether
the case `<-ctx.Done()` is the one executed (`true`) or the timer case (`false`).  The
durations given to the timers (`timeToToken`, `timeToNextWindow`, `nextExpiry`,
`innerWindow`) only decide when the next attempt happens, which the environment
states. -/

/-- How a blocking call ends: `ok` is the return of `nil`, `ctxErr` the return of
`ctx.Err()`, `panic` a run-time panic, and `blocked` a call that has not returned
after the attempts of its environment. -/
inductive WaitResult where
  | ok
  | ctxErr
  | panic
  | blocked
  deriving Repr, DecidableEq

/-- Attempts of a blocking call: clock reading, and whether the `select` after a denied
attempt executes the case `<-ctx.Done()`. -/
abbrev WaitEnv := List (Int × Bool)

/-- Method `TokenBucket.WaitN`. -/
def TokenBucket.WaitN (tb : TokenBucket) (n : Int) : WaitEnv → TokenBucket × WaitResult
  | [] => (tb, WaitResult.blocked)
  | (now, cancel) :: rest =>
    let r := tb.AllowN now n
    if r.2 = true then (r.1, WaitResult.ok)
    else if cancel = true then (r.1, WaitResult.ctxErr)
    else TokenBucket.WaitN r.1 n rest

/-- Method `TokenBucket.Wait`. -/
def TokenBucket.Wait (tb : TokenBucket) (env : WaitEnv) : TokenBucket × WaitResult :=
  tb.WaitN 1 env

/-- Method `FixedWindow.WaitN`. -/
def FixedWindow.WaitN (fw : FixedWindow) (n : Int) : WaitEnv → FixedWindow × WaitResult
  | [] => (fw, WaitResult.blocked)
  | (now, cancel) :: rest =>
    let r := fw.AllowN now n
    if r.2 = true then (r.1, WaitResult.ok)
    else if cancel = true then (r.1, WaitResult.ctxErr)
    else FixedWindow.WaitN r.1 n rest

/-- Method `FixedWindow.Wait`. -/
def FixedWindow.Wait (fw : FixedWindow) (env : WaitEnv) : FixedWindow × WaitResult :=
  fw.WaitN 1 env

/-- The expression `sw.requests[0].Add(sw.window)` of the sliding window waits; the
index expression panics on an empty log, which is the result `none`. -/
def SlidingWindow.nextExpiry (sw : SlidingWindow) : Option Int :=
  match sw.requests with
  | [] => none
  | oldest :: _ => some (oldest + sw.window)

/-- Method `SlidingWindow.Wait`. -/
def SlidingWindow.Wait (sw : SlidingWindow) : WaitEnv → SlidingWindow × WaitResult
  | [] => (sw, WaitResult.blocked)
  | (now, cancel) :: rest =>
    let sw1 := sw.clearExpired now
    if (sw1.requests.length : Int) < sw1.rate then
      ({ sw1 with requests := sw1.requests ++ [now] }, WaitResult.ok)
    else
      match sw1.nextExpiry with
      | none => (sw1, WaitResult.panic)
      | some _ =>
        if cancel = true then (sw1, WaitResult.ctxErr)
        else SlidingWindow.Wait sw1 rest

/-- Method `SlidingWindow.WaitN`. -/
def SlidingWindow.WaitN (sw : SlidingWindow) (n : Int) : WaitEnv → SlidingWindow × WaitResult
  | [] => (sw, WaitResult.blocked)
  | (now, cancel) :: rest =>
    let sw1 := sw.clearExpired now
    if (sw1.requests.length : Int) + n ≤ sw1.rate then
      ({ sw1 with requests := sw1.requests ++ List.replicate n.toNat now }, WaitResult.ok)
    else
      match sw1.nextExpiry with
      | none => (sw1, WaitResult.panic)
      | some _ =>
        if cancel = true then (sw1, WaitResult.ctxErr)
        else SlidingWindow.WaitN sw1 n rest

/-- Method `NestedWindow.allow` (unexported, used by `Wait`). -/
def NestedWindow.allow (nw : NestedWindow) (now : Int) : NestedWindow × Bool :=
  let nw1 := nw.updateWindows now
  if nw1.outerCount + 1 > nw1.outerRate ∨ nw1.innerCount + 1 > nw1.innerRate then
    (nw1, false)
  else
    let nw2 := { nw1 with outerCount := nw1.outerCount + 1 }
    let nw3 := { nw2 with innerCount := nw2.innerCount + 1 }
    (nw3, true)

/-- The `for` loop of `NestedWindow.Wait`. -/
def NestedWindow.waitLoop (nw : NestedWindow) : WaitEnv → NestedWindow × WaitResult
  | [] => (nw, WaitResult.blocked)
  | (now, cancel) :: rest =>
    let r := nw.allow now
    if r.2 = true then
      ({ r.1 with allowedCount := r.1.allowedCount + 1 }, WaitResult.ok)
    else
      let nw1 := { r.1 with deniedCount := r.1.deniedCount + 1 }
      if cancel = true then (nw1, WaitResult.ctxErr)
      else NestedWindow.waitLoop nw1 rest

/-- Method `NestedWindow.Wait`. -/
def NestedWindow.Wait (nw : NestedWindow) (env : WaitEnv) : NestedWindow × WaitResult :=
  NestedWindow.waitLoop { nw with totalRequests := nw.totalRequests + 1 } env

/-- Method `NestedWindow.WaitN`. -/
def NestedWindow.WaitN (nw : NestedWindow) (n : Int) : WaitEnv → NestedWindow × WaitResult
  | [] => (nw, WaitResult.blocked)
  | (now, cancel) :: rest =>
    let r := nw.AllowN now n
    if r.2 = true then (r.1, WaitResult.ok)
    else if cancel = true then (r.1, WaitResult.ctxErr)
    else NestedWindow.WaitN r.1 n rest

/-! ## The window counters in `int64` arithmetic

The fixed and the nested window add the caller's `n` to their counters before they
compare with the rate.  The definitions below repeat `FixedWindow.AllowN`,
`NestedWindow.updateWindows`, `NestedWindow.AllowN` and the two `WaitN` loops with
every `int64` addition and subtraction of the source reduced modulo `2 ^ 64`; they
agree with the definitions over unbounded integers when no result leaves the range of
`int64`. -/

/-- The `int64` that an addition or subtraction with the exact result `x` produces:
the representative of `x` modulo `2 ^ 64` between `-2 ^ 63` and `2 ^ 63 - 1`. -/
def wrapInt64 (x : Int) : Int :=
  (x + 9223372036854775808) % 18446744073709551616 - 9223372036854775808

/-- Method `FixedWindow.AllowN` in `int64` arithmetic, executed when the clock reads
`now`. -/
def FixedWindow.AllowN64 (fw : FixedWindow) (now : Int) (n : Int) : FixedWindow × Bool :=
  let windowStart := fw.windowStart
  let fw1 := if wrapInt64 (now - windowStart) ≥ fw.window then
      { fw with count := 0, windowStart := now }
    else fw
  let count := wrapInt64 (fw1.count + n)
  let fw2 := { fw1 with count := count }
  if count ≤ fw2.rate then
    ({ fw2 with allowedCount := wrapInt64 (fw2.allowedCount + 1) }, true)
  else
    let fw3 := { fw2 with deniedCount := wrapInt64 (fw2.deniedCount + 1) }
    ({ fw3 with count := wrapInt64 (fw3.count + wrapInt64 (-n)) }, false)

/-- Method `FixedWindow.WaitN` in `int64` arithmetic. -/
def FixedWindow.WaitN64 (fw : FixedWindow) (n : Int) : WaitEnv → FixedWindow × WaitResult
  | [] => (fw, WaitResult.blocked)
  | (now, cancel) :: rest =>
    let r := fw.AllowN64 now n
    if r.2 = true then (r.1, WaitResult.ok)
    else if cancel = true then (r.1, WaitResult.ctxErr)
    else FixedWindow.WaitN64 r.1 n rest

/-- Method `NestedWindow.updateWindows` in `int64` arithmetic. -/
def NestedWindow.updateWindows64 (nw : NestedWindow) (now : Int) : NestedWindow :=
  let nw1 := if wrapInt64 (now - nw.outerWindowStart) ≥ nw.outerWindow then
      { nw with outerCount := 0, outerWindowStart := now }
    else nw
  if wrapInt64 (now - nw1.innerWindowStart) ≥ nw1.innerWindow then
    { nw1 with innerCount := 0, innerWindowStart := now }
  else nw1

/-- Method `NestedWindow.AllowN` in `int64` arithmetic, executed when the clock reads
`now`. -/
def NestedWindow.AllowN64 (nw : NestedWindow) (now : Int) (n : Int) : NestedWindow × Bool :=
  let nw1 := { nw with totalRequests := wrapInt64 (nw.totalRequests + 1) }
  let nw2 := nw1.updateWindows64 now
  if wrapInt64 (nw2.outerCount + n) > nw2.outerRate
      ∨ wrapInt64 (nw2.innerCount + n) > nw2.innerRate then
    ({ nw2 with deniedCount := wrapInt64 (nw2.deniedCount + 1) }, false)
  else
    let nw3 := { nw2 with outerCount := wrapInt64 (nw2.outerCount + n) }
    let nw4 := { nw3 with innerCount := wrapInt64 (nw3.innerCount + n) }
    ({ nw4 with allowedCount := wrapInt64 (nw4.allowedCount + 1) }, true)

/-- Method `NestedWindow.WaitN` in `int64` arithmetic. -/
def NestedWindow.WaitN64 (nw : NestedWindow) (n : Int) : WaitEnv → NestedWindow × WaitResult
  | [] => (nw, WaitResult.blocked)
  | (now, cancel) :: rest =>
    let r := nw.AllowN64 now n
    if r.2 = true then (r.1, WaitResult.ok)
    else if cancel = true then (r.1, WaitResult.ctxErr)
    else NestedWindow.WaitN64 r.1 n rest

/-! ## Metrics collector (`metrics.go`) -/

/-- State record `DefaultMetricsCollector`. -/
structure DefaultMetricsCollector where
  metrics : Metrics
  deriving Repr, DecidableEq

/-- Constructor `NewMetricsCollector`, executed when the clock reads `now`. -/
def NewMetricsCollector (now : Int) : DefaultMetricsCollector :=
  { metrics :=
    { TotalRequests := 0
      AllowedRequests := 0
      DeniedRequests := 0
      CurrentRate := 0
      LastResetTime := now
      TotalWaitTime := 0
      MaxWaitTime := 0
      WindowDuration := 0
      InnerRate := 0
      InnerWindow := 0 } }

/-- Method `IncrementTotalRequests`. -/
def DefaultMetricsCollector.IncrementTotalRequests (mc : DefaultMetricsCollector) :
    DefaultMetricsCollector :=
  { mc with metrics := { mc.metrics with TotalRequests := mc.metrics.TotalRequests + 1 } }

/-- Method `IncrementAllowedRequests`. -/
def DefaultMetricsCollector.IncrementAllowedRequests (mc : DefaultMetricsCollector) :
    DefaultMetricsCollector :=
  { mc with metrics := { mc.metrics with AllowedRequests := mc.metrics.AllowedRequests + 1 } }

/-- Method `IncrementDeniedRequests`. -/
def DefaultMetricsCollector.IncrementDeniedRequests (mc : DefaultMetricsCollector) :
    DefaultMetricsCollector :=
  { mc with metrics := { mc.metrics with DeniedRequests := mc.metrics.DeniedRequests + 1 } }

/-- Method `UpdateCurrentRate`. -/
def DefaultMetricsCollector.UpdateCurrentRate (mc : DefaultMetricsCollector) (rate : Int) :
    DefaultMetricsCollector :=
  { mc with metrics := { mc.metrics with CurrentRate := rate } }

/-- The operation `atomic.CompareAndSwapInt64(addr, old, new)` on a word that holds
`cur`: the value the word holds afterwards and whether the swap happened. -/
def CompareAndSwapInt64 (cur old new : Int) : Int × Bool :=
  if cur = old then (new, true) else (cur, false)

/-- The `for` loop of `RecordWaitTime` in sequential execution: no other thread writes
`MaxWaitTime` between the load and the compare-and-swap. -/
def DefaultMetricsCollector.maxWaitLoop (mc : DefaultMetricsCollector) (waitTime : Int) :
    DefaultMetricsCollector :=
  let oldMax := mc.metrics.MaxWaitTime
  let newMax := waitTime
  if newMax ≤ oldMax then mc
  else
    if _h : (CompareAndSwapInt64 mc.metrics.MaxWaitTime oldMax newMax).2 = true then
      { mc with metrics := { mc.metrics with
          MaxWaitTime := (CompareAndSwapInt64 mc.metrics.MaxWaitTime oldMax newMax).1 } }
    else
      DefaultMetricsCollector.maxWaitLoop
        { mc with metrics := { mc.metrics with
            MaxWaitTime := (CompareAndSwapInt64 mc.metrics.MaxWaitTime oldMax newMax).1 } }
        waitTime
termination_by (0 : Nat)
decreasing_by
  exfalso
  apply _h
  show (CompareAndSwapInt64 mc.metrics.MaxWaitTime mc.metrics.MaxWaitTime waitTime).2 = true
  simp [CompareAndSwapInt64]

/-- Method `RecordWaitTime`. -/
def DefaultMetricsCollector.RecordWaitTime (mc : DefaultMetricsCollector) (waitTime : Int) :
    DefaultMetricsCollector :=
  DefaultMetricsCollector.maxWaitLoop
    { mc with metrics := { mc.metrics with TotalWaitTime := mc.metrics.TotalWaitTime + waitTime } }
    waitTime

/-- Method `DefaultMetricsCollector.GetMetrics`; the fields the composite literal does
not name hold their zero values. -/
def DefaultMetricsCollector.GetMetrics (mc : DefaultMetricsCollector) : Metrics :=
  { TotalRequests := mc.metrics.TotalRequests
    AllowedRequests := mc.metrics.AllowedRequests
    DeniedRequests := mc.metrics.DeniedRequests
    CurrentRate := mc.metrics.CurrentRate
    LastResetTime := mc.metrics.LastResetTime
    TotalWaitTime := mc.metrics.TotalWaitTime
    MaxWaitTime := mc.metrics.MaxWaitTime
    WindowDuration := 0
    InnerRate := 0
    InnerWindow := 0 }

/-- Method `DefaultMetricsCollector.Reset`, executed when the clock reads `now`. -/
def DefaultMetricsCollector.Reset (mc : DefaultMetricsCollector) (now : Int) :
    DefaultMetricsCollector :=
  { mc with metrics := { mc.metrics with
      TotalRequests := 0, AllowedRequests := 0, DeniedRequests := 0, CurrentRate := 0,
      LastResetTime := now, TotalWaitTime := 0, MaxWaitTime := 0 } }

/-! ## The capability interface (`limiter.go`) and its implementations -/

/-- Interface `Limiter`, as the record of its methods over a state type `σ`.  Methods
that read the clock take the reading; blocking methods take their environment;
`GetMetrics` returns the state too, since an implementation may change it. -/
structure Limiter (σ : Type) where
  Allow : σ → Int → σ × Bool
  AllowN : σ → Int → Int → σ × Bool
  Wait : σ → WaitEnv → σ × WaitResult
  WaitN : σ → Int → WaitEnv → σ × WaitResult
  Reset : σ → Int → σ
  GetMetrics : σ → Int → σ × Metrics

/-- The method set of `*TokenBucket`. -/
def TokenBucket.limiter : Limiter TokenBucket :=
  { Allow := TokenBucket.Allow
    AllowN := TokenBucket.AllowN
    Wait := TokenBucket.Wait
    WaitN := TokenBucket.WaitN
    Reset := TokenBucket.Reset
    GetMetrics := fun tb _ => (tb, tb.GetMetrics) }

/-- The method set of `*FixedWindow`. -/
def FixedWindow.limiter : Limiter FixedWindow :=
  { Allow := FixedWindow.Allow
    AllowN := FixedWindow.AllowN
    Wait := FixedWindow.Wait
    WaitN := FixedWindow.WaitN
    Reset := FixedWindow.Reset
    GetMetrics := fun fw _ => (fw, fw.GetMetrics) }

/-- The method set of `*SlidingWindow`. -/
def SlidingWindow.limiter : Limiter SlidingWindow :=
  { Allow := SlidingWindow.Allow
    AllowN := SlidingWindow.AllowN
    Wait := SlidingWindow.Wait
    WaitN := SlidingWindow.WaitN
    Reset := fun sw _ => sw.Reset
    GetMetrics := SlidingWindow.GetMetrics }

/-- The method set of `*NestedWindow`. -/
def NestedWindow.limiter : Limiter NestedWindow :=
  { Allow := NestedWindow.Allow
    AllowN := NestedWindow.AllowN
    Wait := NestedWindow.Wait
    WaitN := NestedWindow.WaitN
    Reset := NestedWindow.Reset
    GetMetrics := fun nw _ => (nw, nw.GetMetrics) }

/-- A call of one of the six methods of the interface, with what it reads from its
environment. -/
inductive Call where
  | allow (now : Int)
  | allowN (now : Int) (n : Int)
  | wait (env : WaitEnv)
  | waitN (n : Int) (env : WaitEnv)
  | reset (now : Int)
  | getMetrics (now : Int)
  deriving Repr, DecidableEq

/-- The state a limiter is left in by one call. -/
def Limiter.exec {σ : Type} (L : Limiter σ) (s : σ) : Call → σ
  | Call.allow now => (L.Allow s now).1
  | Call.allowN now n => (L.AllowN s now n).1
  | Call.wait env => (L.Wait s env).1
  | Call.waitN n env => (L.WaitN s n env).1
  | Call.reset now => L.Reset s now
  | Call.getMetrics now => (L.GetMetrics s now).1

/-- The state a limiter is left in by a sequence of calls executed one after another. -/
def Limiter.run {σ : Type} (L : Limiter σ) (s : σ) (calls : List Call) : σ :=
  calls.foldl L.exec s

/-- Executes `AllowN(n)` for each pair `(now, n)` in order; returns the final state and
the boolean returned by each call. -/
def runAllowN {σ : Type} (step : σ → Int → Int → σ × Bool) : σ → List (Int × Int) → σ × List Bool
  | s, [] => (s, [])
  | s, (now, n) :: rest =>
    let r := step s now n
    let out := runAllowN step r.1 rest
    (out.1, r.2 :: out.2)

/-! ## Metrics wrapper (`metrics_wrapper.go`) -/

/-- State record `MetricsWrapper`: the state of the wrapped limiter and the collector.
The methods of the wrapped limiter are the argument `L` of the wrapper's methods. -/
structure MetricsWrapper (σ : Type) where
  limiter : σ
  collector : DefaultMetricsCollector

/-- Constructor `NewMetricsWrapper`. -/
def NewMetricsWrapper {σ : Type} (limiter : σ) (collector : DefaultMetricsCollector) :
    MetricsWrapper σ :=
  { limiter := limiter, collector := collector }

/-- Method `MetricsWrapper.Allow`. -/
def MetricsWrapper.Allow {σ : Type} (L : Limiter σ) (mw : MetricsWrapper σ) (now : Int) :
    MetricsWrapper σ × Bool :=
  let c1 := mw.collector.IncrementTotalRequests
  let r := L.Allow mw.limiter now
  if r.2 = true then
    ({ limiter := r.1, collector := c1.IncrementAllowedRequests }, r.2)
  else
    ({ limiter := r.1, collector := c1.IncrementDeniedRequests }, r.2)

/-- Method `MetricsWrapper.AllowN`. -/
def MetricsWrapper.AllowN {σ : Type} (L : Limiter σ) (mw : MetricsWrapper σ) (now n : Int) :
    MetricsWrapper σ × Bool :=
  let c1 := mw.collector.IncrementTotalRequests
  let r := L.AllowN mw.limiter now n
  if r.2 = true then
    ({ limiter := r.1, collector := c1.IncrementAllowedRequests }, r.2)
  else
    ({ limiter := r.1, collector := c1.IncrementDeniedRequests }, r.2)

/-- What the wrapper does once the wrapped blocking call has ended with result `res` in
state `inner`, the collector being `c1` after `IncrementTotalRequests`; `elapsed` is the
reading `time.Since(start)`.  A wrapped call that panics or never returns leaves the
collector as it is. -/
def MetricsWrapper.afterWait {σ : Type} (inner : σ) (c1 : DefaultMetricsCollector)
    (elapsed : Int) : WaitResult → MetricsWrapper σ × WaitResult
  | WaitResult.ok =>
    ({ limiter := inner,
       collector := c1.IncrementAllowedRequests.RecordWaitTime elapsed }, WaitResult.ok)
  | WaitResult.ctxErr =>
    ({ limiter := inner, collector := c1.IncrementDeniedRequests }, WaitResult.ctxErr)
  | WaitResult.panic => ({ limiter := inner, collector := c1 }, WaitResult.panic)
  | WaitResult.blocked => ({ limiter := inner, collector := c1 }, WaitResult.blocked)

/-- Method `MetricsWrapper.Wait`. -/
def MetricsWrapper.Wait {σ : Type} (L : Limiter σ) (mw : MetricsWrapper σ) (env : WaitEnv)
    (elapsed : Int) : MetricsWrapper σ × WaitResult :=
  let c1 := mw.collector.IncrementTotalRequests
  let r := L.Wait mw.limiter env
  MetricsWrapper.afterWait r.1 c1 elapsed r.2

/-- Method `MetricsWrapper.WaitN`. -/
def MetricsWrapper.WaitN {σ : Type} (L : Limiter σ) (mw : MetricsWrapper σ) (n : Int)
    (env : WaitEnv) (elapsed : Int) : MetricsWrapper σ × WaitResult :=
  let c1 := mw.collector.IncrementTotalRequests
  let r := L.WaitN mw.limiter n env
  MetricsWrapper.afterWait r.1 c1 elapsed r.2

/-- Method `MetricsWrapper.Reset`; the wrapped limiter reads the clock as `now`, the
collector afterwards as `nowCollector`. -/
def MetricsWrapper.Reset {σ : Type} (L : Limiter σ) (mw : MetricsWrapper σ)
    (now nowCollector : Int) : MetricsWrapper σ :=
  { limiter := L.Reset mw.limiter now, collector := mw.collector.Reset nowCollector }

/-- Method `MetricsWrapper.GetMetrics`. -/
def MetricsWrapper.GetMetrics {σ : Type} (mw : MetricsWrapper σ) : Metrics :=
  mw.collector.GetMetrics

/-- A call of an admission method of the wrapper, with what it reads from its
environment. -/
inductive MWCall where
  | allow (now : Int)
  | allowN (now : Int) (n : Int)
  | wait (env : WaitEnv) (elapsed : Int)
  | waitN (n : Int) (env : WaitEnv) (elapsed : Int)
  deriving Repr, DecidableEq

/-- Outcome of a blocking call as seen by the caller: `some true` for `nil`,
`some false` for the cancellation error, `none` for a call that did not complete. -/
def WaitResult.completed : WaitResult → Option Bool
  | WaitResult.ok => some true
  | WaitResult.ctxErr => some false
  | WaitResult.panic => none
  | WaitResult.blocked => none

/-- Executes one call on the wrapper: the new state and whether the call succeeded
(`some true`), was denied or cancelled (`some false`), or did not complete (`none`). -/
def MetricsWrapper.call {σ : Type} (L : Limiter σ) (mw : MetricsWrapper σ) :
    MWCall → MetricsWrapper σ × Option Bool
  | MWCall.allow now => ((MetricsWrapper.Allow L mw now).1, some (MetricsWrapper.Allow L mw now).2)
  | MWCall.allowN now n =>
    ((MetricsWrapper.AllowN L mw now n).1, some (MetricsWrapper.AllowN L mw now n).2)
  | MWCall.wait env elapsed =>
    ((MetricsWrapper.Wait L mw env elapsed).1, (MetricsWrapper.Wait L mw env elapsed).2.completed)
  | MWCall.waitN n env elapsed =>
    ((MetricsWrapper.WaitN L mw n env elapsed).1,
     (MetricsWrapper.WaitN L mw n env elapsed).2.completed)

/-- Executes the calls on the wrapper one after another; returns the final state and the
outcome of each call. -/
def MetricsWrapper.runAll {σ : Type} (L : Limiter σ) :
    MetricsWrapper σ → List MWCall → MetricsWrapper σ × List (Option Bool)
  | mw, [] => (mw, [])
  | mw, c :: rest =>
    let r := MetricsWrapper.call L mw c
    let out := MetricsWrapper.runAll L r.1 rest
    (out.1, r.2 :: out.2)

/-! ## Options and factory (`options.go`, `limiter.go`) -/

/-- Option `WithRate`. -/
def WithRate (rate : Int) : Config → Config := fun c => { c with Rate := rate }

/-- Option `WithBurst`. -/
def WithBurst (burst : Int) : Config → Config := fun c => { c with Burst := burst }

/-- Option `WithCapacity`. -/
def WithCapacity (capacity : Int) : Config → Config := fun c => { c with Capacity := capacity }

/-- Option `WithWindow`. -/
def WithWindow (window : Int) : Config → Config := fun c => { c with Window := window }

/-- Option `WithInnerWindow`. -/
def WithInnerWindow (innerWindow : Int) : Config → Config :=
  fun c => { c with InnerWindow := innerWindow }

/-- Option `WithAlgorithm`. -/
def WithAlgorithm (algo : String) : Config → Config := fun c => { c with Algorithm := algo }

/-- Option `WithMetrics`. -/
def WithMetrics (enabled : Bool) : Config → Config := fun c => { c with MetricsEnabled := enabled }

/-- Function `DefaultConfig`. -/
def DefaultConfig : Config :=
  { Rate := 100
    Burst := 1
    Capacity := 100
    Window := 60 * Second
    InnerWindow := 6 * Second
    Algorithm := "token_bucket"
    MetricsEnabled := false }

/-- The concrete strategy behind a `Limiter` value built by `New`. -/
inductive Strategy where
  | tokenBucket (tb : TokenBucket)
  | fixedWindow (fw : FixedWindow)
  | slidingWindow (sw : SlidingWindow)
  | nestedWindow (nw : NestedWindow)
  deriving Repr, DecidableEq

/-- Method calls on a `Limiter` value that holds a strategy: dynamic dispatch to the
methods of the strategy. -/
def Strategy.limiter : Limiter Strategy :=
  { Allow := fun s now =>
      match s with
      | Strategy.tokenBucket tb => (Strategy.tokenBucket (tb.Allow now).1, (tb.Allow now).2)
      | Strategy.fixedWindow fw => (Strategy.fixedWindow (fw.Allow now).1, (fw.Allow now).2)
      | Strategy.slidingWindow sw => (Strategy.slidingWindow (sw.Allow now).1, (sw.Allow now).2)
      | Strategy.nestedWindow nw => (Strategy.nestedWindow (nw.Allow now).1, (nw.Allow now).2)
    AllowN := fun s now n =>
      match s with
      | Strategy.tokenBucket tb =>
        (Strategy.tokenBucket (tb.AllowN now n).1, (tb.AllowN now n).2)
      | Strategy.fixedWindow fw =>
        (Strategy.fixedWindow (fw.AllowN now n).1, (fw.AllowN now n).2)
      | Strategy.slidingWindow sw =>
        (Strategy.slidingWindow (sw.AllowN now n).1, (sw.AllowN now n).2)
      | Strategy.nestedWindow nw =>
        (Strategy.nestedWindow (nw.AllowN now n).1, (nw.AllowN now n).2)
    Wait := fun s env =>
      match s with
      | Strategy.tokenBucket tb => (Strategy.tokenBucket (tb.Wait env).1, (tb.Wait env).2)
      | Strategy.fixedWindow fw => (Strategy.fixedWindow (fw.Wait env).1, (fw.Wait env).2)
      | Strategy.slidingWindow sw => (Strategy.slidingWindow (sw.Wait env).1, (sw.Wait env).2)
      | Strategy.nestedWindow nw => (Strategy.nestedWindow (nw.Wait env).1, (nw.Wait env).2)
    WaitN := fun s n env =>
      match s with
      | Strategy.tokenBucket tb =>
        (Strategy.tokenBucket (tb.WaitN n env).1, (tb.WaitN n env).2)
      | Strategy.fixedWindow fw =>
        (Strategy.fixedWindow (fw.WaitN n env).1, (fw.WaitN n env).2)
      | Strategy.slidingWindow sw =>
        (Strategy.slidingWindow (sw.WaitN n env).1, (sw.WaitN n env).2)
      | Strategy.nestedWindow nw =>
        (Strategy.nestedWindow (nw.WaitN n env).1, (nw.WaitN n env).2)
    Reset := fun s now =>
      match s with
      | Strategy.tokenBucket tb => Strategy.tokenBucket (tb.Reset now)
      | Strategy.fixedWindow fw => Strategy.fixedWindow (fw.Reset now)
      | Strategy.slidingWindow sw => Strategy.slidingWindow sw.Reset
      | Strategy.nestedWindow nw => Strategy.nestedWindow (nw.Reset now)
    GetMetrics := fun s now =>
      match s with
      | Strategy.tokenBucket tb => (Strategy.tokenBucket tb, tb.GetMetrics)
      | Strategy.fixedWindow fw => (Strategy.fixedWindow fw, fw.GetMetrics)
      | Strategy.slidingWindow sw =>
        (Strategy.slidingWindow (sw.GetMetrics now).1, (sw.GetMetrics now).2)
      | Strategy.nestedWindow nw => (Strategy.nestedWindow nw, nw.GetMetrics) }

/-- The `Limiter` value returned by `New`: a strategy, or a metrics wrapper around it. -/
inductive LimiterImpl where
  | plain (s : Strategy)
  | metrics (mw : MetricsWrapper Strategy)

/-- Modelled from the spec: the error value `ErrUnsupportedAlgorithm` that `New` returns
is declared outside the files at hand; it is the constructor `errUnsupportedAlgorithm`
(construction fails, no limiter is produced).  The constructor `panic` is the run-time
panic of `NewSlidingWindow` on a negative rate. -/
inductive NewResult where
  | ok (l : LimiterImpl)
  | errUnsupportedAlgorithm
  | panic

/-- The configuration `New` works with: the options applied in order to
`DefaultConfig()`. -/
def applyOptions (opts : List (Config → Config)) : Config :=
  opts.foldl (fun c opt => opt c) DefaultConfig

/-- The `switch config.Algorithm` of `New`: the strategy built for the algorithm name,
`none` for a name no case matches; the inner `none` is the panic of
`NewSlidingWindow`. -/
def newStrategy (config : Config) (now : Int) : Option (Option Strategy) :=
  if config.Algorithm = "token_bucket" then
    some (some (Strategy.tokenBucket (NewTokenBucket config now)))
  else if config.Algorithm = "fixed_window" then
    some (some (Strategy.fixedWindow (NewFixedWindow config now)))
  else if config.Algorithm = "sliding_window" then
    some ((NewSlidingWindow config).map Strategy.slidingWindow)
  else if config.Algorithm = "nested_window" then
    some (some (Strategy.nestedWindow (NewNestedWindow config now)))
  else none

/-- Function `New`; the strategy's constructor reads the clock as `now`, the collector's
constructor afterwards as `nowCollector`. -/
def New (opts : List (Config → Config)) (now nowCollector : Int) : NewResult :=
  let config := applyOptions opts
  match newStrategy config now with
  | none => NewResult.errUnsupportedAlgorithm
  | some none => NewResult.panic
  | some (some limiter) =>
    if config.MetricsEnabled = true then
      NewResult.ok (LimiterImpl.metrics
        (NewMetricsWrapper limiter (NewMetricsCollector nowCollector)))
    else NewResult.ok (LimiterImpl.plain limiter)

/-- Method `GetMetrics` of the `Limiter` value returned by `New`. -/
def LimiterImpl.GetMetrics (l : LimiterImpl) (now : Int) : LimiterImpl × Metrics :=
  match l with
  | LimiterImpl.plain s =>
    (LimiterImpl.plain (Strategy.limiter.GetMetrics s now).1,
      (Strategy.limiter.GetMetrics s now).2)
  | LimiterImpl.metrics mw => (LimiterImpl.metrics mw, mw.GetMetrics)

/-- The configured rate a strategy holds. -/
def Strategy.rate : Strategy → Int
  | Strategy.tokenBucket tb => tb.rate
  | Strategy.fixedWindow fw => fw.rate
  | Strategy.slidingWindow sw => sw.rate
  | Strategy.nestedWindow nw => nw.outerRate

/-! ## Invariants used in the proofs -/

/-- Invariant of the sliding window relative to the history `H` of admitted units:
the log is a suffix of the history, everything before that suffix is older than
`T - window`, the log holds at most `rate` entries, and no closed interval of length
`window` holds more than `rate` admitted units. -/
structure SlidingWindow.LogInv (sw : SlidingWindow) (T : Int) (H : List Int) : Prop where
  len_le : (sw.requests.length : Int) ≤ sw.rate
  suffix : ∃ old : List Int, H = old ++ sw.requests ∧ ∀ x ∈ old, x < T - sw.window
  bound : ∀ a : Int, (unitsIn a (a + sw.window) H : Int) ≤ sw.rate

/-- Invariant of the fixed window relative to the history `H` of admitted unit calls,
after a call at time `T`: the current window started at most `window` ago, the
counter equals at least the number of admissions since the window start and is at
most `rate`, the admissions since the start `p` of the previous window number at most
`rate + count`, and the bounds on intervals and on single instants hold. -/
structure FixedWindow.HistInv (fw : FixedWindow) (T : Int) (H : List Int) : Prop where
  start_le : fw.windowStart ≤ T
  within : T - fw.windowStart < fw.window
  hist_le : ∀ x ∈ H, x ≤ T
  count_nonneg : 0 ≤ fw.count
  count_le : fw.count ≤ fw.rate
  current : (H.countP (fun t => decide (fw.windowStart ≤ t)) : Int) ≤ fw.count
  previous : ∃ p : Int, p + fw.window ≤ fw.windowStart ∧
    (H.countP (fun t => decide (p ≤ t)) : Int) ≤ fw.rate + fw.count
  interval : ∀ a b : Int, b - a ≤ fw.window → (unitsIn a b H : Int) ≤ 2 * fw.rate
  instant : ∀ x : Int, (unitsIn x x H : Int) ≤ fw.rate

/-- The fields of a token bucket that no call writes, and the sign of the token count. -/
def TokenBucket.Stable (config : Config) (tb : TokenBucket) : Prop :=
  tb.rate = config.Rate ∧ tb.capacity = config.Capacity ∧
  tb.refillInterval = (if config.Rate > 0 then Int.tdiv Second config.Rate else Second) ∧
  0 ≤ tb.tokens

/-- The fields of a token bucket that are set at construction only. -/
def TokenBucket.settings (tb : TokenBucket) : Int × Int × Int :=
  (tb.rate, tb.capacity, tb.refillInterval)

/-- The fields of a fixed window that are set at construction only. -/
def FixedWindow.settings (fw : FixedWindow) : Int × Int :=
  (fw.rate, fw.window)

/-- The fields of a sliding window that are set at construction only. -/
def SlidingWindow.settings (sw : SlidingWindow) : Int × Int :=
  (sw.rate, sw.window)

/-- The fields of a nested window that are set at construction only. -/
def NestedWindow.settings (nw : NestedWindow) : Int × Int × Int × Int :=
  (nw.outerRate, nw.innerRate, nw.outerWindow, nw.innerWindow)

/-! ## Conditions on sequences of calls -/

/-- The number of permits asked for by `AllowN` and `WaitN` calls is at least `k`; the
other calls take no such argument. -/
def Call.atLeast (k : Int) : Call → Prop
  | Call.allowN _ n => k ≤ n
  | Call.waitN n _ => k ≤ n
  | _ => True

/-- The clock readings a call makes, in order: one for `Allow`, `AllowN`, `Reset` and
`GetMetrics`, one per attempt of its environment for `Wait` and `WaitN`. -/
def Call.times : Call → List Int
  | Call.allow now => [now]
  | Call.allowN now _ => [now]
  | Call.wait env => env.map Prod.fst
  | Call.waitN _ env => env.map Prod.fst
  | Call.reset now => [now]
  | Call.getMetrics now => [now]

/-- The clock readings of a sequence of calls, in order. -/
def callTimes : List Call → List Int
  | [] => []
  | c :: cs => c.times ++ callTimes cs

/-- The log of a sliding window is in time order and holds at most `rate` entries. -/
def SlidingWindow.Ordered (sw : SlidingWindow) : Prop :=
  sw.requests.Sorted (· ≤ ·) ∧ (sw.requests.length : Int) ≤ sw.rate

/-! ## Token bucket: credited tokens and the retry delay -/

/-- The tokens the `refill` of a call made at `now` credits: the token count it leaves
minus the token count it finds. -/
def TokenBucket.credited (tb : TokenBucket) (now : Int) : Int :=
  (tb.refill now).tokens - tb.tokens

/-- Whether the `refill` of a call made at `now` takes the branch
`newTokens > int64(tb.capacity)`, which stores the capacity. -/
def TokenBucket.refillClamps (tb : TokenBucket) (now : Int) : Bool :=
  decide (tokensToAdd tb.rate (now - tb.lastRefillTime) > 0 ∧
    tb.tokens + tokensToAdd tb.rate (now - tb.lastRefillTime) > tb.capacity)

/-- The tokens credited by the refill of each call of a sequence of `AllowN(n)` calls,
given as pairs `(now, n)`. -/
def TokenBucket.credits : TokenBucket → List (Int × Int) → List Int
  | _, [] => []
  | tb, (now, n) :: rest => tb.credited now :: TokenBucket.credits (tb.AllowN now n).1 rest

/-- No refill of the sequence of `AllowN(n)` calls reaches the capacity. -/
def TokenBucket.capNeverReached : TokenBucket → List (Int × Int) → Bool
  | _, [] => true
  | tb, (now, n) :: rest =>
    !(tb.refillClamps now) && TokenBucket.capNeverReached (tb.AllowN now n).1 rest

/-- Method `TokenBucket.timeToToken`: the duration, in nanoseconds, given to the retry
timer of `WaitN`; the argument is the integer `n` whose conversion `float64(n)` the
caller passes.  For `rate = 0` the quotient `missingTokens / tb.rate` is an infinity,
which is outside the range of `int64` and converts like every such value. -/
def TokenBucket.timeToToken (tb : TokenBucket) (n : Int) : Int :=
  let tokens := float64 n
  let available := float64 tb.tokens
  if available ≥ tokens then 0
  else
    let missingTokens := round64 (tokens - available)
    if float64 tb.rate = 0 then -9223372036854775808
    else truncInt64 (round64 (round64 (missingTokens / float64 tb.rate) * float64 Second))

/-! ## Blocking calls that end with the cancellation error -/

/-- Clock readings of the attempts of a blocking call none of whose attempts is
admitted: the readings of the environment up to the first attempt whose `select`
executes the case `<-ctx.Done()`. -/
def attemptTimes : WaitEnv → List Int
  | [] => []
  | (now, cancel) :: rest => if cancel = true then [now] else now :: attemptTimes rest

/-- What a denied admission attempt at `now` leaves of a token bucket: the lazy refill,
and one more denial counted. -/
def TokenBucket.denied (tb : TokenBucket) (now : Int) : TokenBucket :=
  { tb.refill now with deniedCount := (tb.refill now).deniedCount + 1 }

/-- What a denied admission attempt at `now` leaves of a fixed window: the lazy reset of
the window, and one more denial counted. -/
def FixedWindow.denied (fw : FixedWindow) (now : Int) : FixedWindow :=
  let fw1 := if now - fw.windowStart ≥ fw.window then
      { fw with count := 0, windowStart := now }
    else fw
  { fw1 with deniedCount := fw1.deniedCount + 1 }

/-- What a denied `AllowN` at `now` leaves of a nested window: the call counted, the
lazy resets of the two windows, and one more denial counted. -/
def NestedWindow.denied (nw : NestedWindow) (now : Int) : NestedWindow :=
  let nw2 := ({ nw with totalRequests := nw.totalRequests + 1 }).updateWindows now
  { nw2 with deniedCount := nw2.deniedCount + 1 }

/-- What a denied attempt of the loop of `NestedWindow.Wait` at `now` leaves: the lazy
resets of the two windows, and one more denial counted. -/
def NestedWindow.deniedAttempt (nw : NestedWindow) (now : Int) : NestedWindow :=
  let nw1 := nw.updateWindows now
  { nw1 with deniedCount := nw1.deniedCount + 1 }

/-! ## Rounding error of `float64` operations -/

/-- The unit roundoff of `float64`, `2 ^ (-53)`. -/
def unitRoundoff : ℚ := 1 / 9007199254740992

/-- The value `a` approximates `x` with the relative error of at most `k` successive
roundings. -/
def Approx (k : Nat) (a x : ℚ) : Prop :=
  |a - x| ≤ ((1 + unitRoundoff) ^ k - 1) * |x|

/-! ## Theorems -/

/-! ### C1: `TokenBucket.AllowN` -/

/-- C1: sequential `TokenBucket.AllowN` returns true exactly when the token count
left by `refill now` is at least `n`; on true the token count ends as the refilled
count minus `n`, on false it ends as the refilled count, so the branch in which the
check of the subtraction result fails is never taken.  It holds in every state and
for every `n`, in particular when `0 ≤ tokens ≤ capacity` and `1 ≤ n`. -/
theorem tokenBucket_AllowN_spec (tb : TokenBucket) (now n : Int) :
    ((tb.AllowN now n).2 = true ↔ n ≤ (tb.refill now).tokens) ∧
    (tb.AllowN now n).1.tokens =
      (if (tb.AllowN now n).2 = true then (tb.refill now).tokens - n
       else (tb.refill now).tokens) := by
  unfold TokenBucket.AllowN
  by_cases h : (tb.refill now).tokens ≥ n
  · have h2 : (tb.refill now).tokens - n ≥ 0 := by omega
    simp [h, h2]
  · simp [h]

/-! ### C2: `FixedWindow.AllowN` -/

/-- Sequential `FixedWindow.AllowN` over unbounded integers: with `(c0, s0)` equal to
`(0, now)` when `now - windowStart ≥ window` and to `(count, windowStart)` otherwise,
the call returns true exactly when `c0 + n ≤ rate`; afterwards `windowStart = s0`, and
`count = c0 + n` on true, `count = c0` on false. -/
theorem fixedWindow_AllowN_spec (fw : FixedWindow) (now n : Int) :
    ((fw.AllowN now n).2 = true ↔
      (if now - fw.windowStart ≥ fw.window then 0 else fw.count) + n ≤ fw.rate) ∧
    (fw.AllowN now n).1.windowStart =
      (if now - fw.windowStart ≥ fw.window then now else fw.windowStart) ∧
    (fw.AllowN now n).1.count =
      (if (fw.AllowN now n).2 = true then
        (if now - fw.windowStart ≥ fw.window then 0 else fw.count) + n
       else (if now - fw.windowStart ≥ fw.window then 0 else fw.count)) := by
  unfold FixedWindow.AllowN
  by_cases hw : now - fw.windowStart ≥ fw.window
  · by_cases hc : n ≤ fw.rate
    · simp [hw, hc]
    · simp [hw, hc]
  · by_cases hc : fw.count + n ≤ fw.rate
    · simp [hw, hc]
    · simp [hw, hc]

/-- A result within the range of `int64` is not changed by the reduction. -/
theorem wrapInt64_of_range (x : Int) (h0 : -9223372036854775808 ≤ x)
    (h1 : x ≤ 9223372036854775807) : wrapInt64 x = x := by
  unfold wrapInt64
  omega

/-- Adding `n` and subtracting it again restores an `int64`, whether or not the
addition overflows. -/
theorem wrapInt64_rollback (c n : Int) (h0 : -9223372036854775808 ≤ c)
    (h1 : c ≤ 9223372036854775807) :
    wrapInt64 (wrapInt64 (c + n) + wrapInt64 (-n)) = c := by
  unfold wrapInt64
  omega

/-- While no result leaves the range of `int64`, the fixed window in `int64`
arithmetic is the fixed window over unbounded integers. -/
theorem fixedWindow_AllowN64_eq (fw : FixedWindow) (now n : Int)
    (ht : -9223372036854775808 ≤ now - fw.windowStart ∧
      now - fw.windowStart ≤ 9223372036854775807)
    (hc : -9223372036854775808 ≤ fw.count ∧ fw.count ≤ 9223372036854775807)
    (hn : -9223372036854775807 ≤ n ∧ n ≤ 9223372036854775807)
    (hs : -9223372036854775808 ≤
        (if now - fw.windowStart ≥ fw.window then 0 else fw.count) + n ∧
      (if now - fw.windowStart ≥ fw.window then 0 else fw.count) + n ≤ 9223372036854775807)
    (ha : -9223372036854775808 ≤ fw.allowedCount + 1 ∧
      fw.allowedCount + 1 ≤ 9223372036854775807)
    (hd : -9223372036854775808 ≤ fw.deniedCount + 1 ∧
      fw.deniedCount + 1 ≤ 9223372036854775807) :
    fw.AllowN64 now n = fw.AllowN now n := by
  unfold FixedWindow.AllowN64 FixedWindow.AllowN
  dsimp only
  rw [wrapInt64_of_range _ ht.1 ht.2]
  by_cases hw : now - fw.windowStart ≥ fw.window
  · simp only [hw, if_true] at hs ⊢
    rw [wrapInt64_of_range _ hs.1 hs.2, wrapInt64_of_range _ ha.1 ha.2,
      wrapInt64_of_range _ hd.1 hd.2, wrapInt64_of_range (-n) (by omega) (by omega),
      wrapInt64_of_range (0 + n + -n) (by omega) (by omega)]
    rfl
  · simp only [hw, if_false] at hs ⊢
    rw [wrapInt64_of_range _ hs.1 hs.2, wrapInt64_of_range _ ha.1 ha.2,
      wrapInt64_of_range _ hd.1 hd.2, wrapInt64_of_range (-n) (by omega) (by omega),
      wrapInt64_of_range (fw.count + n + -n) (by omega) (by omega)]
    rfl

/-- C2 holds while `c0 + n` stays within the range of `int64` and fails when the
addition overflows.  With `(c0, s0)` equal to `(0, now)` when
`now - windowStart ≥ window` and to `(count, windowStart)` otherwise: if `c0 + n` is
within the range of `int64`, `AllowN(n)` returns true exactly when `c0 + n ≤ rate`, and
afterwards `windowStart = s0`, `count = c0 + n` on true and `count = c0` on false.  On a
fixed window of rate 5 constructed at time 0 that has admitted one `Allow`, the call
`AllowN(9223372036854775807)` computes the count `1 + 9223372036854775807` as
`-9223372036854775808`, which is at most the rate: it returns true and leaves that
count, although `c0 + n` exceeds the rate. -/
theorem fixedWindow_AllowN_int64 (fw : FixedWindow) (now n : Int) :
    (-9223372036854775808 ≤ now - fw.windowStart ∧
        now - fw.windowStart ≤ 9223372036854775807 →
      -9223372036854775808 ≤ fw.count ∧ fw.count ≤ 9223372036854775807 →
      -9223372036854775808 ≤ (if now - fw.windowStart ≥ fw.window then 0 else fw.count) + n ∧
        (if now - fw.windowStart ≥ fw.window then 0 else fw.count) + n
          ≤ 9223372036854775807 →
      ((fw.AllowN64 now n).2 = true ↔
        (if now - fw.windowStart ≥ fw.window then 0 else fw.count) + n ≤ fw.rate) ∧
      (fw.AllowN64 now n).1.windowStart =
        (if now - fw.windowStart ≥ fw.window then now else fw.windowStart) ∧
      (fw.AllowN64 now n).1.count =
        (if (fw.AllowN64 now n).2 = true then
          (if now - fw.windowStart ≥ fw.window then 0 else fw.count) + n
         else (if now - fw.windowStart ≥ fw.window then 0 else fw.count))) ∧
    (((NewFixedWindow (Config.mk 5 1 5 1000000000 1 "fixed_window" false) 0).AllowN64
        0 1).2 = true ∧
      ((NewFixedWindow (Config.mk 5 1 5 1000000000 1 "fixed_window" false) 0).AllowN64
        0 1).1.count = 1 ∧
      ¬ ((1 : Int) + 9223372036854775807 ≤ 5) ∧
      (((NewFixedWindow (Config.mk 5 1 5 1000000000 1 "fixed_window" false) 0).AllowN64
        0 1).1.AllowN64 0 9223372036854775807).2 = true ∧
      (((NewFixedWindow (Config.mk 5 1 5 1000000000 1 "fixed_window" false) 0).AllowN64
        0 1).1.AllowN64 0 9223372036854775807).1.count = -9223372036854775808) := by
  refine ⟨?_, by decide, by decide, by decide, by decide, by decide⟩
  intro ht hc hs
  unfold FixedWindow.AllowN64
  dsimp only
  rw [wrapInt64_of_range _ ht.1 ht.2]
  by_cases hw : now - fw.windowStart ≥ fw.window
  · simp only [hw, if_true] at hs ⊢
    have hroll := wrapInt64_rollback 0 n (by decide) (by decide)
    rw [wrapInt64_of_range _ hs.1 hs.2] at hroll ⊢
    simp only [zero_add] at hroll ⊢
    by_cases hk : n ≤ fw.rate
    · simp [hk]
    · simp [hk, hroll]
  · simp only [hw, if_false] at hs ⊢
    have hroll := wrapInt64_rollback fw.count n hc.1 hc.2
    rw [wrapInt64_of_range _ hs.1 hs.2] at hroll ⊢
    by_cases hk : fw.count + n ≤ fw.rate
    · simp [hk]
    · simp [hk, hroll]

/-! ### C3: `SlidingWindow.AllowN` -/

/-- The scan index of `clearExpired` is the length of the longest prefix of entries
before the cutoff, so dropping that many entries is `dropWhile`. -/
theorem drop_expiredCount (cutoff : Int) (l : List Int) :
    l.drop (expiredCount cutoff l) = l.dropWhile (fun x => decide (x < cutoff)) := by
  induction l with
  | nil => simp [expiredCount]
  | cons x xs ih =>
    by_cases h : x < cutoff
    · simp [expiredCount, h, List.dropWhile_cons, ih]
    · simp [expiredCount, h, List.dropWhile_cons]

/-- The log left by `clearExpired` is the log without its longest prefix of entries
before `now - window`; the other fields are unchanged. -/
theorem SlidingWindow.clearExpired_eq (sw : SlidingWindow) (now : Int) :
    sw.clearExpired now =
      { sw with requests := sw.requests.dropWhile (fun x => decide (x < now - sw.window)) } := by
  unfold SlidingWindow.clearExpired
  have hc : now + -sw.window = now - sw.window := by ring
  simp only [hc]
  by_cases h : expiredCount (now - sw.window) sw.requests > 0
  · simp only [h, if_true, drop_expiredCount]
  · have h0 : expiredCount (now - sw.window) sw.requests = 0 := by omega
    have hd := drop_expiredCount (now - sw.window) sw.requests
    rw [h0, List.drop_zero] at hd
    simp only [h, if_false]
    rw [← hd]

/-- In a time-ordered log every entry that survives `dropWhile (· < cutoff)` is at
or after the cutoff. -/
theorem dropWhile_ge_of_sorted (cutoff : Int) (l : List Int) (hs : l.Sorted (· ≤ ·)) :
    ∀ x ∈ l.dropWhile (fun x => decide (x < cutoff)), cutoff ≤ x := by
  induction l with
  | nil => simp
  | cons y ys ih =>
    have hys : ys.Sorted (· ≤ ·) := hs.of_cons
    have hy : ∀ z ∈ ys, y ≤ z := fun z hz => List.rel_of_sorted_cons hs z hz
    by_cases h : y < cutoff
    · simpa [List.dropWhile_cons, h] using ih hys
    · intro x hx
      simp only [List.dropWhile_cons, h, decide_False, Bool.false_eq_true, if_false,
        List.mem_cons] at hx
      rcases hx with rfl | hx
      · omega
      · have := hy x hx
        omega

/-- C3: `SlidingWindow.AllowN` on a time-ordered log with `n = k ≥ 0`: the log splits
as `removed ++ remaining` where `removed` holds entries strictly earlier than
`now - window` and every entry of `remaining` is at or after `now - window` (so
`removed` is exactly the maximal prefix of expired entries); the call returns true
exactly when `remaining.length + n ≤ rate`; on true the log becomes `remaining`
followed by `n` copies of `now`, on false it is exactly `remaining`. -/
theorem slidingWindow_AllowN_spec (sw : SlidingWindow) (now : Int) (k : Nat)
    (hs : sw.requests.Sorted (· ≤ ·)) :
    ∃ removed remaining : List Int,
      sw.requests = removed ++ remaining ∧
      (∀ x ∈ removed, x < now - sw.window) ∧
      (∀ x ∈ remaining, now - sw.window ≤ x) ∧
      ((sw.AllowN now k).2 = true ↔ (remaining.length : Int) + k ≤ sw.rate) ∧
      (sw.AllowN now k).1.requests =
        (if (sw.AllowN now k).2 = true then remaining ++ List.replicate k now
         else remaining) := by
  refine ⟨sw.requests.takeWhile (fun x => decide (x < now - sw.window)),
    sw.requests.dropWhile (fun x => decide (x < now - sw.window)),
    (List.takeWhile_append_dropWhile _ _).symm, ?_, ?_, ?_⟩
  · intro x hx
    simpa using List.mem_takeWhile_imp hx
  · exact dropWhile_ge_of_sorted _ _ hs
  · unfold SlidingWindow.AllowN
    rw [SlidingWindow.clearExpired_eq]
    by_cases h : ((sw.requests.dropWhile (fun x => decide (x < now - sw.window))).length : Int)
        + (k : Int) ≤ sw.rate
    · simp [h]
    · simp [h]

/-- Witness for C3: `slidingWindow_AllowN_spec` at the log `[1, 5, 20]` with window 10,
rate 3, at time 25 with `n = 1`. -/
theorem slidingWindow_AllowN_spec_witness :
    ∃ removed remaining : List Int,
      [1, 5, 20] = removed ++ remaining ∧
      (∀ x ∈ removed, x < 25 - 10) ∧
      (∀ x ∈ remaining, 25 - 10 ≤ x) ∧
      (((SlidingWindow.mk 3 10 [1, 5, 20]).AllowN 25 (1 : Nat)).2 = true ↔
        (remaining.length : Int) + (1 : Nat) ≤ 3) ∧
      ((SlidingWindow.mk 3 10 [1, 5, 20]).AllowN 25 (1 : Nat)).1.requests =
        (if ((SlidingWindow.mk 3 10 [1, 5, 20]).AllowN 25 (1 : Nat)).2 = true
          then remaining ++ List.replicate 1 25
         else remaining) :=
  slidingWindow_AllowN_spec (SlidingWindow.mk 3 10 [1, 5, 20]) 25 1 (by decide)

/-! ### C4: `NestedWindow.AllowN` -/

/-- `NestedWindow.AllowN` over unbounded integers: after each window is lazily reset on
its own (count 0 and start `now` when `now - start` reaches that window's duration),
the call returns true exactly when `outerCount + n ≤ outerRate` and
`innerCount + n ≤ innerRate`; on true both counters grow by `n`, on false both keep
their values after the lazy reset. -/
theorem nestedWindow_AllowN_spec (nw : NestedWindow) (now n : Int) :
    ((nw.AllowN now n).2 = true ↔
      (if now - nw.outerWindowStart ≥ nw.outerWindow then 0 else nw.outerCount) + n
          ≤ nw.outerRate ∧
      (if now - nw.innerWindowStart ≥ nw.innerWindow then 0 else nw.innerCount) + n
          ≤ nw.innerRate) ∧
    (nw.AllowN now n).1.outerCount =
      (if now - nw.outerWindowStart ≥ nw.outerWindow then 0 else nw.outerCount)
        + (if (nw.AllowN now n).2 = true then n else 0) ∧
    (nw.AllowN now n).1.innerCount =
      (if now - nw.innerWindowStart ≥ nw.innerWindow then 0 else nw.innerCount)
        + (if (nw.AllowN now n).2 = true then n else 0) ∧
    (nw.AllowN now n).1.outerWindowStart =
      (if now - nw.outerWindowStart ≥ nw.outerWindow then now else nw.outerWindowStart) ∧
    (nw.AllowN now n).1.innerWindowStart =
      (if now - nw.innerWindowStart ≥ nw.innerWindow then now else nw.innerWindowStart) := by
  unfold NestedWindow.AllowN NestedWindow.updateWindows
  by_cases ho : now - nw.outerWindowStart ≥ nw.outerWindow <;>
  by_cases hi : now - nw.innerWindowStart ≥ nw.innerWindow <;>
  simp only [ho, hi, if_true, if_false] <;>
  split <;> simp_all <;> omega

/-- The lazy resets of the nested window in `int64` arithmetic, when both differences
of timestamps are within the range of `int64`. -/
theorem NestedWindow.updateWindows64_eq (nw : NestedWindow) (now : Int)
    (ho : -9223372036854775808 ≤ now - nw.outerWindowStart ∧
      now - nw.outerWindowStart ≤ 9223372036854775807)
    (hi : -9223372036854775808 ≤ now - nw.innerWindowStart ∧
      now - nw.innerWindowStart ≤ 9223372036854775807) :
    nw.updateWindows64 now = nw.updateWindows now := by
  unfold NestedWindow.updateWindows64 NestedWindow.updateWindows
  dsimp only
  rw [wrapInt64_of_range _ ho.1 ho.2]
  by_cases h1 : now - nw.outerWindowStart ≥ nw.outerWindow
  · simp only [h1, if_true]
    rw [wrapInt64_of_range _ hi.1 hi.2]
  · simp only [h1, if_false]
    rw [wrapInt64_of_range _ hi.1 hi.2]

/-- While no result leaves the range of `int64`, the nested window in `int64`
arithmetic is the nested window over unbounded integers. -/
theorem nestedWindow_AllowN64_eq (nw : NestedWindow) (now n : Int)
    (ho : -9223372036854775808 ≤ now - nw.outerWindowStart ∧
      now - nw.outerWindowStart ≤ 9223372036854775807)
    (hi : -9223372036854775808 ≤ now - nw.innerWindowStart ∧
      now - nw.innerWindowStart ≤ 9223372036854775807)
    (hso : -9223372036854775808 ≤
        (if now - nw.outerWindowStart ≥ nw.outerWindow then 0 else nw.outerCount) + n ∧
      (if now - nw.outerWindowStart ≥ nw.outerWindow then 0 else nw.outerCount) + n
        ≤ 9223372036854775807)
    (hsi : -9223372036854775808 ≤
        (if now - nw.innerWindowStart ≥ nw.innerWindow then 0 else nw.innerCount) + n ∧
      (if now - nw.innerWindowStart ≥ nw.innerWindow then 0 else nw.innerCount) + n
        ≤ 9223372036854775807)
    (ht : -9223372036854775808 ≤ nw.totalRequests + 1 ∧
      nw.totalRequests + 1 ≤ 9223372036854775807)
    (ha : -9223372036854775808 ≤ nw.allowedCount + 1 ∧
      nw.allowedCount + 1 ≤ 9223372036854775807)
    (hd : -9223372036854775808 ≤ nw.deniedCount + 1 ∧
      nw.deniedCount + 1 ≤ 9223372036854775807) :
    nw.AllowN64 now n = nw.AllowN now n := by
  unfold NestedWindow.AllowN64 NestedWindow.AllowN
  dsimp only
  rw [NestedWindow.updateWindows64_eq
    { nw with totalRequests := wrapInt64 (nw.totalRequests + 1) } now ho hi,
    wrapInt64_of_range _ ht.1 ht.2]
  unfold NestedWindow.updateWindows
  dsimp only
  by_cases h1 : now - nw.outerWindowStart ≥ nw.outerWindow <;>
  by_cases h2 : now - nw.innerWindowStart ≥ nw.innerWindow <;>
  simp only [h1, h2, if_true, if_false] at hso hsi ⊢ <;>
  simp only [wrapInt64_of_range _ hso.1 hso.2, wrapInt64_of_range _ hsi.1 hsi.2,
    wrapInt64_of_range _ ha.1 ha.2, wrapInt64_of_range _ hd.1 hd.2]

/-- C4 holds while `outerCount + n` and `innerCount + n` stay within the range of
`int64` and fails when an addition overflows.  After each window is lazily reset on
its own (count 0 and start `now` when `now - start` reaches that window's duration):
if both sums are within the range of `int64`, `AllowN(n)` returns true exactly when
`outerCount + n ≤ outerRate` and `innerCount + n ≤ innerRate`; on true both counters
grow by `n`, on false both keep their values after the lazy reset.  On a nested window
of rate 10 and burst 5 constructed at time 0 that has admitted one `Allow`, the call
`AllowN(9223372036854775807)` computes both sums as `-9223372036854775808`: it returns
true and leaves both counters at that value, although the sums exceed both rates. -/
theorem nestedWindow_AllowN_int64 (nw : NestedWindow) (now n : Int) :
    (-9223372036854775808 ≤ now - nw.outerWindowStart ∧
        now - nw.outerWindowStart ≤ 9223372036854775807 →
      -9223372036854775808 ≤ now - nw.innerWindowStart ∧
        now - nw.innerWindowStart ≤ 9223372036854775807 →
      -9223372036854775808 ≤
          (if now - nw.outerWindowStart ≥ nw.outerWindow then 0 else nw.outerCount) + n ∧
        (if now - nw.outerWindowStart ≥ nw.outerWindow then 0 else nw.outerCount) + n
          ≤ 9223372036854775807 →
      -9223372036854775808 ≤
          (if now - nw.innerWindowStart ≥ nw.innerWindow then 0 else nw.innerCount) + n ∧
        (if now - nw.innerWindowStart ≥ nw.innerWindow then 0 else nw.innerCount) + n
          ≤ 9223372036854775807 →
      ((nw.AllowN64 now n).2 = true ↔
        (if now - nw.outerWindowStart ≥ nw.outerWindow then 0 else nw.outerCount) + n
            ≤ nw.outerRate ∧
        (if now - nw.innerWindowStart ≥ nw.innerWindow then 0 else nw.innerCount) + n
            ≤ nw.innerRate) ∧
      (nw.AllowN64 now n).1.outerCount =
        (if now - nw.outerWindowStart ≥ nw.outerWindow then 0 else nw.outerCount)
          + (if (nw.AllowN64 now n).2 = true then n else 0) ∧
      (nw.AllowN64 now n).1.innerCount =
        (if now - nw.innerWindowStart ≥ nw.innerWindow then 0 else nw.innerCount)
          + (if (nw.AllowN64 now n).2 = true then n else 0) ∧
      (nw.AllowN64 now n).1.outerWindowStart =
        (if now - nw.outerWindowStart ≥ nw.outerWindow then now else nw.outerWindowStart) ∧
      (nw.AllowN64 now n).1.innerWindowStart =
        (if now - nw.innerWindowStart ≥ nw.innerWindow then now else nw.innerWindowStart)) ∧
    (((NewNestedWindow (Config.mk 10 5 10 1000000000 1 "nested_window" false) 0).AllowN64
        0 1).2 = true ∧
      ((NewNestedWindow (Config.mk 10 5 10 1000000000 1 "nested_window" false) 0).AllowN64
        0 1).1.outerCount = 1 ∧
      ((NewNestedWindow (Config.mk 10 5 10 1000000000 1 "nested_window" false) 0).AllowN64
        0 1).1.innerCount = 1 ∧
      ¬ ((1 : Int) + 9223372036854775807 ≤ 10) ∧
      ¬ ((1 : Int) + 9223372036854775807 ≤ 5) ∧
      (((NewNestedWindow (Config.mk 10 5 10 1000000000 1 "nested_window" false) 0).AllowN64
        0 1).1.AllowN64 0 9223372036854775807).2 = true ∧
      (((NewNestedWindow (Config.mk 10 5 10 1000000000 1 "nested_window" false) 0).AllowN64
        0 1).1.AllowN64 0 9223372036854775807).1.outerCount = -9223372036854775808 ∧
      (((NewNestedWindow (Config.mk 10 5 10 1000000000 1 "nested_window" false) 0).AllowN64
        0 1).1.AllowN64 0 9223372036854775807).1.innerCount = -9223372036854775808) := by
  refine ⟨?_, by decide, by decide, by decide, by decide, by decide, by decide, by decide,
    by decide⟩
  intro ho hi hso hsi
  unfold NestedWindow.AllowN64
  dsimp only
  rw [NestedWindow.updateWindows64_eq
    { nw with totalRequests := wrapInt64 (nw.totalRequests + 1) } now ho hi]
  unfold NestedWindow.updateWindows
  dsimp only
  by_cases h1 : now - nw.outerWindowStart ≥ nw.outerWindow <;>
  by_cases h2 : now - nw.innerWindowStart ≥ nw.innerWindow <;>
  simp only [h1, h2, if_true, if_false] at hso hsi ⊢ <;>
  simp only [wrapInt64_of_range _ hso.1 hso.2, wrapInt64_of_range _ hsi.1 hsi.2] <;>
  split <;> simp_all <;> omega

/-! ### C5: the sliding window admits at most `rate` units per window length -/

/-- The separate code path of `SlidingWindow.Allow` computes `AllowN 1`. -/
theorem SlidingWindow.Allow_eq_AllowN_one (sw : SlidingWindow) (now : Int) :
    sw.Allow now = sw.AllowN now 1 := by
  unfold SlidingWindow.Allow SlidingWindow.AllowN
  by_cases h : ((sw.clearExpired now).requests.length : Int) < (sw.clearExpired now).rate
  · have h2 : ((sw.clearExpired now).requests.length : Int) + 1 ≤ (sw.clearExpired now).rate := by
      omega
    simp [h, h2]
  · have h2 : ¬ ((sw.clearExpired now).requests.length : Int) + 1 ≤ (sw.clearExpired now).rate := by
      omega
    simp only [h, h2, if_false]

/-- Closed form of `SlidingWindow.AllowN` for `n = k ≥ 0`. -/
theorem SlidingWindow.AllowN_eq (sw : SlidingWindow) (now : Int) (k : Nat) :
    sw.AllowN now k =
      (if ((sw.requests.dropWhile (fun x => decide (x < now - sw.window))).length : Int)
            + (k : Int) ≤ sw.rate then
        ({ sw with requests := sw.requests.dropWhile (fun x => decide (x < now - sw.window))
              ++ List.replicate k now }, true)
       else
        ({ sw with requests := sw.requests.dropWhile (fun x => decide (x < now - sw.window)) },
          false)) := by
  unfold SlidingWindow.AllowN
  rw [SlidingWindow.clearExpired_eq]
  simp

/-- Every call of the sliding window is `AllowN` of the units it asks for. -/
theorem SlidingWindow.call_eq_AllowN (sw : SlidingWindow) (now : Int) (c : SWCall) :
    sw.call now c = sw.AllowN now c.units := by
  cases c with
  | allow => simp [SlidingWindow.call, SWCall.units, SlidingWindow.Allow_eq_AllowN_one]
  | allowN n => simp [SlidingWindow.call, SWCall.units]

/-- One `AllowN` call at a time `now ≥ T` preserves the invariant, with the admitted
units appended to the history. -/
theorem SlidingWindow.LogInv_AllowN (sw : SlidingWindow) (T now : Int) (H : List Int) (k : Nat)
    (hT : T ≤ now) (inv : sw.LogInv T H) :
    (sw.AllowN now k).1.window = sw.window ∧ (sw.AllowN now k).1.rate = sw.rate ∧
    (sw.AllowN now k).1.LogInv now
      (H ++ (if (sw.AllowN now k).2 = true then List.replicate k now else [])) := by
  obtain ⟨hlen, ⟨old, hH, hold⟩, hb⟩ := inv
  have hsplit := List.takeWhile_append_dropWhile (fun x => decide (x < now - sw.window))
    sw.requests
  have hdl : (sw.requests.dropWhile (fun x => decide (x < now - sw.window))).length
      ≤ sw.requests.length := by
    have := congrArg List.length hsplit
    simp only [List.length_append] at this
    omega
  have hold1 : ∀ x ∈ old ++ sw.requests.takeWhile (fun x => decide (x < now - sw.window)),
      x < now - sw.window := by
    intro x hx
    rcases List.mem_append.1 hx with hx | hx
    · have := hold x hx
      omega
    · simpa using List.mem_takeWhile_imp hx
  have hH1 : H = (old ++ sw.requests.takeWhile (fun x => decide (x < now - sw.window)))
      ++ sw.requests.dropWhile (fun x => decide (x < now - sw.window)) := by
    rw [List.append_assoc, hsplit]
    exact hH
  rw [SlidingWindow.AllowN_eq]
  by_cases h : ((sw.requests.dropWhile (fun x => decide (x < now - sw.window))).length : Int)
      + (k : Int) ≤ sw.rate
  · rw [if_pos h]
    refine ⟨rfl, rfl, ?_, ?_, ?_⟩
    · show ((sw.requests.dropWhile (fun x => decide (x < now - sw.window))
        ++ List.replicate k now).length : Int) ≤ sw.rate
      simp only [List.length_append, List.length_replicate]
      push_cast
      exact h
    · refine ⟨_, ?_, hold1⟩
      show H ++ List.replicate k now = _ ++ (sw.requests.dropWhile
        (fun x => decide (x < now - sw.window)) ++ List.replicate k now)
      rw [hH1]
      simp only [List.append_assoc]
    · intro a
      show (unitsIn a (a + sw.window) (H ++ List.replicate k now) : Int) ≤ sw.rate
      by_cases hin : a ≤ now ∧ now ≤ a + sw.window
      · have hzero : unitsIn a (a + sw.window)
            (old ++ sw.requests.takeWhile (fun x => decide (x < now - sw.window))) = 0 := by
          unfold unitsIn
          rw [List.countP_eq_zero]
          intro x hx
          have := hold1 x hx
          simp only [decide_eq_true_eq, not_and, not_le]
          intro hax
          omega
        have hle : unitsIn a (a + sw.window)
            (sw.requests.dropWhile (fun x => decide (x < now - sw.window))
              ++ List.replicate k now)
            ≤ (sw.requests.dropWhile (fun x => decide (x < now - sw.window))).length + k := by
          unfold unitsIn
          refine le_trans (List.countP_le_length _) ?_
          simp
        rw [hH1, List.append_assoc]
        unfold unitsIn at hzero hle ⊢
        rw [List.countP_append, hzero]
        omega
      · have hz : unitsIn a (a + sw.window) (List.replicate k now) = 0 := by
          unfold unitsIn
          rw [List.countP_eq_zero]
          intro x hx
          have hx2 : x = now := List.eq_of_mem_replicate hx
          subst hx2
          simpa using hin
        have := hb a
        unfold unitsIn at hz this ⊢
        rw [List.countP_append, hz]
        simpa using this
  · rw [if_neg h]
    refine ⟨rfl, rfl, ?_, ?_, ?_⟩
    · show ((sw.requests.dropWhile (fun x => decide (x < now - sw.window))).length : Int)
        ≤ sw.rate
      omega
    · refine ⟨_, ?_, hold1⟩
      show H ++ [] = _
      rw [List.append_nil]
      exact hH1
    · intro a
      show (unitsIn a (a + sw.window) (H ++ []) : Int) ≤ sw.rate
      rw [List.append_nil]
      exact hb a

/-- The invariant is preserved along every sequence of calls made at non-decreasing
times, none earlier than `T`. -/
theorem SlidingWindow.LogInv_runLog (calls : List (Int × SWCall)) :
    ∀ (sw : SlidingWindow) (T : Int) (H : List Int),
      (T :: calls.map Prod.fst).Sorted (· ≤ ·) → sw.LogInv T H →
      ∀ a : Int, (unitsIn a (a + sw.window) (H ++ (sw.runLog calls).2) : Int) ≤ sw.rate := by
  induction calls with
  | nil =>
    intro sw T H _ inv a
    simpa [SlidingWindow.runLog] using inv.bound a
  | cons c rest ih =>
    intro sw T H hs inv a
    obtain ⟨now, op⟩ := c
    have hs1 : (now :: rest.map Prod.fst).Sorted (· ≤ ·) := by
      simpa using hs.of_cons
    have hT : T ≤ now := List.rel_of_sorted_cons hs now (by simp)
    have hstep := SlidingWindow.LogInv_AllowN sw T now H op.units hT inv
    rw [← SlidingWindow.call_eq_AllowN] at hstep
    obtain ⟨hw, hr, inv1⟩ := hstep
    have := ih (sw.call now op).1 now _ hs1 inv1 a
    rw [hw, hr] at this
    simpa [SlidingWindow.runLog, List.append_assoc] using this

/-- C5: a sliding window built with rate `r ≥ 0` and window `W`, driven by any
sequence of `Allow`/`AllowN` (`n ≥ 0`) calls at non-decreasing times with no `Reset`,
admits at most `r` units at times inside any closed interval `[a, a + W]`. -/
theorem slidingWindow_no_boundary_doubling (config : Config) (calls : List (Int × SWCall))
    (hr : 0 ≤ config.Rate) (ht : (calls.map Prod.fst).Sorted (· ≤ ·)) :
    ∃ sw0 : SlidingWindow, NewSlidingWindow config = some sw0 ∧
      ∀ a : Int,
        (unitsIn a (a + config.Window) (sw0.runLog calls).2 : Int) ≤ config.Rate := by
  refine ⟨{ rate := config.Rate, window := config.Window, requests := [] }, ?_, ?_⟩
  · have h : ¬ config.Rate < 0 := by omega
    simp [NewSlidingWindow, h]
  · intro a
    have inv0 : ∀ T : Int, SlidingWindow.LogInv
        { rate := config.Rate, window := config.Window, requests := [] } T [] := by
      intro T
      refine ⟨by simpa using hr, ⟨[], by simp, by simp⟩, ?_⟩
      intro b
      simpa [unitsIn] using hr
    cases calls with
    | nil => simpa [SlidingWindow.runLog, unitsIn] using hr
    | cons c rest =>
      have hs : (c.1 :: (c :: rest).map Prod.fst).Sorted (· ≤ ·) := by
        simp only [List.map_cons] at ht ⊢
        exact List.Sorted.cons (le_refl _) ht
      simpa using SlidingWindow.LogInv_runLog (c :: rest) _ c.1 [] hs (inv0 c.1) a

/-- Witness for C5: `slidingWindow_no_boundary_doubling` at rate 2, window 10 and the
calls `Allow` at 0, `AllowN(1)` at 5, `Allow` at 8, `AllowN(2)` at 12. -/
theorem slidingWindow_no_boundary_doubling_witness :
    ∃ sw0 : SlidingWindow,
      NewSlidingWindow (Config.mk 2 1 100 10 1 "sliding_window" false) = some sw0 ∧
      ∀ a : Int,
        (unitsIn a (a + 10) (sw0.runLog
          [(0, SWCall.allow), (5, SWCall.allowN 1), (8, SWCall.allow),
           (12, SWCall.allowN 2)]).2 : Int) ≤ 2 :=
  slidingWindow_no_boundary_doubling (Config.mk 2 1 100 10 1 "sliding_window" false)
    [(0, SWCall.allow), (5, SWCall.allowN 1), (8, SWCall.allow), (12, SWCall.allowN 2)]
    (by decide) (by decide)

/-! ### C6: worst case of the fixed window across a window boundary -/

/-- Closed form of the unit call `FixedWindow.Allow`. -/
theorem FixedWindow.Allow_eq (fw : FixedWindow) (now : Int) :
    fw.Allow now =
      (if now - fw.windowStart ≥ fw.window then
        (if 1 ≤ fw.rate then
          ({ fw with count := 1, windowStart := now, allowedCount := fw.allowedCount + 1 }, true)
         else
          ({ fw with count := 0, windowStart := now, deniedCount := fw.deniedCount + 1 }, false))
       else
        (if fw.count + 1 ≤ fw.rate then
          ({ fw with count := fw.count + 1, allowedCount := fw.allowedCount + 1 }, true)
         else
          ({ fw with deniedCount := fw.deniedCount + 1 }, false))) := by
  unfold FixedWindow.Allow FixedWindow.AllowN
  by_cases hw : now - fw.windowStart ≥ fw.window
  · by_cases hc : 1 ≤ fw.rate
    · simp [hw, hc]
    · simp [hw, hc]
  · by_cases hc : fw.count + 1 ≤ fw.rate
    · simp [hw, hc]
    · simp [hw, hc]

/-- The units inside `[a, b]` are among the units at or after any `p ≤ a`. -/
theorem unitsIn_le_countP_ge (p a b : Int) (H : List Int) (h : p ≤ a) :
    unitsIn a b H ≤ H.countP (fun t => decide (p ≤ t)) := by
  unfold unitsIn
  apply List.countP_mono_left
  intro x _ hx
  simp only [decide_eq_true_eq] at hx ⊢
  omega

/-- An instant outside `[a, b]` adds nothing to the units inside `[a, b]`. -/
theorem unitsIn_append_outside (a b now : Int) (H : List Int)
    (h : ¬ (a ≤ now ∧ now ≤ b)) : unitsIn a b (H ++ [now]) = unitsIn a b H := by
  unfold unitsIn
  simp [List.countP_append, List.countP_cons, h]

/-- Counting the entries at or after `p` in a history extended by `now ≥ p`. -/
theorem countP_ge_append (p now : Int) (H : List Int) (h : p ≤ now) :
    (H ++ [now]).countP (fun t => decide (p ≤ t)) = H.countP (fun t => decide (p ≤ t)) + 1 := by
  simp [List.countP_append, List.countP_cons, h]

/-- No entry of a history bounded by `T` is at or after a later instant. -/
theorem countP_ge_eq_zero (T now : Int) (H : List Int) (hH : ∀ x ∈ H, x ≤ T) (h : T < now) :
    H.countP (fun t => decide (now ≤ t)) = 0 := by
  rw [List.countP_eq_zero]
  intro x hx
  have := hH x hx
  simp only [decide_eq_true_eq, not_le]
  omega

/-- One unit call at a time `now ≥ T` preserves the invariant, the time of the call
being appended to the history when it is admitted. -/
theorem FixedWindow.HistInv_Allow (fw : FixedWindow) (T now : Int) (H : List Int)
    (hT : T ≤ now) (inv : fw.HistInv T H) :
    (fw.Allow now).1.rate = fw.rate ∧ (fw.Allow now).1.window = fw.window ∧
    (fw.Allow now).1.HistInv now (H ++ (if (fw.Allow now).2 = true then [now] else [])) := by
  obtain ⟨h1, h6, h7, h2a, h2b, h3, ⟨p, hp, h4⟩, h5, h8⟩ := inv
  have h7now : ∀ x ∈ H, x ≤ now := fun x hx => le_trans (h7 x hx) hT
  have h7now1 : ∀ x ∈ H ++ [now], x ≤ now := by
    intro x hx
    rcases List.mem_append.1 hx with hx | hx
    · exact h7now x hx
    · simp only [List.mem_singleton] at hx
      omega
  rw [FixedWindow.Allow_eq]
  by_cases hw : now - fw.windowStart ≥ fw.window
  · have hlt : T < now := by omega
    have hz := countP_ge_eq_zero T now H h7 hlt
    rw [if_pos hw]
    by_cases hc : 1 ≤ fw.rate
    · rw [if_pos hc]
      refine ⟨rfl, rfl, ?_⟩
      have hcur : ((H ++ [now]).countP (fun t => decide (now ≤ t)) : Int) ≤ 1 := by
        rw [countP_ge_append now now H (le_refl _), hz]
        simp
      have hprev : ((H ++ [now]).countP (fun t => decide (fw.windowStart ≤ t)) : Int)
          ≤ fw.rate + 1 := by
        rw [countP_ge_append fw.windowStart now H (by omega)]
        push_cast
        omega
      refine ⟨le_refl _, ?_, h7now1, ?_, hc, hcur, ⟨fw.windowStart, ?_, hprev⟩, ?_, ?_⟩
      · show now - now < fw.window
        omega
      · show (0 : Int) ≤ 1
        omega
      · show fw.windowStart + fw.window ≤ now
        omega
      · intro a b hab
        show (unitsIn a b (H ++ [now]) : Int) ≤ 2 * fw.rate
        by_cases hin : a ≤ now ∧ now ≤ b
        · have hm := unitsIn_le_countP_ge fw.windowStart a b (H ++ [now])
            (by have : b - a ≤ fw.window := hab
                omega)
          omega
        · rw [unitsIn_append_outside a b now H hin]
          exact h5 a b hab
      · intro x
        show (unitsIn x x (H ++ [now]) : Int) ≤ fw.rate
        by_cases hin : x ≤ now ∧ now ≤ x
        · have hx : x = now := by omega
          subst hx
          have hm := unitsIn_le_countP_ge x x x (H ++ [x]) (le_refl _)
          omega
        · rw [unitsIn_append_outside x x now H hin]
          exact h8 x
    · rw [if_neg hc]
      refine ⟨rfl, rfl, ?_⟩
      refine ⟨le_refl _, ?_, ?_, le_refl _, ?_, ?_, ⟨fw.windowStart, ?_, ?_⟩, ?_, ?_⟩
      · show now - now < fw.window
        omega
      · simpa using h7now
      · show (0 : Int) ≤ fw.rate
        omega
      · show ((H ++ []).countP (fun t => decide (now ≤ t)) : Int) ≤ 0
        rw [List.append_nil, hz]
        simp
      · show fw.windowStart + fw.window ≤ now
        omega
      · show ((H ++ []).countP (fun t => decide (fw.windowStart ≤ t)) : Int) ≤ fw.rate + 0
        rw [List.append_nil]
        omega
      · simpa using h5
      · simpa using h8
  · rw [if_neg hw]
    by_cases hc : fw.count + 1 ≤ fw.rate
    · rw [if_pos hc]
      refine ⟨rfl, rfl, ?_⟩
      have hcur : ((H ++ [now]).countP (fun t => decide (fw.windowStart ≤ t)) : Int)
          ≤ fw.count + 1 := by
        rw [countP_ge_append fw.windowStart now H (by omega)]
        push_cast
        omega
      have hprev : ((H ++ [now]).countP (fun t => decide (p ≤ t)) : Int)
          ≤ fw.rate + (fw.count + 1) := by
        rw [countP_ge_append p now H (by omega)]
        push_cast
        omega
      refine ⟨?_, ?_, h7now1, ?_, hc, hcur, ⟨p, hp, hprev⟩, ?_, ?_⟩
      · show fw.windowStart ≤ now
        omega
      · show now - fw.windowStart < fw.window
        omega
      · show 0 ≤ fw.count + 1
        omega
      · intro a b hab
        show (unitsIn a b (H ++ [now]) : Int) ≤ 2 * fw.rate
        by_cases hin : a ≤ now ∧ now ≤ b
        · have hm := unitsIn_le_countP_ge p a b (H ++ [now])
            (by have : b - a ≤ fw.window := hab
                omega)
          omega
        · rw [unitsIn_append_outside a b now H hin]
          exact h5 a b hab
      · intro x
        show (unitsIn x x (H ++ [now]) : Int) ≤ fw.rate
        by_cases hin : x ≤ now ∧ now ≤ x
        · have hx : x = now := by omega
          subst hx
          have hm := unitsIn_le_countP_ge fw.windowStart x x (H ++ [x]) (by omega)
          omega
        · rw [unitsIn_append_outside x x now H hin]
          exact h8 x
    · rw [if_neg hc]
      refine ⟨rfl, rfl, ?_⟩
      refine ⟨?_, ?_, ?_, h2a, h2b, ?_, ⟨p, hp, ?_⟩, ?_, ?_⟩
      · show fw.windowStart ≤ now
        omega
      · show now - fw.windowStart < fw.window
        omega
      · simpa using h7now
      · simpa using h3
      · simpa using h4
      · simpa using h5
      · simpa using h8

/-- The invariant gives the interval and instant bounds for the complete history
of every sequence of unit calls made at non-decreasing times, none earlier than `T`. -/
theorem FixedWindow.HistInv_runCalls (ts : List Int) :
    ∀ (fw : FixedWindow) (T : Int) (H : List Int),
      (T :: ts).Sorted (· ≤ ·) → fw.HistInv T H →
      (∀ a b : Int, b - a ≤ fw.window →
        (unitsIn a b (H ++ admittedTimes ts (runCalls FixedWindow.Allow fw ts).2) : Int)
          ≤ 2 * fw.rate) ∧
      (∀ x : Int,
        (unitsIn x x (H ++ admittedTimes ts (runCalls FixedWindow.Allow fw ts).2) : Int)
          ≤ fw.rate) := by
  induction ts with
  | nil =>
    intro fw T H _ inv
    simp only [runCalls, admittedTimes, List.append_nil]
    exact ⟨inv.interval, inv.instant⟩
  | cons now rest ih =>
    intro fw T H hs inv
    have hs1 : (now :: rest).Sorted (· ≤ ·) := hs.of_cons
    have hT : T ≤ now := List.rel_of_sorted_cons hs now (by simp)
    obtain ⟨hr, hw, inv1⟩ := FixedWindow.HistInv_Allow fw T now H hT inv
    have := ih (fw.Allow now).1 now _ hs1 inv1
    rw [hr, hw] at this
    by_cases hb : (fw.Allow now).2 = true
    · simpa [runCalls, admittedTimes, hb, List.append_assoc] using this
    · simpa [runCalls, admittedTimes, hb, List.append_assoc] using this

/-- Running the calls of `l1 ++ l2` is running `l1` and then `l2` from the state
reached. -/
theorem runCalls_append {σ : Type} (step : σ → Int → σ × Bool) (l1 l2 : List Int) :
    ∀ s : σ, runCalls step s (l1 ++ l2) =
      ((runCalls step (runCalls step s l1).1 l2).1,
       (runCalls step s l1).2 ++ (runCalls step (runCalls step s l1).1 l2).2) := by
  induction l1 with
  | nil => intro s; simp [runCalls]
  | cons t rest ih => intro s; simp [runCalls, ih]

/-- When every call returned true the admitted times are all the call times. -/
theorem admittedTimes_all_true (ts : List Int) :
    admittedTimes ts (List.replicate ts.length true) = ts := by
  induction ts with
  | nil => simp [admittedTimes]
  | cons t rest ih => simp [admittedTimes, List.replicate_succ, ih]

/-- Within one window, `k` unit calls at the same time `t` are all admitted when the
counter has room for them; the counter and the allowed counter grow by `k`. -/
theorem FixedWindow.runCalls_replicate (t : Int) (k : Nat) :
    ∀ fw : FixedWindow, t - fw.windowStart < fw.window → fw.count + (k : Int) ≤ fw.rate →
      runCalls FixedWindow.Allow fw (List.replicate k t) =
        ({ fw with count := fw.count + k, allowedCount := fw.allowedCount + k },
         List.replicate k true) := by
  induction k with
  | zero => intro fw _ _; simp [runCalls]
  | succ m ih =>
    intro fw hw hc
    have hnr : ¬ (t - fw.windowStart ≥ fw.window) := by omega
    have hc1 : fw.count + 1 ≤ fw.rate := by
      push_cast at hc
      omega
    simp only [List.replicate_succ, runCalls]
    rw [FixedWindow.Allow_eq, if_neg hnr, if_pos hc1]
    rw [ih { fw with count := fw.count + 1, allowedCount := fw.allowedCount + 1 } hw
      (by push_cast at hc ⊢; show fw.count + 1 + (m : Int) ≤ fw.rate; omega)]
    simp only [Nat.cast_succ, add_assoc, add_comm (1 : Int)]

/-- The invariant holds for a freshly constructed fixed window with an empty history. -/
theorem FixedWindow.HistInv_new (config : Config) (t0 : Int)
    (hr : 0 ≤ config.Rate) (hW : 0 < config.Window) :
    (NewFixedWindow config t0).HistInv t0 [] := by
  refine ⟨le_refl _, ?_, by simp, le_refl _, hr, by simp [NewFixedWindow],
    ⟨t0 - config.Window, ?_, ?_⟩, ?_, ?_⟩
  · show t0 - t0 < config.Window
    omega
  · show t0 - config.Window + config.Window ≤ t0
    omega
  · show (([] : List Int).countP _ : Int) ≤ config.Rate + 0
    simpa using hr
  · intro a b _
    show ((unitsIn a b [] : Nat) : Int) ≤ 2 * config.Rate
    simp only [unitsIn, List.countP_nil, Nat.cast_zero]
    omega
  · intro x
    show ((unitsIn x x [] : Nat) : Int) ≤ config.Rate
    simpa [unitsIn] using hr

/-- With `r = rate ≥ 0` and `window ≥ 2`, the sequence of `r` unit calls one
nanosecond before the first window boundary followed by `r` unit calls at the
boundary has all its `2 * r` calls admitted. -/
theorem FixedWindow.boundary_burst (config : Config) (t0 : Int)
    (hr : 0 ≤ config.Rate) (hW : 2 ≤ config.Window) :
    (runCalls FixedWindow.Allow (NewFixedWindow config t0)
        (List.replicate config.Rate.toNat (t0 + config.Window - 1)
          ++ List.replicate config.Rate.toNat (t0 + config.Window))).2 =
      List.replicate (config.Rate.toNat + config.Rate.toNat) true := by
  have hn : (config.Rate.toNat : Int) = config.Rate := Int.toNat_of_nonneg hr
  rw [runCalls_append]
  rw [FixedWindow.runCalls_replicate (t0 + config.Window - 1) config.Rate.toNat
    (NewFixedWindow config t0)
    (by show t0 + config.Window - 1 - t0 < config.Window; omega)
    (by show (0 : Int) + (config.Rate.toNat : Int) ≤ config.Rate; omega)]
  simp only [List.replicate_add]
  congr 1
  cases hk : config.Rate.toNat with
  | zero => simp [runCalls]
  | succ m =>
    have hm : (m : Int) + 1 = config.Rate := by
      rw [hk] at hn
      push_cast at hn
      exact hn
    simp only [List.replicate_succ, runCalls]
    rw [FixedWindow.Allow_eq]
    have hreset : t0 + config.Window - t0 ≥ config.Window := by omega
    have hone : (1 : Int) ≤ config.Rate := by omega
    simp only [NewFixedWindow, hreset, hone, if_true, ge_iff_le]
    rw [FixedWindow.runCalls_replicate (t0 + config.Window) m _
      (by show t0 + config.Window - (t0 + config.Window) < config.Window; omega)
      (by show (1 : Int) + (m : Int) ≤ config.Rate; omega)]

/-- C6 (amended): for a fixed window constructed at `t0` with rate `r ≥ 0` and window
`W > 0`, driven by unit calls at non-decreasing times with no `Reset`, at most `2 * r`
calls are admitted at times inside any interval `[a, b]` of length at most `W`; and
when `W ≥ 2` some call sequence has `2 * r` calls admitted inside an interval that is
shorter than `W` (`r` calls just before the window boundary, `r` at it). -/
theorem fixedWindow_worst_case (config : Config) (t0 : Int)
    (hr : 0 ≤ config.Rate) (hW : 0 < config.Window) :
    (∀ (ts : List Int) (a b : Int), (t0 :: ts).Sorted (· ≤ ·) → b - a ≤ config.Window →
      (unitsIn a b (admittedTimes ts
        (runCalls FixedWindow.Allow (NewFixedWindow config t0) ts).2) : Int)
        ≤ 2 * config.Rate) ∧
    (2 ≤ config.Window →
      ∃ (ts : List Int) (a b : Int), (t0 :: ts).Sorted (· ≤ ·) ∧ b - a < config.Window ∧
        (unitsIn a b (admittedTimes ts
          (runCalls FixedWindow.Allow (NewFixedWindow config t0) ts).2) : Int)
          = 2 * config.Rate) := by
  constructor
  · intro ts a b hs hab
    have := (FixedWindow.HistInv_runCalls ts (NewFixedWindow config t0) t0 [] hs
      (FixedWindow.HistInv_new config t0 hr hW)).1 a b hab
    simpa using this
  · intro hW2
    have hn : (config.Rate.toNat : Int) = config.Rate := Int.toNat_of_nonneg hr
    refine ⟨List.replicate config.Rate.toNat (t0 + config.Window - 1)
      ++ List.replicate config.Rate.toNat (t0 + config.Window),
      t0 + config.Window - 1, t0 + config.Window, ?_, by omega, ?_⟩
    · simp only [List.Sorted, List.pairwise_cons, List.pairwise_append, List.mem_append]
      refine ⟨?_, ?_, ?_, ?_⟩
      · intro x hx
        rcases hx with hx | hx
        · rw [List.eq_of_mem_replicate hx]
          omega
        · rw [List.eq_of_mem_replicate hx]
          omega
      · exact List.pairwise_replicate.2 (Or.inr (le_refl _))
      · exact List.pairwise_replicate.2 (Or.inr (le_refl _))
      · intro x hx y hy
        rw [List.eq_of_mem_replicate hx, List.eq_of_mem_replicate hy]
        omega
    · rw [FixedWindow.boundary_burst config t0 hr hW2]
      have hlen : (List.replicate config.Rate.toNat (t0 + config.Window - 1)
          ++ List.replicate config.Rate.toNat (t0 + config.Window)).length
          = config.Rate.toNat + config.Rate.toNat := by simp
      rw [← hlen, admittedTimes_all_true]
      simp only [unitsIn, List.countP_append, List.countP_replicate]
      have h1 : (t0 + config.Window - 1 ≤ t0 + config.Window - 1 ∧
          t0 + config.Window - 1 ≤ t0 + config.Window) := by omega
      have h2 : (t0 + config.Window - 1 ≤ t0 + config.Window ∧
          t0 + config.Window ≤ t0 + config.Window) := by omega
      simp only [h1, h2, and_self, decide_True, if_true]
      push_cast
      rw [hn]
      ring

/-- Witness for C6: `fixedWindow_worst_case` at rate 2 and window 10, constructed at
time 0: the bound for the calls at 0, 5, 9, 10, 10, 12 on the interval `[9, 12]`, and
the existence of a sequence reaching `2 * 2` in an interval shorter than 10. -/
theorem fixedWindow_worst_case_witness :
    (unitsIn 9 12 (admittedTimes [0, 5, 9, 10, 10, 12]
        (runCalls FixedWindow.Allow
          (NewFixedWindow (Config.mk 2 1 100 10 1 "fixed_window" false) 0)
          [0, 5, 9, 10, 10, 12]).2) : Int) ≤ 2 * 2 ∧
    ∃ (ts : List Int) (a b : Int), ((0 : Int) :: ts).Sorted (· ≤ ·) ∧ b - a < 10 ∧
      (unitsIn a b (admittedTimes ts
        (runCalls FixedWindow.Allow
          (NewFixedWindow (Config.mk 2 1 100 10 1 "fixed_window" false) 0) ts).2) : Int)
        = 2 * 2 :=
  ⟨(fixedWindow_worst_case (Config.mk 2 1 100 10 1 "fixed_window" false) 0
      (by decide) (by decide)).1 [0, 5, 9, 10, 10, 12] 9 12 (by decide) (by decide),
   (fixedWindow_worst_case (Config.mk 2 1 100 10 1 "fixed_window" false) 0
      (by decide) (by decide)).2 (by decide)⟩

/-- C6 (as stated) fails at rate 1 and window 1 ns: whatever the construction time and
the non-decreasing call times, no interval shorter than the window (that is, no single
instant) has `2 * rate = 2` admitted unit calls. -/
theorem fixedWindow_short_interval_counterexample :
    ¬ ∃ (t0 : Int) (ts : List Int) (a b : Int),
        (t0 :: ts).Sorted (· ≤ ·) ∧ b - a < 1 ∧
        2 * 1 ≤ (unitsIn a b (admittedTimes ts
          (runCalls FixedWindow.Allow
            (NewFixedWindow (Config.mk 1 1 100 1 1 "fixed_window" false) t0) ts).2) : Int) := by
  rintro ⟨t0, ts, a, b, hs, hab, hcount⟩
  have hinst := (FixedWindow.HistInv_runCalls ts
    (NewFixedWindow (Config.mk 1 1 100 1 1 "fixed_window" false) t0) t0 [] hs
    (FixedWindow.HistInv_new _ t0 (by decide) (by decide))).2 a
  simp only [List.nil_append] at hinst
  have hmono : unitsIn a b (admittedTimes ts
      (runCalls FixedWindow.Allow
        (NewFixedWindow (Config.mk 1 1 100 1 1 "fixed_window" false) t0) ts).2)
      ≤ unitsIn a a (admittedTimes ts
      (runCalls FixedWindow.Allow
        (NewFixedWindow (Config.mk 1 1 100 1 1 "fixed_window" false) t0) ts).2) := by
    unfold unitsIn
    apply List.countP_mono_left
    intro x _ hx
    simp only [decide_eq_true_eq] at hx ⊢
    omega
  have hrate : (NewFixedWindow (Config.mk 1 1 100 1 1 "fixed_window" false) t0).rate = 1 := rfl
  rw [hrate] at hinst
  omega

/-! ### Rounding error of the `float64` refill amount -/

/-- The nearest integer is within one half. -/
theorem roundHalfEven_abs (q : ℚ) : |((roundHalfEven q : Int) : ℚ) - q| ≤ 1 / 2 := by
  unfold roundHalfEven
  dsimp only
  have h1 : (⌊q⌋ : ℚ) ≤ q := Int.floor_le q
  have h2 : q < ⌊q⌋ + 1 := Int.lt_floor_add_one q
  rw [abs_le]
  by_cases ha : q - ⌊q⌋ < 1 / 2
  · simp only [ha, if_true]
    constructor <;> linarith
  · by_cases hb : 1 / 2 < q - ⌊q⌋
    · simp only [ha, hb, if_true, if_false]
      push_cast
      constructor <;> linarith
    · have heq : q - ⌊q⌋ = 1 / 2 := le_antisymm (not_lt.1 hb) (not_lt.1 ha)
      simp only [ha, hb, if_false]
      split
      · constructor <;> linarith
      · push_cast
        constructor <;> linarith

/-- An integer is its own nearest integer. -/
theorem roundHalfEven_intCast (z : Int) : roundHalfEven (z : ℚ) = z := by
  unfold roundHalfEven
  simp

/-- The digit count of 0 is 0. -/
theorem bitLen_zero (fuel : Nat) : bitLen fuel 0 = 0 := by
  cases fuel <;> simp [bitLen]

/-- With enough fuel, `n` has `bitLen` binary digits: `n < 2 ^ bitLen` and, for
positive `n`, `2 ^ bitLen ≤ 2 * n`. -/
theorem bitLen_spec (fuel : Nat) :
    ∀ n : Nat, n ≤ fuel → n < 2 ^ bitLen fuel n ∧ (0 < n → 2 ^ bitLen fuel n ≤ 2 * n) := by
  induction fuel with
  | zero =>
    intro n hn
    have : n = 0 := by omega
    subst this
    simp [bitLen]
  | succ fuel ih =>
    intro n hn
    by_cases h0 : n = 0
    · subst h0
      simp [bitLen]
    · have hstep : bitLen (fuel + 1) n = bitLen fuel (n / 2) + 1 := by
        simp [bitLen, h0]
      rw [hstep]
      obtain ⟨i1, i2⟩ := ih (n / 2) (by omega)
      rw [pow_succ]
      constructor
      · omega
      · intro _
        by_cases h2 : n / 2 = 0
        · rw [h2, bitLen_zero]
          omega
        · have := i2 (by omega)
          omega

/-- The exponent of a positive rational: `2 ^ binade x ≤ x < 2 ^ (binade x + 1)`. -/
theorem binade_spec (x : ℚ) (hx : 0 < x) :
    (2 : ℚ) ^ binade x ≤ x ∧ x < (2 : ℚ) ^ (binade x + 1) := by
  have hnum : 0 < x.num := Rat.num_pos.2 hx
  have hden : 0 < x.den := x.den_pos
  obtain ⟨p1, p2⟩ := bitLen_spec x.num.natAbs x.num.natAbs (le_refl _)
  obtain ⟨q1, q2⟩ := bitLen_spec x.den x.den (le_refl _)
  have hp0 : 0 < x.num.natAbs := by omega
  have p3 := p2 hp0
  have q3 := q2 hden
  have hxeq : x = (x.num.natAbs : ℚ) / (x.den : ℚ) := by
    have h0 : ((x.num.natAbs : Nat) : Int) = x.num := Int.natAbs_of_nonneg (le_of_lt hnum)
    have h1 : ((x.num.natAbs : Nat) : ℚ) = (x.num : ℚ) := by
      rw [← Int.cast_natCast, h0]
    rw [h1]
    exact (Rat.num_div_den x).symm
  unfold binade
  dsimp only
  generalize bitLen x.num.natAbs x.num.natAbs = a at p1 p3 ⊢
  generalize bitLen x.den x.den = b at q1 q3 ⊢
  generalize x.num.natAbs = p at p1 p3 hp0 hxeq
  generalize x.den = q at q1 q3 hden hxeq
  have hpq : (0 : ℚ) < (p : ℚ) := by exact_mod_cast hp0
  have hqq : (0 : ℚ) < (q : ℚ) := by exact_mod_cast hden
  have p1q : (p : ℚ) < (2 : ℚ) ^ a := by exact_mod_cast p1
  have p3q : (2 : ℚ) ^ a ≤ 2 * (p : ℚ) := by exact_mod_cast p3
  have q1q : (q : ℚ) < (2 : ℚ) ^ b := by exact_mod_cast q1
  have q3q : (2 : ℚ) ^ b ≤ 2 * (q : ℚ) := by exact_mod_cast q3
  have hb : (0 : ℚ) < (2 : ℚ) ^ b := pow_pos (by norm_num) b
  have ha : (0 : ℚ) < (2 : ℚ) ^ a := pow_pos (by norm_num) a
  have hl : (2 : ℚ) ^ ((a : Int) - (b : Int)) = (2 : ℚ) ^ a / (2 : ℚ) ^ b := by
    rw [zpow_sub₀ (by norm_num : (2 : ℚ) ≠ 0), zpow_natCast, zpow_natCast]
  have hup : x < (2 : ℚ) ^ ((a : Int) - (b : Int) + 1) := by
    rw [zpow_add_one₀ (by norm_num : (2 : ℚ) ≠ 0), hl, hxeq, div_mul_eq_mul_div,
      div_lt_div_iff₀ hqq hb]
    nlinarith
  have hlo : (2 : ℚ) ^ ((a : Int) - (b : Int) - 1) < x := by
    rw [zpow_sub_one₀ (by norm_num : (2 : ℚ) ≠ 0), hl, hxeq, div_mul_eq_mul_div,
      div_lt_div_iff₀ hb hqq]
    have : (2 : ℚ)⁻¹ = 1 / 2 := by norm_num
    rw [this]
    nlinarith
  by_cases h : (2 : ℚ) ^ ((a : Int) - (b : Int)) ≤ x
  · rw [if_pos h]
    exact ⟨h, hup⟩
  · rw [if_neg h]
    refine ⟨le_of_lt hlo, ?_⟩
    have : (a : Int) - (b : Int) - 1 + 1 = (a : Int) - (b : Int) := by ring
    rw [this]
    exact not_le.1 h

/-- The multiplier that `round64Pos` gives a positive `x` has 53 binary digits: it is
between `2 ^ 52` and `2 ^ 53`. -/
theorem round64Pos_mantissa (x : ℚ) (hx : 0 < x) :
    4503599627370496 ≤ roundHalfEven (x / (2 : ℚ) ^ (binade x - 52)) ∧
    roundHalfEven (x / (2 : ℚ) ^ (binade x - 52)) ≤ 9007199254740992 := by
  obtain ⟨hlo, hhi⟩ := binade_spec x hx
  generalize binade x = e at hlo hhi ⊢
  have hp : (0 : ℚ) < (2 : ℚ) ^ (e - 52) := zpow_pos (by norm_num) _
  have hsplit : (2 : ℚ) ^ e = (2 : ℚ) ^ (e - 52) * 4503599627370496 := by
    have : (4503599627370496 : ℚ) = (2 : ℚ) ^ (52 : Int) := by norm_num
    rw [this, ← zpow_add₀ (by norm_num : (2 : ℚ) ≠ 0)]
    congr 1
    omega
  have hsplit2 : (2 : ℚ) ^ (e + 1) = (2 : ℚ) ^ (e - 52) * 9007199254740992 := by
    have : (9007199254740992 : ℚ) = (2 : ℚ) ^ (53 : Int) := by norm_num
    rw [this, ← zpow_add₀ (by norm_num : (2 : ℚ) ≠ 0)]
    congr 1
    omega
  have hy1 : (4503599627370496 : ℚ) ≤ x / (2 : ℚ) ^ (e - 52) := by
    rw [le_div_iff₀ hp]
    linarith
  have hy2 : x / (2 : ℚ) ^ (e - 52) < 9007199254740992 := by
    rw [div_lt_iff₀ hp]
    linarith
  have hr := roundHalfEven_abs (x / (2 : ℚ) ^ (e - 52))
  rw [abs_le] at hr
  generalize roundHalfEven (x / (2 : ℚ) ^ (e - 52)) = m at hr ⊢
  constructor
  · have : ((4503599627370496 - 1 : Int) : ℚ) < (m : ℚ) := by
      push_cast
      linarith [hr.1]
    have := Int.cast_lt.1 this
    omega
  · have : (m : ℚ) < ((9007199254740992 + 1 : Int) : ℚ) := by
      push_cast
      linarith [hr.2]
    have := Int.cast_lt.1 this
    omega

/-- Rounding a positive rational to 53 digits changes it by at most the unit roundoff, relatively. -/
theorem round64Pos_err (x : ℚ) (hx : 0 < x) : |round64Pos x - x| ≤ unitRoundoff * x := by
  unfold round64Pos
  have h : (2 : ℚ) ^ binade x ≤ x := (binade_spec x hx).1
  generalize binade x = e at h
  have hp : (0 : ℚ) < (2 : ℚ) ^ (e - 52) := zpow_pos (by norm_num) _
  have hsplit : (2 : ℚ) ^ e = (2 : ℚ) ^ (e - 52) * 2 ^ (52 : ℕ) := by
    rw [← zpow_natCast, ← zpow_add₀ (by norm_num : (2 : ℚ) ≠ 0)]
    congr 1
    omega
  have hr := roundHalfEven_abs (x / (2 : ℚ) ^ (e - 52))
  have hx2 : x = x / (2 : ℚ) ^ (e - 52) * (2 : ℚ) ^ (e - 52) := by
    field_simp
  have hdiff : ((roundHalfEven (x / (2 : ℚ) ^ (e - 52)) : Int) : ℚ) * (2 : ℚ) ^ (e - 52) - x
      = (((roundHalfEven (x / (2 : ℚ) ^ (e - 52)) : Int) : ℚ) - x / (2 : ℚ) ^ (e - 52))
        * (2 : ℚ) ^ (e - 52) := by
    field_simp
  rw [hdiff, abs_mul, abs_of_pos hp]
  have h3 : |((roundHalfEven (x / (2 : ℚ) ^ (e - 52)) : Int) : ℚ) - x / (2 : ℚ) ^ (e - 52)|
      * (2 : ℚ) ^ (e - 52) ≤ 1 / 2 * (2 : ℚ) ^ (e - 52) :=
    mul_le_mul_of_nonneg_right hr (le_of_lt hp)
  have h4 : (2 : ℚ) ^ (e - 52) * 2 ^ (52 : ℕ) ≤ x := by rw [← hsplit]; exact h
  unfold unitRoundoff
  norm_num at h4 ⊢
  linarith

/-- Rounding to the nearest `float64` has a relative error of at most the unit roundoff. -/
theorem round64_err (x : ℚ) : |round64 x - x| ≤ unitRoundoff * |x| := by
  unfold round64
  by_cases hneg : x < 0
  · simp only [hneg, if_true]
    have h := round64Pos_err (-x) (by linarith)
    rw [abs_of_neg hneg]
    have : -round64Pos (-x) - x = -(round64Pos (-x) - -x) := by ring
    rw [this, abs_neg]
    exact h
  · by_cases hz : x = 0
    · simp [hneg, hz]
    · have hpos : 0 < x := lt_of_le_of_ne (not_lt.1 hneg) (Ne.symm hz)
      simp only [hneg, hz, if_false]
      rw [abs_of_pos hpos]
      exact round64Pos_err x hpos



/-- The unit roundoff is positive. -/
theorem unitRoundoff_pos : 0 < unitRoundoff := by
  unfold unitRoundoff
  norm_num

/-- The error growth factor of `k` roundings is at least 1. -/
theorem one_le_growth (k : Nat) : 1 ≤ (1 + unitRoundoff) ^ k :=
  one_le_pow₀ (by have := unitRoundoff_pos; linarith)

/-- A value approximates itself with no rounding. -/
theorem approx_refl (x : ℚ) : Approx 0 x x := by
  unfold Approx
  simp

/-- An approximation by `j` roundings is one by `k ≥ j` roundings. -/
theorem approx_mono {j k : Nat} {a x : ℚ} (hjk : j ≤ k) (h : Approx j a x) : Approx k a x := by
  unfold Approx at h ⊢
  have hpow : (1 + unitRoundoff) ^ j ≤ (1 + unitRoundoff) ^ k :=
    pow_le_pow_right₀ (by have := unitRoundoff_pos; linarith) hjk
  have : ((1 + unitRoundoff) ^ j - 1) * |x| ≤ ((1 + unitRoundoff) ^ k - 1) * |x| :=
    mul_le_mul_of_nonneg_right (by linarith) (abs_nonneg x)
  linarith

/-- Rounding an approximation adds one rounding. -/
theorem approx_round {k : Nat} {a x : ℚ} (h : Approx k a x) : Approx (k + 1) (round64 a) x := by
  unfold Approx at h ⊢
  have hu := unitRoundoff_pos
  have h1 := round64_err a
  have h2 : |a| ≤ |x| + |a - x| := by
    have := abs_add (a - x) x
    simp only [sub_add_cancel] at this
    linarith
  have h3 : |round64 a - x| ≤ |round64 a - a| + |a - x| := by
    have := abs_add (round64 a - a) (a - x)
    simp only [sub_add_sub_cancel] at this
    exact this
  have h4 : unitRoundoff * |a| ≤ unitRoundoff * (|x| + |a - x|) :=
    mul_le_mul_of_nonneg_left h2 (le_of_lt hu)
  have h5 : (1 + unitRoundoff) * |a - x|
      ≤ (1 + unitRoundoff) * (((1 + unitRoundoff) ^ k - 1) * |x|) :=
    mul_le_mul_of_nonneg_left h (by linarith)
  rw [pow_succ]
  nlinarith [abs_nonneg x, abs_nonneg (a - x)]

/-- The product of two approximations approximates the product. -/
theorem approx_mul {j k : Nat} {a b x y : ℚ} (ha : Approx j a x) (hb : Approx k b y) :
    Approx (j + k) (a * b) (x * y) := by
  unfold Approx at ha hb ⊢
  have hj := one_le_growth j
  have hk := one_le_growth k
  have hsplit : a * b - x * y = (a - x) * b + x * (b - y) := by ring
  have hb2 : |b| ≤ |y| + |b - y| := by
    have := abs_add (b - y) y
    simp only [sub_add_cancel] at this
    linarith
  have h1 : |a * b - x * y| ≤ |a - x| * |b| + |x| * |b - y| := by
    rw [hsplit]
    have := abs_add ((a - x) * b) (x * (b - y))
    rw [abs_mul, abs_mul] at this
    exact this
  have h2 : |a - x| * |b| ≤ ((1 + unitRoundoff) ^ j - 1) * |x| * ((1 + unitRoundoff) ^ k * |y|) := by
    apply mul_le_mul ha _ (abs_nonneg b)
    · exact mul_nonneg (by linarith) (abs_nonneg x)
    · have : |b| ≤ |y| + ((1 + unitRoundoff) ^ k - 1) * |y| := by linarith
      linarith
  have h3 : |x| * |b - y| ≤ |x| * (((1 + unitRoundoff) ^ k - 1) * |y|) :=
    mul_le_mul_of_nonneg_left hb (abs_nonneg x)
  rw [pow_add, abs_mul]
  have : ((1 + unitRoundoff) ^ j - 1) * |x| * ((1 + unitRoundoff) ^ k * |y|)
      + |x| * (((1 + unitRoundoff) ^ k - 1) * |y|)
      = ((1 + unitRoundoff) ^ j * (1 + unitRoundoff) ^ k - 1) * (|x| * |y|) := by ring
  linarith

/-- Dividing an approximation and its target by the same number keeps the relative error. -/
theorem approx_div_const {k : Nat} {a x : ℚ} (c : ℚ) (h : Approx k a x) :
    Approx k (a / c) (x / c) := by
  unfold Approx at h ⊢
  have : a / c - x / c = (a - x) / c := by ring
  rw [this, abs_div, abs_div]
  have hc : 0 ≤ |c|⁻¹ := inv_nonneg.2 (abs_nonneg c)
  have := mul_le_mul_of_nonneg_right h hc
  simp only [div_eq_mul_inv]
  linarith [this, mul_assoc ((1 + unitRoundoff) ^ k - 1) |x| |c|⁻¹]

/-- The sum of two approximations of numbers of the same sign approximates the sum. -/
theorem approx_add {k : Nat} {a b x y : ℚ} (ha : Approx k a x) (hb : Approx k b y)
    (hxy : 0 ≤ x * y) : Approx k (a + b) (x + y) := by
  unfold Approx at ha hb ⊢
  have hk := one_le_growth k
  have hsum : |x + y| = |x| + |y| := by
    rcases le_total 0 x with hx | hx
    · rcases le_total 0 y with hy | hy
      · rw [abs_of_nonneg hx, abs_of_nonneg hy, abs_of_nonneg (by linarith)]
      · rcases eq_or_lt_of_le hx with h0 | h0
        · rw [← h0]; simp
        · have : y = 0 := by
            by_contra hne
            have : y < 0 := lt_of_le_of_ne hy hne
            nlinarith
          rw [this]; simp
    · rcases le_total 0 y with hy | hy
      · rcases eq_or_lt_of_le hy with h0 | h0
        · rw [← h0]; simp
        · have : x = 0 := by
            by_contra hne
            have : x < 0 := lt_of_le_of_ne hx hne
            nlinarith
          rw [this]; simp
      · rw [abs_of_nonpos hx, abs_of_nonpos hy, abs_of_nonpos (by linarith)]
        ring
  have h1 : |a + b - (x + y)| ≤ |a - x| + |b - y| := by
    have := abs_add (a - x) (b - y)
    have e : a - x + (b - y) = a + b - (x + y) := by ring
    rw [e] at this
    exact this
  rw [hsum]
  nlinarith


/-- Go division of a duration by one second: quotient and remainder recompose it and have its sign. -/
theorem tdiv_tmod_Second (d : Int) :
    d = Int.tdiv d Second * Second + Int.tmod d Second ∧
    ((0 ≤ Int.tdiv d Second ∧ 0 ≤ Int.tmod d Second) ∨
     (Int.tdiv d Second ≤ 0 ∧ Int.tmod d Second ≤ 0)) := by
  have hsum := Int.tdiv_add_tmod d Second
  rcases le_total 0 d with hd | hd
  · have h1 : Int.tdiv d Second = d / Second := Int.tdiv_eq_ediv hd (by decide)
    have h2 : Int.tmod d Second = d % Second := Int.tmod_eq_emod hd (by decide)
    rw [h1, h2] at hsum ⊢
    unfold Second at hsum ⊢
    omega
  · have hq : Int.tdiv d Second = -Int.tdiv (-d) Second := by
      have := Int.neg_tdiv (-d) Second
      rw [neg_neg] at this
      exact this
    have h1 : Int.tdiv (-d) Second = (-d) / Second :=
      Int.tdiv_eq_ediv (by omega) (by decide)
    rw [hq, h1] at hsum ⊢
    unfold Second at hsum ⊢
    omega

/-- The value of `Seconds` approximates the exact number of seconds by three roundings. -/
theorem Seconds_approx (d : Int) : Approx 3 (Seconds d) ((d : ℚ) / 1000000000) := by
  obtain ⟨hsum, hsign⟩ := tdiv_tmod_Second d
  unfold Seconds
  dsimp only
  have hsec : Approx 2 (float64 (Int.tdiv d Second)) ((Int.tdiv d Second : Int) : ℚ) :=
    approx_mono (by decide) (approx_round (approx_refl _))
  have hnsec : Approx 2 (round64 (float64 (Int.tmod d Second) / 1000000000))
      (((Int.tmod d Second : Int) : ℚ) / 1000000000) :=
    approx_round (approx_div_const _ (approx_round (approx_refl _)))
  have hprod : (0 : ℚ) ≤ ((Int.tdiv d Second : Int) : ℚ)
      * (((Int.tmod d Second : Int) : ℚ) / 1000000000) := by
    rcases hsign with ⟨h1, h2⟩ | ⟨h1, h2⟩
    · have a1 : (0 : ℚ) ≤ ((Int.tdiv d Second : Int) : ℚ) := by exact_mod_cast h1
      have a2 : (0 : ℚ) ≤ ((Int.tmod d Second : Int) : ℚ) := by exact_mod_cast h2
      positivity
    · have a1 : ((Int.tdiv d Second : Int) : ℚ) ≤ 0 := by exact_mod_cast h1
      have a2 : ((Int.tmod d Second : Int) : ℚ) ≤ 0 := by exact_mod_cast h2
      have a3 : ((Int.tmod d Second : Int) : ℚ) / 1000000000 ≤ 0 :=
        div_nonpos_of_nonpos_of_nonneg a2 (by norm_num)
      exact mul_nonneg_of_nonpos_of_nonpos a1 a3
  have hadd := approx_round (approx_add hsec hnsec hprod)
  have htarget : ((Int.tdiv d Second : Int) : ℚ) + ((Int.tmod d Second : Int) : ℚ) / 1000000000
      = (d : ℚ) / 1000000000 := by
    have : (d : ℚ) = ((Int.tdiv d Second : Int) : ℚ) * 1000000000
        + ((Int.tmod d Second : Int) : ℚ) := by
      have h := congrArg (fun z : Int => (z : ℚ)) hsum
      simp only [Int.cast_add, Int.cast_mul] at h
      rw [h]
      unfold Second
      norm_num
    rw [this]
    field_simp
  rw [htarget] at hadd
  exact hadd

/-- The `float64` product of `refill` is within `6 * 2 ^ (-53)`, relatively, of the exact product. -/
theorem product_approx (rate elapsed : Int) :
    |round64 (float64 rate * Seconds elapsed) - (rate : ℚ) * elapsed / 1000000000|
      ≤ 6 * unitRoundoff * |(rate : ℚ) * elapsed / 1000000000| := by
  have h1 : Approx 1 (float64 rate) (rate : ℚ) := approx_round (approx_refl _)
  have h2 := approx_round (approx_mul h1 (Seconds_approx elapsed))
  unfold Approx at h2
  have htarget : (rate : ℚ) * ((elapsed : ℚ) / 1000000000) = (rate : ℚ) * elapsed / 1000000000 := by
    ring
  rw [htarget] at h2
  have hnum : (1 + unitRoundoff) ^ (1 + 3 + 1) - 1 ≤ 6 * unitRoundoff := by
    unfold unitRoundoff
    norm_num
  have := mul_le_mul_of_nonneg_right hnum (abs_nonneg ((rate : ℚ) * elapsed / 1000000000))
  linarith


/-- The truncation of a value that is not positive is not positive. -/
theorem truncInt64_nonpos (x : ℚ) (h : x ≤ 0) : truncInt64 x ≤ 0 := by
  have ht : (if 0 ≤ x then ⌊x⌋ else -⌊-x⌋ : Int) ≤ 0 := by
    by_cases h0 : 0 ≤ x
    · have : x = 0 := le_antisymm h h0
      simp [this]
    · rw [if_neg h0]
      have : 0 ≤ ⌊-x⌋ := Int.floor_nonneg.2 (by linarith)
      omega
  unfold truncInt64
  dsimp only
  generalize (if 0 ≤ x then ⌊x⌋ else -⌊-x⌋ : Int) = t at ht
  split
  · exact ht
  · decide

/-- The truncation of a value that is not negative and below `2 ^ 63` is its floor. -/
theorem truncInt64_of_nonneg (x : ℚ) (h : 0 ≤ x) (h2 : x < 9223372036854775808) :
    truncInt64 x = ⌊x⌋ := by
  unfold truncInt64
  dsimp only
  have h0 : 0 ≤ ⌊x⌋ := Int.floor_nonneg.2 h
  have h1 : ⌊x⌋ < 9223372036854775808 := Int.floor_lt.2 (by push_cast; exact h2)
  simp only [h, if_true]
  rw [if_pos ⟨by omega, by omega⟩]

/-- The exact product in seconds, as a rational. -/
theorem exact_product_cast (rate elapsed : Int) :
    (rate : ℚ) * elapsed / 1000000000 = ((rate * elapsed : Int) : ℚ) / 1000000000 := by
  push_cast
  ring

/-- The refill amount is not positive while `rate * elapsed` is below one second. -/
theorem tokensToAdd_nonpos (rate elapsed : Int) (h : rate * elapsed < Second) :
    tokensToAdd rate elapsed ≤ 0 := by
  have happ := product_approx rate elapsed
  rw [exact_product_cast] at happ
  unfold tokensToAdd
  generalize round64 (float64 rate * Seconds elapsed) = pf at happ
  generalize rate * elapsed = x at h happ
  have hu : unitRoundoff = 1 / 9007199254740992 := rfl
  rcases le_total x 0 with hx | hx
  · apply truncInt64_nonpos
    have hx2 : ((x : Int) : ℚ) / 1000000000 ≤ 0 :=
      div_nonpos_of_nonpos_of_nonneg (by exact_mod_cast hx) (by norm_num)
    rw [abs_of_nonpos hx2, abs_le] at happ
    rw [hu] at happ
    linarith [happ.2]
  · have hx1 : (0 : ℚ) ≤ ((x : Int) : ℚ) / 1000000000 := by
      have : (0 : ℚ) ≤ ((x : Int) : ℚ) := by exact_mod_cast hx
      positivity
    have hx2 : ((x : Int) : ℚ) / 1000000000 ≤ 999999999 / 1000000000 := by
      have : x ≤ 999999999 := by unfold Second at h; omega
      have : ((x : Int) : ℚ) ≤ 999999999 := by exact_mod_cast this
      linarith
    rw [abs_of_nonneg hx1, abs_le, hu] at happ
    have hlo : 0 ≤ pf := by nlinarith [happ.1]
    have hhi : pf < 1 := by nlinarith [happ.2]
    rw [truncInt64_of_nonneg pf hlo (by linarith)]
    have : ⌊pf⌋ = 0 := Int.floor_eq_iff.2 ⟨by simpa using hlo, by simpa using hhi⟩
    omega

/-- Within a million seconds of accrual the refill amount is the floor of the exact
product or one less. -/
theorem tokensToAdd_bounds (rate elapsed : Int) (h0 : 0 ≤ rate * elapsed)
    (h1 : rate * elapsed ≤ 1000000 * Second) :
    (rate * elapsed) / Second - 1 ≤ tokensToAdd rate elapsed ∧
    tokensToAdd rate elapsed ≤ (rate * elapsed) / Second ∧
    0 ≤ tokensToAdd rate elapsed := by
  have happ := product_approx rate elapsed
  rw [exact_product_cast] at happ
  unfold tokensToAdd
  generalize round64 (float64 rate * Seconds elapsed) = pf at happ
  generalize rate * elapsed = x at h0 h1 happ
  have hu : unitRoundoff = 1 / 9007199254740992 := rfl
  have hx0 : (0 : ℚ) ≤ ((x : Int) : ℚ) := by exact_mod_cast h0
  have hx1 : ((x : Int) : ℚ) ≤ 1000000 * 1000000000 := by
    have : x ≤ 1000000 * 1000000000 := by unfold Second at h1; omega
    exact_mod_cast this
  have hp0 : (0 : ℚ) ≤ ((x : Int) : ℚ) / 1000000000 := by positivity
  rw [abs_of_nonneg hp0, abs_le, hu] at happ
  have hlo : 0 ≤ pf := by nlinarith [happ.1]
  have hhi : pf < 9223372036854775808 := by nlinarith [happ.2]
  rw [truncInt64_of_nonneg pf hlo hhi]
  -- the exact quotient and remainder
  have hq : x = Second * (x / Second) + x % Second := (Int.ediv_add_emod x Second).symm
  have hr0 : 0 ≤ x % Second := Int.emod_nonneg x (by decide)
  have hr1 : x % Second < Second := Int.emod_lt_of_pos x (by decide)
  generalize x / Second = F at hq ⊢
  generalize x % Second = r at hq hr0 hr1
  have hxq : ((x : Int) : ℚ) = 1000000000 * (F : ℚ) + (r : ℚ) := by
    have := congrArg (fun z : Int => (z : ℚ)) hq
    simp only [Int.cast_add, Int.cast_mul] at this
    rw [this]
    unfold Second
    norm_num
  have hr0q : (0 : ℚ) ≤ (r : ℚ) := by exact_mod_cast hr0
  have hr1q : (r : ℚ) ≤ 999999999 := by
    have : r ≤ 999999999 := by unfold Second at hr1; omega
    exact_mod_cast this
  have hpf_hi : pf < (F : ℚ) + 1 := by
    rw [hxq] at happ hx1
    nlinarith [happ.2]
  have hpf_lo : (F : ℚ) - 1 < pf := by
    rw [hxq] at happ hx1
    nlinarith [happ.1]
  refine ⟨?_, ?_, Int.floor_nonneg.2 hlo⟩
  · have : ((F - 1 : Int) : ℚ) ≤ pf := by push_cast; linarith
    exact Int.le_floor.2 this
  · have : ⌊pf⌋ < F + 1 := Int.floor_lt.2 (by push_cast; exact hpf_hi)
    omega

/-- One token of margin absorbs the rounding: the refill amount is at least `n` when
the exact product is at least `n + 1` tokens and at most `2 ^ 62` tokens. -/
theorem tokensToAdd_ge_of_margin (rate elapsed n : Int) (hn0 : 0 ≤ n)
    (hn1 : n + 1 ≤ 1125899906842624)
    (h : (n + 1) * Second ≤ rate * elapsed)
    (h2 : rate * elapsed ≤ 4611686018427387904 * Second) :
    n ≤ tokensToAdd rate elapsed := by
  have happ := product_approx rate elapsed
  rw [exact_product_cast] at happ
  unfold tokensToAdd
  generalize round64 (float64 rate * Seconds elapsed) = pf at happ
  generalize rate * elapsed = x at h h2 happ
  have hu : unitRoundoff = 1 / 9007199254740992 := rfl
  have hxq : ((n : ℚ) + 1) * 1000000000 ≤ ((x : Int) : ℚ) := by
    have : (n + 1) * 1000000000 ≤ x := by unfold Second at h; exact h
    exact_mod_cast this
  have hx2 : ((x : Int) : ℚ) ≤ 4611686018427387904 * 1000000000 := by
    have : x ≤ 4611686018427387904 * 1000000000 := by unfold Second at h2; exact h2
    exact_mod_cast this
  have hn0q : (0 : ℚ) ≤ (n : ℚ) := by exact_mod_cast hn0
  have hn1q : (n : ℚ) + 1 ≤ 1125899906842624 := by exact_mod_cast hn1
  have hp0 : (0 : ℚ) ≤ ((x : Int) : ℚ) / 1000000000 := by
    have : (0 : ℚ) ≤ ((x : Int) : ℚ) := by nlinarith
    positivity
  rw [abs_of_nonneg hp0, abs_le, hu] at happ
  have hp : (n : ℚ) + 1 ≤ ((x : Int) : ℚ) / 1000000000 := by
    rw [le_div_iff₀ (by norm_num)]
    exact hxq
  have hlo : (n : ℚ) ≤ pf := by nlinarith [happ.1]
  have hhi : pf < 9223372036854775808 := by nlinarith [happ.2]
  rw [truncInt64_of_nonneg pf (by linarith) hhi]
  exact Int.le_floor.2 hlo

/-- Within a million seconds of accrual, one nanosecond of the rate beyond `n` tokens
is enough: the refill amount is at least `n` when the exact product exceeds `n`
seconds. -/
theorem tokensToAdd_ge_of_slack (rate elapsed n : Int) (hn0 : 0 ≤ n)
    (h1 : n * Second + 1 ≤ rate * elapsed) (h2 : rate * elapsed ≤ 1000000 * Second) :
    n ≤ tokensToAdd rate elapsed := by
  have happ := product_approx rate elapsed
  rw [exact_product_cast] at happ
  unfold tokensToAdd
  generalize round64 (float64 rate * Seconds elapsed) = pf at happ
  generalize rate * elapsed = x at h1 h2 happ
  have hu : unitRoundoff = 1 / 9007199254740992 := rfl
  have hx1 : (n : ℚ) * 1000000000 + 1 ≤ ((x : Int) : ℚ) := by
    have : n * 1000000000 + 1 ≤ x := by unfold Second at h1; exact h1
    exact_mod_cast this
  have hx2 : ((x : Int) : ℚ) ≤ 1000000 * 1000000000 := by
    have : x ≤ 1000000 * 1000000000 := by unfold Second at h2; exact h2
    exact_mod_cast this
  have hn0q : (0 : ℚ) ≤ (n : ℚ) := by exact_mod_cast hn0
  have hp0 : (0 : ℚ) ≤ ((x : Int) : ℚ) / 1000000000 := by
    have : (0 : ℚ) ≤ ((x : Int) : ℚ) := by nlinarith
    positivity
  rw [abs_of_nonneg hp0, abs_le, hu] at happ
  have hlo : (n : ℚ) ≤ pf := by nlinarith [happ.1]
  have hhi : pf < 9223372036854775808 := by nlinarith [happ.2]
  rw [truncInt64_of_nonneg pf (by linarith) hhi]
  exact Int.le_floor.2 hlo

/-! ### C7: burst limit of a fresh token bucket -/

/-- Closed form of the unit call `TokenBucket.Allow` at a time that refills nothing. -/
theorem TokenBucket.Allow_noRefill (tb : TokenBucket) (now : Int)
    (h : tb.rate * (now - tb.lastRefillTime) < Second) :
    tb.Allow now =
      (if 1 ≤ tb.tokens then
        ({ tb with tokens := tb.tokens - 1, allowedCount := tb.allowedCount + 1 }, true)
       else ({ tb with deniedCount := tb.deniedCount + 1 }, false)) := by
  have hz : ¬ (tokensToAdd tb.rate (now - tb.lastRefillTime) > 0) := by
    have := tokensToAdd_nonpos tb.rate (now - tb.lastRefillTime) h
    omega
  have hr : tb.refill now = tb := by
    unfold TokenBucket.refill
    simp only [hz, if_false]
  unfold TokenBucket.Allow TokenBucket.AllowN
  rw [hr]
  by_cases hc : 1 ≤ tb.tokens
  · have h2 : tb.tokens - 1 ≥ 0 := by omega
    simp [hc, h2]
  · simp [hc]

/-- Unit calls that refill nothing: call number `i` (from 0) is admitted exactly when
`i + 1 ≤ tokens`. -/
theorem TokenBucket.runCalls_noRefill (ts : List Int) :
    ∀ tb : TokenBucket, (∀ t ∈ ts, tb.rate * (t - tb.lastRefillTime) < Second) →
      (runCalls TokenBucket.Allow tb ts).2 =
        (List.range ts.length).map (fun i : Nat => decide ((i : Int) + 1 ≤ tb.tokens)) := by
  induction ts with
  | nil => intro tb _; simp [runCalls]
  | cons t rest ih =>
    intro tb h
    have ht := h t (by simp)
    have hrest : ∀ u ∈ rest, tb.rate * (u - tb.lastRefillTime) < Second :=
      fun u hu => h u (List.mem_cons_of_mem _ hu)
    simp only [runCalls, List.length_cons, List.range_succ_eq_map, List.map_cons,
      List.map_map]
    rw [TokenBucket.Allow_noRefill tb t ht]
    by_cases hc : 1 ≤ tb.tokens
    · rw [if_pos hc]
      have := ih { tb with tokens := tb.tokens - 1, allowedCount := tb.allowedCount + 1 } hrest
      rw [this]
      simp only [Nat.cast_zero, zero_add, hc, decide_True, List.cons.injEq, true_and]
      apply List.map_congr_left
      intro i _
      simp only [Function.comp, Nat.cast_succ]
      congr 1
      apply propext
      constructor <;> intro _ <;> omega
    · rw [if_neg hc]
      have := ih { tb with deniedCount := tb.deniedCount + 1 } hrest
      rw [this]
      simp only [Nat.cast_zero, zero_add, hc, decide_False, List.cons.injEq, true_and]
      apply List.map_congr_left
      intro i _
      simp only [Function.comp, Nat.cast_succ]
      congr 1
      apply propext
      constructor <;> intro _ <;> omega

/-- C7: on a token bucket freshly constructed or freshly `Reset` at `t0`, with unit
calls at times `t` early enough that nothing is refilled (`rate * (t - t0)` below one
second), call number `i` (from 1) returns true exactly when `i ≤ capacity`.  It holds
for every capacity, in particular for `capacity ≥ 0`, and needs no order among the
call times. -/
theorem tokenBucket_burst (config : Config) (tb : TokenBucket) (t0 : Int) (ts : List Int)
    (hfresh : tb = NewTokenBucket config t0 ∨ ∃ old : TokenBucket, tb = old.Reset t0)
    (hts : ∀ t ∈ ts, tb.rate * (t - t0) < Second) :
    (runCalls TokenBucket.Allow tb ts).2 =
      (List.range ts.length).map (fun i : Nat => decide ((i : Int) + 1 ≤ tb.capacity)) := by
  have hstate : tb.tokens = tb.capacity ∧ tb.lastRefillTime = t0 := by
    rcases hfresh with h | ⟨old, h⟩
    · subst h
      exact ⟨rfl, rfl⟩
    · subst h
      exact ⟨rfl, rfl⟩
  have := TokenBucket.runCalls_noRefill ts tb (by rw [hstate.2]; exact hts)
  rw [this, hstate.1]

/-- Witness for C7: `tokenBucket_burst` at rate 10 per second and capacity 3, constructed
at time 0, with five calls within the first 50 ms: exactly the first three are
admitted. -/
theorem tokenBucket_burst_witness :
    (runCalls TokenBucket.Allow
        (NewTokenBucket (Config.mk 10 1 3 1000000000 1 "token_bucket" false) 0)
        [0, 10, 10000000, 20000000, 50000000]).2 = [true, true, true, false, false] :=
  tokenBucket_burst (Config.mk 10 1 3 1000000000 1 "token_bucket" false)
    (NewTokenBucket (Config.mk 10 1 3 1000000000 1 "token_bucket" false) 0) 0
    [0, 10, 10000000, 20000000, 50000000] (Or.inl rfl) (by decide)

/-! ### C8: quota of a fresh fixed window -/

/-- Unit calls that trigger no window reset: call number `i` (from 0) is admitted
exactly when `count + i + 1 ≤ rate`. -/
theorem FixedWindow.runCalls_noReset (ts : List Int) :
    ∀ fw : FixedWindow, (∀ t ∈ ts, t - fw.windowStart < fw.window) →
      (runCalls FixedWindow.Allow fw ts).2 =
        (List.range ts.length).map (fun i : Nat => decide (fw.count + (i : Int) + 1 ≤ fw.rate)) := by
  induction ts with
  | nil => intro fw _; simp [runCalls]
  | cons t rest ih =>
    intro fw h
    have ht : ¬ (t - fw.windowStart ≥ fw.window) := by
      have := h t (by simp)
      omega
    have hrest : ∀ u ∈ rest, u - fw.windowStart < fw.window :=
      fun u hu => h u (List.mem_cons_of_mem _ hu)
    simp only [runCalls, List.length_cons, List.range_succ_eq_map, List.map_cons,
      List.map_map]
    rw [FixedWindow.Allow_eq, if_neg ht]
    by_cases hc : fw.count + 1 ≤ fw.rate
    · rw [if_pos hc]
      have := ih { fw with count := fw.count + 1, allowedCount := fw.allowedCount + 1 } hrest
      rw [this]
      simp only [Nat.cast_zero, add_zero, hc, decide_True, List.cons.injEq, true_and]
      apply List.map_congr_left
      intro i _
      simp only [Function.comp, Nat.cast_succ]
      congr 1
      apply propext
      constructor <;> intro _ <;> omega
    · rw [if_neg hc]
      have := ih { fw with deniedCount := fw.deniedCount + 1 } hrest
      rw [this]
      simp only [Nat.cast_zero, add_zero, hc, decide_False, List.cons.injEq, true_and]
      apply List.map_congr_left
      intro i _
      simp only [Function.comp, Nat.cast_succ]
      congr 1
      apply propext
      constructor <;> intro _ <;> omega

/-- C8: on a fixed window freshly constructed or freshly `Reset` at `t0`, unit calls at
times `t` with `t - t0 < window` are admitted exactly while the call number (from 1)
is at most `rate`: the first `rate` calls return true and every later one false. -/
theorem fixedWindow_quota (config : Config) (fw : FixedWindow) (t0 : Int) (ts : List Int)
    (hfresh : fw = NewFixedWindow config t0 ∨ ∃ old : FixedWindow, fw = old.Reset t0)
    (hts : ∀ t ∈ ts, t - t0 < fw.window) :
    (runCalls FixedWindow.Allow fw ts).2 =
      (List.range ts.length).map (fun i : Nat => decide ((i : Int) + 1 ≤ fw.rate)) := by
  have hstate : fw.count = 0 ∧ fw.windowStart = t0 := by
    rcases hfresh with h | ⟨old, h⟩
    · subst h
      exact ⟨rfl, rfl⟩
    · subst h
      exact ⟨rfl, rfl⟩
  have := FixedWindow.runCalls_noReset ts fw (by rw [hstate.2]; exact hts)
  rw [this, hstate.1]
  simp

/-- Witness for C8: `fixedWindow_quota` at rate 2, window 10, constructed at time 0,
with four calls at times 0, 3, 3, 9, of which exactly the first two are admitted. -/
theorem fixedWindow_quota_witness :
    (runCalls FixedWindow.Allow (NewFixedWindow (Config.mk 2 1 100 10 1 "fixed_window" false) 0)
        [0, 3, 3, 9]).2 = [true, true, false, false] :=
  fixedWindow_quota (Config.mk 2 1 100 10 1 "fixed_window" false)
    (NewFixedWindow (Config.mk 2 1 100 10 1 "fixed_window" false) 0) 0 [0, 3, 3, 9]
    (Or.inl rfl) (by decide)

/-! ### C9: quota of a fresh sliding window and its metric -/

/-- When no entry is before the cutoff, `dropWhile` removes nothing. -/
theorem dropWhile_lt_eq_self (cutoff : Int) (l : List Int) (h : ∀ x ∈ l, cutoff ≤ x) :
    l.dropWhile (fun x => decide (x < cutoff)) = l := by
  cases l with
  | nil => rfl
  | cons y ys =>
    have hy : ¬ y < cutoff := by
      have := h y (by simp)
      omega
    simp [List.dropWhile_cons, hy]

/-- Closed form of `SlidingWindow.Allow` at a time that expires no entry. -/
theorem SlidingWindow.Allow_noTrim (sw : SlidingWindow) (now : Int)
    (h : ∀ x ∈ sw.requests, now - sw.window ≤ x) :
    sw.Allow now =
      (if (sw.requests.length : Int) < sw.rate then
        ({ sw with requests := sw.requests ++ [now] }, true)
       else (sw, false)) := by
  unfold SlidingWindow.Allow
  rw [SlidingWindow.clearExpired_eq, dropWhile_lt_eq_self _ _ h]

/-- Snapshot of `SlidingWindow.GetMetrics` at a time that expires no entry: the number
of allowed requests is the length of the log. -/
theorem SlidingWindow.GetMetrics_noTrim (sw : SlidingWindow) (now : Int)
    (h : ∀ x ∈ sw.requests, now - sw.window ≤ x) :
    (sw.GetMetrics now).2.AllowedRequests = sw.requests.length := by
  unfold SlidingWindow.GetMetrics
  rw [SlidingWindow.clearExpired_eq, dropWhile_lt_eq_self _ _ h]

/-- Unit calls at times inside `[L, L + window]` on a log whose entries are all at or
after `L`: nothing expires, call number `i` (from 0) is admitted exactly when
`length + i + 1 ≤ rate`, and the log grows by one entry per admitted call. -/
theorem SlidingWindow.runCalls_within (L : Int) (ts : List Int) :
    ∀ sw : SlidingWindow, (∀ x ∈ sw.requests, L ≤ x) →
      (∀ t ∈ ts, L ≤ t ∧ t ≤ L + sw.window) →
      (runCalls SlidingWindow.Allow sw ts).2 =
        (List.range ts.length).map
          (fun i : Nat => decide ((sw.requests.length : Int) + (i : Int) + 1 ≤ sw.rate)) ∧
      (runCalls SlidingWindow.Allow sw ts).1.window = sw.window ∧
      (∀ x ∈ (runCalls SlidingWindow.Allow sw ts).1.requests, L ≤ x) ∧
      ((runCalls SlidingWindow.Allow sw ts).1.requests.length : Int) =
        (sw.requests.length : Int) + ((runCalls SlidingWindow.Allow sw ts).2.count true : Nat) := by
  induction ts with
  | nil => intro sw hL _; simpa [runCalls] using hL
  | cons t rest ih =>
    intro sw hL h
    have ht := h t (by simp)
    have hrest : ∀ u ∈ rest, L ≤ u ∧ u ≤ L + sw.window :=
      fun u hu => h u (List.mem_cons_of_mem _ hu)
    have hno : ∀ x ∈ sw.requests, t - sw.window ≤ x := by
      intro x hx
      have := hL x hx
      omega
    simp only [runCalls, List.length_cons, List.range_succ_eq_map, List.map_cons,
      List.map_map]
    rw [SlidingWindow.Allow_noTrim sw t hno]
    by_cases hc : (sw.requests.length : Int) < sw.rate
    · rw [if_pos hc]
      have hL1 : ∀ x ∈ sw.requests ++ [t], L ≤ x := by
        intro x hx
        rcases List.mem_append.1 hx with hx | hx
        · exact hL x hx
        · simp only [List.mem_singleton] at hx
          omega
      obtain ⟨h1, h2, h3, h4⟩ := ih { sw with requests := sw.requests ++ [t] } hL1 hrest
      refine ⟨?_, h2, h3, ?_⟩
      · rw [h1]
        have hd : decide ((sw.requests.length : Int) + ((0 : Nat) : Int) + 1 ≤ sw.rate) = true := by
          simp only [Nat.cast_zero, add_zero, decide_eq_true_eq]
          omega
        rw [hd]
        simp only [List.cons.injEq, true_and]
        apply List.map_congr_left
        intro i _
        simp only [Function.comp, Nat.cast_succ, List.length_append, List.length_singleton]
        congr 1
        apply propext
        constructor <;> intro _ <;> omega
      · rw [h4]
        simp only [List.length_append, List.length_singleton, List.count_cons_self]
        push_cast
        omega
    · rw [if_neg hc]
      obtain ⟨h1, h2, h3, h4⟩ := ih sw hL hrest
      refine ⟨?_, h2, h3, ?_⟩
      · rw [h1]
        have hd : decide ((sw.requests.length : Int) + ((0 : Nat) : Int) + 1 ≤ sw.rate) = false := by
          simp only [Nat.cast_zero, add_zero, decide_eq_false_iff_not]
          omega
        rw [hd]
        simp only [List.cons.injEq, true_and]
        apply List.map_congr_left
        intro i _
        simp only [Function.comp, Nat.cast_succ]
        congr 1
        apply propext
        constructor <;> intro _ <;> omega
      · rw [h4]
        simp

/-- Among the first `k` call numbers exactly `min k r` satisfy `i + 1 ≤ r`. -/
theorem count_true_quota (r : Int) (hr : 0 ≤ r) (k : Nat) :
    ((((List.range k).map (fun i : Nat => decide ((i : Int) + 1 ≤ r))).count true : Nat) : Int)
      = min (k : Int) r := by
  induction k with
  | zero => simp [hr]
  | succ n ih =>
    rw [List.range_succ, List.map_append, List.count_append]
    push_cast
    rw [ih]
    by_cases h : (n : Int) + 1 ≤ r
    · simp only [List.map_cons, List.map_nil, h, decide_True, List.count_cons_self,
        List.count_nil]
      push_cast
      omega
    · simp only [List.map_cons, List.map_nil, h, decide_False]
      have : List.count true [false] = 0 := by decide
      rw [this]
      push_cast
      omega

/-- C9: on a sliding window freshly constructed with rate `r ≥ 0`, `k` unit `Allow`
calls at non-decreasing times, none later than the first call time plus the window,
return true exactly for the first `min k r` of them (call number `i`, from 1, is
admitted exactly when `i ≤ r`), and `GetMetrics` called no later than the first call
time plus the window reports `AllowedRequests = min k r`. -/
theorem slidingWindow_quota (config : Config) (ts : List Int) (g : Int)
    (hr : 0 ≤ config.Rate) (hs : ts.Sorted (· ≤ ·))
    (hw : ∀ t1 ∈ ts.head?, (∀ t ∈ ts, t ≤ t1 + config.Window) ∧ g ≤ t1 + config.Window) :
    ∃ sw0 : SlidingWindow, NewSlidingWindow config = some sw0 ∧
      (runCalls SlidingWindow.Allow sw0 ts).2 =
        (List.range ts.length).map (fun i : Nat => decide ((i : Int) + 1 ≤ config.Rate)) ∧
      (((runCalls SlidingWindow.Allow sw0 ts).2.count true : Nat) : Int)
        = min (ts.length : Int) config.Rate ∧
      ((runCalls SlidingWindow.Allow sw0 ts).1.GetMetrics g).2.AllowedRequests
        = min (ts.length : Int) config.Rate := by
  refine ⟨{ rate := config.Rate, window := config.Window, requests := [] }, ?_, ?_⟩
  · have h : ¬ config.Rate < 0 := by omega
    simp [NewSlidingWindow, h]
  · cases ts with
    | nil =>
      refine ⟨by simp [runCalls], by simpa [runCalls] using hr, ?_⟩
      simpa [runCalls, SlidingWindow.GetMetrics, SlidingWindow.clearExpired, expiredCount]
        using hr
    | cons t1 rest =>
      obtain ⟨hall, hg⟩ := hw t1 (by simp)
      have hin : ∀ t ∈ t1 :: rest, t1 ≤ t ∧ t ≤ t1 + config.Window := by
        intro t ht
        refine ⟨?_, hall t ht⟩
        rcases List.mem_cons.1 ht with h | h
        · omega
        · exact List.rel_of_sorted_cons hs t h
      obtain ⟨h1, h2, h3, h4⟩ := SlidingWindow.runCalls_within t1 (t1 :: rest)
        { rate := config.Rate, window := config.Window, requests := [] } (by simp) hin
      have hres : (runCalls SlidingWindow.Allow
          { rate := config.Rate, window := config.Window, requests := [] } (t1 :: rest)).2 =
          (List.range (t1 :: rest).length).map
            (fun i : Nat => decide ((i : Int) + 1 ≤ config.Rate)) := by
        rw [h1]
        simp
      have hcount := count_true_quota config.Rate hr (t1 :: rest).length
      rw [← hres] at hcount
      refine ⟨hres, hcount, ?_⟩
      rw [SlidingWindow.GetMetrics_noTrim _ g
        (by intro x hx
            have := h3 x hx
            rw [h2]
            show g - config.Window ≤ x
            omega)]
      rw [h4, hcount]
      simp

/-- Witness for C9: `slidingWindow_quota` at rate 2 and window 10, with calls at times
0, 3, 10 and the snapshot taken at time 10. -/
theorem slidingWindow_quota_witness :
    ∃ sw0 : SlidingWindow,
      NewSlidingWindow (Config.mk 2 1 100 10 1 "sliding_window" false) = some sw0 ∧
      (runCalls SlidingWindow.Allow sw0 [0, 3, 10]).2 = [true, true, false] ∧
      (((runCalls SlidingWindow.Allow sw0 [0, 3, 10]).2.count true : Nat) : Int) = 2 ∧
      ((runCalls SlidingWindow.Allow sw0 [0, 3, 10]).1.GetMetrics 10).2.AllowedRequests = 2 :=
  slidingWindow_quota (Config.mk 2 1 100 10 1 "sliding_window" false) [0, 3, 10] 10
    (by decide) (by decide) (by decide)

/-! ### C10: burst cap of the nested window -/

/-- Closed form of the unit call `NestedWindow.Allow` at a time that resets neither
window. -/
theorem NestedWindow.Allow_noReset (nw : NestedWindow) (now : Int)
    (ho : now - nw.outerWindowStart < nw.outerWindow)
    (hi : now - nw.innerWindowStart < nw.innerWindow) :
    nw.Allow now =
      (if nw.outerCount + 1 ≤ nw.outerRate ∧ nw.innerCount + 1 ≤ nw.innerRate then
        ({ nw with outerCount := nw.outerCount + 1, innerCount := nw.innerCount + 1,
                   totalRequests := nw.totalRequests + 1,
                   allowedCount := nw.allowedCount + 1 }, true)
       else
        ({ nw with totalRequests := nw.totalRequests + 1,
                   deniedCount := nw.deniedCount + 1 }, false)) := by
  have ho1 : ¬ (now - nw.outerWindowStart ≥ nw.outerWindow) := by omega
  have hi1 : ¬ (now - nw.innerWindowStart ≥ nw.innerWindow) := by omega
  unfold NestedWindow.Allow NestedWindow.AllowN NestedWindow.updateWindows
  simp only [ho1, hi1, if_false]
  by_cases hc : nw.outerCount + 1 ≤ nw.outerRate ∧ nw.innerCount + 1 ≤ nw.innerRate
  · have hn : ¬ (nw.outerCount + 1 > nw.outerRate ∨ nw.innerCount + 1 > nw.innerRate) := by
      omega
    rw [if_neg hn, if_pos hc]
  · have hn : nw.outerCount + 1 > nw.outerRate ∨ nw.innerCount + 1 > nw.innerRate := by
      omega
    rw [if_pos hn, if_neg hc]

/-- Unit calls that reset neither window: call number `i` (from 0) is admitted exactly
when `outerCount + i + 1 ≤ outerRate` and `innerCount + i + 1 ≤ innerRate`; the
configuration and the window starts are unchanged and both counters grow by the
number of admitted calls. -/
theorem NestedWindow.runCalls_noWindowReset (ts : List Int) :
    ∀ nw : NestedWindow,
      (∀ t ∈ ts, t - nw.outerWindowStart < nw.outerWindow ∧
        t - nw.innerWindowStart < nw.innerWindow) →
      (runCalls NestedWindow.Allow nw ts).2 =
        (List.range ts.length).map (fun i : Nat =>
          decide (nw.outerCount + (i : Int) + 1 ≤ nw.outerRate ∧
            nw.innerCount + (i : Int) + 1 ≤ nw.innerRate)) ∧
      (runCalls NestedWindow.Allow nw ts).1.outerRate = nw.outerRate ∧
      (runCalls NestedWindow.Allow nw ts).1.innerRate = nw.innerRate ∧
      (runCalls NestedWindow.Allow nw ts).1.outerWindow = nw.outerWindow ∧
      (runCalls NestedWindow.Allow nw ts).1.innerWindow = nw.innerWindow ∧
      (runCalls NestedWindow.Allow nw ts).1.outerWindowStart = nw.outerWindowStart ∧
      (runCalls NestedWindow.Allow nw ts).1.innerWindowStart = nw.innerWindowStart ∧
      (runCalls NestedWindow.Allow nw ts).1.outerCount =
        nw.outerCount + ((runCalls NestedWindow.Allow nw ts).2.count true : Nat) ∧
      (runCalls NestedWindow.Allow nw ts).1.innerCount =
        nw.innerCount + ((runCalls NestedWindow.Allow nw ts).2.count true : Nat) := by
  induction ts with
  | nil => intro nw _; simp [runCalls]
  | cons t rest ih =>
    intro nw h
    obtain ⟨hto, hti⟩ := h t (by simp)
    have hrest : ∀ u ∈ rest, u - nw.outerWindowStart < nw.outerWindow ∧
        u - nw.innerWindowStart < nw.innerWindow :=
      fun u hu => h u (List.mem_cons_of_mem _ hu)
    simp only [runCalls, List.length_cons, List.range_succ_eq_map, List.map_cons,
      List.map_map]
    rw [NestedWindow.Allow_noReset nw t hto hti]
    by_cases hc : nw.outerCount + 1 ≤ nw.outerRate ∧ nw.innerCount + 1 ≤ nw.innerRate
    · rw [if_pos hc]
      obtain ⟨h1, h2, h3, h4, h5, h6, h7, h8, h9⟩ :=
        ih { nw with outerCount := nw.outerCount + 1, innerCount := nw.innerCount + 1,
                     totalRequests := nw.totalRequests + 1,
                     allowedCount := nw.allowedCount + 1 } hrest
      refine ⟨?_, h2, h3, h4, h5, h6, h7, ?_, ?_⟩
      · rw [h1]
        have hd : decide (nw.outerCount + ((0 : Nat) : Int) + 1 ≤ nw.outerRate ∧
            nw.innerCount + ((0 : Nat) : Int) + 1 ≤ nw.innerRate) = true := by
          simp only [Nat.cast_zero, add_zero, decide_eq_true_eq]
          exact hc
        rw [hd]
        simp only [List.cons.injEq, true_and]
        apply List.map_congr_left
        intro i _
        simp only [Function.comp, Nat.cast_succ]
        congr 1
        apply propext
        constructor <;> intro _ <;> omega
      · rw [h8]
        simp only [List.count_cons_self]
        push_cast
        omega
      · rw [h9]
        simp only [List.count_cons_self]
        push_cast
        omega
    · rw [if_neg hc]
      obtain ⟨h1, h2, h3, h4, h5, h6, h7, h8, h9⟩ :=
        ih { nw with totalRequests := nw.totalRequests + 1,
                     deniedCount := nw.deniedCount + 1 } hrest
      refine ⟨?_, h2, h3, h4, h5, h6, h7, ?_, ?_⟩
      · rw [h1]
        have hd : decide (nw.outerCount + ((0 : Nat) : Int) + 1 ≤ nw.outerRate ∧
            nw.innerCount + ((0 : Nat) : Int) + 1 ≤ nw.innerRate) = false := by
          simp only [Nat.cast_zero, add_zero, decide_eq_false_iff_not]
          exact hc
        rw [hd]
        simp only [List.cons.injEq, true_and]
        apply List.map_congr_left
        intro i _
        simp only [Function.comp, Nat.cast_succ]
        congr 1
        apply propext
        constructor <;> intro _ <;> omega
      · rw [h8]
        simp
      · rw [h9]
        simp

/-- Once the outer counter is full, every unit call at a time that does not reset the
outer window is denied, whatever happens to the inner window. -/
theorem NestedWindow.runCalls_outer_full (ts : List Int) :
    ∀ nw : NestedWindow, nw.outerRate < nw.outerCount + 1 →
      (∀ t ∈ ts, t - nw.outerWindowStart < nw.outerWindow) →
      (runCalls NestedWindow.Allow nw ts).2 = List.replicate ts.length false := by
  induction ts with
  | nil => intro nw _ _; simp [runCalls]
  | cons t rest ih =>
    intro nw hfull h
    have hto : ¬ (t - nw.outerWindowStart ≥ nw.outerWindow) := by
      have := h t (by simp)
      omega
    have hrest : ∀ u ∈ rest, u - nw.outerWindowStart < nw.outerWindow :=
      fun u hu => h u (List.mem_cons_of_mem _ hu)
    have hden : nw.outerCount + 1 > nw.outerRate := by omega
    simp only [runCalls, List.length_cons, List.replicate_succ]
    by_cases hi : t - nw.innerWindowStart ≥ nw.innerWindow
    · have hstep : nw.Allow t =
          ({ nw with innerCount := 0, innerWindowStart := t,
                     totalRequests := nw.totalRequests + 1,
                     deniedCount := nw.deniedCount + 1 }, false) := by
        unfold NestedWindow.Allow NestedWindow.AllowN NestedWindow.updateWindows
        simp [hto, hi, hden]
      rw [hstep]
      dsimp only
      congr 1
      exact ih _ hfull hrest
    · have hstep : nw.Allow t =
          ({ nw with totalRequests := nw.totalRequests + 1,
                     deniedCount := nw.deniedCount + 1 }, false) := by
        unfold NestedWindow.Allow NestedWindow.AllowN NestedWindow.updateWindows
        simp [hto, hi, hden]
      rw [hstep]
      dsimp only
      congr 1
      exact ih _ hfull hrest

/-- Closed form of the unit call `NestedWindow.Allow` at a time that resets the inner
window but not the outer one. -/
theorem NestedWindow.Allow_innerReset (nw : NestedWindow) (now : Int)
    (ho : now - nw.outerWindowStart < nw.outerWindow)
    (hi : now - nw.innerWindowStart ≥ nw.innerWindow) :
    nw.Allow now =
      (if nw.outerCount + 1 ≤ nw.outerRate ∧ 1 ≤ nw.innerRate then
        ({ nw with outerCount := nw.outerCount + 1, innerCount := 1, innerWindowStart := now,
                   totalRequests := nw.totalRequests + 1,
                   allowedCount := nw.allowedCount + 1 }, true)
       else
        ({ nw with innerCount := 0, innerWindowStart := now,
                   totalRequests := nw.totalRequests + 1,
                   deniedCount := nw.deniedCount + 1 }, false)) := by
  have ho1 : ¬ (now - nw.outerWindowStart ≥ nw.outerWindow) := by omega
  unfold NestedWindow.Allow NestedWindow.AllowN NestedWindow.updateWindows
  simp only [ho1, hi, if_false, if_true]
  by_cases hc : nw.outerCount + 1 ≤ nw.outerRate ∧ 1 ≤ nw.innerRate
  · have hn : ¬ (nw.outerCount + 1 > nw.outerRate ∨ (0 : Int) + 1 > nw.innerRate) := by
      omega
    rw [if_neg hn, if_pos hc]
    simp
  · have hn : nw.outerCount + 1 > nw.outerRate ∨ (0 : Int) + 1 > nw.innerRate := by
      omega
    rw [if_pos hn, if_neg hc]

/-- The scenario of the nested window test: outer rate 10, inner rate 5, outer window
one second (inner window 100 ms), constructed at `t0`.  Ten calls in the first inner
window: five admitted, five denied.  Then five calls in the inner window opened by a
call at `u`, at least 100 ms and less than one second after `t0`: all admitted.  Then
every call before `t0` plus one second is denied. -/
theorem NestedWindow.scenario (t0 u : Int) (ts1 ts2 ts3 : List Int)
    (h1len : ts1.length = 10) (h1 : ∀ t ∈ ts1, t - t0 < 100000000)
    (hu1 : 100000000 ≤ u - t0) (hu2 : u - t0 < 1000000000)
    (h2len : ts2.length = 4) (h2 : ∀ t ∈ ts2, t - u < 100000000 ∧ t - t0 < 1000000000)
    (h3 : ∀ t ∈ ts3, t - t0 < 1000000000) :
    (runCalls NestedWindow.Allow
        (NewNestedWindow (Config.mk 10 5 100 1000000000 6000000000 "nested_window" false) t0)
        (ts1 ++ ((u :: ts2) ++ ts3))).2 =
      List.replicate 5 true ++ (List.replicate 5 false ++
        (List.replicate 5 true ++ List.replicate ts3.length false)) := by
  have hiw : Int.tdiv 1000000000 10 = 100000000 := by decide
  obtain ⟨r1, a2, a3, a4, a5, a6, a7, a8, a9⟩ := NestedWindow.runCalls_noWindowReset ts1
    (NewNestedWindow (Config.mk 10 5 100 1000000000 6000000000 "nested_window" false) t0)
    (by intro t ht
        have := h1 t ht
        simp only [NewNestedWindow, hiw]
        omega)
  rw [h1len] at r1
  have r1v : (runCalls NestedWindow.Allow
      (NewNestedWindow (Config.mk 10 5 100 1000000000 6000000000 "nested_window" false) t0)
      ts1).2 = List.replicate 5 true ++ List.replicate 5 false := by
    rw [r1]
    simp only [NewNestedWindow]
    rfl
  rw [r1v] at a8 a9
  rw [runCalls_append, r1v]
  simp only [List.append_assoc]
  congr 1
  congr 1
  generalize (runCalls NestedWindow.Allow
      (NewNestedWindow (Config.mk 10 5 100 1000000000 6000000000 "nested_window" false) t0)
      ts1).1 = s1 at a2 a3 a4 a5 a6 a7 a8 a9 ⊢
  simp only [NewNestedWindow, hiw] at a2 a3 a4 a5 a6 a7 a8 a9
  have c8 : s1.outerCount = 5 := by rw [a8]; decide
  have c9 : s1.innerCount = 5 := by rw [a9]; decide
  rw [runCalls_append]
  simp only [runCalls]
  rw [NestedWindow.Allow_innerReset s1 u (by rw [a6, a4]; omega) (by rw [a7, a5]; omega)]
  rw [if_pos (by rw [c8, a2, a3]; decide)]
  dsimp only
  obtain ⟨r2, b2, b3, b4, b5, b6, b7, b8, b9⟩ := NestedWindow.runCalls_noWindowReset ts2
    { s1 with outerCount := s1.outerCount + 1, innerCount := 1, innerWindowStart := u,
              totalRequests := s1.totalRequests + 1, allowedCount := s1.allowedCount + 1 }
    (by intro t ht
        have := h2 t ht
        show t - s1.outerWindowStart < s1.outerWindow ∧ t - u < s1.innerWindow
        rw [a6, a4, a5]
        omega)
  rw [h2len] at r2
  have r2v : (runCalls NestedWindow.Allow
      { s1 with outerCount := s1.outerCount + 1, innerCount := 1, innerWindowStart := u,
                totalRequests := s1.totalRequests + 1, allowedCount := s1.allowedCount + 1 }
      ts2).2 = List.replicate 4 true := by
    rw [r2]
    simp only [c8, a2, a3]
    decide
  rw [r2v] at b8 ⊢
  have hfull := NestedWindow.runCalls_outer_full ts3 _
    (by rw [b2, b8]
        show s1.outerRate < s1.outerCount + 1 + ((List.replicate 4 true).count true : Nat) + 1
        rw [a2, c8]
        decide)
    (by intro t ht
        have := h3 t ht
        rw [b6, b4]
        show t - s1.outerWindowStart < s1.outerWindow
        rw [a6, a4]
        omega)
  rw [hfull]
  rfl

/-- C10: on a nested window whose inner count is 0 and whose outer count is `c`, unit
calls at times that reset neither window are admitted exactly while the call number
(from 1) is at most `min innerRate (outerRate - c)`.  In particular, for outer rate 10,
inner rate 5 and a window of one second constructed at `t0`: of ten calls in the first
inner window the first five are admitted and the next five denied; five calls in the
inner window opened by a call at `u`, with `100 ms ≤ u - t0 < 1 s`, are admitted; and
every later call before `t0 + 1 s` is denied. -/
theorem nestedWindow_burst_cap (nw : NestedWindow) (ts : List Int)
    (hin : nw.innerCount = 0)
    (hts : ∀ t ∈ ts, t - nw.outerWindowStart < nw.outerWindow ∧
      t - nw.innerWindowStart < nw.innerWindow) :
    (runCalls NestedWindow.Allow nw ts).2 =
      (List.range ts.length).map (fun i : Nat =>
        decide ((i : Int) + 1 ≤ min nw.innerRate (nw.outerRate - nw.outerCount))) ∧
    ∀ (t0 u : Int) (ts1 ts2 ts3 : List Int),
      ts1.length = 10 → (∀ t ∈ ts1, t - t0 < 100000000) →
      100000000 ≤ u - t0 → u - t0 < 1000000000 →
      ts2.length = 4 → (∀ t ∈ ts2, t - u < 100000000 ∧ t - t0 < 1000000000) →
      (∀ t ∈ ts3, t - t0 < 1000000000) →
      (runCalls NestedWindow.Allow
          (NewNestedWindow
            (Config.mk 10 5 100 1000000000 6000000000 "nested_window" false) t0)
          (ts1 ++ ((u :: ts2) ++ ts3))).2 =
        List.replicate 5 true ++ (List.replicate 5 false ++
          (List.replicate 5 true ++ List.replicate ts3.length false)) := by
  refine ⟨?_, fun t0 u ts1 ts2 ts3 a b c d e f g =>
    NestedWindow.scenario t0 u ts1 ts2 ts3 a b c d e f g⟩
  rw [(NestedWindow.runCalls_noWindowReset ts nw hts).1, hin]
  apply List.map_congr_left
  intro i _
  congr 1
  apply propext
  rw [le_min_iff]
  constructor <;> intro h <;> constructor <;> omega

/-- Witness for C10: `nestedWindow_burst_cap` on the limiter with outer rate 10, inner
rate 5 and a one second window constructed at time 0: ten calls at time 0, then five
calls at 100 ms, then calls at 200 ms and just before one second. -/
theorem nestedWindow_burst_cap_witness :
    (runCalls NestedWindow.Allow
        (NewNestedWindow (Config.mk 10 5 100 1000000000 6000000000 "nested_window" false) 0)
        [0, 0, 0, 0, 0, 0, 0, 0, 0, 0]).2 =
      [true, true, true, true, true, false, false, false, false, false] ∧
    (runCalls NestedWindow.Allow
        (NewNestedWindow (Config.mk 10 5 100 1000000000 6000000000 "nested_window" false) 0)
        ([0, 0, 0, 0, 0, 0, 0, 0, 0, 0] ++
          ((100000000 :: [100000000, 100000000, 100000000, 100000000]) ++
            [200000000, 999999999]))).2 =
      [true, true, true, true, true, false, false, false, false, false,
       true, true, true, true, true, false, false] :=
  ⟨(nestedWindow_burst_cap
      (NewNestedWindow (Config.mk 10 5 100 1000000000 6000000000 "nested_window" false) 0)
      [0, 0, 0, 0, 0, 0, 0, 0, 0, 0] rfl (by decide)).1,
   (nestedWindow_burst_cap
      (NewNestedWindow (Config.mk 10 5 100 1000000000 6000000000 "nested_window" false) 0)
      [0, 0, 0, 0, 0, 0, 0, 0, 0, 0] rfl (by decide)).2 0 100000000
      [0, 0, 0, 0, 0, 0, 0, 0, 0, 0] [100000000, 100000000, 100000000, 100000000]
      [200000000, 999999999] rfl (by decide) (by decide) (by decide) rfl (by decide)
      (by decide)⟩

/-! ### Refill in closed form -/

/-- Closed form of `refill` in terms of the refill amount `tokensToAdd`. -/
theorem TokenBucket.refill_eq (tb : TokenBucket) (now : Int) :
    tb.refill now =
      (if 0 < tokensToAdd tb.rate (now - tb.lastRefillTime) then
        { tb with
          tokens := min tb.capacity
            (tb.tokens + tokensToAdd tb.rate (now - tb.lastRefillTime)),
          lastRefillTime := now }
       else tb) := by
  unfold TokenBucket.refill
  dsimp only
  by_cases hk : 0 < tokensToAdd tb.rate (now - tb.lastRefillTime)
  · simp only [gt_iff_lt, hk, if_true]
    by_cases hc : tb.capacity < tb.tokens + tokensToAdd tb.rate (now - tb.lastRefillTime)
    · simp only [hc, if_true, min_eq_left (le_of_lt hc)]
    · simp only [hc, if_false, min_eq_right (not_lt.1 hc)]
  · simp only [gt_iff_lt, hk, if_false]

/-! ### C11: a refilled token bucket admits the request -/

/-- A property of the initial state that every call preserves holds after every
sequence of calls. -/
theorem Limiter.run_preserves {σ : Type} (L : Limiter σ) (P : σ → Prop)
    (hstep : ∀ (s : σ) (c : Call), P s → P (L.exec s c)) (calls : List Call) :
    ∀ s : σ, P s → P (L.run s calls) := by
  induction calls with
  | nil => intro s hs; exact hs
  | cons c rest ih =>
    intro s hs
    exact ih (L.exec s c) (hstep s c hs)

/-- Closed form of `TokenBucket.AllowN` in sequential execution. -/
theorem TokenBucket.AllowN_closed (tb : TokenBucket) (now n : Int) :
    tb.AllowN now n =
      (if n ≤ (tb.refill now).tokens then
        ({ (tb.refill now) with
            tokens := (tb.refill now).tokens - n,
            allowedCount := (tb.refill now).allowedCount + 1 }, true)
       else
        ({ (tb.refill now) with deniedCount := (tb.refill now).deniedCount + 1 }, false)) := by
  unfold TokenBucket.AllowN
  by_cases h : (tb.refill now).tokens ≥ n
  · have h2 : (tb.refill now).tokens - n ≥ 0 := by omega
    have h3 : n ≤ (tb.refill now).tokens := h
    simp [h, h2, h3]
  · have h3 : ¬ n ≤ (tb.refill now).tokens := h
    simp [h, h3]

/-- Refilling preserves the configuration and keeps the token count from going
negative when the capacity is not negative. -/
theorem TokenBucket.Stable_refill (config : Config) (tb : TokenBucket) (now : Int)
    (hC : 0 ≤ config.Capacity) (h : tb.Stable config) : (tb.refill now).Stable config := by
  obtain ⟨h1, h2, h3, h4⟩ := h
  rw [TokenBucket.refill_eq]
  by_cases hk : 0 < tokensToAdd tb.rate (now - tb.lastRefillTime)
  · rw [if_pos hk]
    refine ⟨h1, h2, h3, ?_⟩
    show 0 ≤ min tb.capacity (tb.tokens + tokensToAdd tb.rate (now - tb.lastRefillTime))
    rw [h2]
    exact le_min hC (by omega)
  · rw [if_neg hk]
    exact ⟨h1, h2, h3, h4⟩

/-- One `AllowN` preserves the configuration and the sign of the token count. -/
theorem TokenBucket.Stable_AllowN (config : Config) (tb : TokenBucket) (now n : Int)
    (hC : 0 ≤ config.Capacity) (h : tb.Stable config) :
    (tb.AllowN now n).1.Stable config := by
  obtain ⟨h1, h2, h3, h4⟩ := TokenBucket.Stable_refill config tb now hC h
  rw [TokenBucket.AllowN_closed]
  by_cases hn : n ≤ (tb.refill now).tokens
  · rw [if_pos hn]
    refine ⟨h1, h2, h3, ?_⟩
    show 0 ≤ (tb.refill now).tokens - n
    omega
  · rw [if_neg hn]
    exact ⟨h1, h2, h3, h4⟩

/-- A `WaitN` preserves the configuration and the sign of the token count. -/
theorem TokenBucket.Stable_WaitN (config : Config) (n : Int) (hC : 0 ≤ config.Capacity)
    (env : WaitEnv) :
    ∀ tb : TokenBucket, tb.Stable config → (tb.WaitN n env).1.Stable config := by
  induction env with
  | nil => intro tb h; exact h
  | cons e rest ih =>
    intro tb h
    obtain ⟨now, cancel⟩ := e
    have hA := TokenBucket.Stable_AllowN config tb now n hC h
    unfold TokenBucket.WaitN
    by_cases h1 : (tb.AllowN now n).2 = true
    · simp only [h1, if_true]
      exact hA
    · by_cases h2 : cancel = true
      · simp only [h1, h2, if_true, if_false]
        exact hA
      · simp only [h1, h2, if_false]
        exact ih _ hA

/-- Every call of the interface preserves the configuration of a token bucket and the
sign of its token count. -/
theorem TokenBucket.Stable_exec (config : Config) (hC : 0 ≤ config.Capacity)
    (tb : TokenBucket) (c : Call) (h : tb.Stable config) :
    (TokenBucket.limiter.exec tb c).Stable config := by
  cases c with
  | allow now => exact TokenBucket.Stable_AllowN config tb now 1 hC h
  | allowN now n => exact TokenBucket.Stable_AllowN config tb now n hC h
  | wait env => exact TokenBucket.Stable_WaitN config 1 hC env tb h
  | waitN n env => exact TokenBucket.Stable_WaitN config n hC env tb h
  | reset now =>
    obtain ⟨h1, h2, h3, _⟩ := h
    refine ⟨h1, h2, h3, ?_⟩
    show 0 ≤ tb.capacity
    rw [h2]
    exact hC
  | getMetrics now => exact h

/-- Every state reachable from a fresh token bucket with a capacity that is not
negative keeps the configuration and a token count that is not negative. -/
theorem TokenBucket.Stable_run (config : Config) (hC : 0 ≤ config.Capacity) (t0 : Int)
    (calls : List Call) :
    (TokenBucket.limiter.run (NewTokenBucket config t0) calls).Stable config :=
  Limiter.run_preserves TokenBucket.limiter (TokenBucket.Stable config)
    (fun s c hs => TokenBucket.Stable_exec config hC s c hs) calls _
    ⟨rfl, rfl, rfl, hC⟩

/-- A call is admitted when the refill amount is at least `n`, in a state with a token
count that is not negative and a capacity of at least `n`. -/
theorem TokenBucket.AllowN_of_credit (tb : TokenBucket) (now n : Int)
    (htok : 0 ≤ tb.tokens) (hn : 1 ≤ n) (hnC : n ≤ tb.capacity)
    (hk : n ≤ tokensToAdd tb.rate (now - tb.lastRefillTime)) :
    (tb.AllowN now n).2 = true := by
  have hkpos : 0 < tokensToAdd tb.rate (now - tb.lastRefillTime) := by omega
  have htokens : n ≤ (tb.refill now).tokens := by
    rw [TokenBucket.refill_eq, if_pos hkpos]
    show n ≤ min tb.capacity (tb.tokens + tokensToAdd tb.rate (now - tb.lastRefillTime))
    exact le_min hnC (by omega)
  rw [TokenBucket.AllowN_closed, if_pos htokens]

/-- At rate 10 the refill amount is at least 1 from 100 ms on, for an elapsed time
that is an `int64` number of nanoseconds. -/
theorem tokensToAdd_ten (elapsed : Int) (h : 100000000 ≤ elapsed)
    (h2 : elapsed ≤ 9223372036854775807) :
    1 ≤ tokensToAdd 10 elapsed := by
  rcases eq_or_lt_of_le h with h0 | h0
  · rw [← h0]
    decide!
  · by_cases hbig : 200000000 ≤ elapsed
    · exact tokensToAdd_ge_of_margin 10 elapsed 1 (by decide) (by decide)
        (by unfold Second; omega) (by unfold Second; omega)
    · exact tokensToAdd_ge_of_slack 10 elapsed 1 (by decide) (by unfold Second; omega)
        (by unfold Second; omega)

/-- C11 (amended): in every state reachable from a fresh token bucket of capacity `C`,
for every `n` with `1 ≤ n ≤ C` and every time `now`, `AllowN(n)` at `now` returns true
when the refill amount computed in `float64` is at least `n`; that is the case when
`rate * (now - lastRefillTime)` is more than `n` seconds and at most `10 ^ 6` seconds,
and when it is at least `n + 1` seconds and at most `2 ^ 62` seconds with
`n < 2 ^ 50`.  In particular with rate 10 per second and capacity 10, in a reachable
state without tokens, an `Allow` less than 100 ms after the last refill timestamp is
denied and an `Allow` at least 100 ms after it (the elapsed time being an `int64`
number of nanoseconds) is admitted. -/
theorem tokenBucket_refill_admits (config : Config) (t0 : Int) (calls : List Call)
    (now n : Int) (hn : 1 ≤ n) (hnC : n ≤ config.Capacity) :
    (n ≤ tokensToAdd config.Rate
        (now - (TokenBucket.limiter.run (NewTokenBucket config t0) calls).lastRefillTime) →
      ((TokenBucket.limiter.run (NewTokenBucket config t0) calls).AllowN now n).2 = true) ∧
    (n * Second + 1 ≤ config.Rate *
        (now - (TokenBucket.limiter.run (NewTokenBucket config t0) calls).lastRefillTime) →
      config.Rate *
        (now - (TokenBucket.limiter.run (NewTokenBucket config t0) calls).lastRefillTime)
        ≤ 1000000 * Second →
      ((TokenBucket.limiter.run (NewTokenBucket config t0) calls).AllowN now n).2 = true) ∧
    (n + 1 ≤ 1125899906842624 →
      (n + 1) * Second ≤ config.Rate *
        (now - (TokenBucket.limiter.run (NewTokenBucket config t0) calls).lastRefillTime) →
      config.Rate *
        (now - (TokenBucket.limiter.run (NewTokenBucket config t0) calls).lastRefillTime)
        ≤ 4611686018427387904 * Second →
      ((TokenBucket.limiter.run (NewTokenBucket config t0) calls).AllowN now n).2 = true) ∧
    (config.Rate = 10 → config.Capacity = 10 →
      (TokenBucket.limiter.run (NewTokenBucket config t0) calls).tokens = 0 →
      ∀ t : Int,
        (t - (TokenBucket.limiter.run (NewTokenBucket config t0) calls).lastRefillTime
            < 100000000 →
          ((TokenBucket.limiter.run (NewTokenBucket config t0) calls).Allow t).2 = false) ∧
        (100000000 ≤
            t - (TokenBucket.limiter.run (NewTokenBucket config t0) calls).lastRefillTime →
          t - (TokenBucket.limiter.run (NewTokenBucket config t0) calls).lastRefillTime
            ≤ 9223372036854775807 →
          ((TokenBucket.limiter.run (NewTokenBucket config t0) calls).Allow t).2 = true)) := by
  obtain ⟨h1, h2, _, h4⟩ := TokenBucket.Stable_run config (by omega) t0 calls
  have hadm : ∀ t : Int, n ≤ tokensToAdd config.Rate
      (t - (TokenBucket.limiter.run (NewTokenBucket config t0) calls).lastRefillTime) →
      ((TokenBucket.limiter.run (NewTokenBucket config t0) calls).AllowN t n).2 = true := by
    intro t hk
    exact TokenBucket.AllowN_of_credit _ t n h4 hn (by rw [h2]; exact hnC)
      (by rw [h1]; exact hk)
  refine ⟨hadm now, ?_, ?_, ?_⟩
  · intro hlo hhi
    exact hadm now (tokensToAdd_ge_of_slack _ _ n (by omega) hlo hhi)
  · intro hn2 hlo hhi
    exact hadm now (tokensToAdd_ge_of_margin _ _ n (by omega) hn2 hlo hhi)
  · intro hr hc htok t
    constructor
    · intro ht
      rw [TokenBucket.Allow_noRefill _ t (by rw [h1, hr]; unfold Second; omega)]
      rw [if_neg (by rw [htok]; decide)]
    · intro ht ht2
      exact TokenBucket.AllowN_of_credit _ t 1 h4 (le_refl 1) (by rw [h2, hc]; decide)
        (by rw [h1, hr]; exact tokensToAdd_ten _ ht ht2)

/-- Witness for C11: `tokenBucket_refill_admits` for rate 10 per second and capacity 10,
constructed at time 0 and emptied by `AllowN(10)` at time 0: `AllowN(2)` is admitted at
250 ms, and `Allow` is denied at 50 ms and admitted at 100 ms. -/
theorem tokenBucket_refill_admits_witness :
    ((TokenBucket.limiter.run
        (NewTokenBucket (Config.mk 10 1 10 1000000000 1 "token_bucket" false) 0)
        [Call.allowN 0 10]).AllowN 250000000 2).2 = true ∧
    ((TokenBucket.limiter.run
        (NewTokenBucket (Config.mk 10 1 10 1000000000 1 "token_bucket" false) 0)
        [Call.allowN 0 10]).Allow 50000000).2 = false ∧
    ((TokenBucket.limiter.run
        (NewTokenBucket (Config.mk 10 1 10 1000000000 1 "token_bucket" false) 0)
        [Call.allowN 0 10]).Allow 100000000).2 = true :=
  ⟨(tokenBucket_refill_admits (Config.mk 10 1 10 1000000000 1 "token_bucket" false) 0
      [Call.allowN 0 10] 250000000 2 (by decide) (by decide)).2.1 (by decide!) (by decide!),
   ((tokenBucket_refill_admits (Config.mk 10 1 10 1000000000 1 "token_bucket" false) 0
      [Call.allowN 0 10] 250000000 2 (by decide) (by decide)).2.2.2
      rfl rfl (by decide!) 50000000).1 (by decide!),
   ((tokenBucket_refill_admits (Config.mk 10 1 10 1000000000 1 "token_bucket" false) 0
      [Call.allowN 0 10] 250000000 2 (by decide) (by decide)).2.2.2
      rfl rfl (by decide!) 100000000).2 (by decide!) (by decide!)⟩

/-- C11 (as stated) fails: a bucket of rate 100 and capacity 100 constructed at time 0
and emptied by `AllowN(100)` at time 0 has its last refill timestamp at 0; at 570 ms
`rate * (now - lastRefillTime)` is exactly 57 seconds, the `float64` product
`100 * 0.57` is below 57, the refill credits 56 tokens and `AllowN(57)` is denied. -/
theorem tokenBucket_refill_admits_counterexample :
    (TokenBucket.limiter.run
        (NewTokenBucket (Config.mk 100 1 100 1000000000 1 "token_bucket" false) 0)
        [Call.allowN 0 100]).tokens = 0 ∧
    (TokenBucket.limiter.run
        (NewTokenBucket (Config.mk 100 1 100 1000000000 1 "token_bucket" false) 0)
        [Call.allowN 0 100]).lastRefillTime = 0 ∧
    (57 : Int) * Second ≤ 100 * (570000000 - 0) ∧
    tokensToAdd 100 (570000000 - 0) = 56 ∧
    ((TokenBucket.limiter.run
        (NewTokenBucket (Config.mk 100 1 100 1000000000 1 "token_bucket" false) 0)
        [Call.allowN 0 100]).AllowN 570000000 57).2 = false := by
  refine ⟨by decide!, by decide!, by decide, by decide!, by decide!⟩

/-! ### C12: `TokenBucket.refill` -/

/-- C12 (amended): `TokenBucket.refill`, with `k` the product
`rate * (now - lastRefillTime).Seconds()` computed in `float64` and truncated toward
zero: if `k > 0` then afterwards `tokens = min capacity (tokens + k)` and
`lastRefillTime = now` (the other fields unchanged); if `k ≤ 0` the state is unchanged;
with a rate that is not negative every `now ≤ lastRefillTime` (a clock moving
backwards) gives `k ≤ 0`; and while the exact product is between 0 and `10 ^ 6`
seconds, `k` is its floor or one less.  It holds in every state, in particular when
`tokens ≤ capacity`. -/
theorem tokenBucket_refill_spec (tb : TokenBucket) (now : Int) :
    tb.refill now =
      (if 0 < tokensToAdd tb.rate (now - tb.lastRefillTime) then
        { tb with
          tokens := min tb.capacity
            (tb.tokens + tokensToAdd tb.rate (now - tb.lastRefillTime)),
          lastRefillTime := now }
       else tb) ∧
    (0 ≤ tb.rate → now ≤ tb.lastRefillTime →
      tokensToAdd tb.rate (now - tb.lastRefillTime) ≤ 0) ∧
    (0 ≤ tb.rate * (now - tb.lastRefillTime) →
      tb.rate * (now - tb.lastRefillTime) ≤ 1000000 * Second →
      (tb.rate * (now - tb.lastRefillTime)) / Second - 1
          ≤ tokensToAdd tb.rate (now - tb.lastRefillTime) ∧
        tokensToAdd tb.rate (now - tb.lastRefillTime)
          ≤ (tb.rate * (now - tb.lastRefillTime)) / Second) := by
  refine ⟨TokenBucket.refill_eq tb now, ?_, ?_⟩
  · intro hr hn
    have hx : tb.rate * (now - tb.lastRefillTime) ≤ 0 :=
      mul_nonpos_of_nonneg_of_nonpos hr (by omega)
    exact tokensToAdd_nonpos _ _ (by unfold Second; omega)
  · intro h0 h1
    obtain ⟨a, b, _⟩ := tokensToAdd_bounds _ _ h0 h1
    exact ⟨a, b⟩

/-- C12 (as stated) fails: for rate 100, 570 ms after the last refill, the floor of
`rate * elapsed` in seconds is 57, while `refill` computes `100 * 0.57` in `float64`,
which is below 57, and credits 56 tokens. -/
theorem tokenBucket_refill_counterexample :
    ((100 : Int) * (570000000 - 0)) / Second = 57 ∧
    ((TokenBucket.mk 100 100 0 0 10000000 0 0).refill 570000000).tokens = 56 ∧
    ((TokenBucket.mk 100 100 0 0 10000000 0 0).refill 570000000).lastRefillTime
      = 570000000 ∧
    min (100 : Int) (0 + 57) = 57 := by
  refine ⟨by decide, by decide!, by decide!, by decide⟩

/-! ### C19: the strategies count their calls -/

/-- Refilling does not touch the counters. -/
theorem TokenBucket.refill_counters (tb : TokenBucket) (now : Int) :
    (tb.refill now).allowedCount = tb.allowedCount ∧
    (tb.refill now).deniedCount = tb.deniedCount := by
  rw [TokenBucket.refill_eq]
  split <;> exact ⟨rfl, rfl⟩

/-- One `TokenBucket.AllowN` adds one to exactly one of the two counters. -/
theorem tokenBucket_AllowN_counters (tb : TokenBucket) (now n : Int) :
    (tb.AllowN now n).1.allowedCount =
      tb.allowedCount + (if (tb.AllowN now n).2 = true then 1 else 0) ∧
    (tb.AllowN now n).1.deniedCount =
      tb.deniedCount + (if (tb.AllowN now n).2 = true then 0 else 1) := by
  obtain ⟨ha, hd⟩ := TokenBucket.refill_counters tb now
  rw [TokenBucket.AllowN_closed]
  by_cases h : n ≤ (tb.refill now).tokens
  · simp only [if_pos h, if_true, add_zero]
    exact ⟨by rw [ha], hd⟩
  · simp only [if_neg h, Bool.false_eq_true, if_false, add_zero]
    exact ⟨ha, by rw [hd]⟩

/-- One `FixedWindow.AllowN` adds one to exactly one of the two counters. -/
theorem fixedWindow_AllowN_counters (fw : FixedWindow) (now n : Int) :
    (fw.AllowN now n).1.allowedCount =
      fw.allowedCount + (if (fw.AllowN now n).2 = true then 1 else 0) ∧
    (fw.AllowN now n).1.deniedCount =
      fw.deniedCount + (if (fw.AllowN now n).2 = true then 0 else 1) := by
  unfold FixedWindow.AllowN
  by_cases hw : now - fw.windowStart ≥ fw.window
  · by_cases hc : n ≤ fw.rate
    · simp [hw, hc]
    · simp [hw, hc]
  · by_cases hc : fw.count + n ≤ fw.rate
    · simp [hw, hc]
    · simp [hw, hc]

/-- One `NestedWindow.AllowN` adds one to the total and to exactly one of the allowed
and denied counters. -/
theorem nestedWindow_AllowN_counters (nw : NestedWindow) (now n : Int) :
    (nw.AllowN now n).1.totalRequests = nw.totalRequests + 1 ∧
    (nw.AllowN now n).1.allowedCount =
      nw.allowedCount + (if (nw.AllowN now n).2 = true then 1 else 0) ∧
    (nw.AllowN now n).1.deniedCount =
      nw.deniedCount + (if (nw.AllowN now n).2 = true then 0 else 1) := by
  unfold NestedWindow.AllowN NestedWindow.updateWindows
  by_cases ho : now - nw.outerWindowStart ≥ nw.outerWindow <;>
  by_cases hi : now - nw.innerWindowStart ≥ nw.innerWindow <;>
  simp only [ho, hi, if_true, if_false] <;>
  split <;> simp_all

/-- Splitting a list of booleans into its `true` and `false` entries. -/
theorem count_true_add_count_false (bs : List Bool) :
    bs.count true + bs.count false = bs.length := by
  induction bs with
  | nil => rfl
  | cons b rest ih =>
    cases b
    · simp only [List.count_cons, List.length_cons]
      simp
      omega
    · simp only [List.count_cons, List.length_cons]
      simp
      omega

/-- A counter that each call increases by an amount depending on its result only has
increased, after a sequence of calls, by the sum of those amounts. -/
theorem runAllowN_counter {σ : Type} (step : σ → Int → Int → σ × Bool) (c : σ → Int)
    (w : Bool → Int)
    (hstep : ∀ (s : σ) (now n : Int), c (step s now n).1 = c s + w (step s now n).2)
    (calls : List (Int × Int)) :
    ∀ s : σ, c (runAllowN step s calls).1 = c s + ((runAllowN step s calls).2.map w).sum := by
  induction calls with
  | nil => intro s; simp [runAllowN]
  | cons e rest ih =>
    intro s
    obtain ⟨now, n⟩ := e
    simp only [runAllowN, List.map_cons, List.sum_cons]
    rw [ih, hstep]
    ring

/-- The calls of a sequence all return a result. -/
theorem runAllowN_length {σ : Type} (step : σ → Int → Int → σ × Bool)
    (calls : List (Int × Int)) :
    ∀ s : σ, (runAllowN step s calls).2.length = calls.length := by
  induction calls with
  | nil => intro s; rfl
  | cons e rest ih =>
    intro s
    obtain ⟨now, n⟩ := e
    simp [runAllowN, ih]

/-- Adding one per `true` entry counts the `true` entries. -/
theorem sum_map_true (bs : List Bool) :
    (bs.map (fun b => if b = true then (1 : Int) else 0)).sum = (bs.count true : Nat) := by
  induction bs with
  | nil => rfl
  | cons b rest ih =>
    cases b
    · simp only [List.map_cons, List.sum_cons, ih]
      simp
    · simp only [List.map_cons, List.sum_cons, ih, List.count_cons_self]
      push_cast
      ring

/-- Adding one per `false` entry counts the `false` entries. -/
theorem sum_map_false (bs : List Bool) :
    (bs.map (fun b => if b = true then (0 : Int) else 1)).sum = (bs.count false : Nat) := by
  induction bs with
  | nil => rfl
  | cons b rest ih =>
    cases b
    · simp only [List.map_cons, List.sum_cons, ih, List.count_cons_self]
      push_cast
      ring
    · simp only [List.map_cons, List.sum_cons, ih]
      simp

/-- Adding one per entry gives the length. -/
theorem sum_map_one (bs : List Bool) :
    (bs.map (fun _ => (1 : Int))).sum = (bs.length : Nat) := by
  induction bs with
  | nil => rfl
  | cons b rest ih =>
    simp only [List.map_cons, List.sum_cons, ih, List.length_cons]
    push_cast
    ring

/-- C19: for a token bucket, a fixed window and a nested window, each freshly
constructed or freshly `Reset`, after every sequence of `AllowN` calls (`Allow` is
`AllowN(1)`) `GetMetrics` reports `TotalRequests` equal to the number of calls,
`AllowedRequests` equal to the number of calls that returned true and `DeniedRequests`
equal to the number that returned false; and in every state a call adds one to exactly
one of the allowed and denied counters, whatever `n` is. -/
theorem strategy_metrics_count_calls (config : Config) (t0 : Int)
    (tb : TokenBucket) (fw : FixedWindow) (nw : NestedWindow) (calls : List (Int × Int))
    (htb : tb = NewTokenBucket config t0 ∨ ∃ old : TokenBucket, tb = old.Reset t0)
    (hfw : fw = NewFixedWindow config t0 ∨ ∃ old : FixedWindow, fw = old.Reset t0)
    (hnw : nw = NewNestedWindow config t0 ∨ ∃ old : NestedWindow, nw = old.Reset t0) :
    ((runAllowN TokenBucket.AllowN tb calls).1.GetMetrics.TotalRequests = calls.length ∧
     (runAllowN TokenBucket.AllowN tb calls).1.GetMetrics.AllowedRequests =
       ((runAllowN TokenBucket.AllowN tb calls).2.count true : Nat) ∧
     (runAllowN TokenBucket.AllowN tb calls).1.GetMetrics.DeniedRequests =
       ((runAllowN TokenBucket.AllowN tb calls).2.count false : Nat)) ∧
    ((runAllowN FixedWindow.AllowN fw calls).1.GetMetrics.TotalRequests = calls.length ∧
     (runAllowN FixedWindow.AllowN fw calls).1.GetMetrics.AllowedRequests =
       ((runAllowN FixedWindow.AllowN fw calls).2.count true : Nat) ∧
     (runAllowN FixedWindow.AllowN fw calls).1.GetMetrics.DeniedRequests =
       ((runAllowN FixedWindow.AllowN fw calls).2.count false : Nat)) ∧
    ((runAllowN NestedWindow.AllowN nw calls).1.GetMetrics.TotalRequests = calls.length ∧
     (runAllowN NestedWindow.AllowN nw calls).1.GetMetrics.AllowedRequests =
       ((runAllowN NestedWindow.AllowN nw calls).2.count true : Nat) ∧
     (runAllowN NestedWindow.AllowN nw calls).1.GetMetrics.DeniedRequests =
       ((runAllowN NestedWindow.AllowN nw calls).2.count false : Nat)) ∧
    (∀ (s : TokenBucket) (now n : Int),
      (s.AllowN now n).1.allowedCount =
        s.allowedCount + (if (s.AllowN now n).2 = true then 1 else 0) ∧
      (s.AllowN now n).1.deniedCount =
        s.deniedCount + (if (s.AllowN now n).2 = true then 0 else 1)) ∧
    (∀ (s : FixedWindow) (now n : Int),
      (s.AllowN now n).1.allowedCount =
        s.allowedCount + (if (s.AllowN now n).2 = true then 1 else 0) ∧
      (s.AllowN now n).1.deniedCount =
        s.deniedCount + (if (s.AllowN now n).2 = true then 0 else 1)) ∧
    (∀ (s : NestedWindow) (now n : Int),
      (s.AllowN now n).1.allowedCount =
        s.allowedCount + (if (s.AllowN now n).2 = true then 1 else 0) ∧
      (s.AllowN now n).1.deniedCount =
        s.deniedCount + (if (s.AllowN now n).2 = true then 0 else 1)) := by
  have ztb : tb.allowedCount = 0 ∧ tb.deniedCount = 0 := by
    rcases htb with h | ⟨old, h⟩ <;> subst h <;> exact ⟨rfl, rfl⟩
  have zfw : fw.allowedCount = 0 ∧ fw.deniedCount = 0 := by
    rcases hfw with h | ⟨old, h⟩ <;> subst h <;> exact ⟨rfl, rfl⟩
  have znw : nw.totalRequests = 0 ∧ nw.allowedCount = 0 ∧ nw.deniedCount = 0 := by
    rcases hnw with h | ⟨old, h⟩ <;> subst h <;> exact ⟨rfl, rfl, rfl⟩
  have atb := runAllowN_counter TokenBucket.AllowN (fun s => s.allowedCount)
    (fun b => if b = true then 1 else 0)
    (fun s now n => (tokenBucket_AllowN_counters s now n).1) calls tb
  have dtb := runAllowN_counter TokenBucket.AllowN (fun s => s.deniedCount)
    (fun b => if b = true then 0 else 1)
    (fun s now n => (tokenBucket_AllowN_counters s now n).2) calls tb
  have afw := runAllowN_counter FixedWindow.AllowN (fun s => s.allowedCount)
    (fun b => if b = true then 1 else 0)
    (fun s now n => (fixedWindow_AllowN_counters s now n).1) calls fw
  have dfw := runAllowN_counter FixedWindow.AllowN (fun s => s.deniedCount)
    (fun b => if b = true then 0 else 1)
    (fun s now n => (fixedWindow_AllowN_counters s now n).2) calls fw
  have tnw := runAllowN_counter NestedWindow.AllowN (fun s => s.totalRequests)
    (fun _ => 1)
    (fun s now n => (nestedWindow_AllowN_counters s now n).1) calls nw
  have anw := runAllowN_counter NestedWindow.AllowN (fun s => s.allowedCount)
    (fun b => if b = true then 1 else 0)
    (fun s now n => (nestedWindow_AllowN_counters s now n).2.1) calls nw
  have dnw := runAllowN_counter NestedWindow.AllowN (fun s => s.deniedCount)
    (fun b => if b = true then 0 else 1)
    (fun s now n => (nestedWindow_AllowN_counters s now n).2.2) calls nw
  simp only [sum_map_true, sum_map_false, sum_map_one, ztb.1, ztb.2, zfw.1, zfw.2,
    znw.1, znw.2.1, znw.2.2, zero_add] at atb dtb afw dfw tnw anw dnw
  have ltb := runAllowN_length TokenBucket.AllowN calls tb
  have lfw := runAllowN_length FixedWindow.AllowN calls fw
  have lnw := runAllowN_length NestedWindow.AllowN calls nw
  have ctb := count_true_add_count_false (runAllowN TokenBucket.AllowN tb calls).2
  have cfw := count_true_add_count_false (runAllowN FixedWindow.AllowN fw calls).2
  refine ⟨⟨?_, atb, dtb⟩, ⟨?_, afw, dfw⟩, ⟨?_, anw, dnw⟩,
    tokenBucket_AllowN_counters, fixedWindow_AllowN_counters,
    fun s now n => (nestedWindow_AllowN_counters s now n).2⟩
  · show (runAllowN TokenBucket.AllowN tb calls).1.allowedCount
      + (runAllowN TokenBucket.AllowN tb calls).1.deniedCount = calls.length
    rw [atb, dtb]
    omega
  · show (runAllowN FixedWindow.AllowN fw calls).1.allowedCount
      + (runAllowN FixedWindow.AllowN fw calls).1.deniedCount = calls.length
    rw [afw, dfw]
    omega
  · show (runAllowN NestedWindow.AllowN nw calls).1.totalRequests = calls.length
    rw [tnw, lnw]

/-- Witness for C19: `strategy_metrics_count_calls` for the three strategies constructed
at time 0 with rate 2, burst 1, capacity 2 and a window of 10, and the calls
`AllowN(1)` at 0, `AllowN(5)` at 1, `AllowN(1)` at 2. -/
theorem strategy_metrics_count_calls_witness :
    ((runAllowN TokenBucket.AllowN
        (NewTokenBucket (Config.mk 2 1 2 10 1 "token_bucket" false) 0)
        [(0, 1), (1, 5), (2, 1)]).1.GetMetrics.TotalRequests = 3 ∧
     (runAllowN TokenBucket.AllowN
        (NewTokenBucket (Config.mk 2 1 2 10 1 "token_bucket" false) 0)
        [(0, 1), (1, 5), (2, 1)]).1.GetMetrics.AllowedRequests = 2 ∧
     (runAllowN TokenBucket.AllowN
        (NewTokenBucket (Config.mk 2 1 2 10 1 "token_bucket" false) 0)
        [(0, 1), (1, 5), (2, 1)]).1.GetMetrics.DeniedRequests = 1) ∧
    (runAllowN FixedWindow.AllowN
        (NewFixedWindow (Config.mk 2 1 2 10 1 "token_bucket" false) 0)
        [(0, 1), (1, 5), (2, 1)]).1.GetMetrics.TotalRequests = 3 ∧
    (runAllowN NestedWindow.AllowN
        (NewNestedWindow (Config.mk 2 1 2 10 1 "token_bucket" false) 0)
        [(0, 1), (1, 5), (2, 1)]).1.GetMetrics.DeniedRequests = 1 :=
  by
  have h := strategy_metrics_count_calls (Config.mk 2 1 2 10 1 "token_bucket" false) 0
    (NewTokenBucket (Config.mk 2 1 2 10 1 "token_bucket" false) 0)
    (NewFixedWindow (Config.mk 2 1 2 10 1 "token_bucket" false) 0)
    (NewNestedWindow (Config.mk 2 1 2 10 1 "token_bucket" false) 0)
    [(0, 1), (1, 5), (2, 1)] (Or.inl rfl) (Or.inl rfl) (Or.inl rfl)
  have h1 := h.1
  have h2 := h.2.1.1
  have h3 := h.2.2.1.2.2
  revert h1 h2 h3
  decide!

/-! ### C13: `Reset` restores the freshly constructed state -/

/-- No call of the interface writes the settings of a token bucket. -/
theorem tokenBucket_settings_exec (tb : TokenBucket) (c : Call) :
    (TokenBucket.limiter.exec tb c).settings = tb.settings := by
  have hrefill : ∀ (s : TokenBucket) (now : Int), (s.refill now).settings = s.settings := by
    intro s now
    rw [TokenBucket.refill_eq]
    split <;> rfl
  have hallow : ∀ (s : TokenBucket) (now n : Int), (s.AllowN now n).1.settings = s.settings := by
    intro s now n
    rw [TokenBucket.AllowN_closed, ← hrefill s now]
    split <;> rfl
  have hwait : ∀ (n : Int) (env : WaitEnv) (s : TokenBucket),
      (s.WaitN n env).1.settings = s.settings := by
    intro n env
    induction env with
    | nil => intro s; rfl
    | cons e rest ih =>
      intro s
      obtain ⟨now, cancel⟩ := e
      unfold TokenBucket.WaitN
      by_cases h1 : (s.AllowN now n).2 = true
      · simp only [h1, if_true]
        exact hallow s now n
      · by_cases h2 : cancel = true
        · simp only [h1, h2, if_true, if_false, Bool.false_eq_true]
          exact hallow s now n
        · simp only [h1, h2, if_false, Bool.false_eq_true]
          rw [ih, hallow]
  cases c with
  | allow now => exact hallow tb now 1
  | allowN now n => exact hallow tb now n
  | wait env => exact hwait 1 env tb
  | waitN n env => exact hwait n env tb
  | reset now => rfl
  | getMetrics now => rfl

/-- No call of the interface writes the settings of a fixed window. -/
theorem fixedWindow_settings_exec (fw : FixedWindow) (c : Call) :
    (FixedWindow.limiter.exec fw c).settings = fw.settings := by
  have hallow : ∀ (s : FixedWindow) (now n : Int), (s.AllowN now n).1.settings = s.settings := by
    intro s now n
    unfold FixedWindow.AllowN
    dsimp only
    split <;> split <;> rfl
  have hwait : ∀ (n : Int) (env : WaitEnv) (s : FixedWindow),
      (s.WaitN n env).1.settings = s.settings := by
    intro n env
    induction env with
    | nil => intro s; rfl
    | cons e rest ih =>
      intro s
      obtain ⟨now, cancel⟩ := e
      unfold FixedWindow.WaitN
      by_cases h1 : (s.AllowN now n).2 = true
      · simp only [h1, if_true]
        exact hallow s now n
      · by_cases h2 : cancel = true
        · simp only [h1, h2, if_true, if_false, Bool.false_eq_true]
          exact hallow s now n
        · simp only [h1, h2, if_false, Bool.false_eq_true]
          rw [ih, hallow]
  cases c with
  | allow now => exact hallow fw now 1
  | allowN now n => exact hallow fw now n
  | wait env => exact hwait 1 env fw
  | waitN n env => exact hwait n env fw
  | reset now => rfl
  | getMetrics now => rfl

/-- No call of the interface writes the settings of a sliding window. -/
theorem slidingWindow_settings_exec (sw : SlidingWindow) (c : Call) :
    (SlidingWindow.limiter.exec sw c).settings = sw.settings := by
  have hclear : ∀ (s : SlidingWindow) (now : Int), (s.clearExpired now).settings = s.settings := by
    intro s now
    rw [SlidingWindow.clearExpired_eq]
    rfl
  have hallow : ∀ (s : SlidingWindow) (now : Int), (s.Allow now).1.settings = s.settings := by
    intro s now
    unfold SlidingWindow.Allow
    dsimp only
    rw [← hclear s now]
    split <;> rfl
  have hallowN : ∀ (s : SlidingWindow) (now n : Int),
      (s.AllowN now n).1.settings = s.settings := by
    intro s now n
    unfold SlidingWindow.AllowN
    dsimp only
    rw [← hclear s now]
    split <;> rfl
  have hwait : ∀ (env : WaitEnv) (s : SlidingWindow), (s.Wait env).1.settings = s.settings := by
    intro env
    induction env with
    | nil => intro s; rfl
    | cons e rest ih =>
      intro s
      obtain ⟨now, cancel⟩ := e
      unfold SlidingWindow.Wait
      dsimp only
      rw [← hclear s now]
      split
      · rfl
      · split
        · rfl
        · split
          · rfl
          · exact ih _
  have hwaitN : ∀ (n : Int) (env : WaitEnv) (s : SlidingWindow),
      (s.WaitN n env).1.settings = s.settings := by
    intro n env
    induction env with
    | nil => intro s; rfl
    | cons e rest ih =>
      intro s
      obtain ⟨now, cancel⟩ := e
      unfold SlidingWindow.WaitN
      dsimp only
      rw [← hclear s now]
      split
      · rfl
      · split
        · rfl
        · split
          · rfl
          · exact ih _
  cases c with
  | allow now => exact hallow sw now
  | allowN now n => exact hallowN sw now n
  | wait env => exact hwait env sw
  | waitN n env => exact hwaitN n env sw
  | reset now => rfl
  | getMetrics now => exact hclear sw now

/-- No call of the interface writes the settings of a nested window. -/
theorem nestedWindow_settings_exec (nw : NestedWindow) (c : Call) :
    (NestedWindow.limiter.exec nw c).settings = nw.settings := by
  have hupd : ∀ (s : NestedWindow) (now : Int), (s.updateWindows now).settings = s.settings := by
    intro s now
    unfold NestedWindow.updateWindows
    dsimp only
    split <;> split <;> rfl
  have hallowN : ∀ (s : NestedWindow) (now n : Int),
      (s.AllowN now n).1.settings = s.settings := by
    intro s now n
    unfold NestedWindow.AllowN
    dsimp only
    split
    · exact hupd _ now
    · exact hupd _ now
  have hallow : ∀ (s : NestedWindow) (now : Int), (s.allow now).1.settings = s.settings := by
    intro s now
    unfold NestedWindow.allow
    dsimp only
    split
    · exact hupd _ now
    · exact hupd _ now
  have hloop : ∀ (env : WaitEnv) (s : NestedWindow),
      (s.waitLoop env).1.settings = s.settings := by
    intro env
    induction env with
    | nil => intro s; rfl
    | cons e rest ih =>
      intro s
      obtain ⟨now, cancel⟩ := e
      unfold NestedWindow.waitLoop
      dsimp only
      split
      · exact hallow s now
      · split
        · exact hallow s now
        · rw [ih]
          exact hallow s now
  have hwaitN : ∀ (n : Int) (env : WaitEnv) (s : NestedWindow),
      (s.WaitN n env).1.settings = s.settings := by
    intro n env
    induction env with
    | nil => intro s; rfl
    | cons e rest ih =>
      intro s
      obtain ⟨now, cancel⟩ := e
      unfold NestedWindow.WaitN
      dsimp only
      split
      · exact hallowN s now n
      · split
        · exact hallowN s now n
        · rw [ih]
          exact hallowN s now n
  cases c with
  | allow now => exact hallowN nw now 1
  | allowN now n => exact hallowN nw now n
  | wait env => exact hloop env _
  | waitN n env => exact hwaitN n env nw
  | reset now => rfl
  | getMetrics now => rfl

/-- C13: for each strategy, in every state reachable from a freshly constructed
limiter by calls of the interface, the state after `Reset` at time `t` is the state the
constructor produces from the same configuration at time `t`; hence every later
sequence of `AllowN` calls returns the same results as on a fresh limiter, and `Reset`
followed by `Reset` at the same time is a single `Reset`. -/
theorem reset_restores_fresh (config : Config) (t0 t : Int) (calls : List Call) :
    (TokenBucket.limiter.run (NewTokenBucket config t0) calls).Reset t
      = NewTokenBucket config t ∧
    (FixedWindow.limiter.run (NewFixedWindow config t0) calls).Reset t
      = NewFixedWindow config t ∧
    (∀ sw0 : SlidingWindow, NewSlidingWindow config = some sw0 →
      (SlidingWindow.limiter.run sw0 calls).Reset = sw0) ∧
    (NestedWindow.limiter.run (NewNestedWindow config t0) calls).Reset t
      = NewNestedWindow config t ∧
    (∀ later : List (Int × Int),
      (runAllowN TokenBucket.AllowN
        ((TokenBucket.limiter.run (NewTokenBucket config t0) calls).Reset t) later).2 =
      (runAllowN TokenBucket.AllowN (NewTokenBucket config t) later).2 ∧
      (runAllowN FixedWindow.AllowN
        ((FixedWindow.limiter.run (NewFixedWindow config t0) calls).Reset t) later).2 =
      (runAllowN FixedWindow.AllowN (NewFixedWindow config t) later).2 ∧
      (∀ sw0 : SlidingWindow, NewSlidingWindow config = some sw0 →
        (runAllowN SlidingWindow.AllowN (SlidingWindow.limiter.run sw0 calls).Reset later).2 =
        (runAllowN SlidingWindow.AllowN sw0 later).2) ∧
      (runAllowN NestedWindow.AllowN
        ((NestedWindow.limiter.run (NewNestedWindow config t0) calls).Reset t) later).2 =
      (runAllowN NestedWindow.AllowN (NewNestedWindow config t) later).2) ∧
    (∀ s : TokenBucket, (s.Reset t).Reset t = s.Reset t) ∧
    (∀ s : FixedWindow, (s.Reset t).Reset t = s.Reset t) ∧
    (∀ s : SlidingWindow, s.Reset.Reset = s.Reset) ∧
    (∀ s : NestedWindow, (s.Reset t).Reset t = s.Reset t) := by
  have htb : (TokenBucket.limiter.run (NewTokenBucket config t0) calls).Reset t
      = NewTokenBucket config t := by
    have h := Limiter.run_preserves TokenBucket.limiter
      (fun s => s.settings = (NewTokenBucket config t0).settings)
      (fun s c hs => (tokenBucket_settings_exec s c).trans hs) calls _ rfl
    simp only [TokenBucket.settings, NewTokenBucket, Prod.mk.injEq] at h
    obtain ⟨h1, h2, h3⟩ := h
    simp only [TokenBucket.Reset, NewTokenBucket, h1, h2, h3]
  have hfw : (FixedWindow.limiter.run (NewFixedWindow config t0) calls).Reset t
      = NewFixedWindow config t := by
    have h := Limiter.run_preserves FixedWindow.limiter
      (fun s => s.settings = (NewFixedWindow config t0).settings)
      (fun s c hs => (fixedWindow_settings_exec s c).trans hs) calls _ rfl
    simp only [FixedWindow.settings, NewFixedWindow, Prod.mk.injEq] at h
    obtain ⟨h1, h2⟩ := h
    simp only [FixedWindow.Reset, NewFixedWindow, h1, h2]
  have hsw : ∀ sw0 : SlidingWindow, NewSlidingWindow config = some sw0 →
      (SlidingWindow.limiter.run sw0 calls).Reset = sw0 := by
    intro sw0 h0
    have h := Limiter.run_preserves SlidingWindow.limiter
      (fun s => s.settings = sw0.settings)
      (fun s c hs => (slidingWindow_settings_exec s c).trans hs) calls _ rfl
    simp only [SlidingWindow.settings, Prod.mk.injEq] at h
    obtain ⟨h1, h2⟩ := h
    have hreq : sw0.requests = [] := by
      unfold NewSlidingWindow at h0
      split at h0
      · exact absurd h0 (by simp)
      · simp only [Option.some.injEq] at h0
        rw [← h0]
    simp only [SlidingWindow.Reset, h1, h2]
    rw [← hreq]
  have hnw : (NestedWindow.limiter.run (NewNestedWindow config t0) calls).Reset t
      = NewNestedWindow config t := by
    have h := Limiter.run_preserves NestedWindow.limiter
      (fun s => s.settings = (NewNestedWindow config t0).settings)
      (fun s c hs => (nestedWindow_settings_exec s c).trans hs) calls _ rfl
    simp only [NestedWindow.settings, NewNestedWindow, Prod.mk.injEq] at h
    obtain ⟨h1, h2, h3, h4⟩ := h
    simp only [NestedWindow.Reset, NewNestedWindow, h1, h2, h3, h4]
  refine ⟨htb, hfw, hsw, hnw, ?_, fun s => rfl, fun s => rfl, fun s => rfl, fun s => rfl⟩
  intro later
  refine ⟨by rw [htb], by rw [hfw], ?_, by rw [hnw]⟩
  intro sw0 h0
  rw [hsw sw0 h0]

/-! ### C18: `DefaultMetricsCollector.RecordWaitTime` -/

/-- In sequential execution the loop of `RecordWaitTime` ends in its first iteration:
either the new value is not larger, or the compare-and-swap succeeds. -/
theorem DefaultMetricsCollector.maxWaitLoop_eq (mc : DefaultMetricsCollector) (w : Int) :
    mc.maxWaitLoop w =
      (if w ≤ mc.metrics.MaxWaitTime then mc
       else { mc with metrics := { mc.metrics with MaxWaitTime := w } }) := by
  rw [DefaultMetricsCollector.maxWaitLoop]
  by_cases h : w ≤ mc.metrics.MaxWaitTime
  · simp only [h, if_true]
  · simp [h, CompareAndSwapInt64]

/-- Closed form of `RecordWaitTime`. -/
theorem DefaultMetricsCollector.RecordWaitTime_eq (mc : DefaultMetricsCollector) (w : Int) :
    mc.RecordWaitTime w =
      { mc with metrics := { mc.metrics with
          TotalWaitTime := mc.metrics.TotalWaitTime + w,
          MaxWaitTime := max mc.metrics.MaxWaitTime w } } := by
  unfold DefaultMetricsCollector.RecordWaitTime
  rw [DefaultMetricsCollector.maxWaitLoop_eq]
  by_cases h : w ≤ mc.metrics.MaxWaitTime
  · simp only [h, if_true, max_eq_left h]
  · simp only [h, if_false, max_eq_right (le_of_lt (not_le.1 h))]

/-- Recording wait times that are not negative on a collector whose total and maximum
are 0: the total is their sum, the maximum bounds each of them, is one of them unless
there is none, and is at most the total. -/
theorem DefaultMetricsCollector.record_all (mc : DefaultMetricsCollector)
    (h0 : mc.metrics.TotalWaitTime = 0) (h1 : mc.metrics.MaxWaitTime = 0) (ws : List Int)
    (hpos : ∀ x ∈ ws, 0 ≤ x) :
    (ws.foldl DefaultMetricsCollector.RecordWaitTime mc).metrics.TotalWaitTime = ws.sum ∧
    (∀ x ∈ ws, x ≤ (ws.foldl DefaultMetricsCollector.RecordWaitTime mc).metrics.MaxWaitTime) ∧
    (ws = [] → (ws.foldl DefaultMetricsCollector.RecordWaitTime mc).metrics.MaxWaitTime = 0) ∧
    (ws ≠ [] → (ws.foldl DefaultMetricsCollector.RecordWaitTime mc).metrics.MaxWaitTime ∈ ws) ∧
    0 ≤ (ws.foldl DefaultMetricsCollector.RecordWaitTime mc).metrics.MaxWaitTime ∧
    (ws.foldl DefaultMetricsCollector.RecordWaitTime mc).metrics.MaxWaitTime ≤
      (ws.foldl DefaultMetricsCollector.RecordWaitTime mc).metrics.TotalWaitTime := by
  induction ws using List.reverseRecOn with
  | nil =>
    simp only [List.foldl_nil, List.sum_nil, h0, h1]
    simp
  | append_singleton l a ih =>
    have hl : ∀ x ∈ l, 0 ≤ x := fun x hx => hpos x (List.mem_append_left _ hx)
    have ha : 0 ≤ a := hpos a (by simp)
    obtain ⟨i1, i2, i3, i4, i5, i6⟩ := ih hl
    simp only [List.foldl_append, List.foldl_cons, List.foldl_nil, List.sum_append,
      List.sum_cons, List.sum_nil, add_zero]
    rw [DefaultMetricsCollector.RecordWaitTime_eq]
    dsimp only
    rw [i1]
    refine ⟨rfl, ?_, ?_, ?_, ?_, ?_⟩
    · intro x hx
      rcases List.mem_append.1 hx with hx | hx
      · exact le_trans (i2 x hx) (le_max_left _ _)
      · simp only [List.mem_singleton] at hx
        rw [hx]
        exact le_max_right _ _
    · intro hnil
      simp at hnil
    · intro _
      by_cases hm : a ≤ (l.foldl DefaultMetricsCollector.RecordWaitTime mc).metrics.MaxWaitTime
      · rw [max_eq_left hm]
        by_cases hlnil : l = []
        · have := i3 hlnil
          have ha0 : a = 0 := by omega
          rw [this, ha0]
          simp
        · exact List.mem_append_left _ (i4 hlnil)
      · rw [max_eq_right (le_of_lt (not_le.1 hm))]
        simp
    · exact le_trans i5 (le_max_left _ _)
    · apply max_le
      · omega
      · have : 0 ≤ l.sum := by omega
        omega

/-- C18: `RecordWaitTime` in sequential execution is a total function with
`TotalWaitTime' = TotalWaitTime + w` and `MaxWaitTime' = max MaxWaitTime w`, all other
fields unchanged.  Hence after recording wait times `ws`, none negative, on a fresh
collector or on a collector just `Reset`, `TotalWaitTime` is their sum, `MaxWaitTime`
is the largest of them (0 when there is none), and `MaxWaitTime ≤ TotalWaitTime`. -/
theorem recordWaitTime_spec (mc : DefaultMetricsCollector) (w now : Int) (ws : List Int)
    (hpos : ∀ x ∈ ws, 0 ≤ x) :
    mc.RecordWaitTime w =
      { mc with metrics := { mc.metrics with
          TotalWaitTime := mc.metrics.TotalWaitTime + w,
          MaxWaitTime := max mc.metrics.MaxWaitTime w } } ∧
    ((ws.foldl DefaultMetricsCollector.RecordWaitTime
        (NewMetricsCollector now)).metrics.TotalWaitTime = ws.sum ∧
     (∀ x ∈ ws, x ≤ (ws.foldl DefaultMetricsCollector.RecordWaitTime
        (NewMetricsCollector now)).metrics.MaxWaitTime) ∧
     (ws = [] → (ws.foldl DefaultMetricsCollector.RecordWaitTime
        (NewMetricsCollector now)).metrics.MaxWaitTime = 0) ∧
     (ws ≠ [] → (ws.foldl DefaultMetricsCollector.RecordWaitTime
        (NewMetricsCollector now)).metrics.MaxWaitTime ∈ ws) ∧
     (ws.foldl DefaultMetricsCollector.RecordWaitTime
        (NewMetricsCollector now)).metrics.MaxWaitTime ≤
      (ws.foldl DefaultMetricsCollector.RecordWaitTime
        (NewMetricsCollector now)).metrics.TotalWaitTime) ∧
    ((ws.foldl DefaultMetricsCollector.RecordWaitTime
        (mc.Reset now)).metrics.TotalWaitTime = ws.sum ∧
     (∀ x ∈ ws, x ≤ (ws.foldl DefaultMetricsCollector.RecordWaitTime
        (mc.Reset now)).metrics.MaxWaitTime) ∧
     (ws = [] → (ws.foldl DefaultMetricsCollector.RecordWaitTime
        (mc.Reset now)).metrics.MaxWaitTime = 0) ∧
     (ws ≠ [] → (ws.foldl DefaultMetricsCollector.RecordWaitTime
        (mc.Reset now)).metrics.MaxWaitTime ∈ ws) ∧
     (ws.foldl DefaultMetricsCollector.RecordWaitTime
        (mc.Reset now)).metrics.MaxWaitTime ≤
      (ws.foldl DefaultMetricsCollector.RecordWaitTime
        (mc.Reset now)).metrics.TotalWaitTime) := by
  refine ⟨DefaultMetricsCollector.RecordWaitTime_eq mc w, ?_, ?_⟩
  · obtain ⟨a1, a2, a3, a4, _, a6⟩ :=
      DefaultMetricsCollector.record_all (NewMetricsCollector now) rfl rfl ws hpos
    exact ⟨a1, a2, a3, a4, a6⟩
  · obtain ⟨a1, a2, a3, a4, _, a6⟩ :=
      DefaultMetricsCollector.record_all (mc.Reset now) rfl rfl ws hpos
    exact ⟨a1, a2, a3, a4, a6⟩

/-- Witness for C18: `recordWaitTime_spec` on the collector constructed at time 0, with
`w = 5` and the recorded wait times 3, 7, 2. -/
theorem recordWaitTime_spec_witness :
    (NewMetricsCollector 0).RecordWaitTime 5 =
      { (NewMetricsCollector 0) with metrics := { (NewMetricsCollector 0).metrics with
          TotalWaitTime := (NewMetricsCollector 0).metrics.TotalWaitTime + 5,
          MaxWaitTime := max (NewMetricsCollector 0).metrics.MaxWaitTime 5 } } ∧
    ([3, 7, 2].foldl DefaultMetricsCollector.RecordWaitTime
        (NewMetricsCollector 0)).metrics.TotalWaitTime = [3, 7, 2].sum ∧
    (∀ x ∈ ([3, 7, 2] : List Int), x ≤ ([3, 7, 2].foldl DefaultMetricsCollector.RecordWaitTime
        (NewMetricsCollector 0)).metrics.MaxWaitTime) :=
  ⟨(recordWaitTime_spec (NewMetricsCollector 0) 5 0 [3, 7, 2] (by decide)).1,
   (recordWaitTime_spec (NewMetricsCollector 0) 5 0 [3, 7, 2] (by decide)).2.1.1,
   (recordWaitTime_spec (NewMetricsCollector 0) 5 0 [3, 7, 2] (by decide)).2.1.2.1⟩

/-! ### C17: the wrapper records the wait time on success only -/

/-- Effect on the collector of the wrapper's handling of a blocking call that returned
the cancellation error. -/
theorem MetricsWrapper.afterWait_ctxErr {σ : Type} (inner : σ) (c : DefaultMetricsCollector)
    (d : Int) :
    (MetricsWrapper.afterWait inner c.IncrementTotalRequests d WaitResult.ctxErr).2
      = WaitResult.ctxErr ∧
    (MetricsWrapper.afterWait inner c.IncrementTotalRequests d
      WaitResult.ctxErr).1.collector.metrics =
      { c.metrics with
        TotalRequests := c.metrics.TotalRequests + 1,
        DeniedRequests := c.metrics.DeniedRequests + 1 } := by
  exact ⟨rfl, rfl⟩

/-- Effect on the collector of the wrapper's handling of a blocking call that returned
`nil` after the measured duration `d`. -/
theorem MetricsWrapper.afterWait_ok {σ : Type} (inner : σ) (c : DefaultMetricsCollector)
    (d : Int) :
    (MetricsWrapper.afterWait inner c.IncrementTotalRequests d WaitResult.ok).2
      = WaitResult.ok ∧
    (MetricsWrapper.afterWait inner c.IncrementTotalRequests d
      WaitResult.ok).1.collector.metrics =
      { c.metrics with
        TotalRequests := c.metrics.TotalRequests + 1,
        AllowedRequests := c.metrics.AllowedRequests + 1,
        TotalWaitTime := c.metrics.TotalWaitTime + d,
        MaxWaitTime := max c.metrics.MaxWaitTime d } := by
  refine ⟨rfl, ?_⟩
  show (c.IncrementTotalRequests.IncrementAllowedRequests.RecordWaitTime d).metrics = _
  rw [DefaultMetricsCollector.RecordWaitTime_eq]
  rfl

/-- C17: for `MetricsWrapper.Wait` and `WaitN` over any wrapped limiter: when the
wrapped wait returns the cancellation error, the collector's `TotalWaitTime` and
`MaxWaitTime` are unchanged and `DeniedRequests` grows by 1; when it succeeds and the
measured duration is `d`, `AllowedRequests` grows by 1, `TotalWaitTime` grows by `d` and
`MaxWaitTime` becomes `max MaxWaitTime d`.  In both cases `TotalRequests` grows by 1 and
every other field of the collector is unchanged. -/
theorem wrapper_wait_time_on_success {σ : Type} (L : Limiter σ) (mw : MetricsWrapper σ)
    (n : Int) (env : WaitEnv) (d : Int) :
    ((L.Wait mw.limiter env).2 = WaitResult.ctxErr →
      (MetricsWrapper.Wait L mw env d).2 = WaitResult.ctxErr ∧
      (MetricsWrapper.Wait L mw env d).1.collector.metrics =
        { mw.collector.metrics with
          TotalRequests := mw.collector.metrics.TotalRequests + 1,
          DeniedRequests := mw.collector.metrics.DeniedRequests + 1 }) ∧
    ((L.Wait mw.limiter env).2 = WaitResult.ok →
      (MetricsWrapper.Wait L mw env d).2 = WaitResult.ok ∧
      (MetricsWrapper.Wait L mw env d).1.collector.metrics =
        { mw.collector.metrics with
          TotalRequests := mw.collector.metrics.TotalRequests + 1,
          AllowedRequests := mw.collector.metrics.AllowedRequests + 1,
          TotalWaitTime := mw.collector.metrics.TotalWaitTime + d,
          MaxWaitTime := max mw.collector.metrics.MaxWaitTime d }) ∧
    ((L.WaitN mw.limiter n env).2 = WaitResult.ctxErr →
      (MetricsWrapper.WaitN L mw n env d).2 = WaitResult.ctxErr ∧
      (MetricsWrapper.WaitN L mw n env d).1.collector.metrics =
        { mw.collector.metrics with
          TotalRequests := mw.collector.metrics.TotalRequests + 1,
          DeniedRequests := mw.collector.metrics.DeniedRequests + 1 }) ∧
    ((L.WaitN mw.limiter n env).2 = WaitResult.ok →
      (MetricsWrapper.WaitN L mw n env d).2 = WaitResult.ok ∧
      (MetricsWrapper.WaitN L mw n env d).1.collector.metrics =
        { mw.collector.metrics with
          TotalRequests := mw.collector.metrics.TotalRequests + 1,
          AllowedRequests := mw.collector.metrics.AllowedRequests + 1,
          TotalWaitTime := mw.collector.metrics.TotalWaitTime + d,
          MaxWaitTime := max mw.collector.metrics.MaxWaitTime d }) := by
  refine ⟨?_, ?_, ?_, ?_⟩
  · intro h
    unfold MetricsWrapper.Wait
    dsimp only
    rw [h]
    exact MetricsWrapper.afterWait_ctxErr _ _ d
  · intro h
    unfold MetricsWrapper.Wait
    dsimp only
    rw [h]
    exact MetricsWrapper.afterWait_ok _ _ d
  · intro h
    unfold MetricsWrapper.WaitN
    dsimp only
    rw [h]
    exact MetricsWrapper.afterWait_ctxErr _ _ d
  · intro h
    unfold MetricsWrapper.WaitN
    dsimp only
    rw [h]
    exact MetricsWrapper.afterWait_ok _ _ d

/-- Witness for C17: `wrapper_wait_time_on_success` over a token bucket of capacity 1
and rate 1 per second constructed at time 0: a `Wait` whose first attempt at time 0
is admitted, measured as 7 ns, and a `WaitN(2)` that is denied and then cancelled. -/
theorem wrapper_wait_time_on_success_witness :
    ((MetricsWrapper.Wait TokenBucket.limiter
        (NewMetricsWrapper (NewTokenBucket (Config.mk 1 1 1 1000000000 1 "token_bucket" true) 0)
          (NewMetricsCollector 0)) [(0, false)] 7).2 = WaitResult.ok ∧
     (MetricsWrapper.Wait TokenBucket.limiter
        (NewMetricsWrapper (NewTokenBucket (Config.mk 1 1 1 1000000000 1 "token_bucket" true) 0)
          (NewMetricsCollector 0)) [(0, false)] 7).1.collector.metrics =
        { (NewMetricsCollector 0).metrics with
          TotalRequests := 1, AllowedRequests := 1, TotalWaitTime := 7, MaxWaitTime := 7 }) ∧
    ((MetricsWrapper.WaitN TokenBucket.limiter
        (NewMetricsWrapper (NewTokenBucket (Config.mk 1 1 1 1000000000 1 "token_bucket" true) 0)
          (NewMetricsCollector 0)) 2 [(0, true)] 7).2 = WaitResult.ctxErr ∧
     (MetricsWrapper.WaitN TokenBucket.limiter
        (NewMetricsWrapper (NewTokenBucket (Config.mk 1 1 1 1000000000 1 "token_bucket" true) 0)
          (NewMetricsCollector 0)) 2 [(0, true)] 7).1.collector.metrics =
        { (NewMetricsCollector 0).metrics with TotalRequests := 1, DeniedRequests := 1 }) :=
  ⟨(wrapper_wait_time_on_success TokenBucket.limiter
      (NewMetricsWrapper (NewTokenBucket (Config.mk 1 1 1 1000000000 1 "token_bucket" true) 0)
        (NewMetricsCollector 0)) 2 [(0, false)] 7).2.1 (by decide!),
   (wrapper_wait_time_on_success TokenBucket.limiter
      (NewMetricsWrapper (NewTokenBucket (Config.mk 1 1 1 1000000000 1 "token_bucket" true) 0)
        (NewMetricsCollector 0)) 2 [(0, true)] 7).2.2.1 (by decide!)⟩

/-! ### C16: the metrics wrapper is a transparent decorator -/

/-- Recording a wait time does not touch the request counters. -/
theorem DefaultMetricsCollector.RecordWaitTime_requests (mc : DefaultMetricsCollector)
    (w : Int) :
    (mc.RecordWaitTime w).metrics.TotalRequests = mc.metrics.TotalRequests ∧
    (mc.RecordWaitTime w).metrics.AllowedRequests = mc.metrics.AllowedRequests ∧
    (mc.RecordWaitTime w).metrics.DeniedRequests = mc.metrics.DeniedRequests := by
  rw [DefaultMetricsCollector.RecordWaitTime_eq]
  exact ⟨rfl, rfl, rfl⟩

/-- Counters of the collector after the wrapper handled the end of a blocking call that
completed with outcome `b`. -/
theorem MetricsWrapper.afterWait_counters {σ : Type} (inner : σ)
    (c : DefaultMetricsCollector) (d : Int) (res : WaitResult) (b : Bool)
    (h : res.completed = some b) :
    (MetricsWrapper.afterWait inner c.IncrementTotalRequests d res).1.collector.metrics.TotalRequests
      = c.metrics.TotalRequests + 1 ∧
    (MetricsWrapper.afterWait inner c.IncrementTotalRequests d res).1.collector.metrics.AllowedRequests
      = c.metrics.AllowedRequests + (if b = true then 1 else 0) ∧
    (MetricsWrapper.afterWait inner c.IncrementTotalRequests d res).1.collector.metrics.DeniedRequests
      = c.metrics.DeniedRequests + (if b = true then 0 else 1) := by
  cases res with
  | ok =>
    have hb : b = true := by
      simp only [WaitResult.completed, Option.some.injEq] at h
      exact h.symm
    subst hb
    obtain ⟨h1, h2, h3⟩ := DefaultMetricsCollector.RecordWaitTime_requests
      c.IncrementTotalRequests.IncrementAllowedRequests d
    simp only [MetricsWrapper.afterWait, h1, h2, h3, if_true, add_zero]
    exact ⟨rfl, rfl, rfl⟩
  | ctxErr =>
    have hb : b = false := by
      simp only [WaitResult.completed, Option.some.injEq] at h
      exact h.symm
    subst hb
    simp only [MetricsWrapper.afterWait, Bool.false_eq_true, if_false, add_zero]
    exact ⟨rfl, rfl, rfl⟩
  | panic => simp [WaitResult.completed] at h
  | blocked => simp [WaitResult.completed] at h

/-- Counters of the collector after one completed call on the wrapper. -/
theorem MetricsWrapper.call_counters {σ : Type} (L : Limiter σ) (mw : MetricsWrapper σ)
    (c : MWCall) (b : Bool) (h : (MetricsWrapper.call L mw c).2 = some b) :
    (MetricsWrapper.call L mw c).1.collector.metrics.TotalRequests
      = mw.collector.metrics.TotalRequests + 1 ∧
    (MetricsWrapper.call L mw c).1.collector.metrics.AllowedRequests
      = mw.collector.metrics.AllowedRequests + (if b = true then 1 else 0) ∧
    (MetricsWrapper.call L mw c).1.collector.metrics.DeniedRequests
      = mw.collector.metrics.DeniedRequests + (if b = true then 0 else 1) := by
  cases c with
  | allow now =>
    simp only [MetricsWrapper.call, Option.some.injEq] at h ⊢
    unfold MetricsWrapper.Allow at h ⊢
    dsimp only at h ⊢
    by_cases hr : (L.Allow mw.limiter now).2 = true
    · simp only [hr, if_true] at h ⊢
      subst h
      simp [DefaultMetricsCollector.IncrementTotalRequests,
        DefaultMetricsCollector.IncrementAllowedRequests]
    · simp only [hr, if_false, Bool.false_eq_true] at h ⊢
      have hb : b = false := by
        cases b
        · rfl
        · simp_all
      subst hb
      simp [DefaultMetricsCollector.IncrementTotalRequests,
        DefaultMetricsCollector.IncrementDeniedRequests]
  | allowN now n =>
    simp only [MetricsWrapper.call, Option.some.injEq] at h ⊢
    unfold MetricsWrapper.AllowN at h ⊢
    dsimp only at h ⊢
    by_cases hr : (L.AllowN mw.limiter now n).2 = true
    · simp only [hr, if_true] at h ⊢
      subst h
      simp [DefaultMetricsCollector.IncrementTotalRequests,
        DefaultMetricsCollector.IncrementAllowedRequests]
    · simp only [hr, if_false, Bool.false_eq_true] at h ⊢
      have hb : b = false := by
        cases b
        · rfl
        · simp_all
      subst hb
      simp [DefaultMetricsCollector.IncrementTotalRequests,
        DefaultMetricsCollector.IncrementDeniedRequests]
  | wait env d =>
    simp only [MetricsWrapper.call] at h ⊢
    unfold MetricsWrapper.Wait at h ⊢
    dsimp only at h ⊢
    apply MetricsWrapper.afterWait_counters
    cases hres : (L.Wait mw.limiter env).2 <;> rw [hres] at h <;>
      simpa [MetricsWrapper.afterWait] using h
  | waitN n env d =>
    simp only [MetricsWrapper.call] at h ⊢
    unfold MetricsWrapper.WaitN at h ⊢
    dsimp only at h ⊢
    apply MetricsWrapper.afterWait_counters
    cases hres : (L.WaitN mw.limiter n env).2 <;> rw [hres] at h <;>
      simpa [MetricsWrapper.afterWait] using h

/-- Counters of the collector after a sequence of calls on the wrapper that all
completed. -/
theorem MetricsWrapper.runAll_counters {σ : Type} (L : Limiter σ) (calls : List MWCall) :
    ∀ mw : MetricsWrapper σ,
      (∀ o ∈ (MetricsWrapper.runAll L mw calls).2, o ≠ none) →
      (MetricsWrapper.runAll L mw calls).1.collector.metrics.TotalRequests
        = mw.collector.metrics.TotalRequests + calls.length ∧
      (MetricsWrapper.runAll L mw calls).1.collector.metrics.AllowedRequests
        = mw.collector.metrics.AllowedRequests
          + ((MetricsWrapper.runAll L mw calls).2.count (some true) : Nat) ∧
      (MetricsWrapper.runAll L mw calls).1.collector.metrics.DeniedRequests
        = mw.collector.metrics.DeniedRequests
          + ((MetricsWrapper.runAll L mw calls).2.count (some false) : Nat) := by
  induction calls with
  | nil => intro mw _; simp [MetricsWrapper.runAll]
  | cons c rest ih =>
    intro mw hdone
    simp only [MetricsWrapper.runAll, List.mem_cons, forall_eq_or_imp] at hdone ⊢
    obtain ⟨hc, hrest⟩ := hdone
    obtain ⟨b, hb⟩ := Option.ne_none_iff_exists'.1 hc
    obtain ⟨s1, s2, s3⟩ := MetricsWrapper.call_counters L mw c b hb
    obtain ⟨r1, r2, r3⟩ := ih (MetricsWrapper.call L mw c).1 hrest
    rw [r1, r2, r3, s1, s2, s3, hb]
    cases b
    · simp only [Bool.false_eq_true, if_false, List.length_cons, List.count_cons_self]
      refine ⟨by push_cast; ring, ?_, by push_cast; ring⟩
      rw [List.count_cons_of_ne (by decide)]
      ring
    · simp only [if_true, List.length_cons, List.count_cons_self]
      refine ⟨by push_cast; ring, by push_cast; ring, ?_⟩
      rw [List.count_cons_of_ne (by decide)]
      ring

/-- The outcomes of completed calls are `some true` or `some false`. -/
theorem count_completed (os : List (Option Bool)) (h : ∀ o ∈ os, o ≠ none) :
    os.count (some true) + os.count (some false) = os.length := by
  induction os with
  | nil => rfl
  | cons o rest ih =>
    have hrest : ∀ x ∈ rest, x ≠ none := fun x hx => h x (List.mem_cons_of_mem _ hx)
    have ho : o ≠ none := h o (by simp)
    have := ih hrest
    rcases o with _ | b
    · exact absurd rfl ho
    · cases b
      · rw [List.count_cons_self, List.count_cons_of_ne (by decide), List.length_cons]
        omega
      · rw [List.count_cons_self, List.count_cons_of_ne (by decide), List.length_cons]
        omega

/-- C16: over any wrapped limiter, `MetricsWrapper.Allow` and `AllowN` return the
value the wrapped limiter returns and leave the wrapped limiter in the state a direct
call leaves it in; and after every sequence of completed `Allow`/`AllowN`/`Wait`/`WaitN`
calls on a wrapper freshly constructed over a fresh collector, or just `Reset`,
`GetMetrics` reports `TotalRequests` equal to the number of calls, `AllowedRequests`
equal to the number that succeeded and `DeniedRequests` equal to the number denied or
cancelled, so that `TotalRequests = AllowedRequests + DeniedRequests`. -/
theorem wrapper_transparent {σ : Type} (L : Limiter σ) (mw : MetricsWrapper σ)
    (now n t tc : Int) (s0 : σ) (calls : List MWCall)
    (hfresh : ∀ o ∈ (MetricsWrapper.runAll L
      (NewMetricsWrapper s0 (NewMetricsCollector tc)) calls).2, o ≠ none)
    (hreset : ∀ o ∈ (MetricsWrapper.runAll L
      (MetricsWrapper.Reset L mw t tc) calls).2, o ≠ none) :
    ((MetricsWrapper.Allow L mw now).2 = (L.Allow mw.limiter now).2 ∧
     (MetricsWrapper.Allow L mw now).1.limiter = (L.Allow mw.limiter now).1 ∧
     (MetricsWrapper.AllowN L mw now n).2 = (L.AllowN mw.limiter now n).2 ∧
     (MetricsWrapper.AllowN L mw now n).1.limiter = (L.AllowN mw.limiter now n).1) ∧
    ((MetricsWrapper.runAll L (NewMetricsWrapper s0 (NewMetricsCollector tc))
        calls).1.GetMetrics.TotalRequests = calls.length ∧
     (MetricsWrapper.runAll L (NewMetricsWrapper s0 (NewMetricsCollector tc))
        calls).1.GetMetrics.AllowedRequests =
       ((MetricsWrapper.runAll L (NewMetricsWrapper s0 (NewMetricsCollector tc))
          calls).2.count (some true) : Nat) ∧
     (MetricsWrapper.runAll L (NewMetricsWrapper s0 (NewMetricsCollector tc))
        calls).1.GetMetrics.DeniedRequests =
       ((MetricsWrapper.runAll L (NewMetricsWrapper s0 (NewMetricsCollector tc))
          calls).2.count (some false) : Nat) ∧
     (MetricsWrapper.runAll L (NewMetricsWrapper s0 (NewMetricsCollector tc))
        calls).1.GetMetrics.TotalRequests =
       (MetricsWrapper.runAll L (NewMetricsWrapper s0 (NewMetricsCollector tc))
          calls).1.GetMetrics.AllowedRequests +
       (MetricsWrapper.runAll L (NewMetricsWrapper s0 (NewMetricsCollector tc))
          calls).1.GetMetrics.DeniedRequests) ∧
    ((MetricsWrapper.runAll L (MetricsWrapper.Reset L mw t tc)
        calls).1.GetMetrics.TotalRequests = calls.length ∧
     (MetricsWrapper.runAll L (MetricsWrapper.Reset L mw t tc)
        calls).1.GetMetrics.AllowedRequests =
       ((MetricsWrapper.runAll L (MetricsWrapper.Reset L mw t tc)
          calls).2.count (some true) : Nat) ∧
     (MetricsWrapper.runAll L (MetricsWrapper.Reset L mw t tc)
        calls).1.GetMetrics.DeniedRequests =
       ((MetricsWrapper.runAll L (MetricsWrapper.Reset L mw t tc)
          calls).2.count (some false) : Nat) ∧
     (MetricsWrapper.runAll L (MetricsWrapper.Reset L mw t tc)
        calls).1.GetMetrics.TotalRequests =
       (MetricsWrapper.runAll L (MetricsWrapper.Reset L mw t tc)
          calls).1.GetMetrics.AllowedRequests +
       (MetricsWrapper.runAll L (MetricsWrapper.Reset L mw t tc)
          calls).1.GetMetrics.DeniedRequests) := by
  have hlen : ∀ (cs : List MWCall) (w : MetricsWrapper σ),
      (MetricsWrapper.runAll L w cs).2.length = cs.length := by
    intro cs
    induction cs with
    | nil => intro w; rfl
    | cons c rest ih => intro w; simp [MetricsWrapper.runAll, ih]
  have key : ∀ w : MetricsWrapper σ,
      w.collector.metrics.TotalRequests = 0 → w.collector.metrics.AllowedRequests = 0 →
      w.collector.metrics.DeniedRequests = 0 →
      (∀ o ∈ (MetricsWrapper.runAll L w calls).2, o ≠ none) →
      (MetricsWrapper.runAll L w calls).1.GetMetrics.TotalRequests = calls.length ∧
      (MetricsWrapper.runAll L w calls).1.GetMetrics.AllowedRequests =
        ((MetricsWrapper.runAll L w calls).2.count (some true) : Nat) ∧
      (MetricsWrapper.runAll L w calls).1.GetMetrics.DeniedRequests =
        ((MetricsWrapper.runAll L w calls).2.count (some false) : Nat) ∧
      (MetricsWrapper.runAll L w calls).1.GetMetrics.TotalRequests =
        (MetricsWrapper.runAll L w calls).1.GetMetrics.AllowedRequests +
        (MetricsWrapper.runAll L w calls).1.GetMetrics.DeniedRequests := by
    intro w z1 z2 z3 hdone
    obtain ⟨r1, r2, r3⟩ := MetricsWrapper.runAll_counters L calls w hdone
    have hc := count_completed _ hdone
    rw [hlen] at hc
    simp only [MetricsWrapper.GetMetrics, DefaultMetricsCollector.GetMetrics]
    rw [r1, r2, r3, z1, z2, z3]
    refine ⟨by simp, by simp, by simp, ?_⟩
    simp only [zero_add]
    omega
  refine ⟨?_, key _ rfl rfl rfl hfresh, key _ rfl rfl rfl hreset⟩
  unfold MetricsWrapper.Allow MetricsWrapper.AllowN
  dsimp only
  refine ⟨?_, ?_, ?_, ?_⟩ <;> split <;> rfl

/-- Witness for C16: `wrapper_transparent` over a token bucket of capacity 1 constructed
at time 0, with the calls `Allow` at 0 (admitted), `Allow` at 0 (denied) and a `Wait`
that is denied at 0 and then cancelled. -/
theorem wrapper_transparent_witness :
    (MetricsWrapper.runAll TokenBucket.limiter
      (NewMetricsWrapper (NewTokenBucket (Config.mk 1 1 1 1000000000 1 "token_bucket" true) 0)
        (NewMetricsCollector 0))
      [MWCall.allow 0, MWCall.allow 0, MWCall.wait [(0, true)] 5]).1.GetMetrics.TotalRequests
      = 3 ∧
    (MetricsWrapper.runAll TokenBucket.limiter
      (NewMetricsWrapper (NewTokenBucket (Config.mk 1 1 1 1000000000 1 "token_bucket" true) 0)
        (NewMetricsCollector 0))
      [MWCall.allow 0, MWCall.allow 0, MWCall.wait [(0, true)] 5]).1.GetMetrics.AllowedRequests
      = 1 ∧
    (MetricsWrapper.runAll TokenBucket.limiter
      (NewMetricsWrapper (NewTokenBucket (Config.mk 1 1 1 1000000000 1 "token_bucket" true) 0)
        (NewMetricsCollector 0))
      [MWCall.allow 0, MWCall.allow 0, MWCall.wait [(0, true)] 5]).1.GetMetrics.DeniedRequests
      = 2 :=
  by
  have h := wrapper_transparent TokenBucket.limiter
    (NewMetricsWrapper (NewTokenBucket (Config.mk 1 1 1 1000000000 1 "token_bucket" true) 0)
      (NewMetricsCollector 0)) 0 1 0 0
    (NewTokenBucket (Config.mk 1 1 1 1000000000 1 "token_bucket" true) 0)
    [MWCall.allow 0, MWCall.allow 0, MWCall.wait [(0, true)] 5]
    (by decide!) (by decide!)
  have h1 := h.2.1.1
  have h2 := h.2.1.2.1
  have h3 := h.2.1.2.2.1
  revert h1 h2 h3
  decide!

/-! ### C14: a wait whose cancellation signal has already fired -/

/-- A denied `AllowN` of the token bucket leaves the state `denied`. -/
theorem tokenBucket_AllowN_denied (tb : TokenBucket) (now n : Int)
    (h : (tb.AllowN now n).2 = false) : (tb.AllowN now n).1 = tb.denied now := by
  rw [TokenBucket.AllowN_closed] at h ⊢
  by_cases hn : n ≤ (tb.refill now).tokens
  · rw [if_pos hn] at h
    exact absurd h (by simp)
  · rw [if_neg hn]
    rfl

/-- A denied `AllowN` of the fixed window leaves the state `denied`. -/
theorem fixedWindow_AllowN_denied (fw : FixedWindow) (now n : Int)
    (h : (fw.AllowN now n).2 = false) : (fw.AllowN now n).1 = fw.denied now := by
  unfold FixedWindow.AllowN at h ⊢
  unfold FixedWindow.denied
  dsimp only at h ⊢
  by_cases hw : now - fw.windowStart ≥ fw.window
  · by_cases hc : n ≤ fw.rate
    · simp [hw, hc] at h
    · simp [hw, hc]
  · by_cases hc : fw.count + n ≤ fw.rate
    · simp [hw, hc] at h
    · simp [hw, hc]

/-- A denied `AllowN` of the nested window leaves the state `denied`. -/
theorem nestedWindow_AllowN_denied (nw : NestedWindow) (now n : Int)
    (h : (nw.AllowN now n).2 = false) : (nw.AllowN now n).1 = nw.denied now := by
  unfold NestedWindow.AllowN at h ⊢
  unfold NestedWindow.denied
  dsimp only at h ⊢
  split at h
  · rename_i hc
    rw [if_pos hc]
  · exact absurd h (by simp)

/-- A denied `AllowN` of the sliding window leaves the trimmed log. -/
theorem slidingWindow_AllowN_denied (sw : SlidingWindow) (now n : Int)
    (h : (sw.AllowN now n).2 = false) : (sw.AllowN now n).1 = sw.clearExpired now := by
  unfold SlidingWindow.AllowN at h ⊢
  dsimp only at h ⊢
  split at h
  · exact absurd h (by simp)
  · rename_i hc
    rw [if_neg hc]

/-- A `WaitN` of the token bucket that returns the cancellation error leaves what its
denied attempts leave. -/
theorem tokenBucket_WaitN_ctxErr (n : Int) (env : WaitEnv) :
    ∀ tb : TokenBucket, (tb.WaitN n env).2 = WaitResult.ctxErr →
      (tb.WaitN n env).1 = (attemptTimes env).foldl TokenBucket.denied tb := by
  induction env with
  | nil => intro tb h; simp [TokenBucket.WaitN] at h
  | cons a rest ih =>
    obtain ⟨now, cancel⟩ := a
    intro tb h
    unfold TokenBucket.WaitN at h ⊢
    unfold attemptTimes
    dsimp only at h ⊢
    by_cases hr : (tb.AllowN now n).2 = true
    · rw [if_pos hr] at h
      exact absurd h (by simp)
    · have hr2 : (tb.AllowN now n).2 = false := by simpa using hr
      rw [if_neg hr] at h ⊢
      by_cases hc : cancel = true
      · rw [if_pos hc, if_pos hc]
        exact tokenBucket_AllowN_denied tb now n hr2
      · rw [if_neg hc] at h ⊢
        rw [if_neg hc, ih _ h, tokenBucket_AllowN_denied tb now n hr2]
        rfl

/-- A `WaitN` of the fixed window that returns the cancellation error leaves what its
denied attempts leave. -/
theorem fixedWindow_WaitN_ctxErr (n : Int) (env : WaitEnv) :
    ∀ fw : FixedWindow, (fw.WaitN n env).2 = WaitResult.ctxErr →
      (fw.WaitN n env).1 = (attemptTimes env).foldl FixedWindow.denied fw := by
  induction env with
  | nil => intro fw h; simp [FixedWindow.WaitN] at h
  | cons a rest ih =>
    obtain ⟨now, cancel⟩ := a
    intro fw h
    unfold FixedWindow.WaitN at h ⊢
    unfold attemptTimes
    dsimp only at h ⊢
    by_cases hr : (fw.AllowN now n).2 = true
    · rw [if_pos hr] at h
      exact absurd h (by simp)
    · have hr2 : (fw.AllowN now n).2 = false := by simpa using hr
      rw [if_neg hr] at h ⊢
      by_cases hc : cancel = true
      · rw [if_pos hc, if_pos hc]
        exact fixedWindow_AllowN_denied fw now n hr2
      · rw [if_neg hc] at h ⊢
        rw [if_neg hc, ih _ h, fixedWindow_AllowN_denied fw now n hr2]
        rfl

/-- A `WaitN` of the nested window that returns the cancellation error leaves what its
denied attempts leave. -/
theorem nestedWindow_WaitN_ctxErr (n : Int) (env : WaitEnv) :
    ∀ nw : NestedWindow, (nw.WaitN n env).2 = WaitResult.ctxErr →
      (nw.WaitN n env).1 = (attemptTimes env).foldl NestedWindow.denied nw := by
  induction env with
  | nil => intro nw h; simp [NestedWindow.WaitN] at h
  | cons a rest ih =>
    obtain ⟨now, cancel⟩ := a
    intro nw h
    unfold NestedWindow.WaitN at h ⊢
    unfold attemptTimes
    dsimp only at h ⊢
    by_cases hr : (nw.AllowN now n).2 = true
    · rw [if_pos hr] at h
      exact absurd h (by simp)
    · have hr2 : (nw.AllowN now n).2 = false := by simpa using hr
      rw [if_neg hr] at h ⊢
      by_cases hc : cancel = true
      · rw [if_pos hc, if_pos hc]
        exact nestedWindow_AllowN_denied nw now n hr2
      · rw [if_neg hc] at h ⊢
        rw [if_neg hc, ih _ h, nestedWindow_AllowN_denied nw now n hr2]
        rfl

/-- The loop of `NestedWindow.Wait`, when it returns the cancellation error, leaves
what its denied attempts leave. -/
theorem NestedWindow.waitLoop_ctxErr (env : WaitEnv) :
    ∀ nw : NestedWindow, (nw.waitLoop env).2 = WaitResult.ctxErr →
      (nw.waitLoop env).1 = (attemptTimes env).foldl NestedWindow.deniedAttempt nw := by
  induction env with
  | nil => intro nw h; simp [NestedWindow.waitLoop] at h
  | cons a rest ih =>
    obtain ⟨now, cancel⟩ := a
    intro nw h
    unfold NestedWindow.waitLoop at h ⊢
    unfold attemptTimes
    dsimp only at h ⊢
    by_cases hr : (nw.allow now).2 = true
    · rw [if_pos hr] at h
      exact absurd h (by simp)
    · have hst : (nw.allow now).1 = nw.updateWindows now := by
        unfold NestedWindow.allow at hr ⊢
        dsimp only at hr ⊢
        split
        · rfl
        · rename_i hc
          rw [if_neg hc] at hr
          exact absurd rfl hr
      rw [if_neg hr] at h ⊢
      by_cases hc : cancel = true
      · rw [if_pos hc, if_pos hc, hst]
        rfl
      · rw [if_neg hc] at h ⊢
        rw [if_neg hc, ih _ h, hst]
        rfl

/-- A `WaitN` of the sliding window that returns the cancellation error leaves the log
trimmed at its attempts. -/
theorem slidingWindow_WaitN_ctxErr (n : Int) (env : WaitEnv) :
    ∀ sw : SlidingWindow, (sw.WaitN n env).2 = WaitResult.ctxErr →
      (sw.WaitN n env).1 = (attemptTimes env).foldl SlidingWindow.clearExpired sw := by
  induction env with
  | nil => intro sw h; simp [SlidingWindow.WaitN] at h
  | cons a rest ih =>
    obtain ⟨now, cancel⟩ := a
    intro sw h
    unfold SlidingWindow.WaitN at h ⊢
    unfold attemptTimes
    dsimp only at h ⊢
    by_cases hr : ((sw.clearExpired now).requests.length : Int) + n ≤ (sw.clearExpired now).rate
    · rw [if_pos hr] at h
      exact absurd h (by simp)
    · rw [if_neg hr] at h ⊢
      cases hne : (sw.clearExpired now).nextExpiry with
      | none =>
        rw [hne] at h
        exact absurd h (by simp)
      | some d =>
        rw [hne] at h
        dsimp only at h ⊢
        by_cases hc : cancel = true
        · rw [if_pos hc, if_pos hc]
          rfl
        · rw [if_neg hc] at h ⊢
          rw [if_neg hc, ih _ h]
          rfl

/-- A `Wait` of the sliding window that returns the cancellation error leaves the log
trimmed at its attempts. -/
theorem SlidingWindow.Wait_ctxErr (env : WaitEnv) :
    ∀ sw : SlidingWindow, (sw.Wait env).2 = WaitResult.ctxErr →
      (sw.Wait env).1 = (attemptTimes env).foldl SlidingWindow.clearExpired sw := by
  induction env with
  | nil => intro sw h; simp [SlidingWindow.Wait] at h
  | cons a rest ih =>
    obtain ⟨now, cancel⟩ := a
    intro sw h
    unfold SlidingWindow.Wait at h ⊢
    unfold attemptTimes
    dsimp only at h ⊢
    by_cases hr : ((sw.clearExpired now).requests.length : Int) < (sw.clearExpired now).rate
    · rw [if_pos hr] at h
      exact absurd h (by simp)
    · rw [if_neg hr] at h ⊢
      cases hne : (sw.clearExpired now).nextExpiry with
      | none =>
        rw [hne] at h
        exact absurd h (by simp)
      | some d =>
        rw [hne] at h
        dsimp only at h ⊢
        by_cases hc : cancel = true
        · rw [if_pos hc, if_pos hc]
          rfl
        · rw [if_neg hc] at h ⊢
          rw [if_neg hc, ih _ h]
          rfl

/-- C14 (amended): a `Wait`/`WaitN` call whose cancellation signal has already fired
first makes one admission attempt.  If the request is admissible at that moment, the
call returns `nil` and the permit is consumed, whatever the `select` would have done.
If it is not, and the `select` that follows executes the case `<-ctx.Done()`, the call
returns the cancellation error; for the sliding window this is stated for a trimmed
log that is not empty, which is the case whenever `1 ≤ n ≤ rate`.  Whatever its
attempts and the choices of its `select`s, a call that returns the cancellation error
has consumed no permit: it leaves the state that its denied attempts leave, which is
the lazy refill, reset or trim at each attempt and the denial counted. -/
theorem wait_after_cancellation (tb : TokenBucket) (fw : FixedWindow) (sw : SlidingWindow)
    (nw : NestedWindow) (n now : Int) (cancel : Bool) (rest env : WaitEnv) :
    (((tb.AllowN now n).2 = true →
        tb.WaitN n ((now, cancel) :: rest) = ((tb.AllowN now n).1, WaitResult.ok)) ∧
      ((tb.AllowN now n).2 = false →
        tb.WaitN n ((now, true) :: rest) = (tb.denied now, WaitResult.ctxErr)) ∧
      ((tb.WaitN n env).2 = WaitResult.ctxErr →
        (tb.WaitN n env).1 = (attemptTimes env).foldl TokenBucket.denied tb) ∧
      tb.Wait env = tb.WaitN 1 env ∧
      (tb.denied now).tokens = (tb.refill now).tokens ∧
      (tb.denied now).allowedCount = tb.allowedCount) ∧
    (((fw.AllowN now n).2 = true →
        fw.WaitN n ((now, cancel) :: rest) = ((fw.AllowN now n).1, WaitResult.ok)) ∧
      ((fw.AllowN now n).2 = false →
        fw.WaitN n ((now, true) :: rest) = (fw.denied now, WaitResult.ctxErr)) ∧
      ((fw.WaitN n env).2 = WaitResult.ctxErr →
        (fw.WaitN n env).1 = (attemptTimes env).foldl FixedWindow.denied fw) ∧
      fw.Wait env = fw.WaitN 1 env ∧
      (fw.denied now).count = (if now - fw.windowStart ≥ fw.window then 0 else fw.count) ∧
      (fw.denied now).allowedCount = fw.allowedCount) ∧
    (((sw.AllowN now n).2 = true →
        sw.WaitN n ((now, cancel) :: rest) = ((sw.AllowN now n).1, WaitResult.ok)) ∧
      ((sw.AllowN now n).2 = false → (sw.clearExpired now).requests ≠ [] →
        sw.WaitN n ((now, true) :: rest) = (sw.clearExpired now, WaitResult.ctxErr)) ∧
      (1 ≤ n → n ≤ sw.rate → (sw.AllowN now n).2 = false →
        (sw.clearExpired now).requests ≠ []) ∧
      ((sw.WaitN n env).2 = WaitResult.ctxErr →
        (sw.WaitN n env).1 = (attemptTimes env).foldl SlidingWindow.clearExpired sw) ∧
      ((sw.Allow now).2 = true →
        sw.Wait ((now, cancel) :: rest) = ((sw.Allow now).1, WaitResult.ok)) ∧
      ((sw.Allow now).2 = false → (sw.clearExpired now).requests ≠ [] →
        sw.Wait ((now, true) :: rest) = (sw.clearExpired now, WaitResult.ctxErr)) ∧
      (1 ≤ sw.rate → (sw.Allow now).2 = false → (sw.clearExpired now).requests ≠ []) ∧
      ((sw.Wait env).2 = WaitResult.ctxErr →
        (sw.Wait env).1 = (attemptTimes env).foldl SlidingWindow.clearExpired sw)) ∧
    (((nw.AllowN now n).2 = true →
        nw.WaitN n ((now, cancel) :: rest) = ((nw.AllowN now n).1, WaitResult.ok)) ∧
      ((nw.AllowN now n).2 = false →
        nw.WaitN n ((now, true) :: rest) = (nw.denied now, WaitResult.ctxErr)) ∧
      ((nw.WaitN n env).2 = WaitResult.ctxErr →
        (nw.WaitN n env).1 = (attemptTimes env).foldl NestedWindow.denied nw) ∧
      ((nw.Allow now).2 = true →
        nw.Wait ((now, cancel) :: rest) = ((nw.Allow now).1, WaitResult.ok)) ∧
      ((nw.Allow now).2 = false →
        nw.Wait ((now, true) :: rest) = (nw.denied now, WaitResult.ctxErr)) ∧
      ((nw.Wait env).2 = WaitResult.ctxErr →
        (nw.Wait env).1 = (attemptTimes env).foldl NestedWindow.deniedAttempt
          { nw with totalRequests := nw.totalRequests + 1 }) ∧
      (nw.denied now).outerCount = (nw.updateWindows now).outerCount ∧
      (nw.denied now).innerCount = (nw.updateWindows now).innerCount ∧
      (nw.deniedAttempt now).outerCount = (nw.updateWindows now).outerCount ∧
      (nw.deniedAttempt now).innerCount = (nw.updateWindows now).innerCount ∧
      (nw.denied now).allowedCount = nw.allowedCount ∧
      (nw.deniedAttempt now).allowedCount = nw.allowedCount) := by
  have hupd : ∀ (x : NestedWindow) (t : Int),
      (x.updateWindows t).allowedCount = x.allowedCount ∧
      (({ x with totalRequests := x.totalRequests + 1 } : NestedWindow).updateWindows t).outerCount
        = (x.updateWindows t).outerCount ∧
      (({ x with totalRequests := x.totalRequests + 1 } : NestedWindow).updateWindows t).innerCount
        = (x.updateWindows t).innerCount ∧
      (({ x with totalRequests := x.totalRequests + 1 } : NestedWindow).updateWindows
        t).allowedCount = x.allowedCount := by
    intro x t
    unfold NestedWindow.updateWindows
    dsimp only
    by_cases ho : t - x.outerWindowStart ≥ x.outerWindow <;>
    by_cases hi : t - x.innerWindowStart ≥ x.innerWindow <;>
    simp [ho, hi]
  have hnonempty : ∀ k : Int, 1 ≤ k → k ≤ sw.rate →
      ¬ ((sw.clearExpired now).requests.length : Int) + k ≤ (sw.clearExpired now).rate →
      (sw.clearExpired now).requests ≠ [] := by
    intro k hk1 hk2 hc hnil
    apply hc
    have hrate : (sw.clearExpired now).rate = sw.rate := by
      rw [SlidingWindow.clearExpired_eq]
    rw [hnil, hrate]
    simp only [List.length_nil, Int.ofNat_zero, Nat.cast_zero, zero_add]
    exact hk2
  refine ⟨⟨?_, ?_, tokenBucket_WaitN_ctxErr n env tb, rfl, rfl, ?_⟩,
    ⟨?_, ?_, fixedWindow_WaitN_ctxErr n env fw, rfl, ?_, ?_⟩,
    ⟨?_, ?_, ?_, slidingWindow_WaitN_ctxErr n env sw, ?_, ?_, ?_,
      SlidingWindow.Wait_ctxErr env sw⟩,
    ⟨?_, ?_, nestedWindow_WaitN_ctxErr n env nw, ?_, ?_, ?_, ?_, ?_, ?_, ?_, ?_, ?_⟩⟩
  · intro h
    unfold TokenBucket.WaitN
    simp [h]
  · intro h
    unfold TokenBucket.WaitN
    simp [h, tokenBucket_AllowN_denied tb now n h]
  · show (tb.refill now).allowedCount = tb.allowedCount
    rw [TokenBucket.refill_eq]
    split <;> rfl
  · intro h
    unfold FixedWindow.WaitN
    simp [h]
  · intro h
    unfold FixedWindow.WaitN
    simp [h, fixedWindow_AllowN_denied fw now n h]
  · unfold FixedWindow.denied
    dsimp only
    split <;> rfl
  · unfold FixedWindow.denied
    dsimp only
    split <;> rfl
  · intro h
    unfold SlidingWindow.AllowN at h ⊢
    unfold SlidingWindow.WaitN
    dsimp only at h ⊢
    by_cases hc : ((sw.clearExpired now).requests.length : Int) + n ≤ (sw.clearExpired now).rate
    · simp only [hc, if_true]
    · simp [hc] at h
  · intro h hne
    unfold SlidingWindow.AllowN at h
    unfold SlidingWindow.WaitN
    dsimp only at h ⊢
    by_cases hc : ((sw.clearExpired now).requests.length : Int) + n ≤ (sw.clearExpired now).rate
    · simp [hc] at h
    · simp only [hc, if_false, if_true]
      cases hreq : (sw.clearExpired now).requests with
      | nil => exact absurd hreq hne
      | cons x xs => simp [SlidingWindow.nextExpiry, hreq]
  · intro h1 h2 h
    unfold SlidingWindow.AllowN at h
    dsimp only at h
    by_cases hc : ((sw.clearExpired now).requests.length : Int) + n ≤ (sw.clearExpired now).rate
    · simp [hc] at h
    · exact hnonempty n h1 h2 hc
  · intro h
    unfold SlidingWindow.Allow at h ⊢
    unfold SlidingWindow.Wait
    dsimp only at h ⊢
    by_cases hc : ((sw.clearExpired now).requests.length : Int) < (sw.clearExpired now).rate
    · simp only [hc, if_true]
    · simp [hc] at h
  · intro h hne
    unfold SlidingWindow.Allow at h
    unfold SlidingWindow.Wait
    dsimp only at h ⊢
    by_cases hc : ((sw.clearExpired now).requests.length : Int) < (sw.clearExpired now).rate
    · simp [hc] at h
    · simp only [hc, if_false, if_true]
      cases hreq : (sw.clearExpired now).requests with
      | nil => exact absurd hreq hne
      | cons x xs => simp [SlidingWindow.nextExpiry, hreq]
  · intro h1 h
    unfold SlidingWindow.Allow at h
    dsimp only at h
    by_cases hc : ((sw.clearExpired now).requests.length : Int) < (sw.clearExpired now).rate
    · simp [hc] at h
    · exact hnonempty 1 (le_refl 1) h1 (by omega)
  · intro h
    unfold NestedWindow.WaitN
    simp [h]
  · intro h
    unfold NestedWindow.WaitN
    simp [h, nestedWindow_AllowN_denied nw now n h]
  · intro h
    unfold NestedWindow.Allow NestedWindow.AllowN at h ⊢
    unfold NestedWindow.Wait NestedWindow.waitLoop NestedWindow.allow
    dsimp only at h ⊢
    split at h
    · exact absurd h (by simp)
    · rename_i hc
      simp only [hc, if_false, if_true]
  · intro h
    have hd := nestedWindow_AllowN_denied nw now 1 h
    unfold NestedWindow.Allow NestedWindow.AllowN at h
    unfold NestedWindow.Wait NestedWindow.waitLoop NestedWindow.allow
    dsimp only at h ⊢
    split at h
    · rename_i hc
      simp only [hc, if_true]
      rfl
    · exact absurd h (by simp)
  · intro h
    exact NestedWindow.waitLoop_ctxErr env _ h
  · exact (hupd nw now).2.1
  · exact (hupd nw now).2.2.1
  · rfl
  · rfl
  · exact (hupd nw now).2.2.2
  · exact (hupd nw now).1

/-- Witness for C14: `wait_after_cancellation` on limiters of rate 1, burst 1 and
capacity 1.  A `WaitN(2)` on the token bucket constructed at time 0 is denied at 0,
retried and denied at 5, and ends with the cancellation error; the state is the one its
two denied attempts leave, with the one token still there. -/
theorem wait_after_cancellation_witness :
    ((NewTokenBucket (Config.mk 1 1 1 10 1 "token_bucket" false) 0).WaitN 2
        [(0, false), (5, true)]).2 = WaitResult.ctxErr ∧
    ((NewTokenBucket (Config.mk 1 1 1 10 1 "token_bucket" false) 0).WaitN 2
        [(0, false), (5, true)]).1 =
      [0, 5].foldl TokenBucket.denied
        (NewTokenBucket (Config.mk 1 1 1 10 1 "token_bucket" false) 0) ∧
    ([0, 5].foldl TokenBucket.denied
        (NewTokenBucket (Config.mk 1 1 1 10 1 "token_bucket" false) 0)).tokens = 1 :=
  ⟨by decide!,
   (wait_after_cancellation
      (NewTokenBucket (Config.mk 1 1 1 10 1 "token_bucket" false) 0)
      (NewFixedWindow (Config.mk 1 1 1 10 1 "token_bucket" false) 0)
      (SlidingWindow.mk 1 10 [])
      (NewNestedWindow (Config.mk 1 1 1 10 1 "token_bucket" false) 0) 2 0 true []
      [(0, false), (5, true)]).1.2.2.1 (by decide!),
   by decide!⟩

/-- C14 (as stated) fails: on freshly constructed limiters with capacity available, a
`Wait` whose cancellation signal has already fired returns `nil`, not the cancellation
error, and consumes a permit. -/
theorem wait_cancelled_counterexample :
    ((NewTokenBucket (Config.mk 10 1 10 1000000000 1 "token_bucket" false) 0).Wait
        [(0, true)]).2 = WaitResult.ok ∧
    ((NewTokenBucket (Config.mk 10 1 10 1000000000 1 "token_bucket" false) 0).Wait
        [(0, true)]).1.tokens = 9 ∧
    ((NewFixedWindow (Config.mk 10 1 10 1000000000 1 "fixed_window" false) 0).Wait
        [(0, true)]).2 = WaitResult.ok ∧
    ((NewFixedWindow (Config.mk 10 1 10 1000000000 1 "fixed_window" false) 0).Wait
        [(0, true)]).1.count = 1 ∧
    ((SlidingWindow.mk 10 1000000000 []).Wait [(0, true)]).2 = WaitResult.ok ∧
    ((SlidingWindow.mk 10 1000000000 []).Wait [(0, true)]).1.requests = [0] ∧
    ((NewNestedWindow (Config.mk 10 5 10 1000000000 1 "nested_window" false) 0).Wait
        [(0, true)]).2 = WaitResult.ok ∧
    ((NewNestedWindow (Config.mk 10 5 10 1000000000 1 "nested_window" false) 0).Wait
        [(0, true)]).1.outerCount = 1 := by
  decide!

/-! ### C15: the metrics invariant of the nested window -/

/-- One `NestedWindow.AllowN` preserves `TotalRequests = AllowedRequests + DeniedRequests`. -/
theorem NestedWindow.AllowN_metrics_inv (nw : NestedWindow) (now n : Int)
    (h : nw.GetMetrics.TotalRequests =
      nw.GetMetrics.AllowedRequests + nw.GetMetrics.DeniedRequests) :
    (nw.AllowN now n).1.GetMetrics.TotalRequests =
      (nw.AllowN now n).1.GetMetrics.AllowedRequests +
      (nw.AllowN now n).1.GetMetrics.DeniedRequests := by
  obtain ⟨h1, h2, h3⟩ := nestedWindow_AllowN_counters nw now n
  simp only [NestedWindow.GetMetrics] at h ⊢
  rw [h1, h2, h3, h]
  by_cases hr : (nw.AllowN now n).2 = true
  · simp only [hr, if_true]
    ring
  · simp only [hr, if_false, Bool.false_eq_true]
    ring

/-- A `NestedWindow.WaitN` preserves `TotalRequests = AllowedRequests + DeniedRequests`. -/
theorem NestedWindow.WaitN_metrics_inv (n : Int) (env : WaitEnv) :
    ∀ nw : NestedWindow,
      nw.GetMetrics.TotalRequests =
        nw.GetMetrics.AllowedRequests + nw.GetMetrics.DeniedRequests →
      (nw.WaitN n env).1.GetMetrics.TotalRequests =
        (nw.WaitN n env).1.GetMetrics.AllowedRequests +
        (nw.WaitN n env).1.GetMetrics.DeniedRequests := by
  induction env with
  | nil => intro nw h; exact h
  | cons e rest ih =>
    intro nw h
    obtain ⟨now, cancel⟩ := e
    have hA := NestedWindow.AllowN_metrics_inv nw now n h
    unfold NestedWindow.WaitN
    dsimp only
    split
    · exact hA
    · split
      · exact hA
      · exact ih _ hA

/-- C15 fails for `Wait`: `Allow`, `AllowN`, `WaitN` and `Reset` preserve
`TotalRequests = AllowedRequests + DeniedRequests`, but `Wait` adds one to the total
once and one to the denied counter at every denied attempt.  On a nested window with
outer rate 2, inner rate 1 and a window of one second (inner window 100 ms) constructed
at time 0, after an admitted `Allow` at time 0 and a `Wait` that is denied at time 0 and
admitted when its timer fires at 100 ms, `GetMetrics` reports 2 total, 2 allowed and 1
denied requests. -/
theorem nestedWindow_wait_breaks_metrics :
    (∀ (nw : NestedWindow) (now n : Int) (env : WaitEnv),
      nw.GetMetrics.TotalRequests =
        nw.GetMetrics.AllowedRequests + nw.GetMetrics.DeniedRequests →
      ((nw.AllowN now n).1.GetMetrics.TotalRequests =
        (nw.AllowN now n).1.GetMetrics.AllowedRequests +
        (nw.AllowN now n).1.GetMetrics.DeniedRequests) ∧
      ((nw.Allow now).1.GetMetrics.TotalRequests =
        (nw.Allow now).1.GetMetrics.AllowedRequests +
        (nw.Allow now).1.GetMetrics.DeniedRequests) ∧
      ((nw.WaitN n env).1.GetMetrics.TotalRequests =
        (nw.WaitN n env).1.GetMetrics.AllowedRequests +
        (nw.WaitN n env).1.GetMetrics.DeniedRequests) ∧
      ((nw.Reset now).GetMetrics.TotalRequests =
        (nw.Reset now).GetMetrics.AllowedRequests +
        (nw.Reset now).GetMetrics.DeniedRequests)) ∧
    (((NewNestedWindow (Config.mk 2 1 100 1000000000 100000000 "nested_window" false) 0).Allow
        0).1.Wait [(0, false), (100000000, false)]).2 = WaitResult.ok ∧
    (((NewNestedWindow (Config.mk 2 1 100 1000000000 100000000 "nested_window" false) 0).Allow
        0).1.Wait [(0, false), (100000000, false)]).1.GetMetrics.TotalRequests = 2 ∧
    (((NewNestedWindow (Config.mk 2 1 100 1000000000 100000000 "nested_window" false) 0).Allow
        0).1.Wait [(0, false), (100000000, false)]).1.GetMetrics.AllowedRequests = 2 ∧
    (((NewNestedWindow (Config.mk 2 1 100 1000000000 100000000 "nested_window" false) 0).Allow
        0).1.Wait [(0, false), (100000000, false)]).1.GetMetrics.DeniedRequests = 1 := by
  refine ⟨?_, by decide, by decide, by decide, by decide⟩
  intro nw now n env h
  exact ⟨NestedWindow.AllowN_metrics_inv nw now n h,
    NestedWindow.AllowN_metrics_inv nw now 1 h,
    NestedWindow.WaitN_metrics_inv n env nw h, rfl⟩

/-! ### C20: the rate reported by the metrics snapshot -/

/-- No call of the interface changes the rate a strategy holds. -/
theorem Strategy.rate_exec (s : Strategy) (c : Call) :
    (Strategy.limiter.exec s c).rate = s.rate := by
  cases s with
  | tokenBucket tb =>
    have h := congrArg Prod.fst (tokenBucket_settings_exec tb c)
    cases c <;> exact h
  | fixedWindow fw =>
    have h := congrArg Prod.fst (fixedWindow_settings_exec fw c)
    cases c <;> exact h
  | slidingWindow sw =>
    have h := congrArg Prod.fst (slidingWindow_settings_exec sw c)
    cases c <;> exact h
  | nestedWindow nw =>
    have h := congrArg Prod.fst (nestedWindow_settings_exec nw c)
    cases c <;> exact h

/-- The snapshot of a strategy reports the rate the strategy holds. -/
theorem Strategy.GetMetrics_rate (s : Strategy) (now : Int) :
    (Strategy.limiter.GetMetrics s now).2.CurrentRate = s.rate := by
  cases s with
  | tokenBucket tb => rfl
  | fixedWindow fw => rfl
  | slidingWindow sw =>
    show (sw.clearExpired now).rate = sw.rate
    rw [SlidingWindow.clearExpired_eq]
  | nestedWindow nw => rfl

/-- A strategy built by the factory holds the configured rate. -/
theorem newStrategy_rate (config : Config) (now : Int) (s : Strategy)
    (h : newStrategy config now = some (some s)) : s.rate = config.Rate := by
  unfold newStrategy at h
  split at h
  · simp only [Option.some.injEq] at h
    rw [← h]
    rfl
  · split at h
    · simp only [Option.some.injEq] at h
      rw [← h]
      rfl
    · split at h
      · simp only [Option.some.injEq] at h
        unfold NewSlidingWindow at h
        split at h
        · simp at h
        · simp only [Option.map_some', Option.some.injEq] at h
          rw [← h]
          rfl
      · split at h
        · simp only [Option.some.injEq] at h
          rw [← h]
          rfl
        · simp at h

/-- No call on the wrapper writes the collector's `CurrentRate`. -/
theorem MetricsWrapper.call_currentRate {σ : Type} (L : Limiter σ) (mw : MetricsWrapper σ)
    (c : MWCall) :
    (MetricsWrapper.call L mw c).1.collector.metrics.CurrentRate
      = mw.collector.metrics.CurrentRate := by
  have hafter : ∀ (inner : σ) (c1 : DefaultMetricsCollector) (d : Int) (res : WaitResult),
      (MetricsWrapper.afterWait inner c1 d res).1.collector.metrics.CurrentRate
        = c1.metrics.CurrentRate := by
    intro inner c1 d res
    cases res with
    | ok =>
      show (c1.IncrementAllowedRequests.RecordWaitTime d).metrics.CurrentRate = _
      rw [DefaultMetricsCollector.RecordWaitTime_eq]
      rfl
    | ctxErr => rfl
    | panic => rfl
    | blocked => rfl
  cases c with
  | allow now =>
    simp only [MetricsWrapper.call]
    unfold MetricsWrapper.Allow
    dsimp only
    split <;> rfl
  | allowN now n =>
    simp only [MetricsWrapper.call]
    unfold MetricsWrapper.AllowN
    dsimp only
    split <;> rfl
  | wait env d =>
    simp only [MetricsWrapper.call]
    unfold MetricsWrapper.Wait
    dsimp only
    rw [hafter]
    rfl
  | waitN n env d =>
    simp only [MetricsWrapper.call]
    unfold MetricsWrapper.WaitN
    dsimp only
    rw [hafter]
    rfl

/-- No sequence of calls on the wrapper writes the collector's `CurrentRate`. -/
theorem MetricsWrapper.runAll_currentRate {σ : Type} (L : Limiter σ) (calls : List MWCall) :
    ∀ mw : MetricsWrapper σ,
      (MetricsWrapper.runAll L mw calls).1.collector.metrics.CurrentRate
        = mw.collector.metrics.CurrentRate := by
  induction calls with
  | nil => intro mw; rfl
  | cons c rest ih =>
    intro mw
    simp only [MetricsWrapper.runAll]
    rw [ih, MetricsWrapper.call_currentRate]

/-- C20 holds without metrics and fails with metrics enabled: a limiter that `New`
returns without the wrapper reports `CurrentRate` equal to the configured rate after
every sequence of calls; a limiter that `New` returns with the wrapper reports
`CurrentRate = 0` after every sequence of admission calls, because nothing calls
`UpdateCurrentRate` on its collector.  For `WithAlgorithm("token_bucket")`,
`WithRate(10)`, `WithCapacity(10)`, `WithMetrics(true)` the configured rate is 10 and the
fresh limiter reports 0. -/
theorem new_current_rate :
    (∀ (opts : List (Config → Config)) (now nowCollector t : Int) (s0 : Strategy)
        (calls : List Call),
      New opts now nowCollector = NewResult.ok (LimiterImpl.plain s0) →
      ((LimiterImpl.plain (Strategy.limiter.run s0 calls)).GetMetrics t).2.CurrentRate
        = (applyOptions opts).Rate) ∧
    (∀ (opts : List (Config → Config)) (now nowCollector t : Int)
        (mw : MetricsWrapper Strategy) (calls : List MWCall),
      New opts now nowCollector = NewResult.ok (LimiterImpl.metrics mw) →
      ((LimiterImpl.metrics (MetricsWrapper.runAll Strategy.limiter mw calls).1).GetMetrics
        t).2.CurrentRate = 0) ∧
    (applyOptions [WithAlgorithm "token_bucket", WithRate 10, WithCapacity 10,
        WithMetrics true]).Rate = 10 ∧
    (∃ mw : MetricsWrapper Strategy,
      New [WithAlgorithm "token_bucket", WithRate 10, WithCapacity 10, WithMetrics true] 0 0
        = NewResult.ok (LimiterImpl.metrics mw) ∧
      ((LimiterImpl.metrics mw).GetMetrics 0).2.CurrentRate = 0) := by
  refine ⟨?_, ?_, rfl, ?_⟩
  · intro opts now nowCollector t s0 calls h
    have hs : newStrategy (applyOptions opts) now = some (some s0) := by
      unfold New at h
      dsimp only at h
      split at h
      · simp at h
      · simp at h
      · rename_i limiter heq
        split at h
        · simp at h
        · simp only [NewResult.ok.injEq, LimiterImpl.plain.injEq] at h
          rw [← h]
          exact heq
    have hr := newStrategy_rate _ now s0 hs
    have hrun := Limiter.run_preserves Strategy.limiter
      (fun s => s.rate = (applyOptions opts).Rate)
      (fun s c hs => (Strategy.rate_exec s c).trans hs) calls s0 hr
    show (Strategy.limiter.GetMetrics (Strategy.limiter.run s0 calls) t).2.CurrentRate = _
    rw [Strategy.GetMetrics_rate]
    exact hrun
  · intro opts now nowCollector t mw calls h
    have hc : mw.collector = NewMetricsCollector nowCollector := by
      unfold New at h
      dsimp only at h
      split at h
      · simp at h
      · simp at h
      · split at h
        · simp only [NewResult.ok.injEq, LimiterImpl.metrics.injEq] at h
          rw [← h]
          rfl
        · simp at h
    show (MetricsWrapper.runAll Strategy.limiter mw calls).1.collector.metrics.CurrentRate = 0
    rw [MetricsWrapper.runAll_currentRate, hc]
    rfl
  · exact ⟨_, rfl, rfl⟩

/-! ### C21: the inner window of the nested window -/

/-- C21 holds with the default configuration and fails when `InnerWindow` is set to
anything but one tenth of `Window`: `NewNestedWindow` never reads the field
`InnerWindow` that `WithInnerWindow` sets, and takes one tenth of the outer `Window`
(integer division of the nanosecond count) as the inner-window duration.  In every
state reachable by calls of the interface, `GetMetrics` reports that tenth as
`InnerWindow` and `updateWindows` resets the inner count exactly when that much time
has passed since the inner window started.  With the default configuration the inner
window is one tenth of the outer window, which is also the default `InnerWindow`.
With `WithWindow(1s)` and `WithInnerWindow(5s)` the nested window built by `New`
reports an inner window of 100 ms, not 5 s, and with an inner rate of 1 it admits a
second request 100 ms after the first. -/
theorem nestedWindow_inner_window (config : Config) (t0 t : Int) (calls : List Call) :
    (NestedWindow.limiter.run (NewNestedWindow config t0) calls).innerWindow
        = Int.tdiv config.Window 10 ∧
    (NestedWindow.limiter.run (NewNestedWindow config t0) calls).GetMetrics.InnerWindow
        = Int.tdiv config.Window 10 ∧
    ((NestedWindow.limiter.run (NewNestedWindow config t0) calls).updateWindows t).innerCount
        = (if t - (NestedWindow.limiter.run (NewNestedWindow config t0) calls).innerWindowStart
              ≥ Int.tdiv config.Window 10 then 0
           else (NestedWindow.limiter.run (NewNestedWindow config t0) calls).innerCount) ∧
    (NewNestedWindow config t0).innerWindow
        = (NewNestedWindow { config with InnerWindow := t } t0).innerWindow ∧
    (NewNestedWindow DefaultConfig t0).innerWindow * 10 = DefaultConfig.Window ∧
    (NewNestedWindow DefaultConfig t0).innerWindow = DefaultConfig.InnerWindow ∧
    (applyOptions [WithAlgorithm "nested_window", WithRate 10, WithBurst 1,
        WithWindow 1000000000, WithInnerWindow 5000000000]).InnerWindow = 5000000000 ∧
    (∃ nw : NestedWindow,
      New [WithAlgorithm "nested_window", WithRate 10, WithBurst 1,
        WithWindow 1000000000, WithInnerWindow 5000000000] 0 0
        = NewResult.ok (LimiterImpl.plain (Strategy.nestedWindow nw)) ∧
      nw.GetMetrics.InnerWindow = 100000000 ∧
      (nw.Allow 0).2 = true ∧
      ((nw.Allow 0).1.Allow 99999999).2 = false ∧
      ((nw.Allow 0).1.Allow 100000000).2 = true) := by
  have hset : (NestedWindow.limiter.run (NewNestedWindow config t0) calls).settings
      = (NewNestedWindow config t0).settings :=
    Limiter.run_preserves NestedWindow.limiter
      (fun s => s.settings = (NewNestedWindow config t0).settings)
      (fun s c hs => (nestedWindow_settings_exec s c).trans hs) calls _ rfl
  have hin : (NestedWindow.limiter.run (NewNestedWindow config t0) calls).innerWindow
      = Int.tdiv config.Window 10 := by
    have := congrArg (fun p : Int × Int × Int × Int => p.2.2.2) hset
    exact this
  refine ⟨hin, hin, ?_, rfl, ?_, ?_, rfl, ⟨_, rfl, ?_, ?_, ?_, ?_⟩⟩
  · generalize NestedWindow.limiter.run (NewNestedWindow config t0) calls = nw at hin ⊢
    unfold NestedWindow.updateWindows
    dsimp only
    by_cases ho : t - nw.outerWindowStart ≥ nw.outerWindow <;>
    by_cases hi : t - nw.innerWindowStart ≥ Int.tdiv config.Window 10 <;>
    simp [ho, hi, hin]
  · show Int.tdiv DefaultConfig.Window 10 * 10 = DefaultConfig.Window
    decide
  · show Int.tdiv DefaultConfig.Window 10 = DefaultConfig.InnerWindow
    decide
  · decide
  · decide
  · decide
  · decide

/-! ### C27: `SlidingWindow.Allow` and `SlidingWindow.AllowN(1)` -/

/-- C27: in every state and at every clock reading, `SlidingWindow.Allow` and
`SlidingWindow.AllowN(1)` return the same boolean and leave the same log (and the same
state): the test `len < rate` of the one and the test `len + 1 ≤ rate` of the other
agree on the trimmed log, and the loop of `AllowN(1)` appends `now` once. -/
theorem slidingWindow_Allow_is_AllowN_one (sw : SlidingWindow) (now : Int) :
    (sw.Allow now).2 = (sw.AllowN now 1).2 ∧
    (sw.Allow now).1.requests = (sw.AllowN now 1).1.requests ∧
    (sw.Allow now).1 = (sw.AllowN now 1).1 ∧
    ((sw.Allow now).2 = true ↔
      ((sw.clearExpired now).requests.length : Int) < (sw.clearExpired now).rate) ∧
    ((sw.AllowN now 1).2 = true ↔
      ((sw.clearExpired now).requests.length : Int) + 1 ≤ (sw.clearExpired now).rate) ∧
    ((sw.Allow now).2 = true →
      (sw.Allow now).1.requests = (sw.clearExpired now).requests ++ [now]) ∧
    ((sw.Allow now).2 = false →
      (sw.Allow now).1.requests = (sw.clearExpired now).requests) := by
  have h := SlidingWindow.Allow_eq_AllowN_one sw now
  refine ⟨by rw [h], by rw [h], by rw [h], ?_, ?_, ?_, ?_⟩
  · unfold SlidingWindow.Allow
    dsimp only
    by_cases hc : ((sw.clearExpired now).requests.length : Int) < (sw.clearExpired now).rate
    · simp [hc]
    · simp [hc]
  · unfold SlidingWindow.AllowN
    dsimp only
    by_cases hc : ((sw.clearExpired now).requests.length : Int) + 1 ≤ (sw.clearExpired now).rate
    · simp [hc]
    · simp [hc]
  · unfold SlidingWindow.Allow
    dsimp only
    by_cases hc : ((sw.clearExpired now).requests.length : Int) < (sw.clearExpired now).rate
    · simp [hc]
    · simp [hc]
  · unfold SlidingWindow.Allow
    dsimp only
    by_cases hc : ((sw.clearExpired now).requests.length : Int) < (sw.clearExpired now).rate
    · simp [hc]
    · simp [hc]

/-! ### C23: the token count stays between zero and the capacity -/

/-- A property of the initial state holds after a sequence of calls when every call
that satisfies `Q` preserves it and all calls of the sequence satisfy `Q`. -/
theorem Limiter.run_preserves_of {σ : Type} (L : Limiter σ) (P : σ → Prop) (Q : Call → Prop)
    (hstep : ∀ (s : σ) (c : Call), Q c → P s → P (L.exec s c)) (calls : List Call) :
    ∀ s : σ, (∀ c ∈ calls, Q c) → P s → P (L.run s calls) := by
  induction calls with
  | nil => intro s _ hs; exact hs
  | cons c rest ih =>
    intro s hQ hs
    exact ih (L.exec s c) (fun d hd => hQ d (List.mem_cons_of_mem c hd))
      (hstep s c (hQ c (List.mem_cons_self c rest)) hs)

/-- Refilling never leaves more tokens than the capacity. -/
theorem TokenBucket.refill_le_capacity (tb : TokenBucket) (now : Int)
    (h : tb.tokens ≤ tb.capacity) :
    (tb.refill now).tokens ≤ (tb.refill now).capacity ∧
    (tb.refill now).capacity = tb.capacity := by
  rw [TokenBucket.refill_eq]
  split
  · exact ⟨min_le_left _ _, rfl⟩
  · exact ⟨h, rfl⟩

/-- An `AllowN` with `0 ≤ n` never leaves more tokens than the capacity. -/
theorem TokenBucket.AllowN_le_capacity (tb : TokenBucket) (now n : Int) (hn : 0 ≤ n)
    (h : tb.tokens ≤ tb.capacity) :
    (tb.AllowN now n).1.tokens ≤ (tb.AllowN now n).1.capacity := by
  obtain ⟨h1, h2⟩ := TokenBucket.refill_le_capacity tb now h
  rw [TokenBucket.AllowN_closed]
  split
  · show (tb.refill now).tokens - n ≤ (tb.refill now).capacity
    omega
  · exact h1

/-- A `WaitN` with `0 ≤ n` never leaves more tokens than the capacity. -/
theorem TokenBucket.WaitN_le_capacity (n : Int) (hn : 0 ≤ n) (env : WaitEnv) :
    ∀ tb : TokenBucket, tb.tokens ≤ tb.capacity →
      (tb.WaitN n env).1.tokens ≤ (tb.WaitN n env).1.capacity := by
  induction env with
  | nil => intro tb h; exact h
  | cons e rest ih =>
    intro tb h
    obtain ⟨now, cancel⟩ := e
    have hA := TokenBucket.AllowN_le_capacity tb now n hn h
    unfold TokenBucket.WaitN
    by_cases h1 : (tb.AllowN now n).2 = true
    · simp only [h1, if_true]
      exact hA
    · by_cases h2 : cancel = true
      · simp only [h1, h2, if_true, if_false]
        exact hA
      · simp only [h1, h2, if_false]
        exact ih _ hA

/-- Every call of the interface that asks for no negative number of permits keeps the
token count at or below the capacity. -/
theorem TokenBucket.exec_le_capacity (tb : TokenBucket) (c : Call) (hc : c.atLeast 0)
    (h : tb.tokens ≤ tb.capacity) :
    (TokenBucket.limiter.exec tb c).tokens ≤ (TokenBucket.limiter.exec tb c).capacity := by
  cases c with
  | allow now => exact TokenBucket.AllowN_le_capacity tb now 1 (by decide) h
  | allowN now n => exact TokenBucket.AllowN_le_capacity tb now n hc h
  | wait env => exact TokenBucket.WaitN_le_capacity 1 (by decide) env tb h
  | waitN n env => exact TokenBucket.WaitN_le_capacity n hc env tb h
  | reset now => exact le_refl _
  | getMetrics now => exact h

/-- A call that asks for at least one permit asks for no negative number of permits. -/
theorem Call.atLeast_mono (j k : Int) (hjk : j ≤ k) (c : Call) (h : c.atLeast k) :
    c.atLeast j := by
  cases c with
  | allow now => trivial
  | allowN now n => exact le_trans hjk h
  | wait env => trivial
  | waitN n env => exact le_trans hjk h
  | reset now => trivial
  | getMetrics now => trivial

/-- C23: for a token bucket constructed with a capacity that is not negative, every
state reached by a sequence of `Allow`, `AllowN(n)` with `n ≥ 1`, `Wait`, `WaitN(n)`
with `n ≥ 1`, `Reset` (and `GetMetrics`) calls, at arbitrary clock readings, has
`0 ≤ tokens ≤ capacity`, the capacity being the configured one. -/
theorem tokenBucket_tokens_bounds (config : Config) (t0 : Int) (calls : List Call)
    (hC : 0 ≤ config.Capacity) (hn : ∀ c ∈ calls, c.atLeast 1) :
    0 ≤ (TokenBucket.limiter.run (NewTokenBucket config t0) calls).tokens ∧
    (TokenBucket.limiter.run (NewTokenBucket config t0) calls).tokens
      ≤ (TokenBucket.limiter.run (NewTokenBucket config t0) calls).capacity ∧
    (TokenBucket.limiter.run (NewTokenBucket config t0) calls).capacity = config.Capacity := by
  have hS := TokenBucket.Stable_run config hC t0 calls
  have hle := Limiter.run_preserves_of TokenBucket.limiter
    (fun s => s.tokens ≤ s.capacity) (Call.atLeast 0)
    (fun s c hc hs => TokenBucket.exec_le_capacity s c hc hs) calls
    (NewTokenBucket config t0)
    (fun c hc => Call.atLeast_mono 0 1 (by decide) c (hn c hc)) (le_refl _)
  exact ⟨hS.2.2.2, hle, hS.2.1⟩

/-- Witness for C23: a bucket of capacity 2 and rate 1 after `AllowN(2)` at time 0, a
cancelled `WaitN(1)` at time 0, an `Allow` five seconds later and a `Reset`. -/
theorem tokenBucket_tokens_bounds_witness :
    0 ≤ (TokenBucket.limiter.run (NewTokenBucket (Config.mk 1 1 2 1000000000 1 "token_bucket" false) 0)
      [Call.allowN 0 2, Call.waitN 1 [(0, true)], Call.allow 5000000000, Call.reset 6]).tokens ∧
    (TokenBucket.limiter.run (NewTokenBucket (Config.mk 1 1 2 1000000000 1 "token_bucket" false) 0)
      [Call.allowN 0 2, Call.waitN 1 [(0, true)], Call.allow 5000000000, Call.reset 6]).tokens
      ≤ 2 := by
  have h := tokenBucket_tokens_bounds (Config.mk 1 1 2 1000000000 1 "token_bucket" false) 0
    [Call.allowN 0 2, Call.waitN 1 [(0, true)], Call.allow 5000000000, Call.reset 6]
    (by decide)
    (by
      intro c hc
      simp only [List.mem_cons, List.mem_singleton, List.not_mem_nil, or_false] at hc
      rcases hc with rfl | rfl | rfl | rfl <;> simp [Call.atLeast])
  refine ⟨h.1, ?_⟩
  have h2 := h.2.1
  rw [h.2.2] at h2
  exact h2

/-! ### C25: the oldest entry a sliding window wait looks at -/

/-- C25 holds when the request fits the rate and fails otherwise.  For `1 ≤ n ≤ rate`,
a `WaitN(n)` attempt (and, for `1 ≤ rate`, a `Wait` attempt) that finds the request not
admissible finds a trimmed log that is not empty, and the deadline is the timestamp of
its first entry plus the window.  For any `n`, an attempt that finds the request not
admissible and the trimmed log empty ends the call with a run-time panic.  On a fresh
sliding window of rate 5 the call `WaitN(6)` is not admissible, the trimmed log is
empty, and the call panics; so does `Wait` on a window of rate 0. -/
theorem slidingWindow_wait_oldest_entry :
    (∀ (sw : SlidingWindow) (now n : Int), 1 ≤ n → n ≤ sw.rate →
      (sw.AllowN now n).2 = false →
      ∃ (oldest : Int) (others : List Int),
        (sw.clearExpired now).requests = oldest :: others ∧
        (sw.clearExpired now).nextExpiry = some (oldest + sw.window)) ∧
    (∀ (sw : SlidingWindow) (now : Int), 1 ≤ sw.rate →
      (sw.Allow now).2 = false →
      ∃ (oldest : Int) (others : List Int),
        (sw.clearExpired now).requests = oldest :: others ∧
        (sw.clearExpired now).nextExpiry = some (oldest + sw.window)) ∧
    (∀ (sw : SlidingWindow) (now n : Int) (cancel : Bool) (attempts : WaitEnv),
      (sw.AllowN now n).2 = false → (sw.clearExpired now).requests = [] →
      sw.WaitN n ((now, cancel) :: attempts) = (sw.clearExpired now, WaitResult.panic)) ∧
    (∀ (sw : SlidingWindow) (now : Int) (cancel : Bool) (attempts : WaitEnv),
      (sw.Allow now).2 = false → (sw.clearExpired now).requests = [] →
      sw.Wait ((now, cancel) :: attempts) = (sw.clearExpired now, WaitResult.panic)) ∧
    (∃ sw0 : SlidingWindow,
      NewSlidingWindow (Config.mk 5 1 5 1000000000 1 "sliding_window" false) = some sw0 ∧
      (sw0.AllowN 0 6).2 = false ∧
      (sw0.clearExpired 0).requests = [] ∧
      (sw0.clearExpired 0).nextExpiry = none ∧
      sw0.WaitN 6 [(0, false)] = (sw0, WaitResult.panic)) ∧
    (∃ sw0 : SlidingWindow,
      NewSlidingWindow (Config.mk 0 1 5 1000000000 1 "sliding_window" false) = some sw0 ∧
      (sw0.Allow 0).2 = false ∧
      sw0.Wait [(0, false)] = (sw0, WaitResult.panic)) := by
  have hwin : ∀ (sw : SlidingWindow) (now : Int), (sw.clearExpired now).window = sw.window := by
    intro sw now
    rw [SlidingWindow.clearExpired_eq]
  have hrate : ∀ (sw : SlidingWindow) (now : Int), (sw.clearExpired now).rate = sw.rate := by
    intro sw now
    rw [SlidingWindow.clearExpired_eq]
  have hhead : ∀ (sw : SlidingWindow) (now : Int),
      0 < (sw.clearExpired now).requests.length →
      ∃ (oldest : Int) (others : List Int),
        (sw.clearExpired now).requests = oldest :: others ∧
        (sw.clearExpired now).nextExpiry = some (oldest + sw.window) := by
    intro sw now hlen
    cases hreq : (sw.clearExpired now).requests with
    | nil => rw [hreq] at hlen; exact absurd hlen (by simp)
    | cons x xs =>
      refine ⟨x, xs, rfl, ?_⟩
      unfold SlidingWindow.nextExpiry
      rw [hreq, hwin]
  refine ⟨?_, ?_, ?_, ?_, ⟨_, rfl, by decide, by decide, by decide, by decide⟩,
    ⟨_, rfl, by decide, by decide⟩⟩
  · intro sw now n h1 hn hden
    apply hhead
    unfold SlidingWindow.AllowN at hden
    dsimp only at hden
    by_cases hc : ((sw.clearExpired now).requests.length : Int) + n ≤ (sw.clearExpired now).rate
    · simp [hc] at hden
    · rw [hrate] at hc
      omega
  · intro sw now h1 hden
    apply hhead
    unfold SlidingWindow.Allow at hden
    dsimp only at hden
    by_cases hc : ((sw.clearExpired now).requests.length : Int) < (sw.clearExpired now).rate
    · simp [hc] at hden
    · rw [hrate] at hc
      omega
  · intro sw now n cancel attempts hden hempty
    unfold SlidingWindow.AllowN at hden
    dsimp only at hden
    unfold SlidingWindow.WaitN
    dsimp only
    by_cases hc : ((sw.clearExpired now).requests.length : Int) + n ≤ (sw.clearExpired now).rate
    · simp [hc] at hden
    · simp only [hc, if_false]
      have hne : (sw.clearExpired now).nextExpiry = none := by
        unfold SlidingWindow.nextExpiry
        rw [hempty]
      rw [hne]
  · intro sw now cancel attempts hden hempty
    unfold SlidingWindow.Allow at hden
    dsimp only at hden
    unfold SlidingWindow.Wait
    dsimp only
    by_cases hc : ((sw.clearExpired now).requests.length : Int) < (sw.clearExpired now).rate
    · simp [hc] at hden
    · simp only [hc, if_false]
      have hne : (sw.clearExpired now).nextExpiry = none := by
        unfold SlidingWindow.nextExpiry
        rw [hempty]
      rw [hne]

/-! ### C28: a request larger than the limit -/

/-- An `AllowN` with `0 ≤ n` keeps the count of a fixed window from going negative. -/
theorem FixedWindow.AllowN_count_nonneg (fw : FixedWindow) (now n : Int) (hn : 0 ≤ n)
    (h : 0 ≤ fw.count) : 0 ≤ (fw.AllowN now n).1.count := by
  unfold FixedWindow.AllowN
  dsimp only
  by_cases hw : now - fw.windowStart ≥ fw.window
  · by_cases hc : n ≤ fw.rate
    · simp [hw, hc]
      omega
    · simp [hw, hc]
  · by_cases hc : fw.count + n ≤ fw.rate
    · simp [hw, hc]
      omega
    · simp [hw, hc]
      omega

/-- A `WaitN` with `0 ≤ n` keeps the count of a fixed window from going negative. -/
theorem FixedWindow.WaitN_count_nonneg (n : Int) (hn : 0 ≤ n) (env : WaitEnv) :
    ∀ fw : FixedWindow, 0 ≤ fw.count → 0 ≤ (fw.WaitN n env).1.count := by
  induction env with
  | nil => intro fw h; exact h
  | cons e rest ih =>
    intro fw h
    obtain ⟨now, cancel⟩ := e
    have hA := FixedWindow.AllowN_count_nonneg fw now n hn h
    unfold FixedWindow.WaitN
    by_cases h1 : (fw.AllowN now n).2 = true
    · simp only [h1, if_true]
      exact hA
    · by_cases h2 : cancel = true
      · simp only [h1, h2, if_true, if_false]
        exact hA
      · simp only [h1, h2, if_false]
        exact ih _ hA

/-- Every call of the interface that asks for no negative number of permits keeps the
count of a fixed window from going negative. -/
theorem FixedWindow.exec_count_nonneg (fw : FixedWindow) (c : Call) (hc : c.atLeast 0)
    (h : 0 ≤ fw.count) : 0 ≤ (FixedWindow.limiter.exec fw c).count := by
  cases c with
  | allow now => exact FixedWindow.AllowN_count_nonneg fw now 1 (by decide) h
  | allowN now n => exact FixedWindow.AllowN_count_nonneg fw now n hc h
  | wait env => exact FixedWindow.WaitN_count_nonneg 1 (by decide) env fw h
  | waitN n env => exact FixedWindow.WaitN_count_nonneg n hc env fw h
  | reset now => exact le_refl _
  | getMetrics now => exact h

/-- The lazy reset of the two windows keeps both counts from going negative. -/
theorem NestedWindow.updateWindows_nonneg (nw : NestedWindow) (now : Int)
    (h : 0 ≤ nw.outerCount ∧ 0 ≤ nw.innerCount) :
    0 ≤ (nw.updateWindows now).outerCount ∧ 0 ≤ (nw.updateWindows now).innerCount := by
  obtain ⟨ho, hi⟩ := h
  unfold NestedWindow.updateWindows
  dsimp only
  by_cases h1 : now - nw.outerWindowStart ≥ nw.outerWindow <;>
  by_cases h2 : now - nw.innerWindowStart ≥ nw.innerWindow <;>
  simp [h1, h2, ho, hi]

/-- An `AllowN` with `0 ≤ n` keeps both counts of a nested window from going negative. -/
theorem NestedWindow.AllowN_nonneg (nw : NestedWindow) (now n : Int) (hn : 0 ≤ n)
    (h : 0 ≤ nw.outerCount ∧ 0 ≤ nw.innerCount) :
    0 ≤ (nw.AllowN now n).1.outerCount ∧ 0 ≤ (nw.AllowN now n).1.innerCount := by
  have hu := NestedWindow.updateWindows_nonneg
    { nw with totalRequests := nw.totalRequests + 1 } now h
  unfold NestedWindow.AllowN
  dsimp only
  split
  · exact hu
  · exact ⟨by show 0 ≤ _ + n; omega, by show 0 ≤ _ + n; omega⟩

/-- A `WaitN` with `0 ≤ n` keeps both counts of a nested window from going negative. -/
theorem NestedWindow.WaitN_nonneg (n : Int) (hn : 0 ≤ n) (env : WaitEnv) :
    ∀ nw : NestedWindow, (0 ≤ nw.outerCount ∧ 0 ≤ nw.innerCount) →
      0 ≤ (nw.WaitN n env).1.outerCount ∧ 0 ≤ (nw.WaitN n env).1.innerCount := by
  induction env with
  | nil => intro nw h; exact h
  | cons e rest ih =>
    intro nw h
    obtain ⟨now, cancel⟩ := e
    have hA := NestedWindow.AllowN_nonneg nw now n hn h
    unfold NestedWindow.WaitN
    by_cases h1 : (nw.AllowN now n).2 = true
    · simp only [h1, if_true]
      exact hA
    · by_cases h2 : cancel = true
      · simp only [h1, h2, if_true, if_false]
        exact hA
      · simp only [h1, h2, if_false]
        exact ih _ hA

/-- The loop of `Wait` keeps both counts of a nested window from going negative. -/
theorem NestedWindow.waitLoop_nonneg (env : WaitEnv) :
    ∀ nw : NestedWindow, (0 ≤ nw.outerCount ∧ 0 ≤ nw.innerCount) →
      0 ≤ (nw.waitLoop env).1.outerCount ∧ 0 ≤ (nw.waitLoop env).1.innerCount := by
  induction env with
  | nil => intro nw h; exact h
  | cons e rest ih =>
    intro nw h
    obtain ⟨now, cancel⟩ := e
    have hu := NestedWindow.updateWindows_nonneg nw now h
    have hA : 0 ≤ (nw.allow now).1.outerCount ∧ 0 ≤ (nw.allow now).1.innerCount := by
      unfold NestedWindow.allow
      dsimp only
      split
      · exact hu
      · exact ⟨by show 0 ≤ _ + 1; omega, by show 0 ≤ _ + 1; omega⟩
    unfold NestedWindow.waitLoop
    by_cases h1 : (nw.allow now).2 = true
    · simp only [h1, if_true]
      exact hA
    · by_cases h2 : cancel = true
      · simp only [h1, h2, if_true, if_false]
        exact hA
      · simp only [h1, h2, if_false]
        exact ih _ hA

/-- Every call of the interface that asks for no negative number of permits keeps both
counts of a nested window from going negative. -/
theorem NestedWindow.exec_nonneg (nw : NestedWindow) (c : Call) (hc : c.atLeast 0)
    (h : 0 ≤ nw.outerCount ∧ 0 ≤ nw.innerCount) :
    0 ≤ (NestedWindow.limiter.exec nw c).outerCount ∧
    0 ≤ (NestedWindow.limiter.exec nw c).innerCount := by
  cases c with
  | allow now => exact NestedWindow.AllowN_nonneg nw now 1 (by decide) h
  | allowN now n => exact NestedWindow.AllowN_nonneg nw now n hc h
  | wait env => exact NestedWindow.waitLoop_nonneg env _ h
  | waitN n env => exact NestedWindow.WaitN_nonneg n hc env nw h
  | reset now => exact ⟨le_refl _, le_refl _⟩
  | getMetrics now => exact h

/-- A token bucket that holds no more tokens than its capacity denies a request larger
than the capacity and leaves the tokens the refill gives. -/
theorem tokenBucket_AllowN_oversized (tb : TokenBucket) (now n : Int)
    (h : tb.tokens ≤ tb.capacity) (hn : tb.capacity < n) :
    (tb.AllowN now n).2 = false ∧ (tb.AllowN now n).1.tokens = (tb.refill now).tokens ∧
    (tb.AllowN now n).1.tokens ≤ (tb.AllowN now n).1.capacity ∧
    (tb.AllowN now n).1.capacity = tb.capacity := by
  obtain ⟨h1, h2⟩ := TokenBucket.refill_le_capacity tb now h
  rw [TokenBucket.AllowN_closed]
  have hlt : ¬ n ≤ (tb.refill now).tokens := by omega
  simp only [hlt, if_false]
  exact ⟨trivial, trivial, h1, h2⟩

/-- A `WaitN` for more than the capacity never returns `nil`. -/
theorem tokenBucket_WaitN_oversized (n : Int) (env : WaitEnv) :
    ∀ tb : TokenBucket, tb.tokens ≤ tb.capacity → tb.capacity < n →
      (tb.WaitN n env).2 = WaitResult.ctxErr ∨ (tb.WaitN n env).2 = WaitResult.blocked := by
  induction env with
  | nil => intro tb _ _; exact Or.inr rfl
  | cons e rest ih =>
    intro tb h hn
    obtain ⟨now, cancel⟩ := e
    obtain ⟨h1, _, h3, h4⟩ := tokenBucket_AllowN_oversized tb now n h hn
    unfold TokenBucket.WaitN
    by_cases h2 : cancel = true
    · simp [h1, h2]
    · simp only [h1, h2, if_false, Bool.false_eq_true]
      exact ih _ h3 (by rw [h4]; exact hn)

/-- A sliding window denies a request larger than the rate and leaves the trimmed log. -/
theorem slidingWindow_AllowN_oversized (sw : SlidingWindow) (now n : Int) (hn : sw.rate < n) :
    sw.AllowN now n = (sw.clearExpired now, false) := by
  have hr : (sw.clearExpired now).rate = sw.rate := by
    rw [SlidingWindow.clearExpired_eq]
  unfold SlidingWindow.AllowN
  dsimp only
  have hc : ¬ ((sw.clearExpired now).requests.length : Int) + n ≤ (sw.clearExpired now).rate := by
    rw [hr]
    omega
  simp only [hc, if_false]

/-- On a sliding window a `WaitN` for more than the rate never returns `nil`. -/
theorem slidingWindow_WaitN_oversized (n : Int) (env : WaitEnv) :
    ∀ sw : SlidingWindow, sw.rate < n → (sw.WaitN n env).2 ≠ WaitResult.ok := by
  induction env with
  | nil => intro sw _; simp [SlidingWindow.WaitN]
  | cons e rest ih =>
    intro sw hn
    obtain ⟨now, cancel⟩ := e
    have hr : (sw.clearExpired now).rate = sw.rate := by
      rw [SlidingWindow.clearExpired_eq]
    have hc : ¬ ((sw.clearExpired now).requests.length : Int) + n ≤ (sw.clearExpired now).rate := by
      rw [hr]
      omega
    unfold SlidingWindow.WaitN
    dsimp only
    simp only [hc, if_false]
    cases hne : (sw.clearExpired now).nextExpiry with
    | none => simp
    | some x =>
      by_cases h2 : cancel = true
      · simp [h2]
      · simp only [h2, if_false]
        exact ih _ (by rw [hr]; exact hn)

/-- In `int64` arithmetic, a fixed window with a count that is not negative denies a
request larger than the rate whose addition to the count does not overflow, and leaves
the count the lazy reset gives. -/
theorem fixedWindow_AllowN64_oversized (fw : FixedWindow) (now n : Int)
    (h : 0 ≤ fw.count) (hn0 : 0 ≤ n) (hn : fw.rate < n)
    (hs : fw.count + n ≤ 9223372036854775807) :
    (fw.AllowN64 now n).2 = false ∧
    (fw.AllowN64 now n).1.count =
      (if wrapInt64 (now - fw.windowStart) ≥ fw.window then 0 else fw.count) ∧
    0 ≤ (fw.AllowN64 now n).1.count ∧
    (fw.AllowN64 now n).1.count + n ≤ 9223372036854775807 ∧
    (fw.AllowN64 now n).1.rate = fw.rate := by
  unfold FixedWindow.AllowN64
  dsimp only
  by_cases hw : wrapInt64 (now - fw.windowStart) ≥ fw.window
  · simp only [hw, if_true]
    have hroll := wrapInt64_rollback 0 n (by decide) (by decide)
    rw [wrapInt64_of_range (0 + n) (by omega) (by omega)] at hroll ⊢
    have hc : ¬ 0 + n ≤ fw.rate := by omega
    simp only [hc, if_false, hroll]
    exact ⟨trivial, trivial, le_refl 0, by omega, trivial⟩
  · simp only [hw, if_false]
    have hroll := wrapInt64_rollback fw.count n (by omega) (by omega)
    rw [wrapInt64_of_range (fw.count + n) (by omega) hs] at hroll ⊢
    have hc : ¬ fw.count + n ≤ fw.rate := by omega
    simp only [hc, if_false, hroll]
    exact ⟨trivial, trivial, h, hs, trivial⟩

/-- In `int64` arithmetic, on a fixed window with a count that is not negative, a
`WaitN` for more than the rate, whose addition to the count does not overflow, never
returns `nil`. -/
theorem fixedWindow_WaitN64_oversized (n : Int) (hn0 : 0 ≤ n) (env : WaitEnv) :
    ∀ fw : FixedWindow, 0 ≤ fw.count → fw.rate < n →
      fw.count + n ≤ 9223372036854775807 →
      (fw.WaitN64 n env).2 = WaitResult.ctxErr ∨
        (fw.WaitN64 n env).2 = WaitResult.blocked := by
  induction env with
  | nil => intro fw _ _ _; exact Or.inr rfl
  | cons e rest ih =>
    intro fw h hn hs
    obtain ⟨now, cancel⟩ := e
    obtain ⟨h1, _, h3, h4, h5⟩ := fixedWindow_AllowN64_oversized fw now n h hn0 hn hs
    unfold FixedWindow.WaitN64
    by_cases h2 : cancel = true
    · simp [h1, h2]
    · simp only [h1, h2, if_false, Bool.false_eq_true]
      exact ih _ h3 (by rw [h5]; exact hn) h4

/-- The lazy resets in `int64` arithmetic keep both counts between 0 and their
values, and leave the rates. -/
theorem NestedWindow.updateWindows64_counts (nw : NestedWindow) (now : Int)
    (h : 0 ≤ nw.outerCount ∧ 0 ≤ nw.innerCount) :
    (0 ≤ (nw.updateWindows64 now).outerCount ∧
      (nw.updateWindows64 now).outerCount ≤ nw.outerCount) ∧
    (0 ≤ (nw.updateWindows64 now).innerCount ∧
      (nw.updateWindows64 now).innerCount ≤ nw.innerCount) ∧
    (nw.updateWindows64 now).outerRate = nw.outerRate ∧
    (nw.updateWindows64 now).innerRate = nw.innerRate := by
  obtain ⟨ho, hi⟩ := h
  unfold NestedWindow.updateWindows64
  dsimp only
  by_cases h1 : wrapInt64 (now - nw.outerWindowStart) ≥ nw.outerWindow <;>
  by_cases h2 : wrapInt64 (now - nw.innerWindowStart) ≥ nw.innerWindow <;>
  simp [h1, h2, ho, hi]

/-- In `int64` arithmetic, a nested window with counts that are not negative denies a
request larger than the smaller of its two rates whose addition to either count does
not overflow, and leaves the counts the lazy resets give. -/
theorem nestedWindow_AllowN64_oversized (nw : NestedWindow) (now n : Int)
    (h : 0 ≤ nw.outerCount ∧ 0 ≤ nw.innerCount) (hn0 : 0 ≤ n)
    (hn : min nw.outerRate nw.innerRate < n)
    (hs : nw.outerCount + n ≤ 9223372036854775807 ∧
      nw.innerCount + n ≤ 9223372036854775807) :
    (nw.AllowN64 now n).2 = false ∧
    (nw.AllowN64 now n).1.outerCount
      = (({ nw with totalRequests := wrapInt64 (nw.totalRequests + 1) } :
          NestedWindow).updateWindows64 now).outerCount ∧
    (nw.AllowN64 now n).1.innerCount
      = (({ nw with totalRequests := wrapInt64 (nw.totalRequests + 1) } :
          NestedWindow).updateWindows64 now).innerCount ∧
    (0 ≤ (nw.AllowN64 now n).1.outerCount ∧ 0 ≤ (nw.AllowN64 now n).1.innerCount) ∧
    ((nw.AllowN64 now n).1.outerCount + n ≤ 9223372036854775807 ∧
      (nw.AllowN64 now n).1.innerCount + n ≤ 9223372036854775807) ∧
    (nw.AllowN64 now n).1.outerRate = nw.outerRate ∧
    (nw.AllowN64 now n).1.innerRate = nw.innerRate := by
  obtain ⟨⟨a1, a2⟩, ⟨b1, b2⟩, r1, r2⟩ := NestedWindow.updateWindows64_counts
    { nw with totalRequests := wrapInt64 (nw.totalRequests + 1) } now h
  have hn2 : nw.outerRate < n ∨ nw.innerRate < n := by
    rcases min_lt_iff.1 hn with h1 | h1
    · exact Or.inl h1
    · exact Or.inr h1
  unfold NestedWindow.AllowN64
  dsimp only
  generalize ({ nw with totalRequests := wrapInt64 (nw.totalRequests + 1) } :
    NestedWindow).updateWindows64 now = u at a1 a2 b1 b2 r1 r2 ⊢
  have a3 : u.outerCount ≤ nw.outerCount := a2
  have b3 : u.innerCount ≤ nw.innerCount := b2
  have r3 : u.outerRate = nw.outerRate := r1
  have r4 : u.innerRate = nw.innerRate := r2
  rw [wrapInt64_of_range (u.outerCount + n) (by omega) (by omega),
    wrapInt64_of_range (u.innerCount + n) (by omega) (by omega)]
  have hc : u.outerCount + n > u.outerRate ∨ u.innerCount + n > u.innerRate := by
    rcases hn2 with h1 | h1
    · exact Or.inl (by omega)
    · exact Or.inr (by omega)
  rw [if_pos hc]
  exact ⟨rfl, rfl, rfl, ⟨a1, b1⟩, ⟨by show u.outerCount + n ≤ _; omega,
    by show u.innerCount + n ≤ _; omega⟩, r3, r4⟩

/-- In `int64` arithmetic, on a nested window with counts that are not negative, a
`WaitN` for more than the smaller rate, whose addition to either count does not
overflow, never returns `nil`. -/
theorem nestedWindow_WaitN64_oversized (n : Int) (hn0 : 0 ≤ n) (env : WaitEnv) :
    ∀ nw : NestedWindow, (0 ≤ nw.outerCount ∧ 0 ≤ nw.innerCount) →
      min nw.outerRate nw.innerRate < n →
      (nw.outerCount + n ≤ 9223372036854775807 ∧
        nw.innerCount + n ≤ 9223372036854775807) →
      (nw.WaitN64 n env).2 = WaitResult.ctxErr ∨
        (nw.WaitN64 n env).2 = WaitResult.blocked := by
  induction env with
  | nil => intro nw _ _ _; exact Or.inr rfl
  | cons e rest ih =>
    intro nw h hn hs
    obtain ⟨now, cancel⟩ := e
    obtain ⟨h1, _, _, h3, h4, h5, h6⟩ := nestedWindow_AllowN64_oversized nw now n h hn0 hn hs
    unfold NestedWindow.WaitN64
    by_cases h2 : cancel = true
    · simp [h1, h2]
    · simp only [h1, h2, if_false, Bool.false_eq_true]
      exact ih _ h3 (by rw [h5, h6]; exact hn) h4

/-- Counting the call does not change what the lazy resets leave of the two counts. -/
theorem NestedWindow.updateWindows64_total (nw : NestedWindow) (now t : Int) :
    (({ nw with totalRequests := t } : NestedWindow).updateWindows64 now).outerCount
      = (nw.updateWindows64 now).outerCount ∧
    (({ nw with totalRequests := t } : NestedWindow).updateWindows64 now).innerCount
      = (nw.updateWindows64 now).innerCount := by
  unfold NestedWindow.updateWindows64
  dsimp only
  by_cases h1 : wrapInt64 (now - nw.outerWindowStart) ≥ nw.outerWindow <;>
  by_cases h2 : wrapInt64 (now - nw.innerWindowStart) ≥ nw.innerWindow <;>
  simp [h1, h2]

/-- C28 holds while no addition overflows and fails in two ways: an addition of the
fixed or the nested window that overflows admits the request, and the sliding window
`WaitN` panics.  For `n` above the capacity, a token bucket in a state reached from a
fresh one by calls that ask for no negative number of permits denies `AllowN(n)`,
leaves the tokens the lazy refill leaves, and its `WaitN(n)` ends with the cancellation
error or not at all.  For `0 ≤ n` above the rate (above the smaller of the two rates),
a fixed (nested) window with counts that are not negative, whose sums with `n` do not
exceed the largest `int64`, denies `AllowN(n)`, leaves the counts the lazy resets
leave, and its `WaitN(n)` ends with the cancellation error or not at all; the counts
are not negative in the states reached by such calls over unbounded integers.  For `n`
above the rate, a sliding window in a state reached from a fresh one, with the log
length plus `n` not above the largest `int64`, denies `AllowN(n)`, leaves the trimmed
log, and its `WaitN(n)` never returns `nil`.  On a fresh sliding window of rate 5 the
call `WaitN(6)` ends with a run-time panic, with the context not cancelled and with the
context cancelled, and after an admitted `Allow` it panics at the retry that finds the
log trimmed to empty.  On a fixed window of rate 5 and on a nested window of rate 10
and burst 5, after one admitted `Allow`, `AllowN(9223372036854775807)` is admitted. -/
theorem oversized_request_denied (config : Config) (t0 now n : Int) (calls : List Call)
    (env : WaitEnv) (hnn : ∀ c ∈ calls, c.atLeast 0) :
    (config.Capacity < n →
      ((TokenBucket.limiter.run (NewTokenBucket config t0) calls).AllowN now n).2 = false ∧
      ((TokenBucket.limiter.run (NewTokenBucket config t0) calls).AllowN now n).1.tokens
        = ((TokenBucket.limiter.run (NewTokenBucket config t0) calls).refill now).tokens ∧
      (((TokenBucket.limiter.run (NewTokenBucket config t0) calls).WaitN n env).2
          = WaitResult.ctxErr ∨
        ((TokenBucket.limiter.run (NewTokenBucket config t0) calls).WaitN n env).2
          = WaitResult.blocked)) ∧
    (∀ fw : FixedWindow, 0 ≤ fw.count → 0 ≤ n → fw.rate < n →
      fw.count + n ≤ 9223372036854775807 →
      (fw.AllowN64 now n).2 = false ∧
      (fw.AllowN64 now n).1.count
        = (if wrapInt64 (now - fw.windowStart) ≥ fw.window then 0 else fw.count) ∧
      ((fw.WaitN64 n env).2 = WaitResult.ctxErr ∨
        (fw.WaitN64 n env).2 = WaitResult.blocked)) ∧
    0 ≤ (FixedWindow.limiter.run (NewFixedWindow config t0) calls).count ∧
    (∀ sw0 : SlidingWindow, NewSlidingWindow config = some sw0 → config.Rate < n →
      ((SlidingWindow.limiter.run sw0 calls).requests.length : Int) + n
        ≤ 9223372036854775807 →
      (SlidingWindow.limiter.run sw0 calls).AllowN now n
        = ((SlidingWindow.limiter.run sw0 calls).clearExpired now, false) ∧
      ((SlidingWindow.limiter.run sw0 calls).WaitN n env).2 ≠ WaitResult.ok) ∧
    (∀ nw : NestedWindow, 0 ≤ nw.outerCount ∧ 0 ≤ nw.innerCount → 0 ≤ n →
      min nw.outerRate nw.innerRate < n →
      nw.outerCount + n ≤ 9223372036854775807 ∧ nw.innerCount + n ≤ 9223372036854775807 →
      (nw.AllowN64 now n).2 = false ∧
      (nw.AllowN64 now n).1.outerCount = (nw.updateWindows64 now).outerCount ∧
      (nw.AllowN64 now n).1.innerCount = (nw.updateWindows64 now).innerCount ∧
      ((nw.WaitN64 n env).2 = WaitResult.ctxErr ∨
        (nw.WaitN64 n env).2 = WaitResult.blocked)) ∧
    (0 ≤ (NestedWindow.limiter.run (NewNestedWindow config t0) calls).outerCount ∧
      0 ≤ (NestedWindow.limiter.run (NewNestedWindow config t0) calls).innerCount) ∧
    (∃ sw0 : SlidingWindow,
      NewSlidingWindow (Config.mk 5 1 5 1000000000 1 "sliding_window" false) = some sw0 ∧
      (sw0.WaitN 6 [(0, false)]).2 = WaitResult.panic ∧
      (sw0.WaitN 6 [(0, true)]).2 = WaitResult.panic ∧
      ((sw0.Allow 0).1.WaitN 6 [(0, false), (1000000001, false)]).2 = WaitResult.panic) ∧
    (((NewFixedWindow (Config.mk 5 1 5 1000000000 1 "fixed_window" false) 0).AllowN64
        0 1).2 = true ∧
      (5 : Int) < 9223372036854775807 ∧
      (((NewFixedWindow (Config.mk 5 1 5 1000000000 1 "fixed_window" false) 0).AllowN64
        0 1).1.AllowN64 0 9223372036854775807).2 = true) ∧
    (((NewNestedWindow (Config.mk 10 5 10 1000000000 1 "nested_window" false) 0).AllowN64
        0 1).2 = true ∧
      min (10 : Int) 5 < 9223372036854775807 ∧
      (((NewNestedWindow (Config.mk 10 5 10 1000000000 1 "nested_window" false) 0).AllowN64
        0 1).1.AllowN64 0 9223372036854775807).2 = true) := by
  refine ⟨?_, ?_, ?_, ?_, ?_, ?_, ⟨_, rfl, by decide, by decide, by decide⟩,
    ⟨by decide, by decide, by decide⟩, ⟨by decide, by decide, by decide⟩⟩
  · intro hn
    have hinv := Limiter.run_preserves_of TokenBucket.limiter
      (fun s => s.tokens ≤ s.capacity ∧ s.settings = (NewTokenBucket config t0).settings)
      (Call.atLeast 0)
      (fun s c hc hs => ⟨TokenBucket.exec_le_capacity s c hc hs.1,
        (tokenBucket_settings_exec s c).trans hs.2⟩) calls
      (NewTokenBucket config t0) hnn ⟨le_refl _, rfl⟩
    generalize TokenBucket.limiter.run (NewTokenBucket config t0) calls = tb at hinv ⊢
    obtain ⟨h1, h2⟩ := hinv
    have hcap : tb.capacity = config.Capacity :=
      congrArg (fun p : Int × Int × Int => p.2.1) h2
    have hlt : tb.capacity < n := by rw [hcap]; exact hn
    obtain ⟨ha, hb, _, _⟩ := tokenBucket_AllowN_oversized tb now n h1 hlt
    exact ⟨ha, hb, tokenBucket_WaitN_oversized n env tb h1 hlt⟩
  · intro fw h0 hn0 hn hs
    obtain ⟨ha, hb, _, _, _⟩ := fixedWindow_AllowN64_oversized fw now n h0 hn0 hn hs
    exact ⟨ha, hb, fixedWindow_WaitN64_oversized n hn0 env fw h0 hn hs⟩
  · exact Limiter.run_preserves_of FixedWindow.limiter (fun s => 0 ≤ s.count)
      (Call.atLeast 0) (fun s c hc hs => FixedWindow.exec_count_nonneg s c hc hs) calls
      (NewFixedWindow config t0) hnn (le_refl _)
  · intro sw0 hsw hn _
    have hinv := Limiter.run_preserves SlidingWindow.limiter
      (fun s => s.settings = sw0.settings)
      (fun s c hs => (slidingWindow_settings_exec s c).trans hs) calls sw0 rfl
    generalize SlidingWindow.limiter.run sw0 calls = sw at hinv ⊢
    have hrate0 : sw0.rate = config.Rate := by
      unfold NewSlidingWindow at hsw
      split at hsw
      · exact absurd hsw (by simp)
      · simp only [Option.some.injEq] at hsw
        rw [← hsw]
    have hrate : sw.rate = config.Rate := by
      have := congrArg (fun p : Int × Int => p.1) hinv
      exact this.trans hrate0
    have hlt : sw.rate < n := by rw [hrate]; exact hn
    exact ⟨slidingWindow_AllowN_oversized sw now n hlt, slidingWindow_WaitN_oversized n env sw hlt⟩
  · intro nw h0 hn0 hn hs
    obtain ⟨ha, hb, hc, _, _, _, _⟩ := nestedWindow_AllowN64_oversized nw now n h0 hn0 hn hs
    obtain ⟨t1, t2⟩ := NestedWindow.updateWindows64_total nw now
      (wrapInt64 (nw.totalRequests + 1))
    exact ⟨ha, hb.trans t1, hc.trans t2, nestedWindow_WaitN64_oversized n hn0 env nw h0 hn hs⟩
  · exact Limiter.run_preserves_of NestedWindow.limiter
      (fun s => 0 ≤ s.outerCount ∧ 0 ≤ s.innerCount)
      (Call.atLeast 0) (fun s c hc hs => NestedWindow.exec_nonneg s c hc hs) calls
      (NewNestedWindow config t0) hnn ⟨le_refl _, le_refl _⟩

/-- Witness for C28: on a token bucket of capacity 10 that has served `AllowN(2)` and
an `Allow`, the call `AllowN(11)` one hour later is denied. -/
theorem oversized_request_denied_witness :
    ((TokenBucket.limiter.run
        (NewTokenBucket (Config.mk 10 5 10 1000000000 1 "token_bucket" false) 0)
        [Call.allowN 0 2, Call.allow 1]).AllowN 3600000000000 11).2 = false :=
  ((oversized_request_denied (Config.mk 10 5 10 1000000000 1 "token_bucket" false) 0
      3600000000000 11 [Call.allowN 0 2, Call.allow 1] []
      (by
        intro c hc
        simp only [List.mem_cons, List.mem_singleton, List.not_mem_nil, or_false] at hc
        rcases hc with rfl | rfl <;> simp [Call.atLeast])).1 (by decide)).1

/-! ### C24: the log of the sliding window -/

/-- Trimming keeps the log ordered and within the rate, and adds no entry. -/
theorem SlidingWindow.Ordered_clearExpired (sw : SlidingWindow) (now : Int)
    (h : sw.Ordered) :
    (sw.clearExpired now).Ordered ∧
    (∀ x ∈ (sw.clearExpired now).requests, x ∈ sw.requests) ∧
    (sw.clearExpired now).rate = sw.rate := by
  obtain ⟨hs, hl⟩ := h
  rw [SlidingWindow.clearExpired_eq]
  have hsub := List.dropWhile_sublist (fun x => decide (x < now - sw.window)) (l := sw.requests)
  refine ⟨⟨List.Pairwise.sublist hsub hs, ?_⟩, fun x hx => hsub.subset hx, rfl⟩
  have := hsub.length_le
  show ((sw.requests.dropWhile (fun x => decide (x < now - sw.window))).length : Int) ≤ sw.rate
  omega

/-- Appending copies of a reading that is not earlier than any entry keeps a log in
time order. -/
theorem sorted_append_replicate (l : List Int) (now : Int) (k : Nat)
    (hs : l.Sorted (· ≤ ·)) (hle : ∀ x ∈ l, x ≤ now) :
    (l ++ List.replicate k now).Sorted (· ≤ ·) := by
  unfold List.Sorted
  rw [List.pairwise_append]
  refine ⟨hs, ?_, ?_⟩
  · rw [List.pairwise_replicate]
    exact Or.inr (le_refl _)
  · intro a ha b hb
    rw [List.eq_of_mem_replicate hb]
    exact hle a ha

/-- An `AllowN` at a reading not earlier than any entry keeps the log ordered and
within the rate; every entry of the new log is an old entry or the reading. -/
theorem SlidingWindow.Ordered_AllowN (sw : SlidingWindow) (now n : Int)
    (h : sw.Ordered) (hle : ∀ x ∈ sw.requests, x ≤ now) :
    (sw.AllowN now n).1.Ordered ∧
    (∀ x ∈ (sw.AllowN now n).1.requests, x ∈ sw.requests ∨ x = now) ∧
    (sw.AllowN now n).1.rate = sw.rate := by
  obtain ⟨⟨hs, hl⟩, hmem, hr⟩ := SlidingWindow.Ordered_clearExpired sw now h
  unfold SlidingWindow.AllowN
  dsimp only
  by_cases hc : ((sw.clearExpired now).requests.length : Int) + n ≤ (sw.clearExpired now).rate
  · simp only [hc, if_true]
    refine ⟨⟨sorted_append_replicate _ now _ hs (fun x hx => hle x (hmem x hx)), ?_⟩, ?_, hr⟩
    · show (((sw.clearExpired now).requests ++ List.replicate n.toNat now).length : Int)
        ≤ (sw.clearExpired now).rate
      rw [List.length_append, List.length_replicate]
      push_cast
      omega
    · intro x hx
      rcases List.mem_append.1 hx with hx | hx
      · exact Or.inl (hmem x hx)
      · exact Or.inr (List.eq_of_mem_replicate hx)
  · simp only [hc, if_false]
    exact ⟨⟨hs, hl⟩, fun x hx => Or.inl (hmem x hx), hr⟩

/-- A `WaitN` whose attempts are made at readings in time order, none earlier than an
entry of the log, keeps the log ordered and within the rate; every entry of the new
log is an old entry or one of the readings. -/
theorem SlidingWindow.Ordered_WaitN (n : Int) (env : WaitEnv) :
    ∀ sw : SlidingWindow, sw.Ordered →
      (∀ x ∈ sw.requests, ∀ t ∈ env.map Prod.fst, x ≤ t) →
      (env.map Prod.fst).Sorted (· ≤ ·) →
      (sw.WaitN n env).1.Ordered ∧
      (∀ x ∈ (sw.WaitN n env).1.requests, x ∈ sw.requests ∨ x ∈ env.map Prod.fst) ∧
      (sw.WaitN n env).1.rate = sw.rate := by
  induction env with
  | nil => intro sw h _ _; exact ⟨h, fun x hx => Or.inl hx, rfl⟩
  | cons e rest ih =>
    intro sw h hle hmono
    obtain ⟨now, cancel⟩ := e
    have hnow : ∀ x ∈ sw.requests, x ≤ now := fun x hx => hle x hx now (by simp)
    obtain ⟨hA, hAm, hAr⟩ := SlidingWindow.Ordered_AllowN sw now n h hnow
    obtain ⟨hT, hTm, hTr⟩ := SlidingWindow.Ordered_clearExpired sw now h
    have hrest : (rest.map Prod.fst).Sorted (· ≤ ·) := by
      simp only [List.map_cons] at hmono
      exact hmono.of_cons
    have hrec := ih (sw.clearExpired now) hT
      (fun x hx t ht => hle x (hTm x hx) t (by simp only [List.map_cons]; exact List.mem_cons_of_mem _ ht))
      hrest
    unfold SlidingWindow.AllowN at hA hAm hAr
    dsimp only at hA hAm hAr
    unfold SlidingWindow.WaitN
    dsimp only
    by_cases hc : ((sw.clearExpired now).requests.length : Int) + n ≤ (sw.clearExpired now).rate
    · simp only [hc, if_true] at hA hAm hAr ⊢
      refine ⟨hA, ?_, hAr⟩
      intro x hx
      rcases hAm x hx with h1 | h1
      · exact Or.inl h1
      · exact Or.inr (by simp [h1])
    · simp only [hc, if_false]
      cases hne : (sw.clearExpired now).nextExpiry with
      | none => exact ⟨hT, fun x hx => Or.inl (hTm x hx), hTr⟩
      | some d =>
        by_cases h2 : cancel = true
        · simp only [h2, if_true]
          exact ⟨hT, fun x hx => Or.inl (hTm x hx), hTr⟩
        · simp only [h2, if_false]
          obtain ⟨r1, r2, r3⟩ := hrec
          refine ⟨r1, ?_, r3.trans hTr⟩
          intro x hx
          rcases r2 x hx with h1 | h1
          · exact Or.inl (hTm x h1)
          · exact Or.inr (by simp only [List.map_cons]; exact List.mem_cons_of_mem _ h1)

/-- The separate code path of `SlidingWindow.Wait` computes `WaitN 1`. -/
theorem SlidingWindow.Wait_eq_WaitN_one (env : WaitEnv) :
    ∀ sw : SlidingWindow, sw.Wait env = sw.WaitN 1 env := by
  induction env with
  | nil => intro sw; rfl
  | cons e rest ih =>
    intro sw
    obtain ⟨now, cancel⟩ := e
    unfold SlidingWindow.Wait SlidingWindow.WaitN
    dsimp only
    by_cases h : ((sw.clearExpired now).requests.length : Int) < (sw.clearExpired now).rate
    · have h2 : ((sw.clearExpired now).requests.length : Int) + 1 ≤ (sw.clearExpired now).rate := by
        omega
      simp [h, h2]
    · have h2 : ¬ ((sw.clearExpired now).requests.length : Int) + 1 ≤ (sw.clearExpired now).rate := by
        omega
      simp only [h, h2, if_false]
      rw [ih]

/-- Every call of the interface made at readings in time order, none earlier than an
entry of the log, keeps the log ordered and within the rate; every entry of the new
log is an old entry or one of the readings of the call. -/
theorem SlidingWindow.Ordered_exec (sw : SlidingWindow) (c : Call) (h : sw.Ordered)
    (hle : ∀ x ∈ sw.requests, ∀ t ∈ c.times, x ≤ t) (hmono : c.times.Sorted (· ≤ ·)) :
    (SlidingWindow.limiter.exec sw c).Ordered ∧
    (∀ x ∈ (SlidingWindow.limiter.exec sw c).requests, x ∈ sw.requests ∨ x ∈ c.times) ∧
    (SlidingWindow.limiter.exec sw c).rate = sw.rate := by
  cases c with
  | allow now =>
    show (sw.Allow now).1.Ordered ∧ _ ∧ (sw.Allow now).1.rate = sw.rate
    rw [SlidingWindow.Allow_eq_AllowN_one]
    obtain ⟨h1, h2, h3⟩ := SlidingWindow.Ordered_AllowN sw now 1 h
      (fun x hx => hle x hx now (by simp [Call.times]))
    refine ⟨h1, ?_, h3⟩
    intro x hx
    change x ∈ (sw.Allow now).1.requests at hx
    rw [SlidingWindow.Allow_eq_AllowN_one] at hx
    rcases h2 x hx with h4 | h4
    · exact Or.inl h4
    · exact Or.inr (by simp [Call.times, h4])
  | allowN now n =>
    obtain ⟨h1, h2, h3⟩ := SlidingWindow.Ordered_AllowN sw now n h
      (fun x hx => hle x hx now (by simp [Call.times]))
    refine ⟨h1, ?_, h3⟩
    intro x hx
    rcases h2 x hx with h4 | h4
    · exact Or.inl h4
    · exact Or.inr (by simp [Call.times, h4])
  | wait env =>
    show (sw.Wait env).1.Ordered ∧ _ ∧ (sw.Wait env).1.rate = sw.rate
    rw [SlidingWindow.Wait_eq_WaitN_one]
    obtain ⟨h1, h2, h3⟩ := SlidingWindow.Ordered_WaitN 1 env sw h hle hmono
    refine ⟨h1, ?_, h3⟩
    intro x hx
    change x ∈ (sw.Wait env).1.requests at hx
    rw [SlidingWindow.Wait_eq_WaitN_one] at hx
    exact h2 x hx
  | waitN n env => exact SlidingWindow.Ordered_WaitN n env sw h hle hmono
  | reset now =>
    refine ⟨⟨List.sorted_nil, ?_⟩, ?_, rfl⟩
    · show ((([] : List Int).length : Nat) : Int) ≤ sw.rate
      have := h.2
      simp only [List.length_nil, Nat.cast_zero]
      omega
    · intro x hx
      exact absurd hx (List.not_mem_nil x)
  | getMetrics now =>
    obtain ⟨h1, h2, h3⟩ := SlidingWindow.Ordered_clearExpired sw now h
    exact ⟨h1, fun x hx => Or.inl (h2 x hx), h3⟩

/-- A sequence of calls made at readings in time order, none earlier than an entry of
the log, keeps the log ordered and within the rate. -/
theorem SlidingWindow.Ordered_run (calls : List Call) :
    ∀ sw : SlidingWindow, sw.Ordered →
      (∀ x ∈ sw.requests, ∀ t ∈ callTimes calls, x ≤ t) →
      (callTimes calls).Sorted (· ≤ ·) →
      (SlidingWindow.limiter.run sw calls).Ordered ∧
      (SlidingWindow.limiter.run sw calls).rate = sw.rate := by
  induction calls with
  | nil => intro sw h _ _; exact ⟨h, rfl⟩
  | cons c cs ih =>
    intro sw h hle hmono
    have hsplit : c.times.Sorted (· ≤ ·) ∧ (callTimes cs).Sorted (· ≤ ·) ∧
        ∀ a ∈ c.times, ∀ b ∈ callTimes cs, a ≤ b := by
      have := hmono
      unfold callTimes List.Sorted at this
      exact List.pairwise_append.1 this
    obtain ⟨hm1, hm2, hm3⟩ := hsplit
    obtain ⟨h1, h2, h3⟩ := SlidingWindow.Ordered_exec sw c h
      (fun x hx t ht => hle x hx t (by unfold callTimes; exact List.mem_append_left _ ht)) hm1
    have hrec := ih (SlidingWindow.limiter.exec sw c) h1
      (by
        intro x hx t ht
        rcases h2 x hx with h4 | h4
        · exact hle x h4 t (by unfold callTimes; exact List.mem_append_right _ ht)
        · exact hm3 x h4 t ht)
      hm2
    exact ⟨hrec.1, hrec.2.trans h3⟩

/-- The readings of a sequence of calls followed by another. -/
theorem callTimes_append (a b : List Call) :
    callTimes (a ++ b) = callTimes a ++ callTimes b := by
  induction a with
  | nil => rfl
  | cons c cs ih =>
    show c.times ++ callTimes (cs ++ b) = (c.times ++ callTimes cs) ++ callTimes b
    rw [ih, List.append_assoc]

/-- C24: for a sliding window constructed with a rate that is not negative, after each
call of a sequence of `Allow`, `AllowN`, `Wait`, `WaitN`, `GetMetrics` and `Reset`
calls whose clock readings are in non-decreasing order (the state after the first `k`
calls, for every `k`), the timestamps of the log are in non-decreasing order and the
log holds at most `rate` entries, the rate being the configured one.  It holds for
every `n`, in particular for `n ≥ 0`. -/
theorem slidingWindow_log_invariant (config : Config) (sw0 : SlidingWindow)
    (calls : List Call) (k : Nat)
    (hnew : NewSlidingWindow config = some sw0)
    (hmono : (callTimes calls).Sorted (· ≤ ·)) :
    (SlidingWindow.limiter.run sw0 (calls.take k)).requests.Sorted (· ≤ ·) ∧
    ((SlidingWindow.limiter.run sw0 (calls.take k)).requests.length : Int)
      ≤ (SlidingWindow.limiter.run sw0 (calls.take k)).rate ∧
    (SlidingWindow.limiter.run sw0 (calls.take k)).rate = config.Rate ∧
    0 ≤ config.Rate := by
  have h0 : sw0 = { rate := config.Rate, window := config.Window, requests := [] } ∧
      0 ≤ config.Rate := by
    unfold NewSlidingWindow at hnew
    split at hnew
    · exact absurd hnew (by simp)
    · simp only [Option.some.injEq] at hnew
      exact ⟨hnew.symm, by omega⟩
  obtain ⟨hsw, hr⟩ := h0
  have hpre : (callTimes (calls.take k)).Sorted (· ≤ ·) := by
    have h1 : callTimes calls = callTimes (calls.take k) ++ callTimes (calls.drop k) := by
      rw [← callTimes_append, List.take_append_drop]
    rw [h1] at hmono
    unfold List.Sorted at hmono
    exact (List.pairwise_append.1 hmono).1
  have hord : sw0.Ordered := by
    rw [hsw]
    exact ⟨List.sorted_nil, by show ((0 : Nat) : Int) ≤ config.Rate; omega⟩
  have hreq : sw0.requests = [] := by rw [hsw]
  obtain ⟨h1, h2⟩ := SlidingWindow.Ordered_run (calls.take k) sw0 hord
    (by intro x hx; rw [hreq] at hx; exact absurd hx (List.not_mem_nil x)) hpre
  refine ⟨h1.1, h1.2, ?_, hr⟩
  rw [h2, hsw]

/-- Witness for C24: a sliding window of rate 2 and window 10 after `Allow` at 0,
`AllowN(1)` at 1, a `Wait` denied at 2 and admitted at 11, `GetMetrics` at 12 and
`Reset`, observed after the first four calls. -/
theorem slidingWindow_log_invariant_witness :
    (SlidingWindow.limiter.run (SlidingWindow.mk 2 10 [])
      ([Call.allow 0, Call.allowN 1 1, Call.wait [(2, false), (11, false)],
        Call.getMetrics 12, Call.reset 13].take 4)).requests.Sorted (· ≤ ·) ∧
    ((SlidingWindow.limiter.run (SlidingWindow.mk 2 10 [])
      ([Call.allow 0, Call.allowN 1 1, Call.wait [(2, false), (11, false)],
        Call.getMetrics 12, Call.reset 13].take 4)).requests.length : Int) ≤ 2 := by
  have h := slidingWindow_log_invariant (Config.mk 2 1 2 10 1 "sliding_window" false)
    (SlidingWindow.mk 2 10 [])
    [Call.allow 0, Call.allowN 1 1, Call.wait [(2, false), (11, false)],
      Call.getMetrics 12, Call.reset 13] 4 rfl
    (by simp [callTimes, Call.times])
  refine ⟨h.1, ?_⟩
  have h2 := h.2.1
  rw [h.2.2.1] at h2
  exact h2

/-! ### C29: the metrics of the sliding window -/

/-- In a time-ordered log, the entries left by dropping the longest prefix of entries
before the cutoff are the entries at or after the cutoff. -/
theorem length_dropWhile_eq_countP (cutoff : Int) (l : List Int) (hs : l.Sorted (· ≤ ·)) :
    (l.dropWhile (fun x => decide (x < cutoff))).length
      = l.countP (fun t => decide (cutoff ≤ t)) := by
  have hsplit := List.takeWhile_append_dropWhile (fun x => decide (x < cutoff)) l
  have h1 : (l.takeWhile (fun x => decide (x < cutoff))).countP (fun t => decide (cutoff ≤ t))
      = 0 := by
    rw [List.countP_eq_zero]
    intro x hx
    have := List.mem_takeWhile_imp hx
    simp only [decide_eq_true_eq] at this ⊢
    omega
  have h2 : (l.dropWhile (fun x => decide (x < cutoff))).countP (fun t => decide (cutoff ≤ t))
      = (l.dropWhile (fun x => decide (x < cutoff))).length := by
    rw [List.countP_eq_length]
    intro x hx
    have := dropWhile_ge_of_sorted cutoff l hs x hx
    simpa using this
  calc (l.dropWhile (fun x => decide (x < cutoff))).length
      = (l.takeWhile (fun x => decide (x < cutoff))).countP (fun t => decide (cutoff ≤ t))
        + (l.dropWhile (fun x => decide (x < cutoff))).countP (fun t => decide (cutoff ≤ t)) := by
        rw [h1, h2, Nat.zero_add]
    _ = (l.takeWhile (fun x => decide (x < cutoff)) ++
          l.dropWhile (fun x => decide (x < cutoff))).countP (fun t => decide (cutoff ≤ t)) := by
        rw [List.countP_append]
    _ = l.countP (fun t => decide (cutoff ≤ t)) := by rw [hsplit]

/-- Trimming again a trimmed log followed by entries that are not expired changes
nothing. -/
theorem dropWhile_append_kept (p : Int → Bool) (m : List Int) (hm : ∀ x ∈ m, p x = false) :
    ∀ l : List Int, (l.dropWhile p ++ m).dropWhile p = l.dropWhile p ++ m := by
  intro l
  induction l with
  | nil =>
    show m.dropWhile p = m
    cases m with
    | nil => rfl
    | cons a t =>
      have := hm a (List.mem_cons_self a t)
      simp [List.dropWhile_cons, this]
  | cons a t ih =>
    by_cases h : p a = true
    · simpa [List.dropWhile_cons, h] using ih
    · simp [List.dropWhile_cons, h]

/-- C29: `SlidingWindow.GetMetrics` at `now` reports, in every state, the length of the
trimmed log as `TotalRequests` and as `AllowedRequests`, and `DeniedRequests = 0`; for
a log in time order (every state reached from a fresh window by calls at
non-decreasing clock readings) that length is the number of log entries, one per
admitted unit, whose timestamp is not earlier than `now - window`.  A denied `AllowN`
leaves the snapshot as it was, an admitted `AllowN(n)` with `n ≥ 0` adds `n` to
`AllowedRequests`, and `AllowedRequests` decreases with time alone: after one `Allow`
at time 0 on a window of one second it is 1 at time 0 and 0 just after one second. -/
theorem slidingWindow_metrics_view :
    (∀ (sw : SlidingWindow) (now : Int),
      (sw.GetMetrics now).2.TotalRequests = ((sw.clearExpired now).requests.length : Int) ∧
      (sw.GetMetrics now).2.AllowedRequests = ((sw.clearExpired now).requests.length : Int) ∧
      (sw.GetMetrics now).2.DeniedRequests = 0 ∧
      (sw.GetMetrics now).1 = sw.clearExpired now) ∧
    (∀ (sw : SlidingWindow) (now : Int), sw.requests.Sorted (· ≤ ·) →
      (sw.GetMetrics now).2.TotalRequests
        = (sw.requests.countP (fun t => decide (now - sw.window ≤ t)) : Int) ∧
      (sw.GetMetrics now).2.AllowedRequests
        = (sw.requests.countP (fun t => decide (now - sw.window ≤ t)) : Int)) ∧
    (∀ (config : Config) (sw0 : SlidingWindow) (calls : List Call) (now : Int),
      NewSlidingWindow config = some sw0 → (callTimes calls).Sorted (· ≤ ·) →
      ((SlidingWindow.limiter.run sw0 calls).GetMetrics now).2.TotalRequests
        = ((SlidingWindow.limiter.run sw0 calls).requests.countP
            (fun t => decide (now - config.Window ≤ t)) : Int) ∧
      ((SlidingWindow.limiter.run sw0 calls).GetMetrics now).2.AllowedRequests
        = ((SlidingWindow.limiter.run sw0 calls).requests.countP
            (fun t => decide (now - config.Window ≤ t)) : Int) ∧
      ((SlidingWindow.limiter.run sw0 calls).GetMetrics now).2.DeniedRequests = 0) ∧
    (∀ (sw : SlidingWindow) (now n : Int), 0 ≤ n → 0 ≤ sw.window →
      (sw.AllowN now n).2 = true →
      ((sw.AllowN now n).1.GetMetrics now).2.AllowedRequests
        = (sw.GetMetrics now).2.AllowedRequests + n) ∧
    (∀ (sw : SlidingWindow) (now n : Int), (sw.AllowN now n).2 = false →
      ((sw.AllowN now n).1.GetMetrics now).2 = (sw.GetMetrics now).2) ∧
    (((SlidingWindow.mk 10 1000000000 []).Allow 0).1.GetMetrics 0).2.AllowedRequests = 1 ∧
    (((SlidingWindow.mk 10 1000000000 []).Allow 0).1.GetMetrics 1000000001).2.AllowedRequests
      = 0 ∧
    (((SlidingWindow.mk 10 1000000000 []).AllowN 0 3).1.GetMetrics 0).2.AllowedRequests = 3 ∧
    ((((SlidingWindow.mk 1 1000000000 []).Allow 0).1.Allow 0).2 = false ∧
      ((((SlidingWindow.mk 1 1000000000 []).Allow 0).1.Allow 0).1.GetMetrics 0).2.DeniedRequests
        = 0 ∧
      ((((SlidingWindow.mk 1 1000000000 []).Allow 0).1.Allow 0).1.GetMetrics 0).2.TotalRequests
        = 1) := by
  have hview : ∀ (sw : SlidingWindow) (now : Int), sw.requests.Sorted (· ≤ ·) →
      ((sw.clearExpired now).requests.length : Int)
        = (sw.requests.countP (fun t => decide (now - sw.window ≤ t)) : Int) := by
    intro sw now hs
    rw [SlidingWindow.clearExpired_eq]
    show ((sw.requests.dropWhile (fun x => decide (x < now - sw.window))).length : Int) = _
    rw [length_dropWhile_eq_countP _ _ hs]
  refine ⟨fun sw now => ⟨rfl, rfl, rfl, rfl⟩, ?_, ?_, ?_, ?_, by decide, by decide, by decide,
    by decide, by decide, by decide⟩
  · intro sw now hs
    exact ⟨hview sw now hs, hview sw now hs⟩
  · intro config sw0 calls now hnew hmono
    have h0 : sw0 = { rate := config.Rate, window := config.Window, requests := [] } ∧
        0 ≤ config.Rate := by
      unfold NewSlidingWindow at hnew
      split at hnew
      · exact absurd hnew (by simp)
      · simp only [Option.some.injEq] at hnew
        exact ⟨hnew.symm, by omega⟩
    obtain ⟨hsw, hr⟩ := h0
    have hord : sw0.Ordered := by
      rw [hsw]
      exact ⟨List.sorted_nil, by show ((0 : Nat) : Int) ≤ config.Rate; omega⟩
    have hreq : sw0.requests = [] := by rw [hsw]
    obtain ⟨h1, _⟩ := SlidingWindow.Ordered_run calls sw0 hord
      (by intro x hx; rw [hreq] at hx; exact absurd hx (List.not_mem_nil x)) hmono
    have hset := Limiter.run_preserves SlidingWindow.limiter
      (fun s => s.settings = sw0.settings)
      (fun s c hs => (slidingWindow_settings_exec s c).trans hs) calls sw0 rfl
    have hwin : (SlidingWindow.limiter.run sw0 calls).window = config.Window := by
      have hw0 : sw0.window = config.Window := by rw [hsw]
      have hrun : (SlidingWindow.limiter.run sw0 calls).window = sw0.window :=
        congrArg (fun p : Int × Int => p.2) hset
      exact hrun.trans hw0
    have hv := hview (SlidingWindow.limiter.run sw0 calls) now h1.1
    rw [hwin] at hv
    exact ⟨hv, hv, rfl⟩
  · intro sw now n hn hw hadm
    unfold SlidingWindow.AllowN at hadm ⊢
    dsimp only at hadm ⊢
    by_cases hc : ((sw.clearExpired now).requests.length : Int) + n ≤ (sw.clearExpired now).rate
    · simp only [hc, if_true]
      show ((SlidingWindow.clearExpired _ now).requests.length : Int)
        = ((sw.clearExpired now).requests.length : Int) + n
      rw [SlidingWindow.clearExpired_eq, SlidingWindow.clearExpired_eq]
      dsimp only
      rw [dropWhile_append_kept]
      · rw [List.length_append, List.length_replicate]
        push_cast
        omega
      · intro x hx
        rw [List.eq_of_mem_replicate hx]
        simp only [decide_eq_false_iff_not, not_lt]
        omega
    · simp [hc] at hadm
  · intro sw now n hden
    unfold SlidingWindow.AllowN at hden ⊢
    dsimp only at hden ⊢
    by_cases hc : ((sw.clearExpired now).requests.length : Int) + n ≤ (sw.clearExpired now).rate
    · simp [hc] at hden
    · simp only [hc, if_false]
      have hid : (sw.clearExpired now).clearExpired now = sw.clearExpired now := by
        rw [SlidingWindow.clearExpired_eq, SlidingWindow.clearExpired_eq]
        dsimp only
        rw [List.dropWhile_idempotent]
      unfold SlidingWindow.GetMetrics
      dsimp only
      rw [hid]

/-! ### C22: the tokens credited by refills -/

/-- One refill at a reading not earlier than the last-refill timestamp, with a rate
that is not negative, the capacity not reached and at most a million tokens accrued:
either nothing is credited, the timestamp stays and less than two tokens have accrued,
or the timestamp moves to the reading and the credited amount is at most the accrued
amount and falls short of it by less than two tokens. -/
theorem TokenBucket.refill_credit (tb : TokenBucket) (now : Int) (hr : 0 ≤ tb.rate)
    (hnow : tb.lastRefillTime ≤ now) (hcap : tb.refillClamps now = false)
    (hrange : tb.rate * (now - tb.lastRefillTime) ≤ 1000000 * Second) :
    (tb.refill now).rate = tb.rate ∧
    ((tb.credited now = 0 ∧ (tb.refill now).lastRefillTime = tb.lastRefillTime ∧
        tb.rate * (now - tb.lastRefillTime) ≤ 2 * Second - 1) ∨
     (0 < tb.credited now ∧ (tb.refill now).lastRefillTime = now ∧
        Second * tb.credited now ≤ tb.rate * (now - tb.lastRefillTime) ∧
        tb.rate * (now - tb.lastRefillTime)
          ≤ Second * tb.credited now + (2 * Second - 1))) := by
  have hx : 0 ≤ tb.rate * (now - tb.lastRefillTime) := mul_nonneg hr (by omega)
  obtain ⟨b1, b2, b3⟩ := tokensToAdd_bounds tb.rate (now - tb.lastRefillTime) hx hrange
  unfold TokenBucket.refillClamps at hcap
  simp only [decide_eq_false_iff_not, not_and, not_lt, gt_iff_lt] at hcap
  unfold TokenBucket.credited
  rw [TokenBucket.refill_eq]
  generalize tokensToAdd tb.rate (now - tb.lastRefillTime) = k at b1 b2 b3 hcap ⊢
  generalize tb.rate * (now - tb.lastRefillTime) = x at hx b1 b2 hrange ⊢
  by_cases hk : 0 < k
  · have hc := hcap hk
    simp only [hk, if_true]
    refine ⟨trivial, Or.inr ?_⟩
    have hmin : min tb.capacity (tb.tokens + k) = tb.tokens + k := min_eq_right hc
    show 0 < min tb.capacity (tb.tokens + k) - tb.tokens ∧ True ∧
      Second * (min tb.capacity (tb.tokens + k) - tb.tokens) ≤ x ∧
      x ≤ Second * (min tb.capacity (tb.tokens + k) - tb.tokens) + (2 * Second - 1)
    rw [hmin]
    unfold Second at b1 b2 ⊢
    refine ⟨by omega, trivial, by omega, by omega⟩
  · simp only [hk, if_false]
    refine ⟨trivial, Or.inl ⟨by omega, trivial, ?_⟩⟩
    unfold Second at b1 b2 ⊢
    omega

/-- An `AllowN` leaves the rate and the last-refill timestamp its refill leaves. -/
theorem TokenBucket.AllowN_refill_fields (tb : TokenBucket) (now n : Int) :
    (tb.AllowN now n).1.rate = (tb.refill now).rate ∧
    (tb.AllowN now n).1.lastRefillTime = (tb.refill now).lastRefillTime ∧
    (tb.AllowN now n).1.capacity = (tb.refill now).capacity := by
  rw [TokenBucket.AllowN_closed]
  split <;> exact ⟨rfl, rfl, rfl⟩

/-- Accounting of the credited tokens along a sequence of calls at non-decreasing
readings, none later than `u`, with at most a million tokens accrued from `t0` to `u`:
with `c` tokens credited in `k` crediting refills so far, measured from `t0`, the
tokens credited are at most the amount accrued up to the last-refill timestamp, and
fall short of it by less than two tokens per crediting refill. -/
theorem TokenBucket.credits_inv (t0 u : Int) (calls : List (Int × Int)) :
    ∀ (tb : TokenBucket) (c k : Int), 0 ≤ tb.rate →
      tb.rate * (u - t0) ≤ 1000000 * Second →
      t0 ≤ tb.lastRefillTime →
      (∀ x ∈ tb.lastRefillTime :: calls.map Prod.fst, x ≤ u) →
      (tb.lastRefillTime :: calls.map Prod.fst).Sorted (· ≤ ·) →
      tb.capNeverReached calls = true →
      Second * c ≤ tb.rate * (tb.lastRefillTime - t0) →
      tb.rate * (tb.lastRefillTime - t0) ≤ Second * c + k * (2 * Second - 1) →
      (runAllowN TokenBucket.AllowN tb calls).1.rate = tb.rate ∧
      Second * (c + (tb.credits calls).sum)
        ≤ tb.rate * ((runAllowN TokenBucket.AllowN tb calls).1.lastRefillTime - t0) ∧
      tb.rate * ((runAllowN TokenBucket.AllowN tb calls).1.lastRefillTime - t0)
        ≤ Second * (c + (tb.credits calls).sum)
          + (k + (((tb.credits calls).countP (fun x => decide (0 < x)) : Nat) : Int))
            * (2 * Second - 1) ∧
      t0 ≤ (runAllowN TokenBucket.AllowN tb calls).1.lastRefillTime ∧
      (runAllowN TokenBucket.AllowN tb calls).1.lastRefillTime ≤ u := by
  induction calls with
  | nil =>
    intro tb c k _ _ ht0 hu _ _ h1 h2
    simp only [runAllowN, TokenBucket.credits, List.sum_nil, List.countP_nil, add_zero,
      Nat.cast_zero, List.map_nil]
    exact ⟨trivial, h1, h2, ht0, hu _ (List.mem_singleton_self _)⟩
  | cons e rest ih =>
    intro tb c k hr hrange ht0 hu hs hcap h1 h2
    obtain ⟨now, n⟩ := e
    simp only [List.map_cons] at hs hu
    have hnow : tb.lastRefillTime ≤ now := List.rel_of_sorted_cons hs now (by simp)
    have hnowu : now ≤ u := hu now (by simp)
    have hs1 : (now :: rest.map Prod.fst).Sorted (· ≤ ·) := hs.of_cons
    have hall : ∀ b ∈ now :: rest.map Prod.fst, tb.lastRefillTime ≤ b :=
      (List.sorted_cons.1 hs).1
    have hs2 : (tb.lastRefillTime :: rest.map Prod.fst).Sorted (· ≤ ·) :=
      List.sorted_cons.2 ⟨fun b hb => hall b (List.mem_cons_of_mem _ hb), hs1.of_cons⟩
    have hstep : tb.rate * (now - tb.lastRefillTime) ≤ 1000000 * Second :=
      le_trans (mul_le_mul_of_nonneg_left (by omega) hr) hrange
    simp only [TokenBucket.capNeverReached, Bool.and_eq_true, Bool.not_eq_true'] at hcap
    obtain ⟨hclamp, hcap1⟩ := hcap
    obtain ⟨hrate, hcase⟩ := TokenBucket.refill_credit tb now hr hnow hclamp hstep
    obtain ⟨hf1, hf2, _⟩ := TokenBucket.AllowN_refill_fields tb now n
    have hrate1 : (tb.AllowN now n).1.rate = tb.rate := hf1.trans hrate
    have hr1 : 0 ≤ (tb.AllowN now n).1.rate := by rw [hrate1]; exact hr
    simp only [runAllowN, TokenBucket.credits, List.sum_cons, List.countP_cons, List.map_cons]
    rcases hcase with ⟨hq, hL, hlt⟩ | ⟨hq, hL, hlo, hhi⟩
    · have hL1 : (tb.AllowN now n).1.lastRefillTime = tb.lastRefillTime := hf2.trans hL
      have hrec := ih (tb.AllowN now n).1 c k hr1 (by rw [hrate1]; exact hrange)
        (by rw [hL1]; exact ht0)
        (by
          rw [hL1]
          intro x hx
          rcases List.mem_cons.1 hx with hx | hx
          · exact hu x (by rw [hx]; exact List.mem_cons_self _ _)
          · exact hu x (List.mem_cons_of_mem _ (List.mem_cons_of_mem _ hx)))
        (by rw [hL1]; exact hs2) hcap1
        (by rw [hrate1, hL1]; exact h1) (by rw [hrate1, hL1]; exact h2)
      rw [hrate1] at hrec
      obtain ⟨r1, r2, r3, r4, r5⟩ := hrec
      have hdec : decide (0 < tb.credited now) = false := by
        rw [hq]
        rfl
      rw [hdec, hq, if_neg Bool.false_ne_true]
      simp only [zero_add, add_zero]
      exact ⟨r1, r2, r3, r4, r5⟩
    · have hL1 : (tb.AllowN now n).1.lastRefillTime = now := hf2.trans hL
      have hsplit : tb.rate * (now - t0)
          = tb.rate * (tb.lastRefillTime - t0) + tb.rate * (now - tb.lastRefillTime) := by
        ring
      have hrec := ih (tb.AllowN now n).1 (c + tb.credited now) (k + 1) hr1
        (by rw [hrate1]; exact hrange)
        (by rw [hL1]; omega)
        (by
          rw [hL1]
          intro x hx
          exact hu x (List.mem_cons_of_mem _ hx))
        (by rw [hL1]; exact hs1) hcap1
        (by
          rw [hrate1, hL1, hsplit]
          unfold Second at h1 hlo ⊢
          omega)
        (by
          rw [hrate1, hL1, hsplit]
          unfold Second at h2 hhi ⊢
          omega)
      rw [hrate1] at hrec
      obtain ⟨r1, r2, r3, r4, r5⟩ := hrec
      have hdec : decide (0 < tb.credited now) = true := by
        simpa using hq
      rw [hdec, if_pos rfl]
      refine ⟨r1, ?_, ?_, r4, r5⟩
      · rw [← add_assoc]
        exact r2
      · rw [← add_assoc]
        refine le_trans r3 (le_of_eq ?_)
        push_cast
        ring

/-- The credits of a sequence of calls followed by another. -/
theorem TokenBucket.credits_append (a b : List (Int × Int)) :
    ∀ tb : TokenBucket,
      tb.credits (a ++ b) = tb.credits a ++ (runAllowN TokenBucket.AllowN tb a).1.credits b := by
  induction a with
  | nil => intro tb; rfl
  | cons e rest ih =>
    intro tb
    obtain ⟨now, n⟩ := e
    show tb.credited now :: (tb.AllowN now n).1.credits (rest ++ b)
      = tb.credited now :: ((tb.AllowN now n).1.credits rest
          ++ (runAllowN TokenBucket.AllowN (tb.AllowN now n).1 rest).1.credits b)
    rw [ih]

/-- The capacity is not reached along a sequence of calls followed by another exactly
when it is reached along neither. -/
theorem TokenBucket.capNeverReached_append (a b : List (Int × Int)) :
    ∀ tb : TokenBucket,
      tb.capNeverReached (a ++ b)
        = (tb.capNeverReached a && (runAllowN TokenBucket.AllowN tb a).1.capNeverReached b) := by
  induction a with
  | nil => intro tb; rfl
  | cons e rest ih =>
    intro tb
    obtain ⟨now, n⟩ := e
    show (!(tb.refillClamps now) && (tb.AllowN now n).1.capNeverReached (rest ++ b))
      = ((!(tb.refillClamps now) && (tb.AllowN now n).1.capNeverReached rest)
          && (runAllowN TokenBucket.AllowN (tb.AllowN now n).1 rest).1.capNeverReached b)
    rw [ih, Bool.and_assoc]

/-- C22 (amended): for a token bucket with rate `r ≥ 0` constructed at `t0`, a sequence
of `AllowN` calls at non-decreasing clock readings, none before `t0`, whose refills
never reach the capacity, and a last call at `t` with `r * (t - t0)` at most `10 ^ 6`
seconds: the tokens credited by all refills are at most `floor(r * (t - t0) / 1 s)`,
and at least that floor minus one, minus two for every earlier call whose refill
credited tokens. -/
theorem tokenBucket_credit_bounds (config : Config) (t0 : Int) (calls : List (Int × Int))
    (t n : Int) (hr : 0 ≤ config.Rate)
    (hmono : (t0 :: (calls ++ [(t, n)]).map Prod.fst).Sorted (· ≤ ·))
    (hcap : (NewTokenBucket config t0).capNeverReached (calls ++ [(t, n)]) = true)
    (hrange : config.Rate * (t - t0) ≤ 1000000 * Second) :
    ((NewTokenBucket config t0).credits (calls ++ [(t, n)])).sum
      ≤ config.Rate * (t - t0) / Second ∧
    config.Rate * (t - t0) / Second - 1
        - 2 * ((((NewTokenBucket config t0).credits calls).countP
            (fun x => decide (0 < x)) : Nat) : Int)
      ≤ ((NewTokenBucket config t0).credits (calls ++ [(t, n)])).sum := by
  have hsorted : (t0 :: calls.map Prod.fst).Sorted (· ≤ ·) ∧
      ∀ x ∈ t0 :: calls.map Prod.fst, x ≤ t := by
    have h1 : t0 :: (calls ++ [(t, n)]).map Prod.fst = (t0 :: calls.map Prod.fst) ++ [t] := by
      simp
    rw [h1] at hmono
    unfold List.Sorted at hmono
    obtain ⟨ha, _, hc⟩ := List.pairwise_append.1 hmono
    exact ⟨ha, fun x hx => hc x hx t (List.mem_singleton_self t)⟩
  obtain ⟨hs, hle⟩ := hsorted
  rw [TokenBucket.capNeverReached_append, Bool.and_eq_true] at hcap
  obtain ⟨hcap1, hcap2⟩ := hcap
  have hinv := TokenBucket.credits_inv t0 t calls (NewTokenBucket config t0) 0 0 hr hrange
    (le_refl t0) hle hs hcap1
    (by show Second * 0 ≤ config.Rate * (t0 - t0); simp)
    (by show config.Rate * (t0 - t0) ≤ Second * 0 + 0 * (2 * Second - 1); simp)
  have hrate0 : (NewTokenBucket config t0).rate = config.Rate := rfl
  rw [hrate0] at hinv
  obtain ⟨i1, i2, i3, i4, hLt⟩ := hinv
  simp only [TokenBucket.capNeverReached, Bool.and_true, Bool.not_eq_true'] at hcap2
  have hstepr : (runAllowN TokenBucket.AllowN (NewTokenBucket config t0) calls).1.rate
      * (t - (runAllowN TokenBucket.AllowN
          (NewTokenBucket config t0) calls).1.lastRefillTime) ≤ 1000000 * Second := by
    rw [i1]
    exact le_trans (mul_le_mul_of_nonneg_left (by omega) hr) hrange
  have hstep := TokenBucket.refill_credit (runAllowN TokenBucket.AllowN
    (NewTokenBucket config t0) calls).1 t (by rw [i1]; exact hr) hLt hcap2 hstepr
  rw [i1] at hstep
  have hsum : ((NewTokenBucket config t0).credits (calls ++ [(t, n)])).sum
      = ((NewTokenBucket config t0).credits calls).sum
        + (runAllowN TokenBucket.AllowN (NewTokenBucket config t0) calls).1.credited t := by
    rw [TokenBucket.credits_append, List.sum_append]
    simp [TokenBucket.credits]
  rw [hsum]
  generalize (runAllowN TokenBucket.AllowN (NewTokenBucket config t0) calls).1 = tb
    at i2 i3 hLt hstep ⊢
  generalize ((NewTokenBucket config t0).credits calls).sum = c at i2 i3 ⊢
  generalize ((NewTokenBucket config t0).credits calls).countP (fun x => decide (0 < x)) = k
    at i3 ⊢
  have hsplit : config.Rate * (t - t0)
      = config.Rate * (tb.lastRefillTime - t0) + config.Rate * (t - tb.lastRefillTime) := by
    ring
  have hnn : 0 ≤ config.Rate * (t - tb.lastRefillTime) := mul_nonneg hr (by omega)
  rw [hsplit]
  generalize config.Rate * (tb.lastRefillTime - t0) = X at i2 i3 ⊢
  generalize config.Rate * (t - tb.lastRefillTime) = Y at hstep hnn ⊢
  generalize tb.credited t = q at hstep ⊢
  unfold Second at i2 i3 hstep ⊢
  rcases hstep.2 with ⟨hq, _, hlt⟩ | ⟨hq, _, hlo, hhi⟩
  · exact ⟨by omega, by omega⟩
  · exact ⟨by omega, by omega⟩

/-- Witness for C22: a bucket of rate 100 and capacity 100 constructed at time 0 and
emptied by `AllowN(100)` at time 0; for the call `Allow` at 570 ms the two bounds are
57 and 56, and the refills have credited 56 tokens. -/
theorem tokenBucket_credit_bounds_witness :
    (((NewTokenBucket (Config.mk 100 1 100 1000000000 1 "token_bucket" false) 0).credits
        ([(0, 100)] ++ [(570000000, 1)])).sum
      ≤ (Config.mk 100 1 100 1000000000 1 "token_bucket" false).Rate * (570000000 - 0)
          / Second ∧
    (Config.mk 100 1 100 1000000000 1 "token_bucket" false).Rate * (570000000 - 0) / Second - 1
        - 2 * ((((NewTokenBucket (Config.mk 100 1 100 1000000000 1 "token_bucket" false)
            0).credits [(0, 100)]).countP (fun x => decide (0 < x)) : Nat) : Int)
      ≤ ((NewTokenBucket (Config.mk 100 1 100 1000000000 1 "token_bucket" false) 0).credits
        ([(0, 100)] ++ [(570000000, 1)])).sum) ∧
    ((NewTokenBucket (Config.mk 100 1 100 1000000000 1 "token_bucket" false) 0).credits
        ([(0, 100)] ++ [(570000000, 1)])).sum = 56 :=
  ⟨tokenBucket_credit_bounds (Config.mk 100 1 100 1000000000 1 "token_bucket" false) 0
    [(0, 100)] 570000000 1 (by decide) (by decide) (by decide!) (by decide), by decide!⟩

/-- C22 (as stated) fails: on a bucket of rate 1 and capacity 10 constructed at time 0,
the calls `AllowN(5)` at 0, `Allow` at 1.5 s and `Allow` at 3 s are at non-decreasing
times and never reach the capacity (the token count is 5 after each of them), and the
refills credit 2 tokens in total, while `floor(1 * 3 s / 1 s) = 3`; without the call
at 1.5 s the refills credit 3 tokens. -/
theorem tokenBucket_credit_counterexample :
    (0 :: ([(0, 5), (1500000000, 1), (3000000000, 1)] : List (Int × Int)).map
      Prod.fst).Sorted (· ≤ ·) ∧
    (NewTokenBucket (Config.mk 1 1 10 1000000000 1 "token_bucket" false) 0).capNeverReached
      [(0, 5), (1500000000, 1), (3000000000, 1)] = true ∧
    (runAllowN TokenBucket.AllowN
      (NewTokenBucket (Config.mk 1 1 10 1000000000 1 "token_bucket" false) 0)
      [(0, 5), (1500000000, 1), (3000000000, 1)]).2 = [true, true, true] ∧
    (runAllowN TokenBucket.AllowN
      (NewTokenBucket (Config.mk 1 1 10 1000000000 1 "token_bucket" false) 0)
      [(0, 5), (1500000000, 1), (3000000000, 1)]).1.tokens = 5 ∧
    (NewTokenBucket (Config.mk 1 1 10 1000000000 1 "token_bucket" false) 0).credits
      [(0, 5), (1500000000, 1), (3000000000, 1)] = [0, 1, 1] ∧
    ((NewTokenBucket (Config.mk 1 1 10 1000000000 1 "token_bucket" false) 0).credits
      [(0, 5), (1500000000, 1), (3000000000, 1)]).sum = 2 ∧
    (1 : Int) * (3000000000 - 0) / Second = 3 ∧
    ((NewTokenBucket (Config.mk 1 1 10 1000000000 1 "token_bucket" false) 0).credits
      [(0, 5), (3000000000, 1)]).sum = 3 := by
  refine ⟨by decide, by decide!, by decide!, by decide!, by decide!, by decide!, by decide,
    by decide!⟩

/-! ### C26: the duration `WaitN` of the token bucket sleeps -/

/-- A positive integer below `2 ^ 53` is a `float64`: rounding leaves it. -/
theorem round64Pos_intCast (z : Int) (h0 : 0 < z) (h1 : z < 9007199254740992) :
    round64Pos (z : ℚ) = z := by
  unfold round64Pos
  have h : (2 : ℚ) ^ binade (z : ℚ) ≤ (z : ℚ) :=
    (binade_spec (z : ℚ) (by exact_mod_cast h0)).1
  generalize binade (z : ℚ) = e at h
  have hz : ((z : Int) : ℚ) < (2 : ℚ) ^ (53 : Int) := by
    have : ((z : Int) : ℚ) < 9007199254740992 := by exact_mod_cast h1
    norm_num
    exact this
  have he : e < 53 := by
    by_contra hcon
    have h53 : (2 : ℚ) ^ (53 : Int) ≤ (2 : ℚ) ^ e :=
      zpow_le_zpow_right₀ (by norm_num) (by omega)
    linarith
  obtain ⟨k, hk⟩ : ∃ k : Nat, (k : Int) = 52 - e := ⟨(52 - e).toNat, by omega⟩
  have hpow : (2 : ℚ) ^ (e - 52) = ((2 : ℚ) ^ k)⁻¹ := by
    rw [← zpow_natCast, hk, ← zpow_neg]
    congr 1
    omega
  have hpos : (0 : ℚ) < (2 : ℚ) ^ k := pow_pos (by norm_num) k
  have hint : (z : ℚ) / (2 : ℚ) ^ (e - 52) = ((z * 2 ^ k : Int) : ℚ) := by
    rw [hpow]
    push_cast
    field_simp
  rw [hint, roundHalfEven_intCast, hpow]
  push_cast
  field_simp

/-- An integer of absolute value below `2 ^ 53` is a `float64`: the conversion
`float64(z)` is exact. -/
theorem float64_exact (z : Int) (h0 : -9007199254740992 < z) (h1 : z < 9007199254740992) :
    float64 z = z := by
  unfold float64 round64
  by_cases hneg : (z : ℚ) < 0
  · rw [if_pos hneg]
    have hz : z < 0 := by exact_mod_cast hneg
    have := round64Pos_intCast (-z) (by omega) (by omega)
    push_cast at this
    rw [this]
    ring
  · rw [if_neg hneg]
    by_cases hzero : (z : ℚ) = 0
    · rw [if_pos hzero, hzero]
    · rw [if_neg hzero]
      have hz : 0 < z := by
        have h1 : (0 : ℚ) ≤ z := not_lt.1 hneg
        have h2 : (0 : Int) ≤ z := by exact_mod_cast h1
        have h3 : z ≠ 0 := by
          intro h
          apply hzero
          rw [h]
          norm_num
        omega
      exact round64Pos_intCast z hz h1

/-- The duration `timeToToken` in closed form, for a rate, a token count and a request
below `2 ^ 53`, whose conversions to `float64` are exact. -/
theorem TokenBucket.timeToToken_eq (tb : TokenBucket) (n : Int)
    (hr1 : 1 ≤ tb.rate) (hr2 : tb.rate < 9007199254740992)
    (ht0 : 0 ≤ tb.tokens) (ht1 : tb.tokens < 9007199254740992)
    (hn1 : 1 ≤ n) (hn2 : n < 9007199254740992) :
    tb.timeToToken n =
      (if n ≤ tb.tokens then 0
       else truncInt64 (round64
        (round64 (((n - tb.tokens : Int) : ℚ) / (tb.rate : ℚ)) * 1000000000))) := by
  unfold TokenBucket.timeToToken
  dsimp only
  have e1 : float64 n = n := float64_exact n (by omega) hn2
  have e2 : float64 tb.tokens = tb.tokens := float64_exact tb.tokens (by omega) ht1
  have e3 : float64 tb.rate = tb.rate := float64_exact tb.rate (by omega) hr2
  have e4 : float64 Second = 1000000000 := by
    rw [float64_exact Second (by decide) (by decide)]
    unfold Second
    norm_num
  have e5 : round64 ((n : ℚ) - (tb.tokens : ℚ)) = ((n - tb.tokens : Int) : ℚ) := by
    have := float64_exact (n - tb.tokens) (by omega) (by omega)
    unfold float64 at this
    rw [← this]
    push_cast
    rfl
  rw [e1, e2, e3, e4, e5]
  have hr0 : ¬ ((tb.rate : ℚ) = 0) := by
    have : (0 : ℚ) < (tb.rate : ℚ) := by exact_mod_cast (by omega : (0 : Int) < tb.rate)
    exact ne_of_gt this
  rw [if_neg hr0]
  by_cases h : n ≤ tb.tokens
  · have hq : (tb.tokens : ℚ) ≥ (n : ℚ) := by exact_mod_cast h
    rw [if_pos hq, if_pos h]
  · have hq : ¬ (tb.tokens : ℚ) ≥ (n : ℚ) := by
      intro hcon
      apply h
      exact_mod_cast hcon
    rw [if_neg hq, if_neg h]

/-- The `float64` value of `m / rate * 1e9` is within a quarter of a nanosecond of the
exact quotient, for at most a million missing tokens. -/
theorem timeToToken_float_err (m r : Int) (hm0 : 0 ≤ m) (hm1 : m ≤ 1000000) (hr : 1 ≤ r) :
    |round64 (round64 ((m : ℚ) / (r : ℚ)) * 1000000000)
        - (m : ℚ) * 1000000000 / (r : ℚ)| ≤ 1 / 4 ∧
    0 ≤ round64 (round64 ((m : ℚ) / (r : ℚ)) * 1000000000) := by
  have hrq : (1 : ℚ) ≤ (r : ℚ) := by exact_mod_cast hr
  have hm0q : (0 : ℚ) ≤ (m : ℚ) := by exact_mod_cast hm0
  have hm1q : (m : ℚ) ≤ 1000000 := by exact_mod_cast hm1
  have ha0 : (0 : ℚ) ≤ (m : ℚ) / (r : ℚ) := by positivity
  have ha1 : (m : ℚ) / (r : ℚ) ≤ 1000000 := by
    rw [div_le_iff₀ (by linarith)]
    nlinarith
  have hx : (m : ℚ) * 1000000000 / (r : ℚ) = (m : ℚ) / (r : ℚ) * 1000000000 := by ring
  rw [hx]
  have h1 := round64_err ((m : ℚ) / (r : ℚ))
  rw [abs_of_nonneg ha0, abs_le] at h1
  generalize (m : ℚ) / (r : ℚ) = a at ha0 ha1 h1
  generalize round64 a = q at h1
  have hu : unitRoundoff = 1 / 9007199254740992 := rfl
  rw [hu] at h1
  have hq0 : 0 ≤ q := by nlinarith [h1.1]
  have hq1 : q ≤ 1000001 := by nlinarith [h1.2]
  have h2 := round64_err (q * 1000000000)
  rw [abs_of_nonneg (by positivity : (0 : ℚ) ≤ q * 1000000000), abs_le, hu] at h2
  generalize round64 (q * 1000000000) = d at h2
  rw [abs_le]
  refine ⟨⟨?_, ?_⟩, ?_⟩
  · nlinarith [h1.1, h2.1]
  · nlinarith [h1.2, h2.2]
  · nlinarith [h2.1]

/-- C26 (amended): for a token bucket with `1 ≤ rate`, a token count that is not
negative and `1 ≤ n ≤ capacity`, where the rate, the token count and `n` are below
`2 ^ 53` (their conversions to `float64` are exact) and fewer than a million tokens are
missing: `timeToToken(n)` is 0 when `tokens ≥ n`, and the retry is then admitted at any
time; otherwise it is the `float64` value of `(n - tokens) / rate * 1e9` truncated to
whole nanoseconds, which is less than 2 ns away from the exact quotient
`(n - tokens) * 10 ^ 9 / rate`, and a retry `AllowN(n)` made at least
`timeToToken(n) + 2` ns after the last-refill timestamp, with no other call in between
and `rate * elapsed` at most `2 ^ 62` seconds, is admitted. -/
theorem tokenBucket_timeToToken_spec (tb : TokenBucket) (n now : Int)
    (hr1 : 1 ≤ tb.rate) (hr2 : tb.rate < 9007199254740992)
    (ht0 : 0 ≤ tb.tokens) (ht1 : tb.tokens < 9007199254740992)
    (hn1 : 1 ≤ n) (hnc : n ≤ tb.capacity) (hn2 : n < 9007199254740992)
    (hm : n - tb.tokens < 1000000) :
    (n ≤ tb.tokens → tb.timeToToken n = 0 ∧ (tb.AllowN now n).2 = true) ∧
    (tb.tokens < n →
      tb.timeToToken n = truncInt64 (round64
        (round64 (((n - tb.tokens : Int) : ℚ) / (tb.rate : ℚ)) * 1000000000))) ∧
    (tb.tokens < n →
      (tb.timeToToken n - 1) * tb.rate < (n - tb.tokens) * Second ∧
      (n - tb.tokens) * Second < (tb.timeToToken n + 2) * tb.rate) ∧
    (tb.tokens < n → tb.lastRefillTime + tb.timeToToken n + 2 ≤ now →
      tb.rate * (now - tb.lastRefillTime) ≤ 4611686018427387904 * Second →
      (tb.AllowN now n).2 = true) := by
  have hclosed := TokenBucket.timeToToken_eq tb n hr1 hr2 ht0 ht1 hn1 hn2
  have hform : tb.tokens < n →
      tb.timeToToken n = truncInt64 (round64
        (round64 (((n - tb.tokens : Int) : ℚ) / (tb.rate : ℚ)) * 1000000000)) := by
    intro hlt
    rw [hclosed, if_neg (by omega)]
  have hbounds : tb.tokens < n →
      (tb.timeToToken n - 1) * tb.rate < (n - tb.tokens) * Second ∧
      (n - tb.tokens) * Second < (tb.timeToToken n + 2) * tb.rate := by
    intro hlt
    rw [hform hlt]
    obtain ⟨herr, hd0⟩ := timeToToken_float_err (n - tb.tokens) tb.rate (by omega) (by omega) hr1
    have hm0 : 1 ≤ n - tb.tokens := by omega
    generalize n - tb.tokens = m at hm hm0 herr hd0 ⊢
    generalize round64 (round64 ((m : ℚ) / (tb.rate : ℚ)) * 1000000000) = d at herr hd0 ⊢
    have hrq : (1 : ℚ) ≤ (tb.rate : ℚ) := by exact_mod_cast hr1
    have hmq0 : (1 : ℚ) ≤ (m : ℚ) := by exact_mod_cast hm0
    have hmq1 : (m : ℚ) ≤ 1000000 := by
      have : m ≤ 1000000 := by omega
      exact_mod_cast this
    have hX : (m : ℚ) * 1000000000 / (tb.rate : ℚ) * (tb.rate : ℚ) = (m : ℚ) * 1000000000 := by
      field_simp
    have hX1 : (m : ℚ) * 1000000000 / (tb.rate : ℚ) ≤ 1000000000000000 := by
      rw [div_le_iff₀ (by linarith)]
      nlinarith
    generalize (m : ℚ) * 1000000000 / (tb.rate : ℚ) = X at herr hX hX1
    rw [abs_le] at herr
    rw [truncInt64_of_nonneg d hd0 (by linarith [herr.2])]
    have hf1 : ((⌊d⌋ : Int) : ℚ) ≤ d := Int.floor_le d
    have hf2 : d < ((⌊d⌋ : Int) : ℚ) + 1 := Int.lt_floor_add_one d
    generalize ⌊d⌋ = T at hf1 hf2 ⊢
    constructor
    · have : (((T - 1) * tb.rate : Int) : ℚ) < (((m * Second : Int)) : ℚ) := by
        unfold Second
        push_cast
        rw [← hX]
        nlinarith [herr.2]
      exact_mod_cast this
    · have : (((m * Second : Int)) : ℚ) < (((T + 2) * tb.rate : Int) : ℚ) := by
        unfold Second
        push_cast
        rw [← hX]
        nlinarith [herr.1]
      exact_mod_cast this
  have hadm : 0 < tokensToAdd tb.rate (now - tb.lastRefillTime) →
      n ≤ tb.tokens + tokensToAdd tb.rate (now - tb.lastRefillTime) →
      (tb.AllowN now n).2 = true := by
    intro hk0 hk
    have htokens : n ≤ (tb.refill now).tokens := by
      rw [TokenBucket.refill_eq, if_pos hk0]
      exact le_min hnc hk
    rw [TokenBucket.AllowN_closed, if_pos htokens]
  refine ⟨?_, hform, hbounds, ?_⟩
  · intro hle
    refine ⟨by rw [hclosed, if_pos hle], ?_⟩
    have htokens : n ≤ (tb.refill now).tokens := by
      rw [TokenBucket.refill_eq]
      split
      · rename_i hk0
        exact le_min hnc (by omega)
      · exact hle
    rw [TokenBucket.AllowN_closed, if_pos htokens]
  · intro hlt hnow hrange
    obtain ⟨_, hb⟩ := hbounds hlt
    have he : tb.timeToToken n + 2 ≤ now - tb.lastRefillTime := by omega
    have hmul : (tb.timeToToken n + 2) * tb.rate ≤ (now - tb.lastRefillTime) * tb.rate :=
      mul_le_mul_of_nonneg_right he (by omega)
    have hprod : (n - tb.tokens) * Second + 1 ≤ tb.rate * (now - tb.lastRefillTime) := by
      rw [mul_comm tb.rate]
      omega
    have hk : n - tb.tokens ≤ tokensToAdd tb.rate (now - tb.lastRefillTime) := by
      by_cases hsmall : tb.rate * (now - tb.lastRefillTime) ≤ 1000000 * Second
      · exact tokensToAdd_ge_of_slack _ _ _ (by omega) hprod hsmall
      · refine tokensToAdd_ge_of_margin _ _ _ (by omega) (by omega) ?_ hrange
        have h1 : (n - tb.tokens + 1) * Second ≤ 1000000 * Second :=
          mul_le_mul_of_nonneg_right (by omega) (by decide)
        omega
    exact hadm (by omega) (by omega)

/-- Witness for C26: a bucket of rate 120 and capacity 10000 emptied by `AllowN(10000)`
at time 0 has `timeToToken(7737) = 64474999999` ns, and the retry `AllowN(7737)` made
64475000001 ns after the last-refill timestamp is admitted. -/
theorem tokenBucket_timeToToken_spec_witness :
    ((NewTokenBucket (Config.mk 120 1 10000 1000000000 1 "token_bucket" false)
      0).AllowN 0 10000).1.timeToToken 7737 = 64474999999 ∧
    (((NewTokenBucket (Config.mk 120 1 10000 1000000000 1 "token_bucket" false)
      0).AllowN 0 10000).1.AllowN 64475000001 7737).2 = true :=
  ⟨by decide!,
   (tokenBucket_timeToToken_spec
    ((NewTokenBucket (Config.mk 120 1 10000 1000000000 1 "token_bucket" false)
      0).AllowN 0 10000).1
    7737 64475000001 (by decide!) (by decide!) (by decide!) (by decide!) (by decide)
    (by decide!) (by decide) (by decide!)).2.2.2 (by decide!) (by decide!) (by decide!)⟩

/-- C26 (as stated) fails.  A bucket of rate 3 and capacity 10 emptied by `AllowN(10)`
at time 0 has `timeToToken(1) = 333333333` ns, and the retry `AllowN(1)` made exactly
that long after the last-refill timestamp (time 0) is denied: the refill credits no
token.  A bucket of rate 10 with 41 tokens missing has `timeToToken = 4099999999` ns,
one less than the exact quotient.  A bucket of rate 120 with 7737 tokens missing has
`timeToToken = 64474999999` ns, and the retry made one nanosecond later than that is
denied: the refill credits 7736 tokens. -/
theorem tokenBucket_timeToToken_counterexample :
    ((NewTokenBucket (Config.mk 3 1 10 1000000000 1 "token_bucket" false) 0).AllowN 0 10).2
      = true ∧
    ((NewTokenBucket (Config.mk 3 1 10 1000000000 1 "token_bucket" false) 0).AllowN 0 10).1.tokens
      = 0 ∧
    ((NewTokenBucket (Config.mk 3 1 10 1000000000 1 "token_bucket" false)
      0).AllowN 0 10).1.lastRefillTime = 0 ∧
    ((NewTokenBucket (Config.mk 3 1 10 1000000000 1 "token_bucket" false)
      0).AllowN 0 10).1.timeToToken 1 = 333333333 ∧
    (((NewTokenBucket (Config.mk 3 1 10 1000000000 1 "token_bucket" false) 0).AllowN 0 10).1.AllowN
      (0 + 333333333) 1).2 = false ∧
    tokensToAdd 3 333333333 = 0 ∧
    ((NewTokenBucket (Config.mk 10 1 100 1000000000 1 "token_bucket" false)
      0).AllowN 0 100).1.timeToToken 41 = 4099999999 ∧
    ((41 : Int) * Second) / 10 = 4100000000 ∧
    ((NewTokenBucket (Config.mk 120 1 10000 1000000000 1 "token_bucket" false)
      0).AllowN 0 10000).1.timeToToken 7737 = 64474999999 ∧
    (((NewTokenBucket (Config.mk 120 1 10000 1000000000 1 "token_bucket" false)
      0).AllowN 0 10000).1.AllowN (0 + 64474999999 + 1) 7737).2 = false ∧
    tokensToAdd 120 (64474999999 + 1) = 7736 := by
  refine ⟨by decide!, by decide!, by decide!, by decide!, by decide!, by decide!, by decide!,
    by decide, by decide!, by decide!, by decide!⟩

/-! ### The refill interval of `NewTokenBucket` -/

/-- The refill interval of `NewTokenBucket`: for a rate between 1 and `2 ^ 53`, the
`float64` quotient `float64(time.Second) / float64(rate)` converts to the integer
quotient of `10 ^ 9` by the rate. -/
theorem refillInterval_float64 (rate : Int) (h1 : 1 ≤ rate) (h2 : rate < 9007199254740992) :
    truncInt64 (round64 (float64 Second / float64 rate)) = Int.tdiv Second rate := by
  have e1 : float64 rate = rate := float64_exact rate (by omega) h2
  have e2 : float64 Second = 1000000000 := by
    rw [float64_exact Second (by decide) (by decide)]
    unfold Second
    norm_num
  rw [e1, e2, Int.tdiv_eq_ediv (by decide) (by omega)]
  unfold Second
  have hq : (1000000000 : Int) = rate * (1000000000 / rate) + 1000000000 % rate :=
    (Int.ediv_add_emod 1000000000 rate).symm
  have hr0 : 0 ≤ (1000000000 : Int) % rate := Int.emod_nonneg _ (by omega)
  have hr1 : (1000000000 : Int) % rate < rate := Int.emod_lt_of_pos _ (by omega)
  have hF0 : 0 ≤ (1000000000 : Int) / rate := Int.ediv_nonneg (by decide) (by omega)
  have hF1 : (1000000000 : Int) / rate ≤ 1000000000 :=
    Int.ediv_le_self _ (by decide)
  generalize (1000000000 : Int) / rate = F at hq hF0 hF1 ⊢
  generalize (1000000000 : Int) % rate = r at hq hr0 hr1
  have hrq : (1 : ℚ) ≤ (rate : ℚ) := by exact_mod_cast h1
  have hFq0 : (0 : ℚ) ≤ (F : ℚ) := by exact_mod_cast hF0
  have hFq1 : (F : ℚ) ≤ 1000000000 := by exact_mod_cast hF1
  have hr0q : (0 : ℚ) ≤ (r : ℚ) := by exact_mod_cast hr0
  have hqq : (1000000000 : ℚ) = (rate : ℚ) * (F : ℚ) + (r : ℚ) := by exact_mod_cast hq
  have hne : (rate : ℚ) ≠ 0 := by
    intro h
    rw [h] at hrq
    norm_num at hrq
  have hx : (1000000000 : ℚ) / (rate : ℚ) = (F : ℚ) + (r : ℚ) / (rate : ℚ) := by
    field_simp
    linarith
  by_cases hz : r = 0
  · have : (1000000000 : ℚ) / (rate : ℚ) = (F : ℚ) := by
      rw [hx, hz]
      simp
    rw [this]
    have hex := float64_exact F (by omega) (by omega)
    unfold float64 at hex
    rw [hex, truncInt64_of_nonneg _ hFq0 (by linarith)]
    exact Int.floor_intCast F
  · have hr2 : (1 : ℚ) ≤ (r : ℚ) := by
      have : 1 ≤ r := by omega
      exact_mod_cast this
    have hr3 : (r : ℚ) + 1 ≤ (rate : ℚ) := by
      have : r + 1 ≤ rate := by omega
      exact_mod_cast this
    have herr := round64_err ((1000000000 : ℚ) / (rate : ℚ))
    have hpos : (0 : ℚ) ≤ (1000000000 : ℚ) / (rate : ℚ) := by positivity
    rw [abs_of_nonneg hpos, abs_le] at herr
    have hu : unitRoundoff = 1 / 9007199254740992 := rfl
    rw [hu] at herr
    generalize round64 ((1000000000 : ℚ) / (rate : ℚ)) = d at herr
    have hratepos : (0 : ℚ) < (rate : ℚ) := by linarith
    have hX : (1000000000 : ℚ) / (rate : ℚ) * (rate : ℚ) = 1000000000 := by field_simp
    generalize (1000000000 : ℚ) / (rate : ℚ) = X at herr hx hX hpos
    have hfrac1 : (1 : ℚ) ≤ (r : ℚ) / (rate : ℚ) * (rate : ℚ) := by
      rw [div_mul_cancel₀ _ (ne_of_gt hratepos)]
      exact hr2
    have hlo : (F : ℚ) ≤ d := by
      have h3 : (F : ℚ) * (rate : ℚ) ≤ d * (rate : ℚ) := by
        have : d * (rate : ℚ) ≥ X * (rate : ℚ) - 1 / 9007199254740992 * X * (rate : ℚ) := by
          nlinarith [herr.1]
        have hFr : (F : ℚ) * (rate : ℚ) = 1000000000 - (r : ℚ) := by linarith
        rw [hFr]
        nlinarith
      exact le_of_mul_le_mul_right h3 hratepos
    have hhi : d < (F : ℚ) + 1 := by
      have h3 : d * (rate : ℚ) < ((F : ℚ) + 1) * (rate : ℚ) := by
        have : d * (rate : ℚ) ≤ X * (rate : ℚ) + 1 / 9007199254740992 * X * (rate : ℚ) := by
          nlinarith [herr.2]
        have hFr : ((F : ℚ) + 1) * (rate : ℚ) = 1000000000 - (r : ℚ) + (rate : ℚ) := by
          linarith
        rw [hFr]
        nlinarith
      exact lt_of_mul_lt_mul_right h3 (le_of_lt hratepos)
    rw [truncInt64_of_nonneg d (by linarith) (by linarith)]
    exact Int.floor_eq_iff.2 ⟨hlo, hhi⟩

end Ratelimiter
